import Mathlib

/-!
# melonDS GPU: VRAM bank mapping, dirty tracking and scanline timing

A shallow embedding of `src/GPU.cpp` and `src/NonStupidBitfield.h`.

* Machine integers are natural numbers; truncation to the C type is written
  as an explicit `% 2 ^ w` where it can matter.
* The C arrays `VRAMMap_*`, `VRAMPtr_*` and `VRAMCNT` are functions from the
  index to the entry, together with the declared length of the array.  Every
  access checks the index against the declared length and raises a `Fault`
  when it is outside, so an access past the end of an array is never silently
  given a meaning.
* Calls into the display engines (`GPU2D_A->BGExtPalDirty(..)` and the like)
  are recorded, in order, in a list carried by the state.
-/

namespace GPU

/-! ## Data model -/

/-- The window-mask tables `VRAMMap_*` of GPU.cpp.  The scalar masks
`VRAMMap_LCDC`, `VRAMMap_AOBJExtPal` and `VRAMMap_BOBJExtPal` are tables with
the single window `0`. -/
inductive Dest
  | LCDC | ABG | AOBJ | BBG | BOBJ
  | ABGExtPal | AOBJExtPal | BBGExtPal | BOBJExtPal
  | Texture | TexPal | ARM7
  deriving DecidableEq, Repr

/-- Declared number of entries of each `VRAMMap_*` table (GPU.cpp 58-73). -/
def Dest.size : Dest → Nat
  | .LCDC => 1
  | .ABG => 0x20
  | .AOBJ => 0x10
  | .BBG => 0x8
  | .BOBJ => 0x8
  | .ABGExtPal => 4
  | .AOBJExtPal => 1
  | .BBGExtPal => 4
  | .BOBJExtPal => 1
  | .Texture => 4
  | .TexPal => 8
  | .ARM7 => 2

/-- The destinations that also have a direct-pointer table `VRAMPtr_*`
(GPU.cpp 75-78); the pointer table has as many entries as the mask table. -/
def Dest.hasPtr : Dest → Bool
  | .ABG | .AOBJ | .BBG | .BOBJ => true
  | _ => false

/-- Reasons for which the C++ code has no defined behaviour. -/
inductive Fault
  /-- index `idx` used on table `VRAMMap_d` / `VRAMPtr_d`, which is shorter -/
  | outOfBounds (d : Dest) (idx : Nat)
  /-- index `num` used on `VRAM`, `VRAMMask`, `VRAMCNT` or `VRAMDirty` (9 entries) -/
  | badBank (num : Nat)
  /-- index used on the word array of a bit field, which is shorter -/
  | badWord (idx : Nat)
  /-- the bank-control entry point was given a bank id that has no register -/
  | noSuchBank (bank : Nat)
  /-- `abort()` was called -/
  | aborted
  /-- 512 bytes read from `VRAM[num]` at offset `off`, past the end of the bank -/
  | outOfBank (num off : Nat)
  /-- a loop of the model used up its iteration bound (shown not to happen) -/
  | outOfFuel
  deriving DecidableEq, Repr

/-- A value of type `u8*` pointing into VRAM: `NULL`, or `&VRAM[num][off]`. -/
inductive Ptr
  | null
  | bank (num off : Nat)
  deriving DecidableEq, Repr

/-- Calls into the two 2D engines made by the mapping code; `engine` is `0`
for `GPU2D_A` and `1` for `GPU2D_B`. -/
inductive Call
  | BGExtPalDirty (engine slot : Nat)
  | OBJExtPalDirty (engine : Nat)
  deriving DecidableEq, Repr

/-- `u32 const VRAMMask[9]` (GPU.cpp 53); the index must be below 9. -/
def VRAMMask (num : Nat) : Except Fault Nat :=
  match num with
  | 0 => .ok 0x1FFFF
  | 1 => .ok 0x1FFFF
  | 2 => .ok 0x1FFFF
  | 3 => .ok 0x1FFFF
  | 4 => .ok 0xFFFF
  | 5 => .ok 0x3FFF
  | 6 => .ok 0x3FFF
  | 7 => .ok 0x7FFF
  | 8 => .ok 0x3FFF
  | n => .error (.badBank n)

/-- Capacity in bytes of each bank: the lengths of `VRAM_A` .. `VRAM_I`
(GPU.cpp 43-51). -/
def bankCapacity : Nat → Nat
  | 0 => 128 * 1024
  | 1 => 128 * 1024
  | 2 => 128 * 1024
  | 3 => 128 * 1024
  | 4 => 64 * 1024
  | 5 => 16 * 1024
  | 6 => 16 * 1024
  | 7 => 32 * 1024
  | 8 => 16 * 1024
  | _ => 0

/-- Count of trailing zero bits of a `w`-bit value (`__builtin_ctz` for
`w = 32`, `__builtin_ctzll` for `w = 64`).  The C builtin is undefined on `0`;
here the result on `0` is `w`. -/
def ctz : Nat → Nat → Nat
  | 0, _ => 0
  | w + 1, n => if n % 2 = 1 then 0 else 1 + ctz w (n / 2)

/-- `~x` on a `u32`. -/
def not32 (x : Nat) : Nat := 0xFFFFFFFF ^^^ (x % 2 ^ 32)

/-- `~x` on a `u64`. -/
def not64 (x : Nat) : Nat := 0xFFFFFFFFFFFFFFFF ^^^ (x % 2 ^ 64)

/-- `GetUniqueBankPtr` (GPU.cpp 449-454). -/
def GetUniqueBankPtr (mask offset : Nat) : Except Fault Ptr :=
  if mask = 0 ∨ (mask &&& (mask - 1)) ≠ 0 then .ok Ptr.null
  else
    let num := ctz 32 mask
    match VRAMMask num with
    | .ok m => .ok (Ptr.bank num (offset &&& m))
    | .error e => .error e

/-- The mapping state: the globals `VRAMCNT`, `VRAMSTAT`, `VRAMMap_*` and
`VRAMPtr_*` of GPU.cpp, and the calls made so far into the 2D engines. -/
structure MapState where
  VRAMCNT : Nat → Nat
  VRAMSTAT : Nat
  VRAMMap : Dest → Nat → Nat
  VRAMPtr : Dest → Nat → Ptr
  calls : List Call

/-- The part of `Reset` (GPU.cpp 153-226) that concerns the mapping state:
every control byte, `VRAMSTAT`, every mask and every pointer is zeroed. -/
def Reset : MapState :=
  { VRAMCNT := fun _ => 0
    VRAMSTAT := 0
    VRAMMap := fun _ _ => 0
    VRAMPtr := fun _ _ => Ptr.null
    calls := [] }

/-! ## Primitive accesses, with the bounds of the C arrays -/

/-- Read `VRAMCNT[bank]`. -/
def readCnt (s : MapState) (bank : Nat) : Except Fault Nat :=
  if bank < 9 then .ok (s.VRAMCNT bank) else .error (.badBank bank)

/-- The assignment `VRAMCNT[bank] = cnt`. -/
def writeCnt (s : MapState) (bank cnt : Nat) : Except Fault MapState :=
  if bank < 9 then
    .ok { s with VRAMCNT := fun b => if b = bank then cnt else s.VRAMCNT b }
  else .error (.badBank bank)

/-- The statement `VRAMMap_d[i] = f (VRAMMap_d[i])`. -/
def modMap (f : Nat → Nat) (d : Dest) (i : Nat) (s : MapState) : Except Fault MapState :=
  if i < d.size then
    .ok { s with VRAMMap := fun d' j => if d' = d ∧ j = i then f (s.VRAMMap d i) else s.VRAMMap d' j }
  else .error (.outOfBounds d i)

/-- The statement `VRAMMap_d[i] |= bankmask`. -/
def orMap (bankmask : Nat) (d : Dest) (i : Nat) (s : MapState) : Except Fault MapState :=
  modMap (fun v => v ||| bankmask) d i s

/-- The statement `VRAMMap_d[i] &= ~bankmask`. -/
def andNotMap (bankmask : Nat) (d : Dest) (i : Nat) (s : MapState) : Except Fault MapState :=
  modMap (fun v => v &&& not32 bankmask) d i s

/-- The statement `VRAMPtr_d[i] = GetUniqueBankPtr(VRAMMap_d[i], i << 14)`. -/
def updPtr (d : Dest) (i : Nat) (s : MapState) : Except Fault MapState :=
  if i < d.size then
    match GetUniqueBankPtr (s.VRAMMap d i) ((i <<< 14) % 2 ^ 32) with
    | .ok p => .ok { s with VRAMPtr := fun d' j => if d' = d ∧ j = i then p else s.VRAMPtr d' j }
    | .error e => .error e
  else .error (.outOfBounds d i)

/-- A call into a 2D engine. -/
def notify (c : Call) (s : MapState) : Except Fault MapState :=
  .ok { s with calls := s.calls ++ [c] }

/-- The loop `for (int i = 0; i < n; i++) body(i)`. -/
def forLoop {σ : Type} (body : Nat → σ → Except Fault σ) : Nat → σ → Except Fault σ
  | 0, s => .ok s
  | n + 1, s => forLoop body n s >>= body n

/-- The macro `MAP_RANGE(map, base, n)` (GPU.cpp 456). -/
def MAP_RANGE (bankmask : Nat) (d : Dest) (base n : Nat) (s : MapState) : Except Fault MapState :=
  forLoop (fun i s => orMap bankmask d (base + i) s) n s

/-- The macro `UNMAP_RANGE(map, base, n)` (GPU.cpp 457). -/
def UNMAP_RANGE (bankmask : Nat) (d : Dest) (base n : Nat) (s : MapState) : Except Fault MapState :=
  forLoop (fun i s => andNotMap bankmask d (base + i) s) n s

/-- The macro `MAP_RANGE_PTR(map, base, n)` (GPU.cpp 459-460). -/
def MAP_RANGE_PTR (bankmask : Nat) (d : Dest) (base n : Nat) (s : MapState) : Except Fault MapState :=
  forLoop (fun i s => orMap bankmask d (base + i) s >>= updPtr d (base + i)) n s

/-- The macro `UNMAP_RANGE_PTR(map, base, n)` (GPU.cpp 461-462). -/
def UNMAP_RANGE_PTR (bankmask : Nat) (d : Dest) (base n : Nat) (s : MapState) : Except Fault MapState :=
  forLoop (fun i s => andNotMap bankmask d (base + i) s >>= updPtr d (base + i)) n s

/-! ## The bank-control writes `MapVRAM_*`

Each function is split, as in the source, into the prologue (store the new
control byte, return when it is unchanged), the block guarded by
`oldcnt & (1<<7)` that unmaps the old selection, and the block guarded by
`cnt & (1<<7)` that maps the new one.  The parameter `cnt` is a `u8`. -/

/-- `1 << bank` as a `u32`. -/
def bankBit (bank : Nat) : Nat := (1 <<< bank) % 2 ^ 32

/-- Unmap block of `MapVRAM_AB` (GPU.cpp 475-496). -/
def MapVRAM_AB_unmap (bank oldcnt : Nat) (s : MapState) : Except Fault MapState :=
  let oldofs := (oldcnt >>> 3) &&& 0x3
  let bankmask := bankBit bank
  if oldcnt &&& (1 <<< 7) ≠ 0 then
    match oldcnt &&& 0x3 with
    | 0 => andNotMap bankmask .LCDC 0 s
    | 1 => UNMAP_RANGE_PTR bankmask .ABG (oldofs <<< 3) 8 s
    | 2 => UNMAP_RANGE_PTR bankmask .AOBJ ((oldofs &&& 0x1) <<< 3) 8 s
    | 3 => andNotMap bankmask .Texture oldofs s
    | _ => .ok s
  else .ok s

/-- Map block of `MapVRAM_AB` (GPU.cpp 498-519). -/
def MapVRAM_AB_map (bank cnt : Nat) (s : MapState) : Except Fault MapState :=
  let ofs := (cnt >>> 3) &&& 0x3
  let bankmask := bankBit bank
  if cnt &&& (1 <<< 7) ≠ 0 then
    match cnt &&& 0x3 with
    | 0 => orMap bankmask .LCDC 0 s
    | 1 => MAP_RANGE_PTR bankmask .ABG (ofs <<< 3) 8 s
    | 2 => MAP_RANGE_PTR bankmask .AOBJ ((ofs &&& 0x1) <<< 3) 8 s
    | 3 => orMap bankmask .Texture ofs s
    | _ => .ok s
  else .ok s

/-- `MapVRAM_AB` (GPU.cpp 464-520). -/
def MapVRAM_AB (bank cnt : Nat) (s : MapState) : Except Fault MapState := do
  let cnt := cnt % 256
  let oldcnt ← readCnt s bank
  let s ← writeCnt s bank cnt
  if oldcnt = cnt then pure s
  else do
    let s ← MapVRAM_AB_unmap bank oldcnt s
    MapVRAM_AB_map bank cnt s

/-- Unmap block of `MapVRAM_CD` (GPU.cpp 535-567). -/
def MapVRAM_CD_unmap (bank oldcnt : Nat) (s : MapState) : Except Fault MapState :=
  let oldofs := (oldcnt >>> 3) &&& 0x7
  let bankmask := bankBit bank
  if oldcnt &&& (1 <<< 7) ≠ 0 then
    match oldcnt &&& 0x7 with
    | 0 => andNotMap bankmask .LCDC 0 s
    | 1 => UNMAP_RANGE_PTR bankmask .ABG (oldofs <<< 3) 8 s
    | 2 => andNotMap bankmask .ARM7 (oldofs &&& 0x1) s
    | 3 => andNotMap bankmask .Texture oldofs s
    | 4 =>
      if bank = 2 then UNMAP_RANGE_PTR bankmask .BBG 0 8 s
      else UNMAP_RANGE_PTR bankmask .BOBJ 0 8 s
    | _ => .ok s
  else .ok s

/-- The statement `VRAMSTAT |= (1 << (bank-2))`, `VRAMSTAT` being a `u8`. -/
def setStat (bank : Nat) (s : MapState) : Except Fault MapState :=
  .ok { s with VRAMSTAT := (s.VRAMSTAT ||| (1 <<< (bank - 2))) % 256 }

/-- The statement `VRAMSTAT &= ~(1 << (bank-2))`, `VRAMSTAT` being a `u8`. -/
def clearStat (bank : Nat) (s : MapState) : Except Fault MapState :=
  .ok { s with VRAMSTAT := (s.VRAMSTAT &&& not32 (1 <<< (bank - 2))) % 256 }

/-- Map block of `MapVRAM_CD` (GPU.cpp 569-602). -/
def MapVRAM_CD_map (bank cnt : Nat) (s : MapState) : Except Fault MapState :=
  let ofs := (cnt >>> 3) &&& 0x7
  let bankmask := bankBit bank
  if cnt &&& (1 <<< 7) ≠ 0 then
    match cnt &&& 0x7 with
    | 0 => orMap bankmask .LCDC 0 s
    | 1 => MAP_RANGE_PTR bankmask .ABG (ofs <<< 3) 8 s
    | 2 => orMap bankmask .ARM7 (ofs &&& 0x1) s >>= setStat bank
    | 3 => orMap bankmask .Texture ofs s
    | 4 =>
      if bank = 2 then MAP_RANGE_PTR bankmask .BBG 0 8 s
      else MAP_RANGE_PTR bankmask .BOBJ 0 8 s
    | _ => .ok s
  else .ok s

/-- `MapVRAM_CD` (GPU.cpp 522-603).  Note that `VRAMSTAT` is cleared before
the test `oldcnt == cnt`. -/
def MapVRAM_CD (bank cnt : Nat) (s : MapState) : Except Fault MapState := do
  let cnt := cnt % 256
  let oldcnt ← readCnt s bank
  let s ← writeCnt s bank cnt
  let s ← clearStat bank s
  if oldcnt = cnt then pure s
  else do
    let s ← MapVRAM_CD_unmap bank oldcnt s
    MapVRAM_CD_map bank cnt s

/-- Unmap block of `MapVRAM_E` (GPU.cpp 614-640). -/
def MapVRAM_E_unmap (bank oldcnt : Nat) (s : MapState) : Except Fault MapState :=
  let bankmask := bankBit bank
  if oldcnt &&& (1 <<< 7) ≠ 0 then
    match oldcnt &&& 0x7 with
    | 0 => andNotMap bankmask .LCDC 0 s
    | 1 => UNMAP_RANGE_PTR bankmask .ABG 0 4 s
    | 2 => UNMAP_RANGE_PTR bankmask .AOBJ 0 4 s
    | 3 => UNMAP_RANGE bankmask .TexPal 0 4 s
    | 4 =>
      UNMAP_RANGE bankmask .ABGExtPal 0 4 s
        >>= notify (.BGExtPalDirty 0 0) >>= notify (.BGExtPalDirty 0 2)
    | _ => .ok s
  else .ok s

/-- Map block of `MapVRAM_E` (GPU.cpp 642-668). -/
def MapVRAM_E_map (bank cnt : Nat) (s : MapState) : Except Fault MapState :=
  let bankmask := bankBit bank
  if cnt &&& (1 <<< 7) ≠ 0 then
    match cnt &&& 0x7 with
    | 0 => orMap bankmask .LCDC 0 s
    | 1 => MAP_RANGE_PTR bankmask .ABG 0 4 s
    | 2 => MAP_RANGE_PTR bankmask .AOBJ 0 4 s
    | 3 => MAP_RANGE bankmask .TexPal 0 4 s
    | 4 =>
      MAP_RANGE bankmask .ABGExtPal 0 4 s
        >>= notify (.BGExtPalDirty 0 0) >>= notify (.BGExtPalDirty 0 2)
    | _ => .ok s
  else .ok s

/-- `MapVRAM_E` (GPU.cpp 605-669). -/
def MapVRAM_E (bank cnt : Nat) (s : MapState) : Except Fault MapState := do
  let cnt := cnt % 256
  let oldcnt ← readCnt s bank
  let s ← writeCnt s bank cnt
  if oldcnt = cnt then pure s
  else do
    let s ← MapVRAM_E_unmap bank oldcnt s
    MapVRAM_E_map bank cnt s

/-- Unmap block of `MapVRAM_FG` (GPU.cpp 682-725). -/
def MapVRAM_FG_unmap (bank oldcnt : Nat) (s : MapState) : Except Fault MapState :=
  let oldofs := (oldcnt >>> 3) &&& 0x7
  let bankmask := bankBit bank
  if oldcnt &&& (1 <<< 7) ≠ 0 then
    match oldcnt &&& 0x7 with
    | 0 => andNotMap bankmask .LCDC 0 s
    | 1 =>
      let base := (oldofs &&& 0x1) + ((oldofs &&& 0x2) <<< 1)
      andNotMap bankmask .ABG base s >>= andNotMap bankmask .ABG (base + 2)
        >>= updPtr .ABG base >>= updPtr .ABG (base + 2)
    | 2 =>
      let base := (oldofs &&& 0x1) + ((oldofs &&& 0x2) <<< 1)
      andNotMap bankmask .AOBJ base s >>= andNotMap bankmask .AOBJ (base + 2)
        >>= updPtr .AOBJ base >>= updPtr .AOBJ (base + 2)
    | 3 => andNotMap bankmask .TexPal ((oldofs &&& 0x1) + ((oldofs &&& 0x2) <<< 1)) s
    | 4 =>
      andNotMap bankmask .ABGExtPal ((oldofs &&& 0x1) <<< 1) s
        >>= andNotMap bankmask .ABGExtPal (((oldofs &&& 0x1) <<< 1) + 1)
        >>= notify (.BGExtPalDirty 0 ((oldofs &&& 0x1) <<< 1))
    | 5 => andNotMap bankmask .AOBJExtPal 0 s >>= notify (.OBJExtPalDirty 0)
    | _ => .ok s
  else .ok s

/-- Map block of `MapVRAM_FG` (GPU.cpp 727-770). -/
def MapVRAM_FG_map (bank cnt : Nat) (s : MapState) : Except Fault MapState :=
  let ofs := (cnt >>> 3) &&& 0x7
  let bankmask := bankBit bank
  if cnt &&& (1 <<< 7) ≠ 0 then
    match cnt &&& 0x7 with
    | 0 => orMap bankmask .LCDC 0 s
    | 1 =>
      let base := (ofs &&& 0x1) + ((ofs &&& 0x2) <<< 1)
      orMap bankmask .ABG base s >>= orMap bankmask .ABG (base + 2)
        >>= updPtr .ABG base >>= updPtr .ABG (base + 2)
    | 2 =>
      let base := (ofs &&& 0x1) + ((ofs &&& 0x2) <<< 1)
      orMap bankmask .AOBJ base s >>= orMap bankmask .AOBJ (base + 2)
        >>= updPtr .AOBJ base >>= updPtr .AOBJ (base + 2)
    | 3 => orMap bankmask .TexPal ((ofs &&& 0x1) + ((ofs &&& 0x2) <<< 1)) s
    | 4 =>
      orMap bankmask .ABGExtPal ((ofs &&& 0x1) <<< 1) s
        >>= orMap bankmask .ABGExtPal (((ofs &&& 0x1) <<< 1) + 1)
        >>= notify (.BGExtPalDirty 0 ((ofs &&& 0x1) <<< 1))
    | 5 => orMap bankmask .AOBJExtPal 0 s >>= notify (.OBJExtPalDirty 0)
    | _ => .ok s
  else .ok s

/-- `MapVRAM_FG` (GPU.cpp 671-771). -/
def MapVRAM_FG (bank cnt : Nat) (s : MapState) : Except Fault MapState := do
  let cnt := cnt % 256
  let oldcnt ← readCnt s bank
  let s ← writeCnt s bank cnt
  if oldcnt = cnt then pure s
  else do
    let s ← MapVRAM_FG_unmap bank oldcnt s
    MapVRAM_FG_map bank cnt s

/-- Unmap block of `MapVRAM_H` (GPU.cpp 782-807). -/
def MapVRAM_H_unmap (bank oldcnt : Nat) (s : MapState) : Except Fault MapState :=
  let bankmask := bankBit bank
  if oldcnt &&& (1 <<< 7) ≠ 0 then
    match oldcnt &&& 0x3 with
    | 0 => andNotMap bankmask .LCDC 0 s
    | 1 =>
      andNotMap bankmask .BBG 0 s >>= andNotMap bankmask .BBG 1
        >>= andNotMap bankmask .BBG 4 >>= andNotMap bankmask .BBG 5
        >>= updPtr .BBG 0 >>= updPtr .BBG 1 >>= updPtr .BBG 4 >>= updPtr .BBG 5
    | 2 =>
      UNMAP_RANGE bankmask .BBGExtPal 0 4 s
        >>= notify (.BGExtPalDirty 1 0) >>= notify (.BGExtPalDirty 1 2)
    | _ => .ok s
  else .ok s

/-- Map block of `MapVRAM_H` (GPU.cpp 809-834). -/
def MapVRAM_H_map (bank cnt : Nat) (s : MapState) : Except Fault MapState :=
  let bankmask := bankBit bank
  if cnt &&& (1 <<< 7) ≠ 0 then
    match cnt &&& 0x3 with
    | 0 => orMap bankmask .LCDC 0 s
    | 1 =>
      orMap bankmask .BBG 0 s >>= orMap bankmask .BBG 1
        >>= orMap bankmask .BBG 4 >>= orMap bankmask .BBG 5
        >>= updPtr .BBG 0 >>= updPtr .BBG 1 >>= updPtr .BBG 4 >>= updPtr .BBG 5
    | 2 =>
      MAP_RANGE bankmask .BBGExtPal 0 4 s
        >>= notify (.BGExtPalDirty 1 0) >>= notify (.BGExtPalDirty 1 2)
    | _ => .ok s
  else .ok s

/-- `MapVRAM_H` (GPU.cpp 773-835). -/
def MapVRAM_H (bank cnt : Nat) (s : MapState) : Except Fault MapState := do
  let cnt := cnt % 256
  let oldcnt ← readCnt s bank
  let s ← writeCnt s bank cnt
  if oldcnt = cnt then pure s
  else do
    let s ← MapVRAM_H_unmap bank oldcnt s
    MapVRAM_H_map bank cnt s

/-- Unmap block of `MapVRAM_I` (GPU.cpp 846-874). -/
def MapVRAM_I_unmap (bank oldcnt : Nat) (s : MapState) : Except Fault MapState :=
  let bankmask := bankBit bank
  if oldcnt &&& (1 <<< 7) ≠ 0 then
    match oldcnt &&& 0x3 with
    | 0 => andNotMap bankmask .LCDC 0 s
    | 1 =>
      andNotMap bankmask .BBG 2 s >>= andNotMap bankmask .BBG 3
        >>= andNotMap bankmask .BBG 6 >>= andNotMap bankmask .BBG 7
        >>= updPtr .BBG 2 >>= updPtr .BBG 3 >>= updPtr .BBG 6 >>= updPtr .BBG 7
    | 2 => UNMAP_RANGE_PTR bankmask .BOBJ 0 8 s
    | 3 => andNotMap bankmask .BOBJExtPal 0 s >>= notify (.OBJExtPalDirty 1)
    | _ => .ok s
  else .ok s

/-- Map block of `MapVRAM_I` (GPU.cpp 876-904). -/
def MapVRAM_I_map (bank cnt : Nat) (s : MapState) : Except Fault MapState :=
  let bankmask := bankBit bank
  if cnt &&& (1 <<< 7) ≠ 0 then
    match cnt &&& 0x3 with
    | 0 => orMap bankmask .LCDC 0 s
    | 1 =>
      orMap bankmask .BBG 2 s >>= orMap bankmask .BBG 3
        >>= orMap bankmask .BBG 6 >>= orMap bankmask .BBG 7
        >>= updPtr .BBG 2 >>= updPtr .BBG 3 >>= updPtr .BBG 6 >>= updPtr .BBG 7
    | 2 => MAP_RANGE_PTR bankmask .BOBJ 0 8 s
    | 3 => orMap bankmask .BOBJExtPal 0 s >>= notify (.OBJExtPalDirty 1)
    | _ => .ok s
  else .ok s

/-- `MapVRAM_I` (GPU.cpp 837-905). -/
def MapVRAM_I (bank cnt : Nat) (s : MapState) : Except Fault MapState := do
  let cnt := cnt % 256
  let oldcnt ← readCnt s bank
  let s ← writeCnt s bank cnt
  if oldcnt = cnt then pure s
  else do
    let s ← MapVRAM_I_unmap bank oldcnt s
    MapVRAM_I_map bank cnt s

/-- Modelled from the spec: the bank-control write entrypoint (bank id 0..8,
new control byte), which lives in the bus dispatcher and is not part of
GPU.cpp.  It hands the byte to the handler of the bank's group: `MapVRAM_AB`
for banks 0-1, `MapVRAM_CD` for 2-3, `MapVRAM_E` for 4, `MapVRAM_FG` for 5-6,
`MapVRAM_H` for 7 and `MapVRAM_I` for 8. -/
def SetBankControl (bank cnt : Nat) (s : MapState) : Except Fault MapState :=
  match bank with
  | 0 => MapVRAM_AB 0 cnt s
  | 1 => MapVRAM_AB 1 cnt s
  | 2 => MapVRAM_CD 2 cnt s
  | 3 => MapVRAM_CD 3 cnt s
  | 4 => MapVRAM_E 4 cnt s
  | 5 => MapVRAM_FG 5 cnt s
  | 6 => MapVRAM_FG 6 cnt s
  | 7 => MapVRAM_H 7 cnt s
  | 8 => MapVRAM_I 8 cnt s
  | n => .error (.noSuchBank n)

/-- States reachable from `Reset` by bank-control writes that stay inside the
tables (a write that leaves a table has no defined result). -/
inductive Reachable : MapState → Prop
  | reset : Reachable Reset
  | write {s s' : MapState} (bank cnt : Nat) :
      Reachable s → SetBankControl bank cnt s = .ok s' → Reachable s'

/-- The part of `DoSavestate` (GPU.cpp 286-296) run when loading: the control
bytes and mask tables have just been read from the file (they are the fields
of `s`), and every direct pointer is recomputed from them. -/
def DoSavestate_load (s : MapState) : Except Fault MapState :=
  forLoop (fun i s => updPtr .ABG i s) 0x20 s
    >>= forLoop (fun i s => updPtr .AOBJ i s) 0x10
    >>= forLoop (fun i s => updPtr .BBG i s) 0x8
    >>= forLoop (fun i s => updPtr .BOBJ i s) 0x8

/-! ## The window set selected by a control byte

For each bank group, the windows that a control byte selects, read off the
`switch` of the corresponding `MapVRAM_*` function.  A disabled bank (bit 7
clear) selects nothing. -/

/-- Windows selected by a control byte of bank A or B (`MapVRAM_AB`). -/
def selAB (cnt : Nat) (d : Dest) (W : Nat) : Prop :=
  (cnt &&& 0x3 = 0 ∧ d = .LCDC ∧ W = 0) ∨
  (cnt &&& 0x3 = 1 ∧ d = .ABG ∧ ((cnt >>> 3) &&& 0x3) <<< 3 ≤ W ∧ W < (((cnt >>> 3) &&& 0x3) <<< 3) + 8) ∨
  (cnt &&& 0x3 = 2 ∧ d = .AOBJ ∧ (((cnt >>> 3) &&& 0x3) &&& 0x1) <<< 3 ≤ W
      ∧ W < ((((cnt >>> 3) &&& 0x3) &&& 0x1) <<< 3) + 8) ∨
  (cnt &&& 0x3 = 3 ∧ d = .Texture ∧ W = (cnt >>> 3) &&& 0x3)

/-- Windows selected by a control byte of bank C or D (`MapVRAM_CD`). -/
def selCD (bank cnt : Nat) (d : Dest) (W : Nat) : Prop :=
  (cnt &&& 0x7 = 0 ∧ d = .LCDC ∧ W = 0) ∨
  (cnt &&& 0x7 = 1 ∧ d = .ABG ∧ ((cnt >>> 3) &&& 0x7) <<< 3 ≤ W ∧ W < (((cnt >>> 3) &&& 0x7) <<< 3) + 8) ∨
  (cnt &&& 0x7 = 2 ∧ d = .ARM7 ∧ W = ((cnt >>> 3) &&& 0x7) &&& 0x1) ∨
  (cnt &&& 0x7 = 3 ∧ d = .Texture ∧ W = (cnt >>> 3) &&& 0x7) ∨
  (cnt &&& 0x7 = 4 ∧ bank = 2 ∧ d = .BBG ∧ W < 8) ∨
  (cnt &&& 0x7 = 4 ∧ bank ≠ 2 ∧ d = .BOBJ ∧ W < 8)

/-- Windows selected by a control byte of bank E (`MapVRAM_E`). -/
def selE (cnt : Nat) (d : Dest) (W : Nat) : Prop :=
  (cnt &&& 0x7 = 0 ∧ d = .LCDC ∧ W = 0) ∨
  (cnt &&& 0x7 = 1 ∧ d = .ABG ∧ W < 4) ∨
  (cnt &&& 0x7 = 2 ∧ d = .AOBJ ∧ W < 4) ∨
  (cnt &&& 0x7 = 3 ∧ d = .TexPal ∧ W < 4) ∨
  (cnt &&& 0x7 = 4 ∧ d = .ABGExtPal ∧ W < 4)

/-- First window of bank F or G in ABG, AOBJ and texture palette:
`(ofs & 0x1) + ((ofs & 0x2) << 1)` with `ofs = (cnt >> 3) & 0x7`. -/
def baseFG (cnt : Nat) : Nat :=
  (((cnt >>> 3) &&& 0x7) &&& 0x1) + ((((cnt >>> 3) &&& 0x7) &&& 0x2) <<< 1)

/-- Windows selected by a control byte of bank F or G (`MapVRAM_FG`). -/
def selFG (cnt : Nat) (d : Dest) (W : Nat) : Prop :=
  (cnt &&& 0x7 = 0 ∧ d = .LCDC ∧ W = 0) ∨
  (cnt &&& 0x7 = 1 ∧ d = .ABG ∧ (W = baseFG cnt ∨ W = baseFG cnt + 2)) ∨
  (cnt &&& 0x7 = 2 ∧ d = .AOBJ ∧ (W = baseFG cnt ∨ W = baseFG cnt + 2)) ∨
  (cnt &&& 0x7 = 3 ∧ d = .TexPal ∧ W = baseFG cnt) ∨
  (cnt &&& 0x7 = 4 ∧ d = .ABGExtPal ∧
      (W = (((cnt >>> 3) &&& 0x7) &&& 0x1) <<< 1 ∨ W = ((((cnt >>> 3) &&& 0x7) &&& 0x1) <<< 1) + 1)) ∨
  (cnt &&& 0x7 = 5 ∧ d = .AOBJExtPal ∧ W = 0)

/-- Windows selected by a control byte of bank H (`MapVRAM_H`). -/
def selH (cnt : Nat) (d : Dest) (W : Nat) : Prop :=
  (cnt &&& 0x3 = 0 ∧ d = .LCDC ∧ W = 0) ∨
  (cnt &&& 0x3 = 1 ∧ d = .BBG ∧ (W = 0 ∨ W = 1 ∨ W = 4 ∨ W = 5)) ∨
  (cnt &&& 0x3 = 2 ∧ d = .BBGExtPal ∧ W < 4)

/-- Windows selected by a control byte of bank I (`MapVRAM_I`). -/
def selI (cnt : Nat) (d : Dest) (W : Nat) : Prop :=
  (cnt &&& 0x3 = 0 ∧ d = .LCDC ∧ W = 0) ∨
  (cnt &&& 0x3 = 1 ∧ d = .BBG ∧ (W = 2 ∨ W = 3 ∨ W = 6 ∨ W = 7)) ∨
  (cnt &&& 0x3 = 2 ∧ d = .BOBJ ∧ W < 8) ∨
  (cnt &&& 0x3 = 3 ∧ d = .BOBJExtPal ∧ W = 0)

/-- Window `W` of table `d` lies in the window set that control byte `cnt`
of bank `bank` decodes to. -/
def selected (bank cnt : Nat) (d : Dest) (W : Nat) : Prop :=
  cnt &&& 0x80 ≠ 0 ∧
  match bank with
  | 0 => selAB cnt d W
  | 1 => selAB cnt d W
  | 2 => selCD 2 cnt d W
  | 3 => selCD 3 cnt d W
  | 4 => selE cnt d W
  | 5 => selFG cnt d W
  | 6 => selFG cnt d W
  | 7 => selH cnt d W
  | 8 => selI cnt d W
  | _ => False

instance (cnt : Nat) (d : Dest) (W : Nat) : Decidable (selAB cnt d W) := by
  unfold selAB; infer_instance

instance (bank cnt : Nat) (d : Dest) (W : Nat) : Decidable (selCD bank cnt d W) := by
  unfold selCD; infer_instance

instance (cnt : Nat) (d : Dest) (W : Nat) : Decidable (selE cnt d W) := by
  unfold selE; infer_instance

instance (cnt : Nat) (d : Dest) (W : Nat) : Decidable (selFG cnt d W) := by
  unfold selFG; infer_instance

instance (cnt : Nat) (d : Dest) (W : Nat) : Decidable (selH cnt d W) := by
  unfold selH; infer_instance

instance (cnt : Nat) (d : Dest) (W : Nat) : Decidable (selI cnt d W) := by
  unfold selI; infer_instance

instance (bank cnt : Nat) (d : Dest) (W : Nat) : Decidable (selected bank cnt d W) := by
  unfold selected; split <;> infer_instance

/-- The decoded windows of control byte `cnt` of bank `bank` are inside
their tables. -/
def InTable (bank cnt : Nat) : Prop :=
  ∀ d W, selected bank (cnt % 256) d W → W < d.size

/-! ## Definitions used to state the mapping claims -/

/-- The state obtained from `Reset` by mapping each bank once, in order, with
the control byte `cnts bank`. -/
def remapAll (cnts : Nat → Nat) : Except Fault MapState :=
  forLoop (fun bank s => SetBankControl bank (cnts bank) s) 9 Reset

/-- The state after the write `(bank, cnt)`; the state itself when the write
has no defined result. -/
def afterWrite (bank cnt : Nat) (s : MapState) : MapState :=
  match SetBankControl bank cnt s with
  | .ok s' => s'
  | .error _ => s

/-- Bank `b` is the only bank in `mask`. -/
def soleBank (mask b : Nat) : Prop := ∀ i, mask.testBit i = true ↔ i = b

/-- The fan-out that the specification expects of bank `B` in table `d`: the
windows whose mask contains `B` form one run of 4 or 8 consecutive windows,
as many as the capacity of `B` divided by the 16 KiB window size. -/
def FanOutRun (s : MapState) (d : Dest) (B : Nat) : Prop :=
  ∃ base n, (n = 4 ∨ n = 8) ∧ n = bankCapacity B / 0x4000 ∧
    ∀ W, W < d.size → ((s.VRAMMap d W).testBit B = true ↔ base ≤ W ∧ W < base + n)

/-- The direct pointer of window `W` of table `d` is what the specification
says: it equals `GetUniqueBankPtr(VRAMMap_d[W], W << 14)`, it is `NULL` when
the mask has zero or several banks, and it addresses byte
`(W << 14) & VRAMMask[b]` of bank `b` when `b` is the only bank in the mask. -/
def DirectPtrOK (s : MapState) (d : Dest) (W : Nat) : Prop :=
  GetUniqueBankPtr (s.VRAMMap d W) ((W <<< 14) % 2 ^ 32) = .ok (s.VRAMPtr d W) ∧
  ((¬ ∃ b, soleBank (s.VRAMMap d W) b) → s.VRAMPtr d W = Ptr.null) ∧
  (∀ b, soleBank (s.VRAMMap d W) b →
    b < 9 ∧ ∃ m, VRAMMask b = .ok m ∧ s.VRAMPtr d W = Ptr.bank b ((W <<< 14) &&& m))

/-- Every extended-palette mask that differs between `s` and `s'` has its
staleness call in `L`: `BGExtPalDirty` on the owning engine with the slot
rounded down to an even slot, or `OBJExtPalDirty` on the owning engine. -/
def NotifiedChanges (s s' : MapState) (L : List Call) : Prop :=
  (∀ W, s'.VRAMMap .ABGExtPal W ≠ s.VRAMMap .ABGExtPal W → Call.BGExtPalDirty 0 (W - W % 2) ∈ L) ∧
  (∀ W, s'.VRAMMap .BBGExtPal W ≠ s.VRAMMap .BBGExtPal W → Call.BGExtPalDirty 1 (W - W % 2) ∈ L) ∧
  (∀ W, s'.VRAMMap .AOBJExtPal W ≠ s.VRAMMap .AOBJExtPal W → Call.OBJExtPalDirty 0 ∈ L) ∧
  (∀ W, s'.VRAMMap .BOBJExtPal W ≠ s.VRAMMap .BOBJExtPal W → Call.OBJExtPalDirty 1 ∈ L)

/-- The unmap and map blocks of the six `MapVRAM_*` functions. -/
def mapBlocks : List (Nat → Nat → MapState → Except Fault MapState) :=
  [MapVRAM_AB_unmap, MapVRAM_AB_map, MapVRAM_CD_unmap, MapVRAM_CD_map,
   MapVRAM_E_unmap, MapVRAM_E_map, MapVRAM_FG_unmap, MapVRAM_FG_map,
   MapVRAM_H_unmap, MapVRAM_H_map, MapVRAM_I_unmap, MapVRAM_I_map]

/-! ## `NonStupidBitField<Size>` (NonStupidBitfield.h)

A bit field is its word array `Data`, a function from the word index to a
`u64`; the number of words `DataLength = Size >> 6` is passed along as `len`.
Bit `idx` of the field is bit `idx & 0x3F` of word `idx >> 6`. -/

/-- The value of `Ref::operator bool` on `BitField[idx]`:
`Data[Idx >> 6] & (1ULL << (Idx & 0x3F))` is not zero. -/
def getBit (data : Nat → Nat) (idx : Nat) : Bool :=
  (data (idx >>> 6) &&& ((1 <<< (idx &&& 0x3F)) % 2 ^ 64)) != 0

/-- Read `Data[i]` of a bit field with `len` words. -/
def readWord (len : Nat) (data : Nat → Nat) (i : Nat) : Except Fault Nat :=
  if i < len then .ok (data i) else .error (.badWord i)

/-- The assignment `Data[i] = v` in a bit field with `len` words. -/
def writeWord (len : Nat) (data : Nat → Nat) (i v : Nat) : Except Fault (Nat → Nat) :=
  if i < len then .ok (fun w => if w = i then v else data w) else .error (.badWord i)

/-- The body shared by `Ref::operator=(bool set)` and `Iterator::operator=(bool set)`:
`Data[w] &= ~(1ULL << b); Data[w] |= ((u64)set << b);`. -/
def assignBit (len : Nat) (data : Nat → Nat) (w b : Nat) (set : Bool) :
    Except Fault (Nat → Nat) :=
  match readWord len data w with
  | .error e => .error e
  | .ok v =>
    writeWord len data w
      ((v &&& not64 (1 <<< b)) ||| (((if set then 1 else 0) <<< b) % 2 ^ 64))

/-- The assignment `BitField[idx] = set` through `operator[]` and
`Ref::operator=` (NonStupidBitfield.h 34-39, 150-153). -/
def setBit (len : Nat) (data : Nat → Nat) (idx : Nat) (set : Bool) : Except Fault (Nat → Nat) :=
  assignBit len data (idx >>> 6) (idx &&& 0x3F) set

/-- The fields of `NonStupidBitField::Iterator` other than the reference to
the bit field (NonStupidBitfield.h 42-47). -/
structure Iterator where
  RemainingBits : Nat
  DataIdx : Nat
  Idx : Nat
  deriving DecidableEq, Repr

/-- `End()` (NonStupidBitfield.h 132-135). -/
def End (len : Nat) : Iterator := { RemainingBits := 0, DataIdx := len, Idx := 0 }

/-- The loop of `Begin()` from word `i` on, `k` words being left
(NonStupidBitfield.h 139-147). -/
def beginFrom (len : Nat) (data : Nat → Nat) : Nat → Nat → Iterator
  | 0, _ => End len
  | k + 1, i =>
    if data i ≠ 0 then
      let firstIdx := ctz 64 (data i)
      { RemainingBits := data i &&& not64 (1 <<< firstIdx), DataIdx := i, Idx := firstIdx }
    else beginFrom len data k (i + 1)

/-- `Begin()` (NonStupidBitfield.h 137-148). -/
def Begin (len : Nat) (data : Nat → Nat) : Iterator := beginFrom len data len 0

/-- `Iterator::operator*` (NonStupidBitfield.h 50). -/
def Iterator.deref (it : Iterator) : Nat := it.DataIdx * 64 + it.Idx

/-- `Iterator::operator==` compares `DataIdx` only (NonStupidBitfield.h 59). -/
def Iterator.eq (a b : Iterator) : Bool := a.DataIdx == b.DataIdx

/-- The loop `while (RemainingBits == 0) { DataIdx++; if (DataIdx >= DataLength)
break; RemainingBits = BitField.Data[DataIdx]; }` of `operator++`, run for at
most `k` rounds. -/
def Iterator.skipZero (len : Nat) (data : Nat → Nat) : Nat → Iterator → Iterator
  | 0, it => it
  | k + 1, it =>
    if it.RemainingBits = 0 then
      if it.DataIdx + 1 ≥ len then { it with DataIdx := it.DataIdx + 1 }
      else Iterator.skipZero len data k
        { it with DataIdx := it.DataIdx + 1, RemainingBits := data (it.DataIdx + 1) }
    else it

/-- `Iterator::operator++` (NonStupidBitfield.h 69-86).  The loop runs at most
`len` rounds, since each round advances `DataIdx` and stops at `len`. -/
def Iterator.next (len : Nat) (data : Nat → Nat) (it : Iterator) : Iterator :=
  let it1 := Iterator.skipZero len data (len + 1) it
  if it1.DataIdx < len then
    let idx := ctz 64 it1.RemainingBits
    { it1 with Idx := idx, RemainingBits := it1.RemainingBits &&& not64 (1 <<< idx) }
  else it1

/-- `Iterator::operator=(bool set)` (NonStupidBitfield.h 52-57). -/
def Iterator.assign (len : Nat) (data : Nat → Nat) (it : Iterator) (set : Bool) :
    Except Fault (Nat → Nat) :=
  assignBit len data it.DataIdx it.Idx set

/-- `NonStupidBitField(u32 start, u32 size)` (NonStupidBitfield.h 96-122).
The `for` loop of the multi-word case assigns each word `i` of
`startIdx..endIdx` independently, so the loop is given per word. -/
def rangeField (len start size : Nat) : Except Fault (Nat → Nat) :=
  if size = 0 then .ok (fun _ => 0)
  else
    let startIdx := start >>> 6
    let endIdx := (start + size - 1) >>> 6
    if endIdx < len then
      if startIdx = endIdx then
        .ok (fun w => if w = startIdx then
          ((not64 (0xFFFFFFFFFFFFFFFF <<< (size &&& 0x3F))) <<< (start &&& 0x3F)) % 2 ^ 64 else 0)
      else
        .ok (fun w =>
          if startIdx ≤ w ∧ w ≤ endIdx then
            if w = startIdx then (0xFFFFFFFFFFFFFFFF <<< (start &&& 0x3F)) % 2 ^ 64
            else if w = endIdx then
              (if (start + size) &&& 0x3F ≠ 0
                then not64 (0xFFFFFFFFFFFFFFFF <<< ((start + size) &&& 0x3F))
                else 0xFFFFFFFFFFFFFFFF)
            else 0xFFFFFFFFFFFFFFFF
          else 0)
    else .error (.badWord endIdx)

/-- `operator|=` (NonStupidBitfield.h 155-162). -/
def orField (len : Nat) (a b : Nat → Nat) : Nat → Nat :=
  fun w => if w < len then a w ||| b w else a w

/-! ## Dirty tracking (GPU.cpp 1126-1211)

`VRAMDirty[9]` is a function from the bank to the word array of its
`NonStupidBitField<256>` (4 words). -/

/-- The loop `while (mapping != 0) { num = __builtin_ctz(mapping); body(num);
mapping &= ~(1 << num); }` over the banks of a mask, run for at most `fuel`
rounds.  (In `DeriveState` the bit is cleared before the body, which does not
read `mapping`.) -/
def forEachBank {σ : Type} (body : Nat → σ → Except Fault σ) : Nat → Nat → σ → Except Fault σ
  | 0, mapping, s => if mapping = 0 then .ok s else .error .outOfFuel
  | fuel + 1, mapping, s =>
    if mapping = 0 then .ok s
    else
      let num := ctz 32 mapping
      match body num s with
      | .ok s1 => forEachBank body fuel (mapping &&& not32 (1 <<< num)) s1
      | .error e => .error e

/-- The assignment `VRAMDirty[num][idx] = true`. -/
def setDirty (dirty : Nat → Nat → Nat) (num idx : Nat) : Except Fault (Nat → Nat → Nat) :=
  if num < 9 then
    match setBit 4 (dirty num) idx true with
    | .ok d => .ok (fun b => if b = num then d else dirty b)
    | .error e => .error e
  else .error (.badBank num)

/-- The body of the `while` loop of `SyncDirtyFlags<Size>` for bank `num` and
the written unit `j = *it`:
`VRAMDirty[num][*it & (VRAMMask[num] / VRAMDirtyGranularity)] = true`. -/
def syncBank (j num : Nat) (dirty : Nat → Nat → Nat) : Except Fault (Nat → Nat → Nat) :=
  match VRAMMask num with
  | .ok m => setDirty dirty num (j &&& (m / 512))
  | .error e => .error e

/-- The variables that `SyncDirtyFlags<Size>` works on: the written bit field
passed by reference and the global `VRAMDirty`. -/
structure SyncState where
  writtenFlags : Nat → Nat
  VRAMDirty : Nat → Nat → Nat

/-- The body of the `for` loop of `SyncDirtyFlags<Size>` (GPU.cpp 1190-1200)
for the iterator `it`; `M` is the table `mappings` points to, `d` gives its
declared length. -/
def syncBody (d : Dest) (M : Nat → Nat) (len : Nat) (it : Iterator) (st : SyncState) :
    Except Fault SyncState :=
  let j := it.deref
  if j / 32 < d.size then
    let mapping := M (j / 32)
    match forEachBank (syncBank j) 32 mapping st.VRAMDirty with
    | .error e => .error e
    | .ok dirty =>
      match it.assign len st.writtenFlags false with
      | .error e => .error e
      | .ok wr => .ok { writtenFlags := wr, VRAMDirty := dirty }
  else .error (.outOfBounds d (j / 32))

/-- The `for` loop of `SyncDirtyFlags<Size>` from iterator `it` on, run for
at most `fuel` rounds. -/
def syncLoop (d : Dest) (M : Nat → Nat) (len : Nat) :
    Nat → Iterator → SyncState → Except Fault SyncState
  | 0, it, st => if it.eq (End len) then .ok st else .error .outOfFuel
  | fuel + 1, it, st =>
    if it.eq (End len) then .ok st
    else
      match syncBody d M len it st with
      | .error e => .error e
      | .ok st1 => syncLoop d M len fuel (it.next len st1.writtenFlags) st1

/-- `SyncDirtyFlags<Size>(mappings, writtenFlags)` (GPU.cpp 1183-1202).  The
loop visits one set bit per round, so `Size + 1` rounds are enough. -/
def SyncDirtyFlags (Size : Nat) (d : Dest) (M : Nat → Nat) (st : SyncState) :
    Except Fault SyncState :=
  syncLoop d M (Size >>> 6) (Size + 1) (Begin (Size >>> 6) st.writtenFlags) st

/-- The members of a `VRAMTrackingSet` (its `Mapping` array) together with
the global `VRAMDirty`. -/
structure TrackState where
  Mapping : Nat → Nat
  VRAMDirty : Nat → Nat → Nat

/-- The locals of `DeriveState` and the member `Mapping` during the window
loop. -/
structure DeriveLocals where
  result : Nat → Nat
  banksToBeZeroed : Nat
  Mapping : Nat → Nat

/-- The read `((u32*)VRAMDirty[num].Data)[k]` on a little-endian machine. -/
def readDirty32 (dirty : Nat → Nat → Nat) (num k : Nat) : Except Fault Nat :=
  if num < 9 then
    match readWord 4 (dirty num) (k / 2) with
    | .ok v => .ok ((v >>> (32 * (k % 2))) &&& 0xFFFFFFFF)
    | .error e => .error e
  else .error (.badBank num)

/-- The statement `((u32*)result.Data)[i] |= v` on a little-endian machine. -/
def or32 (len : Nat) (result : Nat → Nat) (i v : Nat) : Except Fault (Nat → Nat) :=
  match readWord len result (i / 2) with
  | .ok w => writeWord len result (i / 2) (w ||| ((v % 2 ^ 32) <<< (32 * (i % 2))))
  | .error e => .error e

/-- The statement `result.Data[i] |= VRAMDirty[num].Data[k]`. -/
def or64 (len : Nat) (result : Nat → Nat) (dirty : Nat → Nat → Nat) (i num k : Nat) :
    Except Fault (Nat → Nat) :=
  if num < 9 then
    match readWord 4 (dirty num) k, readWord len result i with
    | .ok v, .ok w => writeWord len result i (w ||| v)
    | .error e, _ => .error e
    | _, .error e => .error e
  else .error (.badBank num)

/-- The body of the inner `while` loop of `DeriveState` for bank `num` of
window `i` (GPU.cpp 1150-1168). -/
def deriveBank (len MappingGranularity : Nat) (dirty : Nat → Nat → Nat) (i num : Nat)
    (result : Nat → Nat) : Except Fault (Nat → Nat) :=
  if MappingGranularity = 16 * 1024 then
    match VRAMMask num with
    | .error e => .error e
    | .ok m =>
      match readDirty32 dirty num (i &&& (m >>> 14)) with
      | .error e => .error e
      | .ok v => or32 len result i v
  else if MappingGranularity = 128 * 1024 then
    or64 len result dirty (i * 4 + 0) num 0
      >>= fun r => or64 len r dirty (i * 4 + 1) num 1
      >>= fun r => or64 len r dirty (i * 4 + 2) num 2
      >>= fun r => or64 len r dirty (i * 4 + 3) num 3
  else .error .aborted

/-- The body of the window loop of `DeriveState` for window `i`
(GPU.cpp 1133-1170).  `banksToBeZeroed` is a `u16`. -/
def deriveWindow (Size MappingGranularity : Nat) (currentMappings : Nat → Nat)
    (dirty : Nat → Nat → Nat) (i : Nat) (st : DeriveLocals) : Except Fault DeriveLocals :=
  let len := (Size / 512) >>> 6
  let VRAMBitsPerMapping := MappingGranularity / 512
  if currentMappings i ≠ st.Mapping i then
    match rangeField len (i * VRAMBitsPerMapping) VRAMBitsPerMapping with
    | .error e => .error e
    | .ok r =>
      .ok { result := orField len st.result r
            banksToBeZeroed := (st.banksToBeZeroed ||| currentMappings i) % 2 ^ 16
            Mapping := fun w => if w = i then currentMappings i else st.Mapping w }
  else
    let mapping := st.Mapping i
    match forEachBank (deriveBank len MappingGranularity dirty i) 32 mapping st.result with
    | .error e => .error e
    | .ok r =>
      .ok { result := r
            banksToBeZeroed := (st.banksToBeZeroed ||| mapping) % 2 ^ 16
            Mapping := st.Mapping }

/-- The statement `memset(VRAMDirty[num].Data, 0, sizeof(VRAMDirty[num].Data))`. -/
def zeroDirty (num : Nat) (dirty : Nat → Nat → Nat) : Except Fault (Nat → Nat → Nat) :=
  if num < 9 then .ok (fun b => if b = num then (fun _ => 0) else dirty b)
  else .error (.badBank num)

/-- `VRAMTrackingSet<Size, MappingGranularity>::DeriveState(currentMappings)`
(GPU.cpp 1126-1181): the returned bit field and the state left behind.
`currentMappings` points to a table of at least `Size / MappingGranularity`
masks. -/
def DeriveState (Size MappingGranularity : Nat) (currentMappings : Nat → Nat)
    (st : TrackState) : Except Fault ((Nat → Nat) × TrackState) :=
  match forLoop (deriveWindow Size MappingGranularity currentMappings st.VRAMDirty)
      (Size / MappingGranularity)
      { result := fun _ => 0, banksToBeZeroed := 0, Mapping := st.Mapping } with
  | .error e => .error e
  | .ok loc =>
    match forEachBank zeroDirty 32 loc.banksToBeZeroed st.VRAMDirty with
    | .error e => .error e
    | .ok dirty => .ok (loc.result, { Mapping := loc.Mapping, VRAMDirty := dirty })

/-- The template argument `Size` of the written field `VRAMWritten_*` of a
destination, `bytes / VRAMDirtyGranularity` with `VRAMDirtyGranularity = 512`
(GPU.cpp 118-122); 0 for the destinations that have none. -/
def VRAMWrittenSize : Dest → Nat
  | .ABG => 512 * 1024 / 512
  | .AOBJ => 256 * 1024 / 512
  | .BBG => 128 * 1024 / 512
  | .BOBJ => 128 * 1024 / 512
  | .ARM7 => 256 * 1024 / 512
  | _ => 0

/-- The template arguments `<Size, MappingGranularity>` of the tracking set
`VRAMDirty_*` of a destination (GPU.cpp 110-116). -/
def trackingSet : Dest → Option (Nat × Nat)
  | .ABG => some (512 * 1024, 16 * 1024)
  | .AOBJ => some (256 * 1024, 16 * 1024)
  | .BBG => some (128 * 1024, 16 * 1024)
  | .BOBJ => some (128 * 1024, 16 * 1024)
  | .Texture => some (512 * 1024, 128 * 1024)
  | .TexPal => some (128 * 1024, 16 * 1024)
  | _ => none

/-- Example table: banks A and B both mapped to window 3, nothing elsewhere. -/
def banksABInWindow3 : Nat → Nat := fun w => if w = 3 then 3 else 0

/-- Example written field: only unit 96 (byte `0x100` of window 3) is set. -/
def unit96Written : Nat → Nat := fun w => if w = 1 then 2 ^ 32 else 0

/-- Example dirty fields: no dirty bit in any bank. -/
def noDirty : Nat → Nat → Nat := fun _ _ => 0

/-- Example table: bank A mapped to window 1 (texture slot 1), nothing elsewhere. -/
def bankAInWindow1 : Nat → Nat := fun w => if w = 1 then 1 else 0

/-- Example table that is not over the banks 0..8: window 0 holds bit 9. -/
def bit9InWindow0 : Nat → Nat := fun w => if w = 0 then 0x200 else 0

/-- Example dirty fields: only unit 100 of bank B is dirty. -/
def unit100DirtyInB : Nat → Nat → Nat := fun b w => if b = 1 ∧ w = 1 then 2 ^ 36 else 0

/-! ## Iterating over a bit field

The loop `for (it = field.Begin(); it != field.End(); it++) { visit(*it); }`
as `SyncDirtyFlags` and `CopyLinearVRAM` write it.  The values `*it` are
collected in a list; with `clear` the body also runs `it = false`, as in
`SyncDirtyFlags`. -/

/-- The loop from iterator `it` on, run for at most `fuel` rounds; `acc` holds
the values dereferenced so far and `data` is the field as it is now. -/
def iterate (len : Nat) (clear : Bool) :
    Nat → Iterator → (Nat → Nat) → List Nat → Except Fault (List Nat × (Nat → Nat))
  | 0, it, data, acc => if it.eq (End len) then .ok (acc, data) else .error .outOfFuel
  | fuel + 1, it, data, acc =>
    if it.eq (End len) then .ok (acc, data)
    else
      match (if clear then it.assign len data false else .ok data) with
      | .error e => .error e
      | .ok data1 => iterate len clear fuel (it.next len data1) data1 (acc ++ [it.deref])

/-- The whole loop from `Begin()`.  Each round visits one set bit, so
`64 * len + 1` rounds are enough. -/
def visitAll (len : Nat) (clear : Bool) (data : Nat → Nat) :
    Except Fault (List Nat × (Nat → Nat)) :=
  iterate len clear (64 * len + 1) (Begin len data) data []

/-- Example field of 128 bits with the bits 3, 64 and 127 set. -/
def bits3And64And127 : Nat → Nat := fun w => if w = 0 then 8 else if w = 1 then 2 ^ 63 + 1 else 0

/-! ## `CopyLinearVRAM` (GPU.cpp 1213-1238)

`flat` is the destination buffer as a function from the byte index to the
byte; the caller provides `Size * 512` bytes, which the unit indices below
`Size` never leave.  `VRAM num off` is byte `off` of bank `num`, and
`slowAccess` is the accessor passed by the caller. -/

/-- The statement `*(u64*)&dst[i] = v` on a little-endian machine, `a` being
the index of `dst[i]` in `flat`. -/
def store64 (flat : Nat → Nat) (a v : Nat) : Nat → Nat :=
  fun x => if a ≤ x ∧ x < a + 8 then (v >>> (8 * (x - a))) % 256 else flat x

/-- The call `memcpy(dst, &VRAM[num][src], VRAMDirtyGranularity)` with
`VRAMDirtyGranularity = 512`, `dst` being an index into `flat`. -/
def copyFromBank (VRAM : Nat → Nat → Nat) (flat : Nat → Nat) (dst num src : Nat) :
    Except Fault (Nat → Nat) :=
  if src + 512 ≤ bankCapacity num then
    .ok (fun x => if dst ≤ x ∧ x < dst + 512 then VRAM num (src + (x - dst)) else flat x)
  else .error (.outOfBank num src)

/-- The body of the `while` loop of `CopyLinearVRAM` for the unit `u = *it`
(GPU.cpp 1223-1234), without `change = true; it++`. -/
def copyUnit (MappingGranularity : Nat) (d : Dest) (M : Nat → Nat) (VRAM : Nat → Nat → Nat)
    (slowAccess : Nat → Nat) (u : Nat) (flat : Nat → Nat) : Except Fault (Nat → Nat) :=
  let VRAMBitsPerMapping := MappingGranularity / 512
  let addr := (u * 512) % 2 ^ 32
  if u / VRAMBitsPerMapping < d.size then
    match GetUniqueBankPtr (M (u / VRAMBitsPerMapping)) addr with
    | .error e => .error e
    | .ok (.bank num off) =>
      copyFromBank VRAM flat addr num (off + (addr &&& (MappingGranularity - 1)))
    | .ok .null =>
      forLoop (fun q f => .ok (store64 f (addr + 8 * q) (slowAccess ((addr + 8 * q) % 2 ^ 32))))
        64 flat
  else .error (.outOfBounds d (u / VRAMBitsPerMapping))

/-- The `while` loop of `CopyLinearVRAM` from iterator `it` on, run for at
most `fuel` rounds.  `dirty` is the function's own copy of the field. -/
def copyLoop (MappingGranularity : Nat) (d : Dest) (M : Nat → Nat) (VRAM : Nat → Nat → Nat)
    (slowAccess : Nat → Nat) (len : Nat) (dirty : Nat → Nat) :
    Nat → Iterator → (Nat → Nat) → Bool → Except Fault ((Nat → Nat) × Bool)
  | 0, it, flat, change => if it.eq (End len) then .ok (flat, change) else .error .outOfFuel
  | fuel + 1, it, flat, change =>
    if it.eq (End len) then .ok (flat, change)
    else
      match copyUnit MappingGranularity d M VRAM slowAccess it.deref flat with
      | .error e => .error e
      | .ok flat1 =>
        copyLoop MappingGranularity d M VRAM slowAccess len dirty fuel (it.next len dirty)
          flat1 true

/-- `CopyLinearVRAM<MappingGranularity, Size>(flat, mappings, dirty, slowAccess)`
(GPU.cpp 1213-1238): the buffer afterwards and the returned `change`.  `d`
gives the declared length of the table `mappings` points to. -/
def CopyLinearVRAM (MappingGranularity Size : Nat) (d : Dest) (M : Nat → Nat)
    (VRAM : Nat → Nat → Nat) (flat : Nat → Nat) (dirty : Nat → Nat)
    (slowAccess : Nat → Nat) : Except Fault ((Nat → Nat) × Bool) :=
  copyLoop MappingGranularity d M VRAM slowAccess (Size >>> 6) dirty (Size + 1)
    (Begin (Size >>> 6) dirty) flat false

/-- Example table: bank A alone in window 0, nothing elsewhere. -/
def bankAInWindow0 : Nat → Nat := fun w => if w = 0 then 1 else 0

/-- Example dirty field: only unit 1 (bytes 512..1023) is set. -/
def unit1Dirty : Nat → Nat := fun w => if w = 0 then 2 else 0

/-- Example bank contents: every byte holds the number of its 512-byte unit
(modulo 256). -/
def unitNumberBytes : Nat → Nat → Nat := fun _ off => (off / 512) % 256

/-! ## The scanline engine (GPU.cpp 906-1124)

The scanline registers are a record; the calls into the collaborators (the
two 2D engines, the 3D engine, the interrupt and DMA controllers and the
scheduler) are appended to the list `calls` in the order they are made. -/

/-- The interrupt kinds `NDS::IRQ_VBlank`, `NDS::IRQ_HBlank` and
`NDS::IRQ_VCount` that GPU.cpp passes to `NDS::SetIRQ`. -/
inductive IRQ
  | VBlank | HBlank | VCount
  deriving DecidableEq, Repr

/-- The functions of GPU.cpp that are handed to the scheduler as callbacks. -/
inductive Callback
  | StartScanline | StartHBlank | FinishFrame | DisplayFIFO
  deriving DecidableEq, Repr

/-- The scheduler channels `NDS::Event_LCD` and `NDS::Event_DisplayFIFO`. -/
inductive Event
  | LCD | DisplayFIFO
  deriving DecidableEq, Repr

/-- Calls made by the scanline engine; `engine` is `0` for `GPU2D_A` and `1`
for `GPU2D_B`, and `SetFramebuffer engine i j` passes `Framebuffer[i][j]`. -/
inductive Ext
  | SetIRQ (cpu : Nat) (irq : IRQ)
  | CheckDMAs (cpu mode : Nat)
  | StopDMAs (cpu mode : Nat)
  | ScheduleEvent (ev : Event) (periodic : Bool) (delay : Nat) (cb : Callback) (param : Nat)
  | DrawScanline (engine line : Nat)
  | DrawSprites (engine line : Nat)
  | CheckWindows (engine vcount : Nat)
  | SampleFIFO (offset num : Nat)
  | VBlankEnd (engine : Nat)
  | VBlank (engine : Nat)
  | VBlank3D
  | VCount144
  | VCount215
  | RenderFrame
  | SetFramebuffer (engine i j : Nat)
  deriving DecidableEq, Repr

/-- What the scanline engine reads from its surroundings: the results of
`GPU2D_A->UsesFIFO()` and `NDS::DMAsInMode(0, 0x04)`, the register
`NDS::PowerControl9`, and whether the build has `OGLRENDERER_ENABLED`. -/
structure Env where
  usesFIFO : Bool
  dmasInMode : Bool
  PowerControl9 : Nat
  oglRenderer : Bool

/-- The globals of the scanline engine (GPU.cpp 32-38, 75-78), the calls made
so far, and the scheduler's pending callback of each channel. -/
structure LCDState where
  VCount : Nat
  NextVCount : Nat
  TotalScanlines : Nat
  RunFIFO : Bool
  DispStat : Nat → Nat
  VMatch : Nat → Nat
  FrontBuffer : Nat
  Accelerated : Bool
  calls : List Ext
  events : Event → Option (Callback × Nat)

/-- `#define LINE_CYCLES (355*6)`. -/
def LINE_CYCLES : Nat := 355 * 6

/-- `#define HBLANK_CYCLES (48+(256*6))`. -/
def HBLANK_CYCLES : Nat := 48 + 256 * 6

/-- A call into a collaborator. -/
def call (c : Ext) (s : LCDState) : LCDState := { s with calls := s.calls ++ [c] }

/-- Modelled from the spec: `NDS::ScheduleEvent` (NDS.cpp is not among the
sources).  Every phase transition is scheduled as a deferred callback;
scheduling on a channel supersedes the pending instance of that channel. -/
def ScheduleEvent (ev : Event) (periodic : Bool) (delay : Nat) (cb : Callback) (param : Nat)
    (s : LCDState) : LCDState :=
  { s with
    calls := s.calls ++ [.ScheduleEvent ev periodic delay cb param]
    events := fun e => if e = ev then some (cb, param) else s.events e }

/-- The statement `DispStat[cpu] |= m` on the `u16` register. -/
def orDispStat (cpu m : Nat) (s : LCDState) : LCDState :=
  { s with DispStat := fun c => if c = cpu then (s.DispStat c ||| m) % 2 ^ 16 else s.DispStat c }

/-- The statement `DispStat[cpu] &= ~m` on the `u16` register. -/
def andNotDispStat (cpu m : Nat) (s : LCDState) : LCDState :=
  { s with
    DispStat := fun c => if c = cpu then (s.DispStat c &&& not32 m) % 2 ^ 16 else s.DispStat c }

/-- The scanline registers after `Reset` (GPU.cpp 150-158). -/
def ResetLCD (s : LCDState) : LCDState :=
  { s with
    VCount := 0
    NextVCount := 0xFFFFFFFF
    TotalScanlines := 0
    DispStat := fun _ => 0
    VMatch := fun _ => 0 }

/-- `SetVCount` (GPU.cpp 1113-1122); `val` is a `u16`. -/
def SetVCount (val : Nat) (s : LCDState) : LCDState :=
  { s with NextVCount := val % 2 ^ 16 }

/-- `AssignFramebuffers` (GPU.cpp 303-316). -/
def AssignFramebuffers (env : Env) (s : LCDState) : LCDState :=
  let backbuf := if s.FrontBuffer ≠ 0 then 0 else 1
  if env.PowerControl9 &&& (1 <<< 15) ≠ 0 then
    call (.SetFramebuffer 1 backbuf 1) (call (.SetFramebuffer 0 backbuf 0) s)
  else
    call (.SetFramebuffer 1 backbuf 0) (call (.SetFramebuffer 0 backbuf 1) s)

/-- `DisplayFIFO` (GPU.cpp 926-949); `x` is a `u32`, so `x-11` and `x+8` are
taken modulo `2^32`. -/
def DisplayFIFO (x : Nat) (s : LCDState) : LCDState :=
  let s := if x > 0 then
      (if x = 8 then call (.SampleFIFO 0 5) s
        else call (.SampleFIFO ((x + 2 ^ 32 - 11) % 2 ^ 32) 8) s)
    else s
  if x < 256 then
    ScheduleEvent .DisplayFIFO true (6 * 8) .DisplayFIFO ((x + 8) % 2 ^ 32)
      (call (.CheckDMAs 0 0x04) s)
  else call (.SampleFIFO 253 3) s

/-- The first statements of `StartScanline` (GPU.cpp 1015-1022): the new line
counter.  `VCount` is a `u16`, `NextVCount` a `u32` holding `-1` when no write
is pending. -/
def setLineCounter (line : Nat) (s : LCDState) : LCDState :=
  let s := if line = 0 then { s with VCount := 0 }
    else if s.NextVCount ≠ 0xFFFFFFFF then { s with VCount := s.NextVCount % 2 ^ 16 }
    else { s with VCount := (s.VCount + 1) % 2 ^ 16 }
  { s with NextVCount := 0xFFFFFFFF }

/-- The statements `DispStat[0] &= ~(1<<1); DispStat[1] &= ~(1<<1);`
(GPU.cpp 1024-1025). -/
def clearHBlank (s : LCDState) : LCDState :=
  andNotDispStat 1 (1 <<< 1) (andNotDispStat 0 (1 <<< 1) s)

/-- The VCount-match test of `StartScanline` for one cpu (GPU.cpp 1027-1043). -/
def vcountMatch (cpu : Nat) (s : LCDState) : LCDState :=
  if s.VCount = s.VMatch cpu then
    let s := orDispStat cpu (1 <<< 2) s
    if s.DispStat cpu &&& (1 <<< 5) ≠ 0 then call (.SetIRQ cpu .VCount) s else s
  else andNotDispStat cpu (1 <<< 2) s

/-- The window checks and the DMA statements of `StartScanline`
(GPU.cpp 1045-1051). -/
def scanlineDMA (s : LCDState) : LCDState :=
  let s := call (.CheckWindows 1 s.VCount) (call (.CheckWindows 0 s.VCount) s)
  if s.VCount ≥ 2 ∧ s.VCount < 194 then call (.CheckDMAs 0 0x03) s
  else if s.VCount = 194 then call (.StopDMAs 0 0x03) s
  else s

/-- The block `if (line < 192) { ... }` of `StartScanline` (GPU.cpp 1053-1063). -/
def visibleLineStart (line : Nat) (s : LCDState) : LCDState :=
  if line < 192 then
    let s := if line = 0 then call (.VBlankEnd 1) (call (.VBlankEnd 0) s) else s
    if s.RunFIFO then ScheduleEvent .DisplayFIFO false 32 .DisplayFIFO 0 s else s
  else s

/-- The block `if (VCount == 262) { ... } else { ... }` of `StartScanline`
(GPU.cpp 1065-1098). -/
def vblankEdge (env : Env) (s : LCDState) : LCDState :=
  if s.VCount = 262 then
    andNotDispStat 1 (1 <<< 0) (andNotDispStat 0 (1 <<< 0) s)
  else if s.VCount = 192 then
    let s := orDispStat 1 (1 <<< 0) (orDispStat 0 (1 <<< 0) s)
    let s := call (.StopDMAs 0 0x04) s
    let s := call (.CheckDMAs 0 0x01) s
    let s := call (.CheckDMAs 1 0x11) s
    let s := if s.DispStat 0 &&& (1 <<< 3) ≠ 0 then call (.SetIRQ 0 .VBlank) s else s
    let s := if s.DispStat 1 &&& (1 <<< 3) ≠ 0 then call (.SetIRQ 1 .VBlank) s else s
    let s := call (.VBlank 0) s
    let s := call (.VBlank 1) s
    let s := call .VBlank3D s
    if env.oglRenderer ∧ s.Accelerated then call .RenderFrame s else s
  else if s.VCount = 144 then call .VCount144 s
  else s

/-- `StartScanline` (GPU.cpp 1013-1101); `line` is a `u32`. -/
def StartScanline (env : Env) (line : Nat) (s : LCDState) : LCDState :=
  ScheduleEvent .LCD true HBLANK_CYCLES .StartHBlank line
    (vblankEdge env (visibleLineStart line (scanlineDMA (vcountMatch 1 (vcountMatch 0
      (clearHBlank (setLineCounter line s)))))))

/-- The drawing block of `StartHBlank` (GPU.cpp 967-993). -/
def hblankDraw (line : Nat) (s : LCDState) : LCDState :=
  if s.VCount < 192 then
    let s := if line < 192 then call (.DrawScanline 1 line) (call (.DrawScanline 0 line) s)
      else s
    let s := if line < 191 then
        call (.DrawSprites 1 (line + 1)) (call (.DrawSprites 0 (line + 1)) s)
      else s
    call (.CheckDMAs 0 0x02) s
  else if s.VCount = 215 then call .VCount215 s
  else if s.VCount = 262 then call (.DrawSprites 1 0) (call (.DrawSprites 0 0) s)
  else s

/-- The HBlank interrupts of `StartHBlank` (GPU.cpp 995-996). -/
def hblankIRQ (s : LCDState) : LCDState :=
  let s := if s.DispStat 0 &&& (1 <<< 4) ≠ 0 then call (.SetIRQ 0 .HBlank) s else s
  if s.DispStat 1 &&& (1 <<< 4) ≠ 0 then call (.SetIRQ 1 .HBlank) s else s

/-- `StartHBlank` (GPU.cpp 962-1003); `line` is a `u32`. -/
def StartHBlank (line : Nat) (s : LCDState) : LCDState :=
  let s := hblankIRQ (hblankDraw line
    (orDispStat 1 (1 <<< 1) (orDispStat 0 (1 <<< 1) s)))
  if s.VCount < 262 then
    ScheduleEvent .LCD true (LINE_CYCLES - HBLANK_CYCLES) .StartScanline ((line + 1) % 2 ^ 32) s
  else
    ScheduleEvent .LCD true (LINE_CYCLES - HBLANK_CYCLES) .FinishFrame ((line + 1) % 2 ^ 32) s

/-- `FinishFrame` (GPU.cpp 1005-1011); `TotalScanlines` is a `u16`. -/
def FinishFrame (env : Env) (lines : Nat) (s : LCDState) : LCDState :=
  let s := { s with FrontBuffer := if s.FrontBuffer ≠ 0 then 0 else 1 }
  let s := AssignFramebuffers env s
  { s with TotalScanlines := lines % 2 ^ 16 }

/-- `StartFrame` (GPU.cpp 951-960). -/
def StartFrame (env : Env) (s : LCDState) : LCDState :=
  let s := { s with RunFIFO := env.usesFIFO || env.dmasInMode }
  let s := { s with TotalScanlines := 0 }
  StartScanline env 0 s

/-- The function a scheduled callback stands for. -/
def runCallback (env : Env) : Callback → Nat → LCDState → LCDState
  | .StartScanline, a, s => StartScanline env a s
  | .StartHBlank, a, s => StartHBlank a s
  | .FinishFrame, a, s => FinishFrame env a s
  | .DisplayFIFO, a, s => DisplayFIFO a s

/-- Modelled from the spec: the scheduler firing the pending callback of one
channel (NDS.cpp is not among the sources).  The event leaves the channel
and its callback runs to completion; nothing happens on an empty channel. -/
def fire (env : Env) (ev : Event) (s : LCDState) : LCDState :=
  match s.events ev with
  | none => s
  | some (cb, a) =>
    runCallback env cb a { s with events := fun e => if e = ev then none else s.events e }

/-- An undisturbed frame: `StartFrame` followed by `n` firings of the LCD
channel, with nothing else touching the scanline registers.  The
display-FIFO channel fires `fifo k` times after the `k`-th of them (`fifo 0`
times after `StartFrame`), whatever the numbers `fifo k` are. -/
def frameRun (env : Env) (fifo : Nat → Nat) : Nat → LCDState → LCDState
  | 0, s => Nat.iterate (fire env .DisplayFIFO) (fifo 0) (StartFrame env s)
  | n + 1, s =>
    Nat.iterate (fire env .DisplayFIFO) (fifo (n + 1)) (fire env .LCD (frameRun env fifo n s))

/-- The calls made between the states `s` and `s'`. -/
def issued (s s' : LCDState) : List Ext := s'.calls.drop s.calls.length

/-- Example surroundings: no display FIFO, screens not swapped, software
renderer. -/
def plainEnv : Env :=
  { usesFIFO := false, dmasInMode := false, PowerControl9 := 0, oglRenderer := false }

/-- Example state: every register zero, both VBlank interrupts enabled
(`val` selects bit 3 of `DispStat[0]` and `DispStat[1]`), nothing called or
scheduled. -/
def idleState (val : Nat) : LCDState :=
  { VCount := 0, NextVCount := 0xFFFFFFFF, TotalScanlines := 0, RunFIFO := false
    DispStat := fun _ => val, VMatch := fun _ => 0, FrontBuffer := 0, Accelerated := false
    calls := [], events := fun _ => none }

/-- The display-FIFO channel holds no callback other than `DisplayFIFO`, the
only function GPU.cpp schedules on it. -/
def FIFOChannelOk (s : LCDState) : Prop :=
  ∀ cb a, s.events .DisplayFIFO = some (cb, a) → cb = .DisplayFIFO

/-! ## Unique bank pointer, display status, runs of the scanline engine and call lists -/

/-- The number of set bits among the bits 0..31 of a mask. -/
def popcount (mask : Nat) : Nat := ((List.range 32).filter (fun i => mask.testBit i)).length

/-- `SetDispStat` (GPU.cpp 1106-1113); `val` is a `u16`, and so are the
registers `DispStat[cpu]` and `VMatch[cpu]`. -/
def SetDispStat (cpu val : Nat) (s : LCDState) : LCDState :=
  let val := (val % 2 ^ 16) &&& 0xFFB8
  let s := { s with
    DispStat := fun c => if c = cpu then (s.DispStat c &&& 0x0047) % 2 ^ 16 else s.DispStat c }
  let s := { s with
    DispStat := fun c => if c = cpu then (s.DispStat c ||| val) % 2 ^ 16 else s.DispStat c }
  { s with
    VMatch := fun c =>
      if c = cpu then ((val >>> 8) ||| ((val &&& 0x80) <<< 1)) % 2 ^ 16 else s.VMatch c }

/-- The calls to `DrawScanline` and `DrawSprites` of the two 2D engines. -/
def isDraw : Ext → Bool
  | .DrawScanline _ _ => true
  | .DrawSprites _ _ => true
  | _ => false

/-- The draw calls and the VCount-match interrupts. -/
def isDrawOrMatch : Ext → Bool
  | .SetIRQ _ .VCount => true
  | c => isDraw c

/-- The states the scanline engine runs through: `Reset` with nothing
scheduled, then in any order `StartFrame`, the scheduler firing the pending
callback of a channel, and `SetVCount(val)` with a 16-bit `val` not above
`limit`. -/
inductive Running (limit : Nat) : LCDState → Prop
  | reset (s : LCDState) (h : ∀ ev, s.events ev = none) : Running limit (ResetLCD s)
  | startFrame (env : Env) {s : LCDState} (h : Running limit s) :
      Running limit (StartFrame env s)
  | fire (env : Env) (ev : Event) {s : LCDState} (h : Running limit s) :
      Running limit (fire env ev s)
  | setVCount (val : Nat) {s : LCDState} (hv : val < 2 ^ 16) (hl : val ≤ limit)
      (h : Running limit s) : Running limit (SetVCount val s)

/-- Example run: `Reset`, `StartFrame`, a write of 300 to `VCount`, then the
scheduler runs `StartHBlank(0)` and `StartScanline(1)`. -/
def vcount300Run : LCDState :=
  fire plainEnv .LCD (fire plainEnv .LCD
    (SetVCount 300 (StartFrame plainEnv (ResetLCD (idleState 0)))))

/-- Example written field: only unit 64 (byte `0x8000` of the region) is set. -/
def unit64Written : Nat → Nat := fun w => if w = 1 then 1 else 0

/-- Example written field: only unit 32 (byte `0x4000` of the region) is set. -/
def unit32Written : Nat → Nat := fun w => if w = 0 then 2 ^ 32 else 0

/-- Example table `VRAMMap_ARM7`: bank D mapped to the second 128 KiB window,
nothing in the first. -/
def bankDInARM7Window1 : Nat → Nat := fun w => if w = 1 then 8 else 0

/-- The window of a table with windows of `granularity` bytes that owns the
512-byte unit `j`. -/
def owningWindow (granularity j : Nat) : Nat := j * 512 / granularity

/-- The calls `DisplayFIFO(x)` makes (GPU.cpp 928-949), in order. -/
def displayFIFOCalls (x : Nat) : List Ext :=
  (if x > 0 then
      (if x = 8 then [.SampleFIFO 0 5] else [.SampleFIFO ((x + 2 ^ 32 - 11) % 2 ^ 32) 8])
    else []) ++
  (if x < 256 then
      [.CheckDMAs 0 0x04, .ScheduleEvent .DisplayFIFO true (6 * 8) .DisplayFIFO ((x + 8) % 2 ^ 32)]
    else [.SampleFIFO 253 3])

/-- The calls of the first `k` invocations `DisplayFIFO(0)`, `DisplayFIFO(8)`,
... of the display-FIFO chain. -/
def chainCalls : Nat → List Ext
  | 0 => []
  | k + 1 => chainCalls k ++ displayFIFOCalls (8 * k)

/-- The `(offset, num)` arguments of the `SampleFIFO` calls in a list of
calls, in order. -/
def samples (L : List Ext) : List (Nat × Nat) :=
  L.filterMap (fun c => match c with
    | .SampleFIFO offset num => some (offset, num)
    | _ => none)

/-- Where a list of `(offset, num)` pixel runs ends when the first starts at
`start` and each starts where the one before it ended; `none` when there is a
gap or an overlap. -/
def contiguousFrom (start : Nat) : List (Nat × Nat) → Option Nat
  | [] => some start
  | (offset, num) :: rest =>
    if offset = start then contiguousFrom (start + num) rest else none

/-- The draw calls of `StartHBlank(line)` when the line counter is `v`
(GPU.cpp 967-993), in order. -/
def hblankDraws (line v : Nat) : List Ext :=
  if v < 192 then
    (if line < 192 then [Ext.DrawScanline 0 line, .DrawScanline 1 line] else []) ++
    (if line < 191 then [Ext.DrawSprites 0 (line + 1), .DrawSprites 1 (line + 1)] else [])
  else if v = 262 then [.DrawSprites 0 0, .DrawSprites 1 0]
  else []

/-- The draw calls of firing `n + 1` of the LCD channel in an undisturbed
frame: an even `n` runs `StartHBlank(n / 2)` on line `n / 2`. -/
def stepDraws (n : Nat) : List Ext :=
  if n % 2 = 0 then hblankDraws (n / 2) (n / 2) else []

/-- The draw calls of `StartFrame` and the first `n` firings of the LCD
channel in an undisturbed frame. -/
def frameDraws : Nat → List Ext
  | 0 => []
  | n + 1 => frameDraws n ++ stepDraws n

/-- The draw calls of the lines `0, ..., n - 1`: for each line `l` the two
calls `DrawScanline(l)` and then, below line 191, the two calls
`DrawSprites(l + 1)`. -/
def lineDraws : Nat → List Ext
  | 0 => []
  | l + 1 => lineDraws l ++ ([Ext.DrawScanline 0 l, .DrawScanline 1 l] ++
      (if l < 191 then [Ext.DrawSprites 0 (l + 1), .DrawSprites 1 (l + 1)] else []))

/-! ## Definitions used in the proofs -/

/-- What a completed block of map or unmap statements did to the tables: `f`
was applied to the masks of the windows in `occ`, the pointers of those
windows (where the table has pointers) were recomputed from the new mask, and
no other mask or pointer changed. -/
structure Effect (f : Nat → Nat) (occ : Dest → Nat → Prop) (s s' : MapState) : Prop where
  map : ∀ d W, occ d W → s'.VRAMMap d W = f (s.VRAMMap d W)
  map_other : ∀ d W, ¬ occ d W → s'.VRAMMap d W = s.VRAMMap d W
  ptr : ∀ d W, occ d W → d.hasPtr = true →
    GetUniqueBankPtr (s'.VRAMMap d W) ((W <<< 14) % 2 ^ 32) = .ok (s'.VRAMPtr d W)
  ptr_other : ∀ d W, ¬ (occ d W ∧ d.hasPtr = true) → s'.VRAMPtr d W = s.VRAMPtr d W
  inb : ∀ d W, occ d W → W < d.size

/-- The engine calls that a block touching the windows `occ` has to make. -/
def Notes (occ : Dest → Nat → Prop) (L : List Call) : Prop :=
  (∀ W, occ .ABGExtPal W → Call.BGExtPalDirty 0 (W - W % 2) ∈ L) ∧
  (∀ W, occ .BBGExtPal W → Call.BGExtPalDirty 1 (W - W % 2) ∈ L) ∧
  (∀ W, occ .AOBJExtPal W → Call.OBJExtPalDirty 0 ∈ L) ∧
  (∀ W, occ .BOBJExtPal W → Call.OBJExtPalDirty 1 ∈ L)

/-- Effect of a block on tables and engine calls. -/
structure Phase (f : Nat → Nat) (occ : Dest → Nat → Prop) (s s' : MapState) : Prop where
  cnt : s'.VRAMCNT = s.VRAMCNT
  eff : Effect f occ s s'
  notes : ∃ L, s'.calls = s.calls ++ L ∧ Notes occ L

/-- A sequence of statements `VRAMMap_d[w] = f (VRAMMap_d[w])`, one for each
`w` of `ws`. -/
def modSeq (f : Nat → Nat) (d : Dest) (ws : List Nat) (x : Except Fault MapState) :
    Except Fault MapState :=
  ws.foldl (fun acc w => acc >>= modMap f d w) x

/-- A sequence of statements `VRAMPtr_d[w] = GetUniqueBankPtr(..)`, one for
each `w` of `ws`. -/
def updSeq (d : Dest) (ws : List Nat) (x : Except Fault MapState) : Except Fault MapState :=
  ws.foldl (fun acc w => acc >>= updPtr d w) x

/-- What a completed bank-control write did. -/
structure WriteSpec (bank cnt : Nat) (s s' : MapState) : Prop where
  bank_lt : bank < 9
  cnt_eq : ∀ b, s'.VRAMCNT b = if b = bank then cnt % 256 else s.VRAMCNT b
  same : s.VRAMCNT bank = cnt % 256 →
    s'.VRAMMap = s.VRAMMap ∧ s'.VRAMPtr = s.VRAMPtr ∧ s'.calls = s.calls
  changed : s.VRAMCNT bank ≠ cnt % 256 → ∃ s1 s2,
    s1.VRAMMap = s.VRAMMap ∧ s1.VRAMPtr = s.VRAMPtr ∧ s1.calls = s.calls ∧
    Phase (fun v => v &&& not32 (bankBit bank)) (selected bank (s.VRAMCNT bank)) s1 s2 ∧
    Phase (fun v => v ||| bankBit bank) (selected bank (cnt % 256)) s2 s'

/-- The mask-table invariant: bit `b` of the mask of window `W` of table `d`
is set exactly when `b` is a bank whose control byte selects that window. -/
def MaskInv (s : MapState) : Prop :=
  ∀ d W b, (s.VRAMMap d W).testBit b = true ↔ b < 9 ∧ selected b (s.VRAMCNT b) d W

/-- Every window selected by a stored control byte is inside its table. -/
def TableInv (s : MapState) : Prop :=
  ∀ b d W, b < 9 → selected b (s.VRAMCNT b) d W → W < d.size

/-- The direct-pointer invariant. -/
def PtrInv (s : MapState) : Prop :=
  ∀ d W, d.hasPtr = true → W < d.size →
    GetUniqueBankPtr (s.VRAMMap d W) ((W <<< 14) % 2 ^ 32) = .ok (s.VRAMPtr d W)

/-- Every mask holds banks 0..8 only. -/
def Good (s : MapState) : Prop := ∀ d W, s.VRAMMap d W < 2 ^ 9

/-- The statement sequence `m` completes from every state with masks over
banks 0..8, and leaves such a state. -/
def Defined (m : MapState → Except Fault MapState) : Prop :=
  ∀ s, Good s → ∃ s', m s = .ok s' ∧ Good s'

/-- Stored control bytes are bytes, and only the nine banks have one. -/
def CntInv (s : MapState) : Prop :=
  ∀ b, s.VRAMCNT b < 256 ∧ (9 ≤ b → s.VRAMCNT b = 0)

/-- The iterator points at a set bit of the field `orig`, and its
`RemainingBits` are the higher bits of the same word. -/
structure AtBit (orig : Nat → Nat) (len : Nat) (it : Iterator) : Prop where
  word : it.DataIdx < len
  idx : it.Idx < 64
  set : (orig it.DataIdx).testBit it.Idx = true
  rem : ∀ b, it.RemainingBits.testBit b
    = ((orig it.DataIdx).testBit b && decide (it.Idx + 1 ≤ b))

/-- Position of an iterator: the index of the bit it points at, or the size
of the field when it is `End()`. -/
def Iterator.pos (len : Nat) (it : Iterator) : Nat :=
  if it.DataIdx < len then it.deref else 64 * len

/-- No bit of `orig` is set in the positions `lo .. hi - 1`. -/
def NoBits (orig : Nat → Nat) (lo hi : Nat) : Prop :=
  ∀ j, lo ≤ j → j < hi → getBit orig j = false

/-- The value of `VRAMMask[b]` for a bank `b`, and 0 for other numbers. -/
def maskOf (b : Nat) : Nat :=
  match VRAMMask b with
  | .ok m => m
  | .error _ => 0

/-- Loop invariant of `SyncDirtyFlags`: the written bits below the iterator
are cleared and have been fanned out, the others are as they were. -/
structure SyncInv (M : Nat → Nat) (len : Nat) (Wr0 : Nat → Nat) (D0 : Nat → Nat → Nat)
    (it : Iterator) (st : SyncState) : Prop where
  it_ok : it.DataIdx = len ∨ AtBit Wr0 len it
  wr_lt : ∀ w, st.writtenFlags w < 2 ^ 64
  wr_after : ∀ w, it.DataIdx < w → st.writtenFlags w = Wr0 w
  wr_bits : ∀ j, getBit st.writtenFlags j = (getBit Wr0 j && decide (it.pos len ≤ j ∨ 64 * len ≤ j))
  dirty : ∀ b t, getBit (st.VRAMDirty b) t = true ↔
    getBit (D0 b) t = true ∨ ∃ j, j < it.pos len ∧ getBit Wr0 j = true ∧
      (M (j / 32)).testBit b = true ∧ t = j &&& (maskOf b / 512)

/-- The dirty bit of bank `b` that unit `t` of a destination is read from:
`t & (VRAMMask[b] / 512)` with 16 KiB windows, the unit's offset `t % 256`
in its window with 128 KiB windows. -/
def dirtyIdx (MappingGranularity b t : Nat) : Nat :=
  if MappingGranularity = 16 * 1024 then t &&& (maskOf b / 512) else t % 256

/-- Loop invariant of the window loop of `DeriveState` before window `i`;
`cur` is the table `currentMappings` points to and `st` the state at the
call. -/
structure DeriveInv (G : Nat) (cur : Nat → Nat) (st : TrackState) (i : Nat)
    (loc : DeriveLocals) : Prop where
  mapping : ∀ w, loc.Mapping w = if w < i then cur w else st.Mapping w
  banks_lt : loc.banksToBeZeroed < 2 ^ 16
  banks : ∀ b, loc.banksToBeZeroed.testBit b = true ↔ ∃ w, w < i ∧ (cur w).testBit b = true
  result : ∀ t, getBit loc.result t = true ↔
    t / (G / 512) < i ∧ (cur (t / (G / 512)) ≠ st.Mapping (t / (G / 512)) ∨
      ∃ b, (cur (t / (G / 512))).testBit b = true ∧
        getBit (st.VRAMDirty b) (dirtyIdx G b t) = true)

/-- Loop invariant of the iteration: the values collected so far are the set
bits below the iterator, in increasing order. -/
structure IterInv (orig : Nat → Nat) (len : Nat) (it : Iterator) (cur : Nat → Nat)
    (acc : List Nat) : Prop where
  it_ok : it.DataIdx = len ∨ AtBit orig len it
  cur_after : ∀ w, it.DataIdx < w → cur w = orig w
  sorted : List.Pairwise (fun a b => a < b) acc
  mem : ∀ j, j ∈ acc ↔ j < it.pos len ∧ getBit orig j = true

/-- The state `s'` differs from `s` at most in the HBlank and VCount-match
flags (bits 1 and 2 of the `DispStat` registers), in the display-FIFO
channel, in `RunFIFO` and by calls other than a VBlank interrupt. -/
structure Keeps (s s' : LCDState) : Prop where
  VCount : s'.VCount = s.VCount
  NextVCount : s'.NextVCount = s.NextVCount
  TotalScanlines : s'.TotalScanlines = s.TotalScanlines
  VMatch : s'.VMatch = s.VMatch
  lcd : s'.events .LCD = s.events .LCD
  fifo : FIFOChannelOk s → FIFOChannelOk s'
  bits : ∀ c i, i < 16 → i ≠ 1 → i ≠ 2 →
    (s'.DispStat c).testBit i = (s.DispStat c).testBit i
  calls : ∃ L, s'.calls = s.calls ++ L ∧ ∀ c, Ext.SetIRQ c .VBlank ∉ L

/-- Like `Keeps`, with the VBlank flag (bit 0) allowed to change when `z`
holds, and with `n cpu` VBlank interrupts raised for each cpu. -/
structure LCDStep (z : Bool) (n : Nat → Nat) (s s' : LCDState) : Prop where
  VCount : s'.VCount = s.VCount
  NextVCount : s'.NextVCount = s.NextVCount
  TotalScanlines : s'.TotalScanlines = s.TotalScanlines
  VMatch : s'.VMatch = s.VMatch
  lcd : s'.events .LCD = s.events .LCD
  fifo : FIFOChannelOk s → FIFOChannelOk s'
  bits : ∀ c i, i < 16 → i ≠ 1 → i ≠ 2 → (z = true → i ≠ 0) →
    (s'.DispStat c).testBit i = (s.DispStat c).testBit i
  calls : ∃ L, s'.calls = s.calls ++ L ∧ ∀ c, L.count (Ext.SetIRQ c .VBlank) = n c

/-- What `StartScanline(line)` does to the state `s` when `v` is the line
counter it computes. -/
structure ScanlineEffect (line v : Nat) (s s' : LCDState) : Prop where
  VCount : s'.VCount = v
  NextVCount : s'.NextVCount = 0xFFFFFFFF
  TotalScanlines : s'.TotalScanlines = s.TotalScanlines
  VMatch : s'.VMatch = s.VMatch
  lcd : s'.events .LCD = some (.StartHBlank, line)
  fifo : FIFOChannelOk s → FIFOChannelOk s'
  bits : ∀ c i, i < 16 → i ≠ 0 → i ≠ 1 → i ≠ 2 →
    (s'.DispStat c).testBit i = (s.DispStat c).testBit i
  bit0 : ∀ c, c < 2 → (s'.DispStat c).testBit 0 =
    if v = 262 then false else if v = 192 then true else (s.DispStat c).testBit 0
  calls : ∃ L, s'.calls = s.calls ++ L ∧ ∀ c, L.count (Ext.SetIRQ c .VBlank) =
    if v = 192 ∧ c < 2 ∧ (s.DispStat c).testBit 3 = true then 1 else 0

/-- What `StartHBlank(line)` does to the state `s`. -/
structure HBlankEffect (line : Nat) (s s' : LCDState) : Prop where
  VCount : s'.VCount = s.VCount
  NextVCount : s'.NextVCount = s.NextVCount
  TotalScanlines : s'.TotalScanlines = s.TotalScanlines
  VMatch : s'.VMatch = s.VMatch
  lcd : s'.events .LCD =
    some (if s.VCount < 262 then .StartScanline else .FinishFrame, (line + 1) % 2 ^ 32)
  fifo : FIFOChannelOk s → FIFOChannelOk s'
  bits : ∀ c i, i < 16 → i ≠ 1 → i ≠ 2 →
    (s'.DispStat c).testBit i = (s.DispStat c).testBit i
  calls : ∃ L, s'.calls = s.calls ++ L ∧ ∀ c, Ext.SetIRQ c .VBlank ∉ L

/-- Invariant of an undisturbed frame after `StartFrame` and `n ≤ 526`
firings of the LCD channel; `s0` is the state `StartFrame` was called in.
Firing `2 * l` ends `StartScanline(l)`, firing `2 * l + 1` ends
`StartHBlank(l)`, and firing 526 ends `FinishFrame(263)`. -/
structure FrameInv (s0 : LCDState) (n : Nat) (s : LCDState) : Prop where
  fifo : FIFOChannelOk s
  next : s.NextVCount = 0xFFFFFFFF
  vcount : s.VCount = if n < 526 then n / 2 else 262
  lcd : s.events .LCD =
    if n < 526 then
      (if n % 2 = 0 then some (.StartHBlank, n / 2)
       else if n < 525 then some (.StartScanline, n / 2 + 1)
       else some (.FinishFrame, 263))
    else none
  total : s.TotalScanlines = if n < 526 then 0 else 263
  bit3 : ∀ c, (s.DispStat c).testBit 3 = (s0.DispStat c).testBit 3
  bit0 : ∀ c, c < 2 → (s.DispStat c).testBit 0 =
    if n < 384 then (s0.DispStat c).testBit 0 else decide (n < 524)
  calls : ∃ L, s.calls = s0.calls ++ L ∧ ∀ c, L.count (Ext.SetIRQ c .VBlank) =
    if 384 ≤ n ∧ c < 2 ∧ (s0.DispStat c).testBit 3 = true then 1 else 0

/-- The state `s'` differs from `s` at most in the VBlank and HBlank flags
(bits 0 and 1 of the `DispStat` registers), in the fields other than
`VCount`, `VMatch` and `DispStat`, and by calls that are neither draw calls
nor VCount-match interrupts. -/
structure Quiet (s s' : LCDState) : Prop where
  VCount : s'.VCount = s.VCount
  VMatch : s'.VMatch = s.VMatch
  bits : ∀ c i, i < 16 → i ≠ 0 → i ≠ 1 →
    (s'.DispStat c).testBit i = (s.DispStat c).testBit i
  calls : ∃ L, s'.calls = s.calls ++ L ∧ ∀ c, c ∈ L → isDrawOrMatch c = false

/-- Invariant of the running scanline engine when every value written to
`VCount` is at most `limit`. -/
structure RunInv (limit : Nat) (s : LCDState) : Prop where
  fifo : FIFOChannelOk s
  vcount : s.VCount ≤ max 262 limit
  next : s.NextVCount = 0xFFFFFFFF ∨ s.NextVCount ≤ limit
  pending : ∀ a, s.events .LCD = some (.StartScanline, a) → s.VCount < 262

/-- The draw calls made between `s` and `s'` are `X`. -/
structure Draws (X : List Ext) (s s' : LCDState) : Prop where
  calls : ∃ L, s'.calls = s.calls ++ L ∧ L.filter isDraw = X

/-! # Theorems -/

/-! ## Effect of the map and unmap blocks -/

theorem bind_eq_ok {α β : Type} (x : Except Fault α) (f : α → Except Fault β) (b : β) :
    (x >>= f) = .ok b ↔ ∃ a, x = .ok a ∧ f a = .ok b := by
  cases x <;> simp [bind, Except.bind]

theorem pure_eq_ok {α : Type} (a b : α) : (pure a : Except Fault α) = .ok b ↔ a = b := by
  simp [pure, Except.pure]

theorem modMap_eq_ok {f : Nat → Nat} {d : Dest} {i : Nat} {s s' : MapState} :
    modMap f d i s = .ok s' ↔ i < d.size ∧
      s' = { s with VRAMMap := fun d' j => if d' = d ∧ j = i then f (s.VRAMMap d i) else s.VRAMMap d' j } := by
  unfold modMap
  split <;> simp [*, eq_comm]

theorem updPtr_eq_ok {d : Dest} {i : Nat} {s s' : MapState} :
    updPtr d i s = .ok s' ↔ i < d.size ∧ ∃ p,
      GetUniqueBankPtr (s.VRAMMap d i) ((i <<< 14) % 2 ^ 32) = .ok p ∧
      s' = { s with VRAMPtr := fun d' j => if d' = d ∧ j = i then p else s.VRAMPtr d' j } := by
  unfold updPtr
  split
  · cases hg : GetUniqueBankPtr (s.VRAMMap d i) ((i <<< 14) % 2 ^ 32) with
    | ok p => simp [*, eq_comm]
    | error e => simp [*]
  · simp [*]

theorem notify_eq_ok {c : Call} {s s' : MapState} :
    notify c s = .ok s' ↔ s' = { s with calls := s.calls ++ [c] } := by
  simp [notify, eq_comm]

theorem forLoop_succ_eq_ok {σ : Type} (body : Nat → σ → Except Fault σ) (n : Nat) (s s' : σ) :
    forLoop body (n + 1) s = .ok s' ↔ ∃ s1, forLoop body n s = .ok s1 ∧ body n s1 = .ok s' := by
  simp only [forLoop, bind_eq_ok]

theorem Effect.congr {f : Nat → Nat} {occ occ' : Dest → Nat → Prop} {s s' : MapState}
    (h : ∀ d W, occ d W ↔ occ' d W) (e : Effect f occ s s') : Effect f occ' s s' := by
  have : occ = occ' := by funext d W; exact propext (h d W)
  subst this; exact e

theorem Effect.refl (f : Nat → Nat) (occ : Dest → Nat → Prop) (s : MapState)
    (h : ∀ d W, ¬ occ d W) : Effect f occ s s := by
  constructor <;> intros <;> first | rfl | (exfalso; exact h _ _ ‹_›)

/-- An effect only speaks of the mask and pointer tables. -/
theorem Effect.of_eq {f : Nat → Nat} {occ : Dest → Nat → Prop} {s t s' t' : MapState}
    (e : Effect f occ s s') (h1 : t.VRAMMap = s.VRAMMap) (h2 : t.VRAMPtr = s.VRAMPtr)
    (h3 : t'.VRAMMap = s'.VRAMMap) (h4 : t'.VRAMPtr = s'.VRAMPtr) : Effect f occ t t' := by
  constructor
  · intro d W h; rw [h1, h3]; exact e.map d W h
  · intro d W h; rw [h1, h3]; exact e.map_other d W h
  · intro d W h hp; rw [h3, h4]; exact e.ptr d W h hp
  · intro d W h; rw [h2, h4]; exact e.ptr_other d W h
  · exact e.inb

/-- Effect of the loop of `MAP_RANGE_PTR` / `UNMAP_RANGE_PTR`. -/
theorem rangePtr_effect (f : Nat → Nat) (d : Dest) (hd : d.hasPtr = true) (base n : Nat) (s s' : MapState)
    (h : forLoop (fun i s => modMap f d (base + i) s >>= updPtr d (base + i)) n s = .ok s') :
    s'.VRAMCNT = s.VRAMCNT ∧ s'.calls = s.calls ∧
    Effect f (fun d' W => d' = d ∧ base ≤ W ∧ W < base + n) s s' := by
  induction n generalizing s' with
  | zero =>
    simp [forLoop] at h
    subst h
    refine ⟨rfl, rfl, ?_⟩
    constructor <;> intros <;> first | rfl | omega
  | succ n ih =>
    rw [forLoop_succ_eq_ok] at h
    obtain ⟨s1, h1, h2⟩ := h
    obtain ⟨hv, hc, he⟩ := ih s1 h1
    simp only [bind_eq_ok, modMap_eq_ok, updPtr_eq_ok] at h2
    obtain ⟨s2, ⟨hb, rfl⟩, -, p, hp, rfl⟩ := h2
    refine ⟨hv, hc, ?_⟩
    constructor
    · rintro d' W ⟨rfl, h1, h2⟩
      by_cases hW : W = base + n
      · subst hW
        simp only [and_self, if_true]
        rw [he.map_other _ _ (by omega)]
      · simp only [hW, and_false, if_false]
        exact he.map _ _ ⟨rfl, h1, by omega⟩
    · intro d' W hocc
      have hW : ¬ (d' = d ∧ W = base + n) := by
        rintro ⟨rfl, rfl⟩; exact hocc ⟨rfl, by omega, by omega⟩
      simp only [hW, if_false]
      exact he.map_other _ _ (fun hh => hocc ⟨hh.1, hh.2.1, by omega⟩)
    · rintro d' W ⟨rfl, h1, h2⟩ -
      by_cases hW : W = base + n
      · subst hW
        simpa using hp
      · simp only [hW, and_false, if_false]
        exact he.ptr _ _ ⟨rfl, h1, by omega⟩ hd
    · intro d' W hocc
      have hW : ¬ (d' = d ∧ W = base + n) := by
        rintro ⟨rfl, rfl⟩; exact hocc ⟨⟨rfl, by omega, by omega⟩, hd⟩
      simp only [hW, if_false]
      exact he.ptr_other _ _ (fun hh => hocc ⟨⟨hh.1.1, hh.1.2.1, by omega⟩, hh.2⟩)
    · rintro d' W ⟨rfl, h1, h2⟩
      by_cases hW : W = base + n
      · omega
      · exact he.inb _ _ ⟨rfl, h1, by omega⟩

/-- What a sequence of mask statements on distinct windows does. -/
theorem modSeq_eq_ok (f : Nat → Nat) (d : Dest) (ws : List Nat) (hn : ws.Nodup)
    (x : Except Fault MapState) (s' : MapState) (h : modSeq f d ws x = .ok s') :
    ∃ s, x = .ok s ∧ (∀ W ∈ ws, W < d.size) ∧ s'.VRAMCNT = s.VRAMCNT ∧
      s'.VRAMPtr = s.VRAMPtr ∧ s'.calls = s.calls ∧
      ∀ d' W, s'.VRAMMap d' W = if d' = d ∧ W ∈ ws then f (s.VRAMMap d' W) else s.VRAMMap d' W := by
  induction ws generalizing x with
  | nil => exact ⟨s', h, by simp, rfl, rfl, rfl, by simp⟩
  | cons w ws ih =>
    simp only [modSeq, List.foldl_cons] at h
    obtain ⟨s1, h1, hb, hv, hp, hc, hm⟩ := ih (List.nodup_cons.mp hn).2 _ h
    rw [bind_eq_ok] at h1
    obtain ⟨s, hx, h1⟩ := h1
    rw [modMap_eq_ok] at h1
    obtain ⟨hw, rfl⟩ := h1
    refine ⟨s, hx, ?_, hv, hp, hc, ?_⟩
    · intro W hW
      rcases List.mem_cons.mp hW with rfl | hW
      · exact hw
      · exact hb W hW
    · intro d' W
      rw [hm]
      have hnot : w ∉ ws := (List.nodup_cons.mp hn).1
      by_cases hd : d' = d
      · subst hd
        by_cases hW : W = w
        · subst hW
          simp [hnot]
        · simp [hW]
      · simp [hd]

/-- What a sequence of pointer statements does. -/
theorem updSeq_eq_ok (d : Dest) (ws : List Nat)
    (x : Except Fault MapState) (s' : MapState) (h : updSeq d ws x = .ok s') :
    ∃ s, x = .ok s ∧ s'.VRAMCNT = s.VRAMCNT ∧ s'.VRAMMap = s.VRAMMap ∧ s'.calls = s.calls ∧
      (∀ W ∈ ws, W < d.size) ∧
      (∀ W ∈ ws, GetUniqueBankPtr (s.VRAMMap d W) ((W <<< 14) % 2 ^ 32) = .ok (s'.VRAMPtr d W)) ∧
      (∀ d' W, ¬ (d' = d ∧ W ∈ ws) → s'.VRAMPtr d' W = s.VRAMPtr d' W) := by
  induction ws generalizing x with
  | nil => exact ⟨s', h, rfl, rfl, rfl, by simp, by simp, by simp⟩
  | cons w ws ih =>
    simp only [updSeq, List.foldl_cons] at h
    obtain ⟨s1, h1, hv, hm, hc, hin, hp, hq⟩ := ih _ h
    rw [bind_eq_ok] at h1
    obtain ⟨s, hx, h1⟩ := h1
    rw [updPtr_eq_ok] at h1
    obtain ⟨hw, p, hg, rfl⟩ := h1
    refine ⟨s, hx, hv, hm, hc, ?_, ?_, ?_⟩
    · intro W hW
      rcases List.mem_cons.mp hW with rfl | hW
      · exact hw
      · exact hin W hW
    · intro W hW
      by_cases hin : W ∈ ws
      · exact hp W hin
      · rcases List.mem_cons.mp hW with rfl | hW
        · rw [hq d W (by tauto)]
          simpa using hg
        · exact absurd hW hin
    · intro d' W hW
      rw [hq d' W (fun hh => hW ⟨hh.1, List.mem_cons_of_mem _ hh.2⟩)]
      have : ¬ (d' = d ∧ W = w) := fun hh => hW ⟨hh.1, by simp [hh.2]⟩
      simp [this]

/-- Effect of mask statements on a table without pointers. -/
theorem modSeq_effect (f : Nat → Nat) (d : Dest) (hd : d.hasPtr = false) (ws : List Nat)
    (hn : ws.Nodup) (s s' : MapState) (h : modSeq f d ws (.ok s) = .ok s') :
    s'.VRAMCNT = s.VRAMCNT ∧ s'.calls = s.calls ∧
      Effect f (fun d' W => d' = d ∧ W ∈ ws) s s' := by
  obtain ⟨s0, hx, hb, hv, hp, hc, hm⟩ := modSeq_eq_ok f d ws hn _ _ h
  cases hx
  refine ⟨hv, hc, ?_⟩
  constructor
  · intro d' W hocc; rw [hm, if_pos hocc]
  · intro d' W hocc; rw [hm, if_neg hocc]
  · rintro d' W ⟨rfl, -⟩ hh; rw [hd] at hh; cases hh
  · intro d' W _; rw [hp]
  · rintro d' W ⟨rfl, hW⟩; exact hb W hW

/-- Effect of mask statements followed by the pointer statements of the same
windows. -/
theorem modUpdSeq_effect (f : Nat → Nat) (d : Dest) (hd : d.hasPtr = true) (ws : List Nat)
    (hn : ws.Nodup) (s s' : MapState) (h : updSeq d ws (modSeq f d ws (.ok s)) = .ok s') :
    s'.VRAMCNT = s.VRAMCNT ∧ s'.calls = s.calls ∧
      Effect f (fun d' W => d' = d ∧ W ∈ ws) s s' := by
  obtain ⟨s1, hx1, hv1, hm1, hc1, -, hp1, hq1⟩ := updSeq_eq_ok d ws _ _ h
  obtain ⟨s0, hx, hb, hv, hp, hc, hm⟩ := modSeq_eq_ok f d ws hn _ _ hx1
  cases hx
  refine ⟨hv1.trans hv, hc1.trans hc, ?_⟩
  constructor
  · intro d' W hocc; rw [hm1, hm, if_pos hocc]
  · intro d' W hocc; rw [hm1, hm, if_neg hocc]
  · rintro d' W ⟨rfl, hW⟩ -; rw [hm1]; exact hp1 W hW
  · intro d' W hocc; rw [hq1 d' W (fun hh => hocc ⟨hh, hh.1 ▸ hd⟩), hp]
  · rintro d' W ⟨rfl, hW⟩; exact hb W hW

theorem Notes.nil (occ : Dest → Nat → Prop)
    (h : ∀ W, ¬ occ .ABGExtPal W ∧ ¬ occ .BBGExtPal W ∧ ¬ occ .AOBJExtPal W ∧ ¬ occ .BOBJExtPal W) :
    Notes occ [] :=
  ⟨fun W hW => absurd hW (h W).1, fun W hW => absurd hW (h W).2.1,
   fun W hW => absurd hW (h W).2.2.1, fun W hW => absurd hW (h W).2.2.2⟩

theorem Phase.of_empty (f : Nat → Nat) (occ : Dest → Nat → Prop) (s : MapState)
    (h : ∀ d W, ¬ occ d W) : Phase f occ s s :=
  ⟨rfl, Effect.refl f occ s h, [], by simp, Notes.nil occ (fun W => ⟨h _ W, h _ W, h _ W, h _ W⟩)⟩

theorem phase_modSeq {f : Nat → Nat} {occ : Dest → Nat → Prop} {s s' : MapState}
    (d : Dest) (ws : List Nat) (s1 : MapState) (L : List Call)
    (hd : d.hasPtr = false) (hn : ws.Nodup) (h : modSeq f d ws (.ok s) = .ok s1)
    (hv : s'.VRAMCNT = s1.VRAMCNT)
    (hm : s'.VRAMMap = s1.VRAMMap) (hp : s'.VRAMPtr = s1.VRAMPtr) (hc : s'.calls = s1.calls ++ L)
    (hocc : ∀ d' W, (d' = d ∧ W ∈ ws) ↔ occ d' W) (hN : Notes occ L) : Phase f occ s s' := by
  obtain ⟨hv1, hc1, he⟩ := modSeq_effect f d hd ws hn s s1 h
  exact ⟨hv.trans hv1, (he.congr hocc).of_eq rfl rfl hm hp, L, by rw [hc, hc1], hN⟩

theorem phase_modUpdSeq {f : Nat → Nat} {occ : Dest → Nat → Prop} {s s' : MapState}
    (d : Dest) (ws : List Nat)
    (hd : d.hasPtr = true) (hn : ws.Nodup) (h : updSeq d ws (modSeq f d ws (.ok s)) = .ok s')
    (hocc : ∀ d' W, (d' = d ∧ W ∈ ws) ↔ occ d' W) : Phase f occ s s' := by
  obtain ⟨hv1, hc1, he⟩ := modUpdSeq_effect f d hd ws hn s s' h
  refine ⟨hv1, he.congr hocc, [], by simp [hc1], Notes.nil occ ?_⟩
  intro W
  simp only [← hocc]
  cases d <;> simp [Dest.hasPtr] at hd <;> simp

theorem phase_rangePtr {f : Nat → Nat} {occ : Dest → Nat → Prop} {s s' : MapState}
    (d : Dest) (base n : Nat) (hd : d.hasPtr = true)
    (h : forLoop (fun i s => modMap f d (base + i) s >>= updPtr d (base + i)) n s = .ok s')
    (hocc : ∀ d' W, (d' = d ∧ base ≤ W ∧ W < base + n) ↔ occ d' W) : Phase f occ s s' := by
  obtain ⟨hv1, hc1, he⟩ := rangePtr_effect f d hd base n s s' h
  refine ⟨hv1, he.congr hocc, [], by simp [hc1], Notes.nil occ ?_⟩
  intro W
  simp only [← hocc]
  cases d <;> simp [Dest.hasPtr] at hd <;> simp

/-- Effect of the unmap block of `MapVRAM_AB`. -/
theorem MapVRAM_AB_unmap_phase (bank cnt : Nat) (s s' : MapState)
    (h : MapVRAM_AB_unmap bank cnt s = .ok s') :
    Phase (fun v => v &&& not32 (bankBit bank))
      (fun d W => cnt &&& 0x80 ≠ 0 ∧ selAB cnt d W) s s' := by
  unfold MapVRAM_AB_unmap at h
  simp only [] at h
  split at h
  · rename_i h7
    replace h7 : cnt &&& 0x80 ≠ 0 := h7
    split at h
    · rename_i hm
      exact phase_modSeq .LCDC [0] s' [] rfl (by simp) h rfl rfl rfl (by simp)
        (by intro d W; simp [selAB, baseFG, hm, h7]) (by simp [Notes, selAB, hm])
    · rename_i hm
      exact phase_rangePtr .ABG _ 8 rfl h (by intro d W; simp [selAB, hm, h7])
    · rename_i hm
      exact phase_rangePtr .AOBJ _ 8 rfl h (by intro d W; simp [selAB, hm, h7])
    · rename_i hm
      exact phase_modSeq .Texture [(cnt >>> 3) &&& 0x3] s' [] rfl (by simp) h rfl rfl rfl (by simp)
        (by intro d W; simp [selAB, baseFG, hm, h7]) (by simp [Notes, selAB, hm])
    · cases h
      apply Phase.of_empty
      intro d W
      unfold selAB
      tauto
  · rename_i h7
    replace h7 : cnt &&& 0x80 = 0 := by simpa using h7
    cases h
    apply Phase.of_empty
    intro d W
    simp [h7]

/-- Effect of the map block of `MapVRAM_AB`. -/
theorem MapVRAM_AB_map_phase (bank cnt : Nat) (s s' : MapState)
    (h : MapVRAM_AB_map bank cnt s = .ok s') :
    Phase (fun v => v ||| bankBit bank)
      (fun d W => cnt &&& 0x80 ≠ 0 ∧ selAB cnt d W) s s' := by
  unfold MapVRAM_AB_map at h
  simp only [] at h
  split at h
  · rename_i h7
    replace h7 : cnt &&& 0x80 ≠ 0 := h7
    split at h
    · rename_i hm
      exact phase_modSeq .LCDC [0] s' [] rfl (by simp) h rfl rfl rfl (by simp)
        (by intro d W; simp [selAB, baseFG, hm, h7]) (by simp [Notes, selAB, hm])
    · rename_i hm
      exact phase_rangePtr .ABG _ 8 rfl h (by intro d W; simp [selAB, hm, h7])
    · rename_i hm
      exact phase_rangePtr .AOBJ _ 8 rfl h (by intro d W; simp [selAB, hm, h7])
    · rename_i hm
      exact phase_modSeq .Texture [(cnt >>> 3) &&& 0x3] s' [] rfl (by simp) h rfl rfl rfl (by simp)
        (by intro d W; simp [selAB, baseFG, hm, h7]) (by simp [Notes, selAB, hm])
    · cases h
      apply Phase.of_empty
      intro d W
      unfold selAB
      tauto
  · rename_i h7
    replace h7 : cnt &&& 0x80 = 0 := by simpa using h7
    cases h
    apply Phase.of_empty
    intro d W
    simp [h7]

/-- Effect of the unmap block of `MapVRAM_CD`. -/
theorem MapVRAM_CD_unmap_phase (bank cnt : Nat) (s s' : MapState)
    (h : MapVRAM_CD_unmap bank cnt s = .ok s') :
    Phase (fun v => v &&& not32 (bankBit bank))
      (fun d W => cnt &&& 0x80 ≠ 0 ∧ selCD bank cnt d W) s s' := by
  unfold MapVRAM_CD_unmap at h
  simp only [] at h
  split at h
  · rename_i h7
    replace h7 : cnt &&& 0x80 ≠ 0 := h7
    split at h
    · rename_i hm
      exact phase_modSeq .LCDC [0] s' [] rfl (by simp) h rfl rfl rfl (by simp)
        (by intro d W; simp [selCD, baseFG, hm, h7]) (by simp [Notes, selCD, hm])
    · rename_i hm
      exact phase_rangePtr .ABG _ 8 rfl h (by intro d W; simp [selCD, hm, h7])
    · rename_i hm
      exact phase_modSeq .ARM7 [((cnt >>> 3) &&& 0x7) &&& 0x1] s' [] rfl (by simp) h rfl rfl rfl (by simp)
        (by intro d W; simp [selCD, baseFG, hm, h7]) (by simp [Notes, selCD, hm])
    · rename_i hm
      exact phase_modSeq .Texture [(cnt >>> 3) &&& 0x7] s' [] rfl (by simp) h rfl rfl rfl (by simp)
        (by intro d W; simp [selCD, baseFG, hm, h7]) (by simp [Notes, selCD, hm])
    · rename_i hm
      split at h
      · rename_i hb
        exact phase_rangePtr .BBG _ 8 rfl h (by intro d W; simp [selCD, hm, h7, hb])
      · rename_i hb
        exact phase_rangePtr .BOBJ _ 8 rfl h (by intro d W; simp [selCD, hm, h7, hb])
    · cases h
      apply Phase.of_empty
      intro d W
      unfold selCD
      tauto
  · rename_i h7
    replace h7 : cnt &&& 0x80 = 0 := by simpa using h7
    cases h
    apply Phase.of_empty
    intro d W
    simp [h7]

/-- Effect of the map block of `MapVRAM_CD`. -/
theorem MapVRAM_CD_map_phase (bank cnt : Nat) (s s' : MapState)
    (h : MapVRAM_CD_map bank cnt s = .ok s') :
    Phase (fun v => v ||| bankBit bank)
      (fun d W => cnt &&& 0x80 ≠ 0 ∧ selCD bank cnt d W) s s' := by
  unfold MapVRAM_CD_map at h
  simp only [] at h
  split at h
  · rename_i h7
    replace h7 : cnt &&& 0x80 ≠ 0 := h7
    split at h
    · rename_i hm
      exact phase_modSeq .LCDC [0] s' [] rfl (by simp) h rfl rfl rfl (by simp)
        (by intro d W; simp [selCD, baseFG, hm, h7]) (by simp [Notes, selCD, hm])
    · rename_i hm
      exact phase_rangePtr .ABG _ 8 rfl h (by intro d W; simp [selCD, hm, h7])
    · rename_i hm
      simp only [bind_eq_ok, setStat] at h
      obtain ⟨s2, h1, h2⟩ := h
      cases h2
      exact phase_modSeq .ARM7 [((cnt >>> 3) &&& 0x7) &&& 0x1] s2 [] rfl (by simp) h1 rfl rfl rfl (by simp)
        (by intro d W; simp [selCD, hm, h7]) (by simp [Notes, selCD, hm])
    · rename_i hm
      exact phase_modSeq .Texture [(cnt >>> 3) &&& 0x7] s' [] rfl (by simp) h rfl rfl rfl (by simp)
        (by intro d W; simp [selCD, baseFG, hm, h7]) (by simp [Notes, selCD, hm])
    · rename_i hm
      split at h
      · rename_i hb
        exact phase_rangePtr .BBG _ 8 rfl h (by intro d W; simp [selCD, hm, h7, hb])
      · rename_i hb
        exact phase_rangePtr .BOBJ _ 8 rfl h (by intro d W; simp [selCD, hm, h7, hb])
    · cases h
      apply Phase.of_empty
      intro d W
      unfold selCD
      tauto
  · rename_i h7
    replace h7 : cnt &&& 0x80 = 0 := by simpa using h7
    cases h
    apply Phase.of_empty
    intro d W
    simp [h7]

/-- Effect of the unmap block of `MapVRAM_E`. -/
theorem MapVRAM_E_unmap_phase (bank cnt : Nat) (s s' : MapState)
    (h : MapVRAM_E_unmap bank cnt s = .ok s') :
    Phase (fun v => v &&& not32 (bankBit bank))
      (fun d W => cnt &&& 0x80 ≠ 0 ∧ selE cnt d W) s s' := by
  unfold MapVRAM_E_unmap at h
  simp only [] at h
  split at h
  · rename_i h7
    replace h7 : cnt &&& 0x80 ≠ 0 := h7
    split at h
    · rename_i hm
      exact phase_modSeq .LCDC [0] s' [] rfl (by simp) h rfl rfl rfl (by simp)
        (by intro d W; simp [selE, baseFG, hm, h7]) (by simp [Notes, selE, hm])
    · rename_i hm
      exact phase_rangePtr .ABG _ 4 rfl h (by intro d W; simp [selE, hm, h7])
    · rename_i hm
      exact phase_rangePtr .AOBJ _ 4 rfl h (by intro d W; simp [selE, hm, h7])
    · rename_i hm
      exact phase_modSeq .TexPal (List.range 4) s' [] rfl (List.nodup_range 4) h rfl rfl rfl (by simp)
        (by intro d W; simp [selE, hm, h7]) (by simp [Notes, selE, hm])
    · rename_i hm
      simp only [bind_eq_ok, notify_eq_ok] at h
      obtain ⟨s2, ⟨s1, h1, rfl⟩, rfl⟩ := h
      refine phase_modSeq .ABGExtPal (List.range 4) s1 [.BGExtPalDirty 0 0, .BGExtPalDirty 0 2] rfl
        (List.nodup_range 4) h1 rfl rfl rfl (by simp)
        (by intro d W; simp [selE, hm, h7]) ?_
      simp only [Notes, selE, hm]
      refine ⟨?_, ?_, ?_, ?_⟩ <;> intro W hW <;> simp at hW ⊢
      obtain ⟨-, hW⟩ := hW
      interval_cases W <;> simp
    · cases h
      apply Phase.of_empty
      intro d W
      unfold selE
      tauto
  · rename_i h7
    replace h7 : cnt &&& 0x80 = 0 := by simpa using h7
    cases h
    apply Phase.of_empty
    intro d W
    simp [h7]

/-- Effect of the map block of `MapVRAM_E`. -/
theorem MapVRAM_E_map_phase (bank cnt : Nat) (s s' : MapState)
    (h : MapVRAM_E_map bank cnt s = .ok s') :
    Phase (fun v => v ||| bankBit bank)
      (fun d W => cnt &&& 0x80 ≠ 0 ∧ selE cnt d W) s s' := by
  unfold MapVRAM_E_map at h
  simp only [] at h
  split at h
  · rename_i h7
    replace h7 : cnt &&& 0x80 ≠ 0 := h7
    split at h
    · rename_i hm
      exact phase_modSeq .LCDC [0] s' [] rfl (by simp) h rfl rfl rfl (by simp)
        (by intro d W; simp [selE, baseFG, hm, h7]) (by simp [Notes, selE, hm])
    · rename_i hm
      exact phase_rangePtr .ABG _ 4 rfl h (by intro d W; simp [selE, hm, h7])
    · rename_i hm
      exact phase_rangePtr .AOBJ _ 4 rfl h (by intro d W; simp [selE, hm, h7])
    · rename_i hm
      exact phase_modSeq .TexPal (List.range 4) s' [] rfl (List.nodup_range 4) h rfl rfl rfl (by simp)
        (by intro d W; simp [selE, hm, h7]) (by simp [Notes, selE, hm])
    · rename_i hm
      simp only [bind_eq_ok, notify_eq_ok] at h
      obtain ⟨s2, ⟨s1, h1, rfl⟩, rfl⟩ := h
      refine phase_modSeq .ABGExtPal (List.range 4) s1 [.BGExtPalDirty 0 0, .BGExtPalDirty 0 2] rfl
        (List.nodup_range 4) h1 rfl rfl rfl (by simp)
        (by intro d W; simp [selE, hm, h7]) ?_
      simp only [Notes, selE, hm]
      refine ⟨?_, ?_, ?_, ?_⟩ <;> intro W hW <;> simp at hW ⊢
      obtain ⟨-, hW⟩ := hW
      interval_cases W <;> simp
    · cases h
      apply Phase.of_empty
      intro d W
      unfold selE
      tauto
  · rename_i h7
    replace h7 : cnt &&& 0x80 = 0 := by simpa using h7
    cases h
    apply Phase.of_empty
    intro d W
    simp [h7]

/-- Effect of the unmap block of `MapVRAM_FG`. -/
theorem MapVRAM_FG_unmap_phase (bank cnt : Nat) (s s' : MapState)
    (h : MapVRAM_FG_unmap bank cnt s = .ok s') :
    Phase (fun v => v &&& not32 (bankBit bank))
      (fun d W => cnt &&& 0x80 ≠ 0 ∧ selFG cnt d W) s s' := by
  unfold MapVRAM_FG_unmap at h
  simp only [] at h
  split at h
  · rename_i h7
    replace h7 : cnt &&& 0x80 ≠ 0 := h7
    split at h
    · rename_i hm
      exact phase_modSeq .LCDC [0] s' [] rfl (by simp) h rfl rfl rfl (by simp)
        (by intro d W; simp [selFG, baseFG, hm, h7]) (by simp [Notes, selFG, hm])
    · rename_i hm
      exact phase_modUpdSeq .ABG [((((cnt >>> 3) &&& 0x7) &&& 0x1) + ((((cnt >>> 3) &&& 0x7) &&& 0x2) <<< 1)), ((((cnt >>> 3) &&& 0x7) &&& 0x1) + ((((cnt >>> 3) &&& 0x7) &&& 0x2) <<< 1)) + 2] rfl (by simp) h
        (by intro d W; simp [selFG, baseFG, hm, h7])
    · rename_i hm
      exact phase_modUpdSeq .AOBJ [((((cnt >>> 3) &&& 0x7) &&& 0x1) + ((((cnt >>> 3) &&& 0x7) &&& 0x2) <<< 1)), ((((cnt >>> 3) &&& 0x7) &&& 0x1) + ((((cnt >>> 3) &&& 0x7) &&& 0x2) <<< 1)) + 2] rfl (by simp) h
        (by intro d W; simp [selFG, baseFG, hm, h7])
    · rename_i hm
      exact phase_modSeq .TexPal [((((cnt >>> 3) &&& 0x7) &&& 0x1) + ((((cnt >>> 3) &&& 0x7) &&& 0x2) <<< 1))] s' [] rfl (by simp) h rfl rfl rfl (by simp)
        (by intro d W; simp [selFG, baseFG, hm, h7]) (by simp [Notes, selFG, hm])
    · rename_i hm
      rw [bind_eq_ok] at h
      obtain ⟨s2, h1, h2⟩ := h
      rw [notify_eq_ok] at h2
      subst h2
      refine phase_modSeq .ABGExtPal [((((cnt >>> 3) &&& 0x7) &&& 0x1) <<< 1), ((((cnt >>> 3) &&& 0x7) &&& 0x1) <<< 1) + 1] s2 [.BGExtPalDirty 0 (((((cnt >>> 3) &&& 0x7) &&& 0x1) <<< 1))] rfl
        (by simp) h1 rfl rfl rfl (by simp)
        (by intro d W; simp [selFG, hm, h7]) ?_
      simp only [Notes, selFG, hm]
      refine ⟨?_, ?_, ?_, ?_⟩ <;> intro W hW <;> simp at hW ⊢
      obtain ⟨-, hW⟩ := hW
      generalize (cnt >>> 3 &&& 7) % 2 = k at hW ⊢
      rw [Nat.shiftLeft_eq] at hW ⊢
      omega
    · rename_i hm
      simp only [bind_eq_ok, notify_eq_ok] at h
      obtain ⟨s2, h1, rfl⟩ := h
      refine phase_modSeq .AOBJExtPal [0] s2 [.OBJExtPalDirty 0] rfl
        (by simp) h1 rfl rfl rfl (by simp)
        (by intro d W; simp [selFG, hm, h7]) ?_
      simp [Notes, selFG, hm]
    · cases h
      apply Phase.of_empty
      intro d W
      unfold selFG
      tauto
  · rename_i h7
    replace h7 : cnt &&& 0x80 = 0 := by simpa using h7
    cases h
    apply Phase.of_empty
    intro d W
    simp [h7]

/-- Effect of the map block of `MapVRAM_FG`. -/
theorem MapVRAM_FG_map_phase (bank cnt : Nat) (s s' : MapState)
    (h : MapVRAM_FG_map bank cnt s = .ok s') :
    Phase (fun v => v ||| bankBit bank)
      (fun d W => cnt &&& 0x80 ≠ 0 ∧ selFG cnt d W) s s' := by
  unfold MapVRAM_FG_map at h
  simp only [] at h
  split at h
  · rename_i h7
    replace h7 : cnt &&& 0x80 ≠ 0 := h7
    split at h
    · rename_i hm
      exact phase_modSeq .LCDC [0] s' [] rfl (by simp) h rfl rfl rfl (by simp)
        (by intro d W; simp [selFG, baseFG, hm, h7]) (by simp [Notes, selFG, hm])
    · rename_i hm
      exact phase_modUpdSeq .ABG [((((cnt >>> 3) &&& 0x7) &&& 0x1) + ((((cnt >>> 3) &&& 0x7) &&& 0x2) <<< 1)), ((((cnt >>> 3) &&& 0x7) &&& 0x1) + ((((cnt >>> 3) &&& 0x7) &&& 0x2) <<< 1)) + 2] rfl (by simp) h
        (by intro d W; simp [selFG, baseFG, hm, h7])
    · rename_i hm
      exact phase_modUpdSeq .AOBJ [((((cnt >>> 3) &&& 0x7) &&& 0x1) + ((((cnt >>> 3) &&& 0x7) &&& 0x2) <<< 1)), ((((cnt >>> 3) &&& 0x7) &&& 0x1) + ((((cnt >>> 3) &&& 0x7) &&& 0x2) <<< 1)) + 2] rfl (by simp) h
        (by intro d W; simp [selFG, baseFG, hm, h7])
    · rename_i hm
      exact phase_modSeq .TexPal [((((cnt >>> 3) &&& 0x7) &&& 0x1) + ((((cnt >>> 3) &&& 0x7) &&& 0x2) <<< 1))] s' [] rfl (by simp) h rfl rfl rfl (by simp)
        (by intro d W; simp [selFG, baseFG, hm, h7]) (by simp [Notes, selFG, hm])
    · rename_i hm
      rw [bind_eq_ok] at h
      obtain ⟨s2, h1, h2⟩ := h
      rw [notify_eq_ok] at h2
      subst h2
      refine phase_modSeq .ABGExtPal [((((cnt >>> 3) &&& 0x7) &&& 0x1) <<< 1), ((((cnt >>> 3) &&& 0x7) &&& 0x1) <<< 1) + 1] s2 [.BGExtPalDirty 0 (((((cnt >>> 3) &&& 0x7) &&& 0x1) <<< 1))] rfl
        (by simp) h1 rfl rfl rfl (by simp)
        (by intro d W; simp [selFG, hm, h7]) ?_
      simp only [Notes, selFG, hm]
      refine ⟨?_, ?_, ?_, ?_⟩ <;> intro W hW <;> simp at hW ⊢
      obtain ⟨-, hW⟩ := hW
      generalize (cnt >>> 3 &&& 7) % 2 = k at hW ⊢
      rw [Nat.shiftLeft_eq] at hW ⊢
      omega
    · rename_i hm
      simp only [bind_eq_ok, notify_eq_ok] at h
      obtain ⟨s2, h1, rfl⟩ := h
      refine phase_modSeq .AOBJExtPal [0] s2 [.OBJExtPalDirty 0] rfl
        (by simp) h1 rfl rfl rfl (by simp)
        (by intro d W; simp [selFG, hm, h7]) ?_
      simp [Notes, selFG, hm]
    · cases h
      apply Phase.of_empty
      intro d W
      unfold selFG
      tauto
  · rename_i h7
    replace h7 : cnt &&& 0x80 = 0 := by simpa using h7
    cases h
    apply Phase.of_empty
    intro d W
    simp [h7]

/-- Effect of the unmap block of `MapVRAM_H`. -/
theorem MapVRAM_H_unmap_phase (bank cnt : Nat) (s s' : MapState)
    (h : MapVRAM_H_unmap bank cnt s = .ok s') :
    Phase (fun v => v &&& not32 (bankBit bank))
      (fun d W => cnt &&& 0x80 ≠ 0 ∧ selH cnt d W) s s' := by
  unfold MapVRAM_H_unmap at h
  simp only [] at h
  split at h
  · rename_i h7
    replace h7 : cnt &&& 0x80 ≠ 0 := h7
    split at h
    · rename_i hm
      exact phase_modSeq .LCDC [0] s' [] rfl (by simp) h rfl rfl rfl (by simp)
        (by intro d W; simp [selH, baseFG, hm, h7]) (by simp [Notes, selH, hm])
    · rename_i hm
      exact phase_modUpdSeq .BBG [0, 1, 4, 5] rfl (by simp) h
        (by intro d W; simp [selH, baseFG, hm, h7])
    · rename_i hm
      simp only [bind_eq_ok, notify_eq_ok] at h
      obtain ⟨s2, ⟨s1, h1, rfl⟩, rfl⟩ := h
      refine phase_modSeq .BBGExtPal (List.range 4) s1 [.BGExtPalDirty 1 0, .BGExtPalDirty 1 2] rfl
        (List.nodup_range 4) h1 rfl rfl rfl (by simp)
        (by intro d W; simp [selH, hm, h7]) ?_
      simp only [Notes, selH, hm]
      refine ⟨?_, ?_, ?_, ?_⟩ <;> intro W hW <;> simp at hW ⊢
      obtain ⟨-, hW⟩ := hW
      interval_cases W <;> simp
    · cases h
      apply Phase.of_empty
      intro d W
      unfold selH
      tauto
  · rename_i h7
    replace h7 : cnt &&& 0x80 = 0 := by simpa using h7
    cases h
    apply Phase.of_empty
    intro d W
    simp [h7]

/-- Effect of the map block of `MapVRAM_H`. -/
theorem MapVRAM_H_map_phase (bank cnt : Nat) (s s' : MapState)
    (h : MapVRAM_H_map bank cnt s = .ok s') :
    Phase (fun v => v ||| bankBit bank)
      (fun d W => cnt &&& 0x80 ≠ 0 ∧ selH cnt d W) s s' := by
  unfold MapVRAM_H_map at h
  simp only [] at h
  split at h
  · rename_i h7
    replace h7 : cnt &&& 0x80 ≠ 0 := h7
    split at h
    · rename_i hm
      exact phase_modSeq .LCDC [0] s' [] rfl (by simp) h rfl rfl rfl (by simp)
        (by intro d W; simp [selH, baseFG, hm, h7]) (by simp [Notes, selH, hm])
    · rename_i hm
      exact phase_modUpdSeq .BBG [0, 1, 4, 5] rfl (by simp) h
        (by intro d W; simp [selH, baseFG, hm, h7])
    · rename_i hm
      simp only [bind_eq_ok, notify_eq_ok] at h
      obtain ⟨s2, ⟨s1, h1, rfl⟩, rfl⟩ := h
      refine phase_modSeq .BBGExtPal (List.range 4) s1 [.BGExtPalDirty 1 0, .BGExtPalDirty 1 2] rfl
        (List.nodup_range 4) h1 rfl rfl rfl (by simp)
        (by intro d W; simp [selH, hm, h7]) ?_
      simp only [Notes, selH, hm]
      refine ⟨?_, ?_, ?_, ?_⟩ <;> intro W hW <;> simp at hW ⊢
      obtain ⟨-, hW⟩ := hW
      interval_cases W <;> simp
    · cases h
      apply Phase.of_empty
      intro d W
      unfold selH
      tauto
  · rename_i h7
    replace h7 : cnt &&& 0x80 = 0 := by simpa using h7
    cases h
    apply Phase.of_empty
    intro d W
    simp [h7]

/-- Effect of the unmap block of `MapVRAM_I`. -/
theorem MapVRAM_I_unmap_phase (bank cnt : Nat) (s s' : MapState)
    (h : MapVRAM_I_unmap bank cnt s = .ok s') :
    Phase (fun v => v &&& not32 (bankBit bank))
      (fun d W => cnt &&& 0x80 ≠ 0 ∧ selI cnt d W) s s' := by
  unfold MapVRAM_I_unmap at h
  simp only [] at h
  split at h
  · rename_i h7
    replace h7 : cnt &&& 0x80 ≠ 0 := h7
    split at h
    · rename_i hm
      exact phase_modSeq .LCDC [0] s' [] rfl (by simp) h rfl rfl rfl (by simp)
        (by intro d W; simp [selI, baseFG, hm, h7]) (by simp [Notes, selI, hm])
    · rename_i hm
      exact phase_modUpdSeq .BBG [2, 3, 6, 7] rfl (by simp) h
        (by intro d W; simp [selI, baseFG, hm, h7])
    · rename_i hm
      exact phase_rangePtr .BOBJ _ 8 rfl h (by intro d W; simp [selI, hm, h7])
    · rename_i hm
      simp only [bind_eq_ok, notify_eq_ok] at h
      obtain ⟨s2, h1, rfl⟩ := h
      refine phase_modSeq .BOBJExtPal [0] s2 [.OBJExtPalDirty 1] rfl
        (by simp) h1 rfl rfl rfl (by simp)
        (by intro d W; simp [selI, hm, h7]) ?_
      simp [Notes, selI, hm]
    · cases h
      apply Phase.of_empty
      intro d W
      unfold selI
      tauto
  · rename_i h7
    replace h7 : cnt &&& 0x80 = 0 := by simpa using h7
    cases h
    apply Phase.of_empty
    intro d W
    simp [h7]

/-- Effect of the map block of `MapVRAM_I`. -/
theorem MapVRAM_I_map_phase (bank cnt : Nat) (s s' : MapState)
    (h : MapVRAM_I_map bank cnt s = .ok s') :
    Phase (fun v => v ||| bankBit bank)
      (fun d W => cnt &&& 0x80 ≠ 0 ∧ selI cnt d W) s s' := by
  unfold MapVRAM_I_map at h
  simp only [] at h
  split at h
  · rename_i h7
    replace h7 : cnt &&& 0x80 ≠ 0 := h7
    split at h
    · rename_i hm
      exact phase_modSeq .LCDC [0] s' [] rfl (by simp) h rfl rfl rfl (by simp)
        (by intro d W; simp [selI, baseFG, hm, h7]) (by simp [Notes, selI, hm])
    · rename_i hm
      exact phase_modUpdSeq .BBG [2, 3, 6, 7] rfl (by simp) h
        (by intro d W; simp [selI, baseFG, hm, h7])
    · rename_i hm
      exact phase_rangePtr .BOBJ _ 8 rfl h (by intro d W; simp [selI, hm, h7])
    · rename_i hm
      simp only [bind_eq_ok, notify_eq_ok] at h
      obtain ⟨s2, h1, rfl⟩ := h
      refine phase_modSeq .BOBJExtPal [0] s2 [.OBJExtPalDirty 1] rfl
        (by simp) h1 rfl rfl rfl (by simp)
        (by intro d W; simp [selI, hm, h7]) ?_
      simp [Notes, selI, hm]
    · cases h
      apply Phase.of_empty
      intro d W
      unfold selI
      tauto
  · rename_i h7
    replace h7 : cnt &&& 0x80 = 0 := by simpa using h7
    cases h
    apply Phase.of_empty
    intro d W
    simp [h7]

/-! ## Effect of a whole bank-control write -/

theorem readCnt_eq_ok {s : MapState} {bank v : Nat} :
    readCnt s bank = .ok v ↔ bank < 9 ∧ v = s.VRAMCNT bank := by
  unfold readCnt; split <;> simp [*, eq_comm]

theorem writeCnt_eq_ok {s s' : MapState} {bank cnt : Nat} :
    writeCnt s bank cnt = .ok s' ↔ bank < 9 ∧
      s' = { s with VRAMCNT := fun b => if b = bank then cnt else s.VRAMCNT b } := by
  unfold writeCnt; split <;> simp [*, eq_comm]

theorem clearStat_eq_ok {s s' : MapState} {bank : Nat} :
    clearStat bank s = .ok s' ↔
      s' = { s with VRAMSTAT := (s.VRAMSTAT &&& not32 (1 <<< (bank - 2))) % 256 } := by
  simp [clearStat, eq_comm]

theorem Phase.congr_occ {f : Nat → Nat} {occ occ' : Dest → Nat → Prop} {s s' : MapState}
    (h : ∀ d W, occ d W ↔ occ' d W) (e : Phase f occ s s') : Phase f occ' s s' := by
  have : occ = occ' := by funext d W; exact propext (h d W)
  subst this; exact e

/-- Assembles the description of a write from its prologue and its two blocks. -/
theorem WriteSpec.build {bank cnt : Nat} (s s1 s' : MapState)
    (sel : Nat → Dest → Nat → Prop)
    (hsel : ∀ c d W, (c &&& 0x80 ≠ 0 ∧ sel c d W) ↔ selected bank c d W)
    (unmap map : Nat → MapState → Except Fault MapState)
    (hun : ∀ c t t', unmap c t = .ok t' →
      Phase (fun v => v &&& not32 (bankBit bank)) (fun d W => c &&& 0x80 ≠ 0 ∧ sel c d W) t t')
    (hma : ∀ c t t', map c t = .ok t' →
      Phase (fun v => v ||| bankBit bank) (fun d W => c &&& 0x80 ≠ 0 ∧ sel c d W) t t')
    (hb : bank < 9)
    (h1 : s1.VRAMCNT = fun b => if b = bank then cnt % 256 else s.VRAMCNT b)
    (h1m : s1.VRAMMap = s.VRAMMap) (h1p : s1.VRAMPtr = s.VRAMPtr) (h1c : s1.calls = s.calls)
    (h : (if s.VRAMCNT bank = cnt % 256 then pure s1
          else unmap (s.VRAMCNT bank) s1 >>= map (cnt % 256)) = .ok s') :
    WriteSpec bank cnt s s' := by
  split at h
  · rename_i heq
    rw [pure_eq_ok] at h
    subst h
    exact ⟨hb, fun b => by rw [h1], fun _ => ⟨h1m, h1p, h1c⟩, fun hne => absurd heq hne⟩
  · rename_i hne
    rw [bind_eq_ok] at h
    obtain ⟨s2, hu, hm⟩ := h
    have pu := (hun _ _ _ hu).congr_occ (hsel _)
    have pm := (hma _ _ _ hm).congr_occ (hsel _)
    refine ⟨hb, fun b => ?_, fun heq => absurd heq hne, fun _ => ⟨s1, s2, h1m, h1p, h1c, pu, pm⟩⟩
    rw [pm.cnt, pu.cnt, h1]

theorem MapVRAM_AB_spec (bank cnt : Nat) (hbank : bank = 0 ∨ bank = 1) (s s' : MapState)
    (h : MapVRAM_AB bank cnt s = .ok s') : WriteSpec bank cnt s s' := by
  unfold MapVRAM_AB at h
  simp only [bind_eq_ok, readCnt_eq_ok, writeCnt_eq_ok] at h
  obtain ⟨old, ⟨hb, rfl⟩, s1, ⟨-, hs1⟩, h⟩ := h
  exact WriteSpec.build s s1 s' selAB (by rcases hbank with rfl | rfl <;> intro c d W <;> simp [selected])
    (MapVRAM_AB_unmap bank) (MapVRAM_AB_map bank)
    (MapVRAM_AB_unmap_phase bank) (MapVRAM_AB_map_phase bank) hb
    (by subst hs1; rfl) (by subst hs1; rfl) (by subst hs1; rfl) (by subst hs1; rfl) h

theorem MapVRAM_CD_spec (bank cnt : Nat) (hbank : bank = 2 ∨ bank = 3) (s s' : MapState)
    (h : MapVRAM_CD bank cnt s = .ok s') : WriteSpec bank cnt s s' := by
  unfold MapVRAM_CD at h
  simp only [bind_eq_ok, readCnt_eq_ok, writeCnt_eq_ok, clearStat_eq_ok] at h
  obtain ⟨old, ⟨hb, rfl⟩, s0, ⟨-, hs0⟩, s1, hs1, h⟩ := h
  subst hs0
  exact WriteSpec.build s s1 s' (selCD bank) (by rcases hbank with rfl | rfl <;> intro c d W <;> simp [selected])
    (MapVRAM_CD_unmap bank) (MapVRAM_CD_map bank)
    (MapVRAM_CD_unmap_phase bank) (MapVRAM_CD_map_phase bank) hb
    (by subst hs1; rfl) (by subst hs1; rfl) (by subst hs1; rfl) (by subst hs1; rfl) h

theorem MapVRAM_E_spec (cnt : Nat) (s s' : MapState)
    (h : MapVRAM_E 4 cnt s = .ok s') : WriteSpec 4 cnt s s' := by
  unfold MapVRAM_E at h
  simp only [bind_eq_ok, readCnt_eq_ok, writeCnt_eq_ok] at h
  obtain ⟨old, ⟨hb, rfl⟩, s1, ⟨-, hs1⟩, h⟩ := h
  exact WriteSpec.build s s1 s' selE (by intro c d W; simp [selected])
    (MapVRAM_E_unmap 4) (MapVRAM_E_map 4)
    (MapVRAM_E_unmap_phase 4) (MapVRAM_E_map_phase 4) hb
    (by subst hs1; rfl) (by subst hs1; rfl) (by subst hs1; rfl) (by subst hs1; rfl) h

theorem MapVRAM_FG_spec (bank cnt : Nat) (hbank : bank = 5 ∨ bank = 6) (s s' : MapState)
    (h : MapVRAM_FG bank cnt s = .ok s') : WriteSpec bank cnt s s' := by
  unfold MapVRAM_FG at h
  simp only [bind_eq_ok, readCnt_eq_ok, writeCnt_eq_ok] at h
  obtain ⟨old, ⟨hb, rfl⟩, s1, ⟨-, hs1⟩, h⟩ := h
  exact WriteSpec.build s s1 s' selFG (by rcases hbank with rfl | rfl <;> intro c d W <;> simp [selected])
    (MapVRAM_FG_unmap bank) (MapVRAM_FG_map bank)
    (MapVRAM_FG_unmap_phase bank) (MapVRAM_FG_map_phase bank) hb
    (by subst hs1; rfl) (by subst hs1; rfl) (by subst hs1; rfl) (by subst hs1; rfl) h

theorem MapVRAM_H_spec (cnt : Nat) (s s' : MapState)
    (h : MapVRAM_H 7 cnt s = .ok s') : WriteSpec 7 cnt s s' := by
  unfold MapVRAM_H at h
  simp only [bind_eq_ok, readCnt_eq_ok, writeCnt_eq_ok] at h
  obtain ⟨old, ⟨hb, rfl⟩, s1, ⟨-, hs1⟩, h⟩ := h
  exact WriteSpec.build s s1 s' selH (by intro c d W; simp [selected])
    (MapVRAM_H_unmap 7) (MapVRAM_H_map 7)
    (MapVRAM_H_unmap_phase 7) (MapVRAM_H_map_phase 7) hb
    (by subst hs1; rfl) (by subst hs1; rfl) (by subst hs1; rfl) (by subst hs1; rfl) h

theorem MapVRAM_I_spec (cnt : Nat) (s s' : MapState)
    (h : MapVRAM_I 8 cnt s = .ok s') : WriteSpec 8 cnt s s' := by
  unfold MapVRAM_I at h
  simp only [bind_eq_ok, readCnt_eq_ok, writeCnt_eq_ok] at h
  obtain ⟨old, ⟨hb, rfl⟩, s1, ⟨-, hs1⟩, h⟩ := h
  exact WriteSpec.build s s1 s' selI (by intro c d W; simp [selected])
    (MapVRAM_I_unmap 8) (MapVRAM_I_map 8)
    (MapVRAM_I_unmap_phase 8) (MapVRAM_I_map_phase 8) hb
    (by subst hs1; rfl) (by subst hs1; rfl) (by subst hs1; rfl) (by subst hs1; rfl) h

theorem SetBankControl_spec (bank cnt : Nat) (s s' : MapState)
    (h : SetBankControl bank cnt s = .ok s') : WriteSpec bank cnt s s' := by
  unfold SetBankControl at h
  split at h
  · exact MapVRAM_AB_spec 0 cnt (Or.inl rfl) s s' h
  · exact MapVRAM_AB_spec 1 cnt (Or.inr rfl) s s' h
  · exact MapVRAM_CD_spec 2 cnt (Or.inl rfl) s s' h
  · exact MapVRAM_CD_spec 3 cnt (Or.inr rfl) s s' h
  · exact MapVRAM_E_spec cnt s s' h
  · exact MapVRAM_FG_spec 5 cnt (Or.inl rfl) s s' h
  · exact MapVRAM_FG_spec 6 cnt (Or.inr rfl) s s' h
  · exact MapVRAM_H_spec cnt s s' h
  · exact MapVRAM_I_spec cnt s s' h
  · cases h

/-! ## Invariants of the reachable states -/

theorem bankBit_eq (bank : Nat) (h : bank < 32) : bankBit bank = 2 ^ bank := by
  unfold bankBit
  rw [Nat.shiftLeft_eq, one_mul, Nat.mod_eq_of_lt]
  exact Nat.pow_lt_pow_right (by norm_num) h

theorem testBit_or_bankBit (x bank b : Nat) (h : bank < 32) :
    (x ||| bankBit bank).testBit b = (x.testBit b || decide (bank = b)) := by
  rw [bankBit_eq bank h, Nat.testBit_or, Nat.testBit_two_pow]

theorem testBit_not32 (x b : Nat) :
    (not32 x).testBit b = (decide (b < 32) && !x.testBit b) := by
  unfold not32
  have : (0xFFFFFFFF : Nat) = 2 ^ 32 - 1 := by norm_num
  rw [this, Nat.testBit_xor, Nat.testBit_two_pow_sub_one, Nat.testBit_mod_two_pow]
  by_cases hb : b < 32 <;> simp [hb]

theorem testBit_andNot_bankBit (x bank b : Nat) (h : bank < 32) :
    (x &&& not32 (bankBit bank)).testBit b
      = (x.testBit b && decide (b < 32) && !decide (bank = b)) := by
  rw [Nat.testBit_and, testBit_not32, bankBit_eq bank h, Nat.testBit_two_pow, Bool.and_assoc]

theorem not_selected_zero (b : Nat) (d : Dest) (W : Nat) : ¬ selected b 0 d W := by
  simp [selected]

theorem MaskInv_Reset : MaskInv Reset := by
  intro d W b
  simp [Reset, not_selected_zero]

theorem TableInv_Reset : TableInv Reset := by
  intro b d W _ h
  exact absurd h (not_selected_zero b d W)

theorem PtrInv_Reset : PtrInv Reset := by
  intro d W _ _
  simp [Reset, GetUniqueBankPtr]

/-- Bits of a mask after the two blocks of a write to `bank`. -/
theorem testBit_after_write {bank : Nat} (hb : bank < 9) {occ occ' : Dest → Nat → Prop}
    {s s1 s2 s' : MapState} (h1m : s1.VRAMMap = s.VRAMMap)
    (pu : Phase (fun v => v &&& not32 (bankBit bank)) occ s1 s2)
    (pm : Phase (fun v => v ||| bankBit bank) occ' s2 s')
    (hlt : ∀ d W b, (s.VRAMMap d W).testBit b = true → b < 9)
    (hold : ∀ d W, (s.VRAMMap d W).testBit bank = true → occ d W)
    (d : Dest) (W b : Nat) :
    (s'.VRAMMap d W).testBit b = true ↔
      (b = bank ∧ occ' d W) ∨ (b ≠ bank ∧ (s.VRAMMap d W).testBit b = true) := by
  have hb32 : bank < 32 := by omega
  have h2 : (s2.VRAMMap d W).testBit b = true ↔ (b ≠ bank ∧ (s.VRAMMap d W).testBit b = true) := by
    by_cases ho : occ d W
    · rw [pu.eff.map d W ho, testBit_andNot_bankBit _ _ _ hb32, h1m]
      constructor
      · intro h
        simp only [Bool.and_eq_true, decide_eq_true_eq, Bool.not_eq_true', decide_eq_false_iff_not] at h
        exact ⟨fun e => h.2 e.symm, h.1.1⟩
      · rintro ⟨hne, ht⟩
        have := hlt d W b ht
        simp only [Bool.and_eq_true, decide_eq_true_eq, Bool.not_eq_true', decide_eq_false_iff_not]
        exact ⟨⟨ht, by omega⟩, fun e => hne e.symm⟩
    · rw [pu.eff.map_other d W ho, h1m]
      constructor
      · intro h
        refine ⟨?_, h⟩
        rintro rfl
        exact ho (hold d W h)
      · exact fun h => h.2
  by_cases ho' : occ' d W
  · rw [pm.eff.map d W ho', testBit_or_bankBit _ _ _ hb32]
    simp only [Bool.or_eq_true, decide_eq_true_eq, h2]
    constructor
    · rintro (h | h)
      · exact Or.inr h
      · exact Or.inl ⟨h.symm, ho'⟩
    · rintro (h | h)
      · exact Or.inr h.1.symm
      · exact Or.inl h
  · rw [pm.eff.map_other d W ho', h2]
    constructor
    · exact fun h => Or.inr h
    · rintro (h | h)
      · exact absurd h.2 ho'
      · exact h

theorem MaskInv_step {bank cnt : Nat} {s s' : MapState} (w : WriteSpec bank cnt s s')
    (hi : MaskInv s) : MaskInv s' := by
  intro d W b
  by_cases heq : s.VRAMCNT bank = cnt % 256
  · rw [(w.same heq).1, hi d W b, w.cnt_eq b]
    by_cases hbb : b = bank
    · subst hbb; simp [heq]
    · simp [hbb]
  · obtain ⟨s1, s2, h1m, -, -, pu, pm⟩ := w.changed heq
    rw [testBit_after_write w.bank_lt h1m pu pm (fun d W b h => ((hi d W b).mp h).1)
      (fun d W h => ((hi d W bank).mp h).2) d W b, w.cnt_eq b]
    by_cases hbb : b = bank
    · subst hbb
      simp [w.bank_lt]
    · simp [hbb, hi d W b]

theorem TableInv_step {bank cnt : Nat} {s s' : MapState} (w : WriteSpec bank cnt s s')
    (hi : TableInv s) : TableInv s' := by
  intro b d W hb hsel
  rw [w.cnt_eq b] at hsel
  by_cases hbb : b = bank
  · subst hbb
    simp only [if_true] at hsel
    by_cases heq : s.VRAMCNT b = cnt % 256
    · rw [← heq] at hsel
      exact hi b d W hb hsel
    · obtain ⟨s1, s2, -, -, -, pu, pm⟩ := w.changed heq
      exact pm.eff.inb d W hsel
  · simp only [hbb, if_false] at hsel
    exact hi b d W hb hsel

theorem PtrInv_phase {f : Nat → Nat} {occ : Dest → Nat → Prop} {s s' : MapState}
    (p : Phase f occ s s') (hi : PtrInv s) : PtrInv s' := by
  intro d W hd hW
  by_cases ho : occ d W
  · exact p.eff.ptr d W ho hd
  · rw [p.eff.map_other d W ho, p.eff.ptr_other d W (fun h => ho h.1)]
    exact hi d W hd hW

theorem PtrInv_step {bank cnt : Nat} {s s' : MapState} (w : WriteSpec bank cnt s s')
    (hi : PtrInv s) : PtrInv s' := by
  by_cases heq : s.VRAMCNT bank = cnt % 256
  · intro d W hd hW
    rw [(w.same heq).1, (w.same heq).2.1]
    exact hi d W hd hW
  · obtain ⟨s1, s2, h1m, h1p, -, pu, pm⟩ := w.changed heq
    have h1 : PtrInv s1 := by
      intro d W hd hW
      rw [h1m, h1p]
      exact hi d W hd hW
    exact PtrInv_phase pm (PtrInv_phase pu h1)

theorem Reachable.inv {s : MapState} (h : Reachable s) : MaskInv s ∧ TableInv s ∧ PtrInv s := by
  induction h with
  | reset => exact ⟨MaskInv_Reset, TableInv_Reset, PtrInv_Reset⟩
  | write bank cnt _ hw ih =>
    have w := SetBankControl_spec _ _ _ _ hw
    exact ⟨MaskInv_step w ih.1, TableInv_step w ih.2.1, PtrInv_step w ih.2.2⟩

/-! ## Writes inside the tables complete -/

theorem ctz_testBit (w n : Nat) (h0 : n ≠ 0) (hw : n < 2 ^ w) : n.testBit (ctz w n) = true := by
  induction w generalizing n with
  | zero => simp at hw; exact absurd hw h0
  | succ w ih =>
    unfold ctz
    split
    · rename_i h1
      simp [Nat.testBit_zero, h1]
    · rename_i h1
      rw [Nat.add_comm, Nat.testBit_succ]
      apply ih
      · omega
      · rw [pow_succ] at hw; omega

theorem ctz_min (w n i : Nat) (hi : i < ctz w n) : n.testBit i = false := by
  induction w generalizing n i with
  | zero => simp [ctz] at hi
  | succ w ih =>
    unfold ctz at hi
    split at hi
    · omega
    · rename_i h1
      cases i with
      | zero => simp [Nat.testBit_zero, h1]
      | succ i =>
        rw [Nat.testBit_succ]
        exact ih _ _ (by omega)

theorem ctz_lt_of_lt (w n k : Nat) (h0 : n ≠ 0) (hw : n < 2 ^ w) (hk : n < 2 ^ k) :
    ctz w n < k := by
  by_contra hge
  have h1 := ctz_testBit w n h0 hw
  have h2 := Nat.testBit_lt_two_pow (lt_of_lt_of_le hk (Nat.pow_le_pow_right (by norm_num) (not_lt.mp hge)))
  rw [h1] at h2
  cases h2

theorem VRAMMask_defined (num : Nat) (h : num < 9) : ∃ m, VRAMMask num = .ok m := by
  interval_cases num <;> exact ⟨_, rfl⟩

theorem GetUniqueBankPtr_defined (mask offset : Nat) (h : mask < 2 ^ 9) :
    ∃ p, GetUniqueBankPtr mask offset = .ok p := by
  unfold GetUniqueBankPtr
  split
  · exact ⟨_, rfl⟩
  · rename_i hc
    have h0 : mask ≠ 0 := fun e => hc (Or.inl e)
    have hlt := ctz_lt_of_lt 32 mask 9 h0 (lt_trans h (by norm_num)) h
    obtain ⟨m, hm⟩ := VRAMMask_defined _ hlt
    simp only [hm]
    exact ⟨_, rfl⟩

theorem Defined.skip : Defined (fun s => .ok s) := fun s hs => ⟨s, rfl, hs⟩

theorem Defined.bind {m k : MapState → Except Fault MapState} (hm : Defined m) (hk : Defined k) :
    Defined (fun s => m s >>= k) := by
  intro s hs
  obtain ⟨s1, h1, g1⟩ := hm s hs
  obtain ⟨s2, h2, g2⟩ := hk s1 g1
  exact ⟨s2, by simp only [h1]; exact h2, g2⟩

theorem Defined.modMap {f : Nat → Nat} {d : Dest} {i : Nat} (hf : ∀ v, v < 2 ^ 9 → f v < 2 ^ 9)
    (hi : i < d.size) : Defined (modMap f d i) := by
  intro s hs
  refine ⟨_, modMap_eq_ok.mpr ⟨hi, rfl⟩, ?_⟩
  intro d' W
  show (if d' = d ∧ W = i then f (s.VRAMMap d i) else s.VRAMMap d' W) < 2 ^ 9
  split
  · exact hf _ (hs d i)
  · exact hs d' W

theorem Defined.orMap {bank : Nat} {d : Dest} {i : Nat} (hb : bank < 9)
    (hi : i < d.size) : Defined (orMap (bankBit bank) d i) := by
  apply Defined.modMap _ hi
  intro v hv
  rw [bankBit_eq bank (by omega)]
  exact Nat.or_lt_two_pow hv (Nat.pow_lt_pow_right (by norm_num) hb)

theorem Defined.andNotMap {bank : Nat} {d : Dest} {i : Nat}
    (hi : i < d.size) : Defined (andNotMap (bankBit bank) d i) := by
  apply Defined.modMap _ hi
  intro v hv
  exact lt_of_le_of_lt Nat.and_le_left hv

theorem Defined.updPtr {d : Dest} {i : Nat} (hi : i < d.size) : Defined (updPtr d i) := by
  intro s hs
  obtain ⟨p, hp⟩ := GetUniqueBankPtr_defined (s.VRAMMap d i) ((i <<< 14) % 2 ^ 32) (hs d i)
  exact ⟨_, updPtr_eq_ok.mpr ⟨hi, p, hp, rfl⟩, fun d' W => hs d' W⟩

theorem Defined.notify (c : Call) : Defined (notify c) :=
  fun _ hs => ⟨_, rfl, fun d W => hs d W⟩

theorem Defined.setStat (bank : Nat) : Defined (setStat bank) :=
  fun _ hs => ⟨_, rfl, fun d W => hs d W⟩

theorem Defined.forLoop {body : Nat → MapState → Except Fault MapState} {n : Nat}
    (h : ∀ i, i < n → Defined (body i)) : Defined (forLoop body n) := by
  induction n with
  | zero => exact Defined.skip
  | succ n ih =>
    exact Defined.bind (ih (fun i hi => h i (by omega))) (h n (by omega))

/-- The unmap block of `MapVRAM_AB` completes when the selected windows
are inside their tables. -/
theorem MapVRAM_AB_unmap_defined (bank cnt : Nat) (_hb : bank < 9)
    (hin : ∀ d W, (cnt &&& 0x80 ≠ 0 ∧ selAB cnt d W) → W < d.size) :
    Defined (MapVRAM_AB_unmap bank cnt) := by
  intro s hs
  unfold MapVRAM_AB_unmap
  simp only []
  split
  · rename_i h7
    replace h7 : cnt &&& 0x80 ≠ 0 := h7
    split
    · rename_i hm
      refine Defined.andNotMap ?_ s hs
      exact hin _ _ (by simp [selAB, baseFG, hm, h7])
    · rename_i hm
      refine Defined.forLoop (fun i hi => (Defined.andNotMap ?_).bind (Defined.updPtr ?_)) s hs
      all_goals exact hin _ _ (by simp [selAB, hm, h7]; try omega)
    · rename_i hm
      refine Defined.forLoop (fun i hi => (Defined.andNotMap ?_).bind (Defined.updPtr ?_)) s hs
      all_goals exact hin _ _ (by simp [selAB, hm, h7]; try omega)
    · rename_i hm
      refine Defined.andNotMap ?_ s hs
      exact hin _ _ (by simp [selAB, baseFG, hm, h7])
    · exact ⟨s, rfl, hs⟩
  · exact ⟨s, rfl, hs⟩

/-- The map block of `MapVRAM_AB` completes when the selected windows
are inside their tables. -/
theorem MapVRAM_AB_map_defined (bank cnt : Nat) (hb : bank < 9)
    (hin : ∀ d W, (cnt &&& 0x80 ≠ 0 ∧ selAB cnt d W) → W < d.size) :
    Defined (MapVRAM_AB_map bank cnt) := by
  intro s hs
  unfold MapVRAM_AB_map
  simp only []
  split
  · rename_i h7
    replace h7 : cnt &&& 0x80 ≠ 0 := h7
    split
    · rename_i hm
      refine Defined.orMap hb ?_ s hs
      exact hin _ _ (by simp [selAB, baseFG, hm, h7])
    · rename_i hm
      refine Defined.forLoop (fun i hi => (Defined.orMap hb ?_).bind (Defined.updPtr ?_)) s hs
      all_goals exact hin _ _ (by simp [selAB, hm, h7]; try omega)
    · rename_i hm
      refine Defined.forLoop (fun i hi => (Defined.orMap hb ?_).bind (Defined.updPtr ?_)) s hs
      all_goals exact hin _ _ (by simp [selAB, hm, h7]; try omega)
    · rename_i hm
      refine Defined.orMap hb ?_ s hs
      exact hin _ _ (by simp [selAB, baseFG, hm, h7])
    · exact ⟨s, rfl, hs⟩
  · exact ⟨s, rfl, hs⟩

/-- The unmap block of `MapVRAM_CD` completes when the selected windows
are inside their tables. -/
theorem MapVRAM_CD_unmap_defined (bank cnt : Nat) (_hb : bank < 9)
    (hin : ∀ d W, (cnt &&& 0x80 ≠ 0 ∧ selCD bank cnt d W) → W < d.size) :
    Defined (MapVRAM_CD_unmap bank cnt) := by
  intro s hs
  unfold MapVRAM_CD_unmap
  simp only []
  split
  · rename_i h7
    replace h7 : cnt &&& 0x80 ≠ 0 := h7
    split
    · rename_i hm
      refine Defined.andNotMap ?_ s hs
      exact hin _ _ (by simp [selCD, baseFG, hm, h7])
    · rename_i hm
      refine Defined.forLoop (fun i hi => (Defined.andNotMap ?_).bind (Defined.updPtr ?_)) s hs
      all_goals exact hin _ _ (by simp [selCD, hm, h7]; try omega)
    · rename_i hm
      refine Defined.andNotMap ?_ s hs
      exact hin _ _ (by simp [selCD, baseFG, hm, h7])
    · rename_i hm
      refine Defined.andNotMap ?_ s hs
      exact hin _ _ (by simp [selCD, baseFG, hm, h7])
    · rename_i hm
      split
      · rename_i hbk
        refine Defined.forLoop (fun i hi => (Defined.andNotMap ?_).bind (Defined.updPtr ?_)) s hs
        all_goals exact hin _ _ (by simp [selCD, hm, h7, hbk]; try omega)
      · rename_i hbk
        refine Defined.forLoop (fun i hi => (Defined.andNotMap ?_).bind (Defined.updPtr ?_)) s hs
        all_goals exact hin _ _ (by simp [selCD, hm, h7, hbk]; try omega)
    · exact ⟨s, rfl, hs⟩
  · exact ⟨s, rfl, hs⟩

/-- The map block of `MapVRAM_CD` completes when the selected windows
are inside their tables. -/
theorem MapVRAM_CD_map_defined (bank cnt : Nat) (hb : bank < 9)
    (hin : ∀ d W, (cnt &&& 0x80 ≠ 0 ∧ selCD bank cnt d W) → W < d.size) :
    Defined (MapVRAM_CD_map bank cnt) := by
  intro s hs
  unfold MapVRAM_CD_map
  simp only []
  split
  · rename_i h7
    replace h7 : cnt &&& 0x80 ≠ 0 := h7
    split
    · rename_i hm
      refine Defined.orMap hb ?_ s hs
      exact hin _ _ (by simp [selCD, baseFG, hm, h7])
    · rename_i hm
      refine Defined.forLoop (fun i hi => (Defined.orMap hb ?_).bind (Defined.updPtr ?_)) s hs
      all_goals exact hin _ _ (by simp [selCD, hm, h7]; try omega)
    · rename_i hm
      refine (Defined.orMap hb ?_).bind (Defined.setStat _) s hs
      exact hin _ _ (by simp [selCD, baseFG, hm, h7])
    · rename_i hm
      refine Defined.orMap hb ?_ s hs
      exact hin _ _ (by simp [selCD, baseFG, hm, h7])
    · rename_i hm
      split
      · rename_i hbk
        refine Defined.forLoop (fun i hi => (Defined.orMap hb ?_).bind (Defined.updPtr ?_)) s hs
        all_goals exact hin _ _ (by simp [selCD, hm, h7, hbk]; try omega)
      · rename_i hbk
        refine Defined.forLoop (fun i hi => (Defined.orMap hb ?_).bind (Defined.updPtr ?_)) s hs
        all_goals exact hin _ _ (by simp [selCD, hm, h7, hbk]; try omega)
    · exact ⟨s, rfl, hs⟩
  · exact ⟨s, rfl, hs⟩

/-- The unmap block of `MapVRAM_E` completes when the selected windows
are inside their tables. -/
theorem MapVRAM_E_unmap_defined (bank cnt : Nat) (_hb : bank < 9)
    (hin : ∀ d W, (cnt &&& 0x80 ≠ 0 ∧ selE cnt d W) → W < d.size) :
    Defined (MapVRAM_E_unmap bank cnt) := by
  intro s hs
  unfold MapVRAM_E_unmap
  simp only []
  split
  · rename_i h7
    replace h7 : cnt &&& 0x80 ≠ 0 := h7
    split
    · rename_i hm
      refine Defined.andNotMap ?_ s hs
      exact hin _ _ (by simp [selE, baseFG, hm, h7])
    · rename_i hm
      refine Defined.forLoop (fun i hi => (Defined.andNotMap ?_).bind (Defined.updPtr ?_)) s hs
      all_goals exact hin _ _ (by simp [selE, hm, h7]; try omega)
    · rename_i hm
      refine Defined.forLoop (fun i hi => (Defined.andNotMap ?_).bind (Defined.updPtr ?_)) s hs
      all_goals exact hin _ _ (by simp [selE, hm, h7]; try omega)
    · rename_i hm
      refine Defined.forLoop (fun i hi => Defined.andNotMap ?_) s hs
      all_goals exact hin _ _ (by simp [selE, hm, h7]; try omega)
    · rename_i hm
      refine ((Defined.forLoop (fun i hi => Defined.andNotMap ?_)).bind (Defined.notify _)).bind (Defined.notify _) s hs
      all_goals exact hin _ _ (by simp [selE, hm, h7]; try omega)
    · exact ⟨s, rfl, hs⟩
  · exact ⟨s, rfl, hs⟩

/-- The map block of `MapVRAM_E` completes when the selected windows
are inside their tables. -/
theorem MapVRAM_E_map_defined (bank cnt : Nat) (hb : bank < 9)
    (hin : ∀ d W, (cnt &&& 0x80 ≠ 0 ∧ selE cnt d W) → W < d.size) :
    Defined (MapVRAM_E_map bank cnt) := by
  intro s hs
  unfold MapVRAM_E_map
  simp only []
  split
  · rename_i h7
    replace h7 : cnt &&& 0x80 ≠ 0 := h7
    split
    · rename_i hm
      refine Defined.orMap hb ?_ s hs
      exact hin _ _ (by simp [selE, baseFG, hm, h7])
    · rename_i hm
      refine Defined.forLoop (fun i hi => (Defined.orMap hb ?_).bind (Defined.updPtr ?_)) s hs
      all_goals exact hin _ _ (by simp [selE, hm, h7]; try omega)
    · rename_i hm
      refine Defined.forLoop (fun i hi => (Defined.orMap hb ?_).bind (Defined.updPtr ?_)) s hs
      all_goals exact hin _ _ (by simp [selE, hm, h7]; try omega)
    · rename_i hm
      refine Defined.forLoop (fun i hi => Defined.orMap hb ?_) s hs
      all_goals exact hin _ _ (by simp [selE, hm, h7]; try omega)
    · rename_i hm
      refine ((Defined.forLoop (fun i hi => Defined.orMap hb ?_)).bind (Defined.notify _)).bind (Defined.notify _) s hs
      all_goals exact hin _ _ (by simp [selE, hm, h7]; try omega)
    · exact ⟨s, rfl, hs⟩
  · exact ⟨s, rfl, hs⟩

/-- The unmap block of `MapVRAM_FG` completes when the selected windows
are inside their tables. -/
theorem MapVRAM_FG_unmap_defined (bank cnt : Nat) (_hb : bank < 9)
    (hin : ∀ d W, (cnt &&& 0x80 ≠ 0 ∧ selFG cnt d W) → W < d.size) :
    Defined (MapVRAM_FG_unmap bank cnt) := by
  intro s hs
  unfold MapVRAM_FG_unmap
  simp only []
  split
  · rename_i h7
    replace h7 : cnt &&& 0x80 ≠ 0 := h7
    split
    · rename_i hm
      refine Defined.andNotMap ?_ s hs
      exact hin _ _ (by simp [selFG, baseFG, hm, h7])
    · rename_i hm
      refine (((Defined.andNotMap ?_).bind (Defined.andNotMap ?_)).bind (Defined.updPtr ?_)).bind (Defined.updPtr ?_) s hs
      all_goals exact hin _ _ (by simp [selFG, baseFG, hm, h7])
    · rename_i hm
      refine (((Defined.andNotMap ?_).bind (Defined.andNotMap ?_)).bind (Defined.updPtr ?_)).bind (Defined.updPtr ?_) s hs
      all_goals exact hin _ _ (by simp [selFG, baseFG, hm, h7])
    · rename_i hm
      refine Defined.andNotMap ?_ s hs
      exact hin _ _ (by simp [selFG, baseFG, hm, h7])
    · rename_i hm
      refine (((Defined.andNotMap ?_).bind (Defined.andNotMap ?_)).bind (Defined.notify _)) s hs
      all_goals exact hin _ _ (by simp [selFG, hm, h7])
    · rename_i hm
      refine (Defined.andNotMap ?_).bind (Defined.notify _) s hs
      exact hin _ _ (by simp [selFG, baseFG, hm, h7])
    · exact ⟨s, rfl, hs⟩
  · exact ⟨s, rfl, hs⟩

/-- The map block of `MapVRAM_FG` completes when the selected windows
are inside their tables. -/
theorem MapVRAM_FG_map_defined (bank cnt : Nat) (hb : bank < 9)
    (hin : ∀ d W, (cnt &&& 0x80 ≠ 0 ∧ selFG cnt d W) → W < d.size) :
    Defined (MapVRAM_FG_map bank cnt) := by
  intro s hs
  unfold MapVRAM_FG_map
  simp only []
  split
  · rename_i h7
    replace h7 : cnt &&& 0x80 ≠ 0 := h7
    split
    · rename_i hm
      refine Defined.orMap hb ?_ s hs
      exact hin _ _ (by simp [selFG, baseFG, hm, h7])
    · rename_i hm
      refine (((Defined.orMap hb ?_).bind (Defined.orMap hb ?_)).bind (Defined.updPtr ?_)).bind (Defined.updPtr ?_) s hs
      all_goals exact hin _ _ (by simp [selFG, baseFG, hm, h7])
    · rename_i hm
      refine (((Defined.orMap hb ?_).bind (Defined.orMap hb ?_)).bind (Defined.updPtr ?_)).bind (Defined.updPtr ?_) s hs
      all_goals exact hin _ _ (by simp [selFG, baseFG, hm, h7])
    · rename_i hm
      refine Defined.orMap hb ?_ s hs
      exact hin _ _ (by simp [selFG, baseFG, hm, h7])
    · rename_i hm
      refine (((Defined.orMap hb ?_).bind (Defined.orMap hb ?_)).bind (Defined.notify _)) s hs
      all_goals exact hin _ _ (by simp [selFG, hm, h7])
    · rename_i hm
      refine (Defined.orMap hb ?_).bind (Defined.notify _) s hs
      exact hin _ _ (by simp [selFG, baseFG, hm, h7])
    · exact ⟨s, rfl, hs⟩
  · exact ⟨s, rfl, hs⟩

/-- The unmap block of `MapVRAM_H` completes when the selected windows
are inside their tables. -/
theorem MapVRAM_H_unmap_defined (bank cnt : Nat) (_hb : bank < 9)
    (hin : ∀ d W, (cnt &&& 0x80 ≠ 0 ∧ selH cnt d W) → W < d.size) :
    Defined (MapVRAM_H_unmap bank cnt) := by
  intro s hs
  unfold MapVRAM_H_unmap
  simp only []
  split
  · rename_i h7
    replace h7 : cnt &&& 0x80 ≠ 0 := h7
    split
    · rename_i hm
      refine Defined.andNotMap ?_ s hs
      exact hin _ _ (by simp [selH, baseFG, hm, h7])
    · rename_i hm
      refine (((((((Defined.andNotMap ?_).bind (Defined.andNotMap ?_)).bind (Defined.andNotMap ?_)).bind (Defined.andNotMap ?_)).bind
        (Defined.updPtr ?_)).bind (Defined.updPtr ?_)).bind (Defined.updPtr ?_)).bind (Defined.updPtr ?_) s hs
      all_goals exact hin _ _ (by simp [selH, hm, h7])
    · rename_i hm
      refine ((Defined.forLoop (fun i hi => Defined.andNotMap ?_)).bind (Defined.notify _)).bind (Defined.notify _) s hs
      all_goals exact hin _ _ (by simp [selH, hm, h7]; try omega)
    · exact ⟨s, rfl, hs⟩
  · exact ⟨s, rfl, hs⟩

/-- The map block of `MapVRAM_H` completes when the selected windows
are inside their tables. -/
theorem MapVRAM_H_map_defined (bank cnt : Nat) (hb : bank < 9)
    (hin : ∀ d W, (cnt &&& 0x80 ≠ 0 ∧ selH cnt d W) → W < d.size) :
    Defined (MapVRAM_H_map bank cnt) := by
  intro s hs
  unfold MapVRAM_H_map
  simp only []
  split
  · rename_i h7
    replace h7 : cnt &&& 0x80 ≠ 0 := h7
    split
    · rename_i hm
      refine Defined.orMap hb ?_ s hs
      exact hin _ _ (by simp [selH, baseFG, hm, h7])
    · rename_i hm
      refine (((((((Defined.orMap hb ?_).bind (Defined.orMap hb ?_)).bind (Defined.orMap hb ?_)).bind (Defined.orMap hb ?_)).bind
        (Defined.updPtr ?_)).bind (Defined.updPtr ?_)).bind (Defined.updPtr ?_)).bind (Defined.updPtr ?_) s hs
      all_goals exact hin _ _ (by simp [selH, hm, h7])
    · rename_i hm
      refine ((Defined.forLoop (fun i hi => Defined.orMap hb ?_)).bind (Defined.notify _)).bind (Defined.notify _) s hs
      all_goals exact hin _ _ (by simp [selH, hm, h7]; try omega)
    · exact ⟨s, rfl, hs⟩
  · exact ⟨s, rfl, hs⟩

/-- The unmap block of `MapVRAM_I` completes when the selected windows
are inside their tables. -/
theorem MapVRAM_I_unmap_defined (bank cnt : Nat) (_hb : bank < 9)
    (hin : ∀ d W, (cnt &&& 0x80 ≠ 0 ∧ selI cnt d W) → W < d.size) :
    Defined (MapVRAM_I_unmap bank cnt) := by
  intro s hs
  unfold MapVRAM_I_unmap
  simp only []
  split
  · rename_i h7
    replace h7 : cnt &&& 0x80 ≠ 0 := h7
    split
    · rename_i hm
      refine Defined.andNotMap ?_ s hs
      exact hin _ _ (by simp [selI, baseFG, hm, h7])
    · rename_i hm
      refine (((((((Defined.andNotMap ?_).bind (Defined.andNotMap ?_)).bind (Defined.andNotMap ?_)).bind (Defined.andNotMap ?_)).bind
        (Defined.updPtr ?_)).bind (Defined.updPtr ?_)).bind (Defined.updPtr ?_)).bind (Defined.updPtr ?_) s hs
      all_goals exact hin _ _ (by simp [selI, hm, h7])
    · rename_i hm
      refine Defined.forLoop (fun i hi => (Defined.andNotMap ?_).bind (Defined.updPtr ?_)) s hs
      all_goals exact hin _ _ (by simp [selI, hm, h7]; try omega)
    · rename_i hm
      refine (Defined.andNotMap ?_).bind (Defined.notify _) s hs
      exact hin _ _ (by simp [selI, baseFG, hm, h7])
    · exact ⟨s, rfl, hs⟩
  · exact ⟨s, rfl, hs⟩

/-- The map block of `MapVRAM_I` completes when the selected windows
are inside their tables. -/
theorem MapVRAM_I_map_defined (bank cnt : Nat) (hb : bank < 9)
    (hin : ∀ d W, (cnt &&& 0x80 ≠ 0 ∧ selI cnt d W) → W < d.size) :
    Defined (MapVRAM_I_map bank cnt) := by
  intro s hs
  unfold MapVRAM_I_map
  simp only []
  split
  · rename_i h7
    replace h7 : cnt &&& 0x80 ≠ 0 := h7
    split
    · rename_i hm
      refine Defined.orMap hb ?_ s hs
      exact hin _ _ (by simp [selI, baseFG, hm, h7])
    · rename_i hm
      refine (((((((Defined.orMap hb ?_).bind (Defined.orMap hb ?_)).bind (Defined.orMap hb ?_)).bind (Defined.orMap hb ?_)).bind
        (Defined.updPtr ?_)).bind (Defined.updPtr ?_)).bind (Defined.updPtr ?_)).bind (Defined.updPtr ?_) s hs
      all_goals exact hin _ _ (by simp [selI, hm, h7])
    · rename_i hm
      refine Defined.forLoop (fun i hi => (Defined.orMap hb ?_).bind (Defined.updPtr ?_)) s hs
      all_goals exact hin _ _ (by simp [selI, hm, h7]; try omega)
    · rename_i hm
      refine (Defined.orMap hb ?_).bind (Defined.notify _) s hs
      exact hin _ _ (by simp [selI, baseFG, hm, h7])
    · exact ⟨s, rfl, hs⟩
  · exact ⟨s, rfl, hs⟩

theorem Good_of_MaskInv {s : MapState} (h : MaskInv s) : Good s := by
  intro d W
  apply Nat.lt_pow_two_of_testBit
  intro i hi
  by_contra hne
  have := (h d W i).mp (by simpa using hne)
  omega

theorem ok_bind {α β : Type} (a : α) (f : α → Except Fault β) :
    ((Except.ok a : Except Fault α) >>= f) = f a := rfl

/-- The body of a write after its prologue completes when both selections
are inside the tables. -/
theorem defined_build {bank cnt : Nat} (s s1 : MapState)
    (sel : Nat → Dest → Nat → Prop)
    (hsel : ∀ c d W, (c &&& 0x80 ≠ 0 ∧ sel c d W) ↔ selected bank c d W)
    (unmap map : Nat → MapState → Except Fault MapState)
    (hun : ∀ c, (∀ d W, (c &&& 0x80 ≠ 0 ∧ sel c d W) → W < d.size) → Defined (unmap c))
    (hma : ∀ c, (∀ d W, (c &&& 0x80 ≠ 0 ∧ sel c d W) → W < d.size) → Defined (map c))
    (ht : ∀ d W, selected bank (s.VRAMCNT bank) d W → W < d.size)
    (hin : InTable bank cnt) (hg : Good s1) :
    ∃ s', (if s.VRAMCNT bank = cnt % 256 then pure s1
          else unmap (s.VRAMCNT bank) s1 >>= map (cnt % 256)) = .ok s' := by
  split
  · exact ⟨s1, rfl⟩
  · obtain ⟨s', h, -⟩ := Defined.bind
      (hun (s.VRAMCNT bank) (fun d W h => ht d W ((hsel _ d W).mp h)))
      (hma (cnt % 256) (fun d W h => hin d W ((hsel _ d W).mp h))) s1 hg
    exact ⟨s', h⟩

theorem SetBankControl_defined (s : MapState) (hg : Good s) (ht : TableInv s)
    (bank cnt : Nat) (hb : bank < 9) (hin : InTable bank cnt) :
    ∃ s', SetBankControl bank cnt s = .ok s' := by
  have ht' := fun d W => ht bank d W hb
  interval_cases bank
  · simp only [SetBankControl, MapVRAM_AB, readCnt, writeCnt, Nat.reduceLT, if_true, ok_bind]
    exact defined_build s _ selAB (by intro c d W; simp [selected]) _ _
      (MapVRAM_AB_unmap_defined 0 · (by norm_num)) (MapVRAM_AB_map_defined 0 · (by norm_num))
      ht' hin (fun d W => hg d W)
  · simp only [SetBankControl, MapVRAM_AB, readCnt, writeCnt, Nat.reduceLT, if_true, ok_bind]
    exact defined_build s _ selAB (by intro c d W; simp [selected]) _ _
      (MapVRAM_AB_unmap_defined 1 · (by norm_num)) (MapVRAM_AB_map_defined 1 · (by norm_num))
      ht' hin (fun d W => hg d W)
  · simp only [SetBankControl, MapVRAM_CD, readCnt, writeCnt, clearStat, Nat.reduceLT, if_true, ok_bind]
    exact defined_build s _ (selCD 2) (by intro c d W; simp [selected]) _ _
      (MapVRAM_CD_unmap_defined 2 · (by norm_num)) (MapVRAM_CD_map_defined 2 · (by norm_num))
      ht' hin (fun d W => hg d W)
  · simp only [SetBankControl, MapVRAM_CD, readCnt, writeCnt, clearStat, Nat.reduceLT, if_true, ok_bind]
    exact defined_build s _ (selCD 3) (by intro c d W; simp [selected]) _ _
      (MapVRAM_CD_unmap_defined 3 · (by norm_num)) (MapVRAM_CD_map_defined 3 · (by norm_num))
      ht' hin (fun d W => hg d W)
  · simp only [SetBankControl, MapVRAM_E, readCnt, writeCnt, Nat.reduceLT, if_true, ok_bind]
    exact defined_build s _ selE (by intro c d W; simp [selected]) _ _
      (MapVRAM_E_unmap_defined 4 · (by norm_num)) (MapVRAM_E_map_defined 4 · (by norm_num))
      ht' hin (fun d W => hg d W)
  · simp only [SetBankControl, MapVRAM_FG, readCnt, writeCnt, Nat.reduceLT, if_true, ok_bind]
    exact defined_build s _ selFG (by intro c d W; simp [selected]) _ _
      (MapVRAM_FG_unmap_defined 5 · (by norm_num)) (MapVRAM_FG_map_defined 5 · (by norm_num))
      ht' hin (fun d W => hg d W)
  · simp only [SetBankControl, MapVRAM_FG, readCnt, writeCnt, Nat.reduceLT, if_true, ok_bind]
    exact defined_build s _ selFG (by intro c d W; simp [selected]) _ _
      (MapVRAM_FG_unmap_defined 6 · (by norm_num)) (MapVRAM_FG_map_defined 6 · (by norm_num))
      ht' hin (fun d W => hg d W)
  · simp only [SetBankControl, MapVRAM_H, readCnt, writeCnt, Nat.reduceLT, if_true, ok_bind]
    exact defined_build s _ selH (by intro c d W; simp [selected]) _ _
      (MapVRAM_H_unmap_defined 7 · (by norm_num)) (MapVRAM_H_map_defined 7 · (by norm_num))
      ht' hin (fun d W => hg d W)
  · simp only [SetBankControl, MapVRAM_I, readCnt, writeCnt, Nat.reduceLT, if_true, ok_bind]
    exact defined_build s _ selI (by intro c d W; simp [selected]) _ _
      (MapVRAM_I_unmap_defined 8 · (by norm_num)) (MapVRAM_I_map_defined 8 · (by norm_num))
      ht' hin (fun d W => hg d W)

/-- A completed write from a state whose stored selections are inside the
tables had its own selection inside the tables. -/
theorem InTable_of_ok {s s' : MapState} (ht : TableInv s) {bank cnt : Nat}
    (h : SetBankControl bank cnt s = .ok s') : bank < 9 ∧ InTable bank cnt := by
  have w := SetBankControl_spec _ _ _ _ h
  refine ⟨w.bank_lt, ?_⟩
  intro d W hsel
  have := TableInv_step w ht bank d W w.bank_lt
  rw [w.cnt_eq bank, if_pos rfl] at this
  exact this hsel

/-! ## The mapping claims -/

theorem CntInv_step {bank cnt : Nat} {s s' : MapState} (w : WriteSpec bank cnt s s')
    (hi : CntInv s) : CntInv s' := by
  intro b
  rw [w.cnt_eq b]
  have := w.bank_lt
  by_cases hbb : b = bank
  · subst hbb
    simp only [if_true]
    exact ⟨Nat.mod_lt _ (by norm_num), fun h => by omega⟩
  · simp only [hbb, if_false]
    exact hi b

theorem Reachable.cntInv {s : MapState} (h : Reachable s) : CntInv s := by
  induction h with
  | reset => intro b; simp [Reset]
  | write bank cnt _ hw ih => exact CntInv_step (SetBankControl_spec _ _ _ _ hw) ih

/-- Two states with the mask invariant and the same control bytes have the
same mask tables. -/
theorem MaskInv.ext {s t : MapState} (hs : MaskInv s) (ht : MaskInv t)
    (h : ∀ b, b < 9 → t.VRAMCNT b = s.VRAMCNT b) (d : Dest) (W : Nat) :
    t.VRAMMap d W = s.VRAMMap d W := by
  apply Nat.eq_of_testBit_eq
  intro i
  have h1 := ht d W i
  have h2 := hs d W i
  by_cases hi : i < 9
  · rw [h i hi] at h1
    rw [Bool.eq_iff_iff, h1, h2]
  · have e1 : (t.VRAMMap d W).testBit i = false := by
      by_contra hne; exact hi (h1.mp (by simpa using hne)).1
    have e2 : (s.VRAMMap d W).testBit i = false := by
      by_contra hne; exact hi (h2.mp (by simpa using hne)).1
    rw [e1, e2]

/-- Mapping the banks `0 .. k-1` once each from `Reset` with the control
bytes of a reachable state. -/
theorem remap_prefix {s : MapState} (hs : Reachable s) (k : Nat) (hk : k ≤ 9) :
    ∃ t, forLoop (fun bank u => SetBankControl bank (s.VRAMCNT bank) u) k Reset = .ok t ∧
      Reachable t ∧ ∀ b, t.VRAMCNT b = if b < k then s.VRAMCNT b else 0 := by
  induction k with
  | zero => exact ⟨Reset, rfl, Reachable.reset, fun b => by simp [Reset]⟩
  | succ k ih =>
    obtain ⟨t, ht, hr, hc⟩ := ih (by omega)
    have hin : InTable k (s.VRAMCNT k) := by
      intro d W hsel
      rw [Nat.mod_eq_of_lt (hs.cntInv k).1] at hsel
      exact hs.inv.2.1 k d W (by omega) hsel
    obtain ⟨t', ht'⟩ := SetBankControl_defined t (Good_of_MaskInv hr.inv.1) hr.inv.2.1 k
      (s.VRAMCNT k) (by omega) hin
    refine ⟨t', ?_, Reachable.write k _ hr ht', ?_⟩
    · simp only [forLoop, ht, ok_bind]
      exact ht'
    · intro b
      rw [(SetBankControl_spec _ _ _ _ ht').cnt_eq b, hc b, Nat.mod_eq_of_lt (hs.cntInv k).1]
      by_cases hbk : b = k
      · subst hbk; simp
      · by_cases hlt : b < k
        · simp [hbk, hlt, Nat.lt_succ_of_lt hlt]
        · have : ¬ b < k + 1 := by omega
          simp [hbk, hlt, this]

/-- C1 (mask-table invariant).  In every state reachable from `Reset` by
bank-control writes: bit `b` of the mask of window `W` of a table is set if and
only if `b` is one of the nine banks, `VRAMCNT[b]` has bit 7 set and its
destination and sub-offset fields select a window set containing `W`; the mask
tables are those obtained from `Reset` by mapping every bank once with its
current control byte, so they depend on the nine control bytes only; and the
writes that complete from such a state are exactly the writes whose selected
windows are inside their tables. -/
theorem mask_table_invariant (s : MapState) (hs : Reachable s) :
    (∀ d W b, W < d.size →
      ((s.VRAMMap d W).testBit b = true ↔ b < 9 ∧ selected b (s.VRAMCNT b) d W)) ∧
    (∃ t, remapAll s.VRAMCNT = .ok t ∧ ∀ d W, t.VRAMMap d W = s.VRAMMap d W) ∧
    (∀ t, Reachable t → (∀ b, b < 9 → t.VRAMCNT b = s.VRAMCNT b) →
      ∀ d W, t.VRAMMap d W = s.VRAMMap d W) ∧
    (∀ bank cnt, (∃ s', SetBankControl bank cnt s = .ok s') ↔ bank < 9 ∧ InTable bank cnt) := by
  refine ⟨fun d W b _ => hs.inv.1 d W b, ?_, ?_, ?_⟩
  · obtain ⟨t, ht, hr, hc⟩ := remap_prefix hs 9 (le_refl 9)
    refine ⟨t, ht, fun d W => MaskInv.ext hs.inv.1 hr.inv.1 (fun b hb => ?_) d W⟩
    rw [hc b, if_pos hb]
  · intro t ht hc d W
    exact MaskInv.ext hs.inv.1 ht.inv.1 hc d W
  · intro bank cnt
    constructor
    · rintro ⟨s', h⟩
      exact InTable_of_ok hs.inv.2.1 h
    · rintro ⟨hb, hin⟩
      exact SetBankControl_defined s (Good_of_MaskInv hs.inv.1) hs.inv.2.1 bank cnt hb hin

/-- Witness for `mask_table_invariant`: the state after enabling bank A
(control byte `0x89`: engine-A BG, sub-offset 1) from `Reset`. -/
theorem mask_table_invariant_witness :
    Reachable (afterWrite 0 0x89 Reset) ∧
    (((afterWrite 0 0x89 Reset).VRAMMap .ABG 9).testBit 0 = true ↔
      0 < 9 ∧ selected 0 ((afterWrite 0 0x89 Reset).VRAMCNT 0) .ABG 9) ∧
    (afterWrite 0 0x89 Reset).VRAMMap .ABG 9 = 1 :=
  ⟨Reachable.write 0 0x89 Reachable.reset rfl,
   (mask_table_invariant (afterWrite 0 0x89 Reset)
      (Reachable.write 0 0x89 Reachable.reset rfl)).1 .ABG 9 0 (by decide),
   by decide⟩

set_option maxRecDepth 100000 in
theorem unique_test_small : ∀ m, m < 2 ^ 9 →
    ((m = 0 ∨ (m &&& (m - 1)) ≠ 0) ↔ ¬ ∃ b, b < 9 ∧ m = 2 ^ b) := by
  decide

theorem ctz_two_pow_small : ∀ b, b < 9 → ctz 32 (2 ^ b) = b := by
  decide

theorem soleBank_iff (mask b : Nat) : soleBank mask b ↔ mask = 2 ^ b := by
  constructor
  · intro h
    apply Nat.eq_of_testBit_eq
    intro i
    rw [Nat.testBit_two_pow, Bool.eq_iff_iff, h i]
    simp [eq_comm]
  · rintro rfl i
    rw [Nat.testBit_two_pow]
    simp [eq_comm]

/-- `GetUniqueBankPtr` on a mask over the nine banks: `NULL` unless exactly
one bank is in the mask, else the address of byte `offset & VRAMMask[b]` of
that bank. -/
theorem GetUniqueBankPtr_small (mask offset : Nat) (h : mask < 2 ^ 9) :
    ((¬ ∃ b, soleBank mask b) → GetUniqueBankPtr mask offset = .ok Ptr.null) ∧
    (∀ b, soleBank mask b → b < 9 ∧ ∃ m, VRAMMask b = .ok m ∧
      GetUniqueBankPtr mask offset = .ok (Ptr.bank b (offset &&& m))) := by
  have key := unique_test_small mask h
  constructor
  · intro hno
    have : mask = 0 ∨ (mask &&& (mask - 1)) ≠ 0 := by
      rw [key]
      rintro ⟨b, -, hb⟩
      exact hno ⟨b, (soleBank_iff mask b).mpr hb⟩
    simp only [GetUniqueBankPtr, this, if_true]
  · intro b hb
    rw [soleBank_iff] at hb
    have hb9 : b < 9 := by
      by_contra hge
      have : 2 ^ 9 ≤ 2 ^ b := Nat.pow_le_pow_right (by norm_num) (not_lt.mp hge)
      omega
    have hc : ¬ (mask = 0 ∨ (mask &&& (mask - 1)) ≠ 0) := by
      rw [key, not_not]
      exact ⟨b, hb9, hb⟩
    obtain ⟨m, hm⟩ := VRAMMask_defined b hb9
    refine ⟨hb9, m, hm, ?_⟩
    simp only [GetUniqueBankPtr, hc, if_false]
    rw [hb, ctz_two_pow_small b hb9, hm]

theorem shift14_lt (W : Nat) (d : Dest) (h : W < d.size) : (W <<< 14) % 2 ^ 32 = W <<< 14 := by
  apply Nat.mod_eq_of_lt
  rw [Nat.shiftLeft_eq]
  have : d.size ≤ 32 := by cases d <;> simp [Dest.size]
  have : W < 32 := by omega
  omega

theorem DirectPtrOK_of {s : MapState} (hg : Good s) (hp : PtrInv s) (d : Dest) (W : Nat)
    (hd : d.hasPtr = true) (hW : W < d.size) : DirectPtrOK s d W := by
  have h := hp d W hd hW
  obtain ⟨h1, h2⟩ := GetUniqueBankPtr_small (s.VRAMMap d W) ((W <<< 14) % 2 ^ 32) (hg d W)
  refine ⟨h, ?_, ?_⟩
  · intro hno
    have := h1 hno
    rw [h] at this
    exact Except.ok.inj this
  · intro b hb
    obtain ⟨hb9, m, hm, hq⟩ := h2 b hb
    refine ⟨hb9, m, hm, ?_⟩
    rw [h, shift14_lt W d hW] at hq
    exact Except.ok.inj hq

/-- Effect of a loop of pointer statements over the first `n` windows. -/
theorem updLoop_eq_ok (d : Dest) (n : Nat) (s s' : MapState)
    (h : forLoop (fun i s => updPtr d i s) n s = .ok s') :
    s'.VRAMCNT = s.VRAMCNT ∧ s'.VRAMMap = s.VRAMMap ∧
      (∀ W, W < n → W < d.size ∧
        GetUniqueBankPtr (s.VRAMMap d W) ((W <<< 14) % 2 ^ 32) = .ok (s'.VRAMPtr d W)) ∧
      (∀ d' W, ¬ (d' = d ∧ W < n) → s'.VRAMPtr d' W = s.VRAMPtr d' W) := by
  induction n generalizing s' with
  | zero =>
    simp [forLoop] at h
    subst h
    exact ⟨rfl, rfl, fun W hW => absurd hW (Nat.not_lt_zero W), fun _ _ _ => rfl⟩
  | succ n ih =>
    rw [forLoop_succ_eq_ok] at h
    obtain ⟨s1, h1, h2⟩ := h
    obtain ⟨hv, hm, hp, hq⟩ := ih s1 h1
    rw [updPtr_eq_ok] at h2
    obtain ⟨hn, p, hg, rfl⟩ := h2
    refine ⟨hv, hm, ?_, ?_⟩
    · intro W hW
      by_cases hWn : W = n
      · subst hWn
        rw [hm] at hg
        exact ⟨hn, by simpa using hg⟩
      · have := hp W (by omega)
        refine ⟨this.1, ?_⟩
        simp only [hWn, and_false, if_false]
        exact this.2
    · intro d' W hW
      have : ¬ (d' = d ∧ W = n) := fun hh => hW ⟨hh.1, by omega⟩
      simp only [this, if_false]
      exact hq d' W (fun hh => hW ⟨hh.1, by omega⟩)

theorem DoSavestate_load_spec (f s : MapState) (h : DoSavestate_load f = .ok s) :
    s.VRAMCNT = f.VRAMCNT ∧ s.VRAMMap = f.VRAMMap ∧ PtrInv s := by
  unfold DoSavestate_load at h
  simp only [bind_eq_ok] at h
  obtain ⟨c, ⟨b, ⟨a, ha, hb⟩, hc⟩, hd⟩ := h
  obtain ⟨av, am, ap, aq⟩ := updLoop_eq_ok _ _ _ _ ha
  obtain ⟨bv, bm, bp, bq⟩ := updLoop_eq_ok _ _ _ _ hb
  obtain ⟨cv, cm, cp, cq⟩ := updLoop_eq_ok _ _ _ _ hc
  obtain ⟨dv, dm, dp, dq⟩ := updLoop_eq_ok _ _ _ _ hd
  refine ⟨by rw [dv, cv, bv, av], by rw [dm, cm, bm, am], ?_⟩
  intro d W hd' hW
  rw [dm, cm, bm, am]
  cases d <;> simp [Dest.hasPtr] at hd'
  · rw [dq _ _ (by simp), cq _ _ (by simp), bq _ _ (by simp)]
    exact (ap W hW).2
  · rw [dq _ _ (by simp), cq _ _ (by simp), ← am]
    exact (bp W hW).2
  · rw [dq _ _ (by simp), ← am, ← bm]
    exact (cp W hW).2
  · rw [← am, ← bm, ← cm]
    exact (dp W hW).2

theorem DoSavestate_load_defined (f : MapState) (hg : Good f) :
    ∃ s, DoSavestate_load f = .ok s ∧ Good s := by
  unfold DoSavestate_load
  exact (((Defined.forLoop (fun i hi => Defined.updPtr hi)).bind
    (Defined.forLoop (fun i hi => Defined.updPtr hi))).bind
    (Defined.forLoop (fun i hi => Defined.updPtr hi))).bind
    (Defined.forLoop (fun i hi => Defined.updPtr hi)) f hg

/-- C2 (direct-pointer invariant).  In every state reachable from `Reset` by
bank-control writes, and in the state left by a savestate load of tables whose
masks hold banks 0..8, every window `W` of the four tables with direct
pointers has `VRAMPtr[W] = GetUniqueBankPtr(VRAMMap[W], W << 14)`: the pointer
is `NULL` when the mask has zero or several banks, and addresses byte
`(W << 14) & VRAMMask[b]` of bank `b` when `b` is the only bank in the mask.
A load of any tables that completes leaves the masks as read and every
pointer equal to `GetUniqueBankPtr` of its mask. -/
theorem direct_pointer_invariant :
    (∀ s, Reachable s → ∀ d W, d.hasPtr = true → W < d.size → DirectPtrOK s d W) ∧
    (∀ f, Good f → ∃ s, DoSavestate_load f = .ok s ∧ s.VRAMMap = f.VRAMMap ∧
      ∀ d W, d.hasPtr = true → W < d.size → DirectPtrOK s d W) ∧
    (∀ f s, DoSavestate_load f = .ok s → s.VRAMMap = f.VRAMMap ∧
      ∀ d W, d.hasPtr = true → W < d.size →
        GetUniqueBankPtr (s.VRAMMap d W) ((W <<< 14) % 2 ^ 32) = .ok (s.VRAMPtr d W)) := by
  refine ⟨?_, ?_, ?_⟩
  · intro s hs d W hd hW
    exact DirectPtrOK_of (Good_of_MaskInv hs.inv.1) hs.inv.2.2 d W hd hW
  · intro f hg
    obtain ⟨s, hs, hgs⟩ := DoSavestate_load_defined f hg
    obtain ⟨-, hm, hp⟩ := DoSavestate_load_spec f s hs
    exact ⟨s, hs, hm, fun d W hd hW => DirectPtrOK_of hgs hp d W hd hW⟩
  · intro f s h
    obtain ⟨-, hm, hp⟩ := DoSavestate_load_spec f s h
    exact ⟨hm, hp⟩

/-- Witness for `direct_pointer_invariant`: after enabling bank F into
engine-A BG (control byte `0x81`), window 2 points at byte 0 of bank F and
window 1 has no pointer. -/
theorem direct_pointer_invariant_witness :
    Reachable (afterWrite 5 0x81 Reset) ∧
    DirectPtrOK (afterWrite 5 0x81 Reset) .ABG 2 ∧
    (afterWrite 5 0x81 Reset).VRAMPtr .ABG 2 = Ptr.bank 5 0 ∧
    (afterWrite 5 0x81 Reset).VRAMPtr .ABG 1 = Ptr.null :=
  ⟨Reachable.write 5 0x81 Reachable.reset rfl,
   direct_pointer_invariant.1 (afterWrite 5 0x81 Reset)
     (Reachable.write 5 0x81 Reachable.reset rfl) .ABG 2 rfl (by decide),
   by decide, by decide⟩

theorem and_le_const (x k : Nat) : x &&& k ≤ k := Nat.and_le_right

/-- The control bytes of banks C and D whose selection leaves a table: the
engine-A BG and texture destinations with sub-offset field 4..7. -/
theorem InTable_CD_iff (bank cnt : Nat) (hb : bank = 2 ∨ bank = 3) :
    InTable bank cnt ↔
      ¬ ((cnt % 256) &&& 0x80 ≠ 0 ∧ ((cnt % 256) &&& 0x7 = 1 ∨ (cnt % 256) &&& 0x7 = 3) ∧
          4 ≤ ((cnt % 256) >>> 3) &&& 0x7) := by
  unfold InTable
  generalize cnt % 256 = c
  have hk := and_le_const (c >>> 3) 7
  have h1 := and_le_const ((c >>> 3) &&& 7) 1
  constructor
  · rintro hin ⟨h7, hm, hofs⟩
    rcases hm with hm | hm
    · have := hin .ABG ((((c >>> 3) &&& 0x7) <<< 3)) (by
        rcases hb with rfl | rfl <;> simp [selected, selCD, hm, h7])
      simp only [Dest.size, Nat.shiftLeft_eq] at this
      omega
    · have := hin .Texture (((c >>> 3) &&& 0x7)) (by
        rcases hb with rfl | rfl <;> simp [selected, selCD, hm, h7])
      simp only [Dest.size] at this
      omega
  · intro hno d W hsel
    have hsel' : c &&& 0x80 ≠ 0 ∧ selCD bank c d W := by
      rcases hb with rfl | rfl <;> simpa [selected] using hsel
    obtain ⟨h7, hs⟩ := hsel'
    unfold selCD at hs
    rcases hs with ⟨hm, rfl, rfl⟩ | ⟨hm, rfl, h2, h3⟩ | ⟨hm, rfl, rfl⟩ | ⟨hm, rfl, rfl⟩ |
      ⟨hm, -, rfl, h2⟩ | ⟨hm, -, rfl, h2⟩
    · simp [Dest.size]
    · have : ¬ 4 ≤ (c >>> 3) &&& 0x7 := fun h => hno ⟨h7, Or.inl hm, h⟩
      simp only [Dest.size, Nat.shiftLeft_eq] at h3 ⊢
      omega
    · simp only [Dest.size]; omega
    · have : ¬ 4 ≤ (c >>> 3) &&& 0x7 := fun h => hno ⟨h7, Or.inr hm, h⟩
      simp only [Dest.size]
      omega
    · simpa [Dest.size] using h2
    · simpa [Dest.size] using h2

/-- Every control byte of the banks other than C and D selects windows inside
the tables. -/
theorem InTable_other (bank cnt : Nat) (hb : bank < 9) (h2 : bank ≠ 2) (h3 : bank ≠ 3) :
    InTable bank cnt := by
  unfold InTable
  generalize cnt % 256 = c
  intro d W hsel
  have k3 := and_le_const (c >>> 3) 3
  have k7 := and_le_const (c >>> 3) 7
  have a1 := and_le_const ((c >>> 3) &&& 3) 1
  have b1 := and_le_const ((c >>> 3) &&& 7) 1
  have b2 := and_le_const ((c >>> 3) &&& 7) 2
  interval_cases bank
  · obtain ⟨-, hs⟩ := hsel
    simp only [selAB, Nat.shiftLeft_eq] at hs
    rcases hs with ⟨-, rfl, rfl⟩ | ⟨-, rfl, -, h⟩ | ⟨-, rfl, -, h⟩ | ⟨-, rfl, rfl⟩ <;>
      simp only [Dest.size] <;> omega
  · obtain ⟨-, hs⟩ := hsel
    simp only [selAB, Nat.shiftLeft_eq] at hs
    rcases hs with ⟨-, rfl, rfl⟩ | ⟨-, rfl, -, h⟩ | ⟨-, rfl, -, h⟩ | ⟨-, rfl, rfl⟩ <;>
      simp only [Dest.size] <;> omega
  · exact absurd rfl h2
  · exact absurd rfl h3
  · obtain ⟨-, hs⟩ := hsel
    simp only [selE] at hs
    rcases hs with ⟨-, rfl, rfl⟩ | ⟨-, rfl, h⟩ | ⟨-, rfl, h⟩ | ⟨-, rfl, h⟩ | ⟨-, rfl, h⟩ <;>
      simp only [Dest.size] <;> omega
  · obtain ⟨-, hs⟩ := hsel
    simp only [selFG, baseFG, Nat.shiftLeft_eq] at hs
    rcases hs with ⟨-, rfl, rfl⟩ | ⟨-, rfl, rfl | rfl⟩ | ⟨-, rfl, rfl | rfl⟩ | ⟨-, rfl, rfl⟩ |
      ⟨-, rfl, rfl | rfl⟩ | ⟨-, rfl, rfl⟩ <;> simp only [Dest.size] <;> omega
  · obtain ⟨-, hs⟩ := hsel
    simp only [selFG, baseFG, Nat.shiftLeft_eq] at hs
    rcases hs with ⟨-, rfl, rfl⟩ | ⟨-, rfl, rfl | rfl⟩ | ⟨-, rfl, rfl | rfl⟩ | ⟨-, rfl, rfl⟩ |
      ⟨-, rfl, rfl | rfl⟩ | ⟨-, rfl, rfl⟩ <;> simp only [Dest.size] <;> omega
  · obtain ⟨-, hs⟩ := hsel
    simp only [selH] at hs
    rcases hs with ⟨-, rfl, rfl⟩ | ⟨-, rfl, rfl | rfl | rfl | rfl⟩ | ⟨-, rfl, h⟩ <;>
      simp only [Dest.size] <;> omega
  · obtain ⟨-, hs⟩ := hsel
    simp only [selI] at hs
    rcases hs with ⟨-, rfl, rfl⟩ | ⟨-, rfl, rfl | rfl | rfl | rfl⟩ | ⟨-, rfl, h⟩ | ⟨-, rfl, rfl⟩ <;>
      simp only [Dest.size] <;> omega

/-- C3 (every control byte is well-defined) fails in `MapVRAM_CD`: the
sub-offset field is masked with `0x7` but the engine-A BG table (32 windows)
and the texture table (4 windows) only hold sub-offsets 0..3.  From `Reset`,
writing `0xA1` to bank C indexes `VRAMMap_ABG[32]`, and writing `0xA3` to
bank D indexes `VRAMMap_Texture[4]`.  These are the only control bytes that
leave a table: every byte of the other seven banks, and every byte of banks C
and D whose sub-offset is below 4 or whose destination is another one, stays
inside. -/
theorem MapVRAM_CD_index_outside_table :
    SetBankControl 2 0xA1 Reset = .error (.outOfBounds .ABG 32) ∧
    SetBankControl 3 0xA3 Reset = .error (.outOfBounds .Texture 4) ∧
    (∀ bank cnt, bank < 9 → bank ≠ 2 → bank ≠ 3 → InTable bank cnt) ∧
    (∀ bank cnt, bank = 2 ∨ bank = 3 →
      (InTable bank cnt ↔
        ¬ ((cnt % 256) &&& 0x80 ≠ 0 ∧ ((cnt % 256) &&& 0x7 = 1 ∨ (cnt % 256) &&& 0x7 = 3) ∧
            4 ≤ ((cnt % 256) >>> 3) &&& 0x7))) :=
  ⟨rfl, rfl, InTable_other, InTable_CD_iff⟩

/-- Rewriting the stored control byte changes no table, no pointer and makes
no engine call; outside `MapVRAM_CD` it changes nothing at all. -/
theorem same_write (s : MapState) (bank cnt : Nat) (hb : bank < 9)
    (h : s.VRAMCNT bank = cnt % 256) :
    ∃ s', SetBankControl bank cnt s = .ok s' ∧ s'.VRAMMap = s.VRAMMap ∧
      s'.VRAMPtr = s.VRAMPtr ∧ s'.calls = s.calls ∧ (∀ b, s'.VRAMCNT b = s.VRAMCNT b) ∧
      (bank ≠ 2 → bank ≠ 3 → s'.VRAMSTAT = s.VRAMSTAT) := by
  have hc : ∀ b, (if b = bank then cnt % 256 else s.VRAMCNT b) = s.VRAMCNT b := by
    intro b; split
    · rename_i e; rw [e, h]
    · rfl
  interval_cases bank
  all_goals
    simp only [SetBankControl, MapVRAM_AB, MapVRAM_CD, MapVRAM_E, MapVRAM_FG, MapVRAM_H,
      MapVRAM_I, readCnt, writeCnt, clearStat, Nat.reduceLT, if_true, ok_bind, h]
    refine ⟨_, rfl, rfl, rfl, rfl, hc, ?_⟩
    intro h2 h3
    first | rfl | exact absurd rfl h2 | exact absurd rfl h3

/-- C4 (an unchanged control value is a no-op) fails in `MapVRAM_CD`, which
clears the bank's bit of `VRAMSTAT` before it tests `oldcnt == cnt`.  After
bank C is mapped to the ARM7 (control byte `0x82`) `VRAMSTAT` is 1; writing
`0x82` again leaves the control byte and the ARM7 mask as they were but sets
`VRAMSTAT` to 0.  For the other seven banks the same write changes nothing. -/
theorem MapVRAM_CD_same_value_clears_VRAMSTAT :
    SetBankControl 2 0x82 Reset = .ok (afterWrite 2 0x82 Reset) ∧
    (afterWrite 2 0x82 Reset).VRAMCNT 2 = 0x82 ∧
    (afterWrite 2 0x82 Reset).VRAMSTAT = 1 ∧
    SetBankControl 2 0x82 (afterWrite 2 0x82 Reset)
      = .ok (afterWrite 2 0x82 (afterWrite 2 0x82 Reset)) ∧
    (afterWrite 2 0x82 (afterWrite 2 0x82 Reset)).VRAMSTAT = 0 ∧
    (afterWrite 2 0x82 (afterWrite 2 0x82 Reset)).VRAMMap .ARM7 0 = 4 ∧
    (∀ s bank cnt, bank < 9 → bank ≠ 2 → bank ≠ 3 → s.VRAMCNT bank = cnt % 256 →
      ∃ s', SetBankControl bank cnt s = .ok s' ∧ s'.VRAMMap = s.VRAMMap ∧
        s'.VRAMPtr = s.VRAMPtr ∧ s'.calls = s.calls ∧ (∀ b, s'.VRAMCNT b = s.VRAMCNT b) ∧
        s'.VRAMSTAT = s.VRAMSTAT) := by
  refine ⟨rfl, by decide, by decide, rfl, by decide, by decide, ?_⟩
  intro s bank cnt hb h2 h3 h
  obtain ⟨s', e, hm, hp, hc, hv, hs⟩ := same_write s bank cnt hb h
  exact ⟨s', e, hm, hp, hc, hv, hs h2 h3⟩

/-- C5 (idempotence on masks and pointers).  When the bank-control write
`(bank, cnt)` completes, performing it a second time completes too and leaves
every window mask, every direct pointer, every control byte and the list of
engine calls as the first write left them. -/
theorem write_idempotent (s s' : MapState) (bank cnt : Nat)
    (h : SetBankControl bank cnt s = .ok s') :
    ∃ s'', SetBankControl bank cnt s' = .ok s'' ∧ s''.VRAMMap = s'.VRAMMap ∧
      s''.VRAMPtr = s'.VRAMPtr ∧ (∀ b, s''.VRAMCNT b = s'.VRAMCNT b) ∧ s''.calls = s'.calls := by
  have w := SetBankControl_spec _ _ _ _ h
  obtain ⟨s'', e, hm, hp, hc, hv, -⟩ :=
    same_write s' bank cnt w.bank_lt (by rw [w.cnt_eq bank, if_pos rfl])
  exact ⟨s'', e, hm, hp, hv, hc⟩

/-- Witness for `write_idempotent`: mapping bank G into engine-A OBJ twice. -/
theorem write_idempotent_witness :
    SetBankControl 6 0x8A Reset = .ok (afterWrite 6 0x8A Reset) ∧
    ∃ s'', SetBankControl 6 0x8A (afterWrite 6 0x8A Reset) = .ok s'' ∧
      s''.VRAMMap = (afterWrite 6 0x8A Reset).VRAMMap ∧
      s''.VRAMPtr = (afterWrite 6 0x8A Reset).VRAMPtr ∧
      (∀ b, s''.VRAMCNT b = (afterWrite 6 0x8A Reset).VRAMCNT b) ∧
      s''.calls = (afterWrite 6 0x8A Reset).calls :=
  ⟨rfl, write_idempotent Reset (afterWrite 6 0x8A Reset) 6 0x8A rfl⟩

theorem Phase.notified {f : Nat → Nat} {occ : Dest → Nat → Prop} {s s' : MapState}
    (p : Phase f occ s s') : ∃ L, s'.calls = s.calls ++ L ∧ NotifiedChanges s s' L := by
  obtain ⟨L, hL, h1, h2, h3, h4⟩ := p.notes
  refine ⟨L, hL, ?_, ?_, ?_, ?_⟩
  · intro W hne
    exact h1 W (by by_contra ho; exact hne (p.eff.map_other _ _ ho))
  · intro W hne
    exact h2 W (by by_contra ho; exact hne (p.eff.map_other _ _ ho))
  · intro W hne
    exact h3 W (by by_contra ho; exact hne (p.eff.map_other _ _ ho))
  · intro W hne
    exact h4 W (by by_contra ho; exact hne (p.eff.map_other _ _ ho))

theorem NotifiedChanges.trans {s s2 s' : MapState} {L1 L2 : List Call}
    (h1 : NotifiedChanges s s2 L1) (h2 : NotifiedChanges s2 s' L2) :
    NotifiedChanges s s' (L1 ++ L2) := by
  obtain ⟨a1, a2, a3, a4⟩ := h1
  obtain ⟨b1, b2, b3, b4⟩ := h2
  refine ⟨?_, ?_, ?_, ?_⟩ <;> intro W hne <;> rw [List.mem_append]
  · by_cases e : s2.VRAMMap .ABGExtPal W = s.VRAMMap .ABGExtPal W
    · exact Or.inr (b1 W (by rw [e]; exact hne))
    · exact Or.inl (a1 W e)
  · by_cases e : s2.VRAMMap .BBGExtPal W = s.VRAMMap .BBGExtPal W
    · exact Or.inr (b2 W (by rw [e]; exact hne))
    · exact Or.inl (a2 W e)
  · by_cases e : s2.VRAMMap .AOBJExtPal W = s.VRAMMap .AOBJExtPal W
    · exact Or.inr (b3 W (by rw [e]; exact hne))
    · exact Or.inl (a3 W e)
  · by_cases e : s2.VRAMMap .BOBJExtPal W = s.VRAMMap .BOBJExtPal W
    · exact Or.inr (b4 W (by rw [e]; exact hne))
    · exact Or.inl (a4 W e)

/-- C7 (extended-palette staleness notification).  A completed bank-control
write appends to the engine calls a list `L` such that every extended-palette
mask the write changed has its call in `L`: `BGExtPalDirty(W rounded down to
an even slot)` on engine A or B for a changed BG slot `W`, `OBJExtPalDirty()`
on engine A or B for a changed OBJ mask.  The same holds of each unmap block
and of each map block taken alone. -/
theorem extpal_dirty_notified :
    (∀ s s' bank cnt, SetBankControl bank cnt s = .ok s' →
      ∃ L, s'.calls = s.calls ++ L ∧ NotifiedChanges s s' L) ∧
    (∀ blk, blk ∈ mapBlocks → ∀ s s' bank c, blk bank c s = .ok s' →
      ∃ L, s'.calls = s.calls ++ L ∧ NotifiedChanges s s' L) := by
  constructor
  · intro s s' bank cnt h
    have w := SetBankControl_spec _ _ _ _ h
    by_cases heq : s.VRAMCNT bank = cnt % 256
    · obtain ⟨hm, -, hc⟩ := w.same heq
      refine ⟨[], by simp [hc], ?_, ?_, ?_, ?_⟩ <;> intro W hne <;> exact absurd (by rw [hm]) hne
    · obtain ⟨s1, s2, h1m, -, h1c, pu, pm⟩ := w.changed heq
      obtain ⟨L1, e1, n1⟩ := pu.notified
      obtain ⟨L2, e2, n2⟩ := pm.notified
      refine ⟨L1 ++ L2, by rw [e2, e1, h1c, List.append_assoc], ?_⟩
      have := n1.trans n2
      unfold NotifiedChanges at this ⊢
      rw [h1m] at this
      exact this
  · intro blk hblk s s' bank c h
    simp only [mapBlocks, List.mem_cons, List.mem_singleton, List.not_mem_nil, or_false] at hblk
    rcases hblk with rfl | rfl | rfl | rfl | rfl | rfl | rfl | rfl | rfl | rfl | rfl | rfl
    · exact (MapVRAM_AB_unmap_phase _ _ _ _ h).notified
    · exact (MapVRAM_AB_map_phase _ _ _ _ h).notified
    · exact (MapVRAM_CD_unmap_phase _ _ _ _ h).notified
    · exact (MapVRAM_CD_map_phase _ _ _ _ h).notified
    · exact (MapVRAM_E_unmap_phase _ _ _ _ h).notified
    · exact (MapVRAM_E_map_phase _ _ _ _ h).notified
    · exact (MapVRAM_FG_unmap_phase _ _ _ _ h).notified
    · exact (MapVRAM_FG_map_phase _ _ _ _ h).notified
    · exact (MapVRAM_H_unmap_phase _ _ _ _ h).notified
    · exact (MapVRAM_H_map_phase _ _ _ _ h).notified
    · exact (MapVRAM_I_unmap_phase _ _ _ _ h).notified
    · exact (MapVRAM_I_map_phase _ _ _ _ h).notified

/-- Witness for `extpal_dirty_notified`: moving bank F from engine-A BG
ext-palette slots 0-1 (`0x84`) to slots 2-3 (`0x8C`) calls
`BGExtPalDirty(0)` and then `BGExtPalDirty(2)` on engine A. -/
theorem extpal_dirty_notified_witness :
    SetBankControl 5 0x8C (afterWrite 5 0x84 Reset) = .ok (afterWrite 5 0x8C (afterWrite 5 0x84 Reset)) ∧
    (afterWrite 5 0x8C (afterWrite 5 0x84 Reset)).calls
      = (afterWrite 5 0x84 Reset).calls ++ [Call.BGExtPalDirty 0 0, Call.BGExtPalDirty 0 2] ∧
    ∃ L, (afterWrite 5 0x8C (afterWrite 5 0x84 Reset)).calls = (afterWrite 5 0x84 Reset).calls ++ L ∧
      NotifiedChanges (afterWrite 5 0x84 Reset) (afterWrite 5 0x8C (afterWrite 5 0x84 Reset)) L :=
  ⟨rfl, by decide,
   extpal_dirty_notified.1 (afterWrite 5 0x84 Reset) _ 5 0x8C rfl⟩

/-- A control byte selects windows of one destination only. -/
theorem selected_dest_unique {b c : Nat} {d d' : Dest} {W W' : Nat}
    (h1 : selected b c d W) (h2 : selected b c d' W') : d = d' := by
  obtain ⟨-, h1⟩ := h1
  obtain ⟨-, h2⟩ := h2
  split at h1
  all_goals first
    | exact absurd h1 id
    | (simp only [selAB, selCD, selE, selFG, selH, selI] at h1 h2
       rcases h1 with h1 | h1 | h1 | h1 | h1 | h1 <;>
       rcases h2 with h2 | h2 | h2 | h2 | h2 | h2 <;>
       first
         | (obtain ⟨-, rfl, -⟩ := h1; obtain ⟨-, rfl, -⟩ := h2; rfl)
         | (obtain ⟨-, -, rfl, -⟩ := h1; obtain ⟨-, -, rfl, -⟩ := h2; rfl)
         | (exfalso; omega))
    | (simp only [selAB, selCD, selE, selFG, selH, selI] at h1 h2
       rcases h1 with h1 | h1 | h1 | h1 | h1 <;>
       rcases h2 with h2 | h2 | h2 | h2 | h2 <;>
       first
         | (obtain ⟨-, rfl, -⟩ := h1; obtain ⟨-, rfl, -⟩ := h2; rfl)
         | (exfalso; omega))
    | (simp only [selAB, selCD, selE, selFG, selH, selI] at h1 h2
       rcases h1 with h1 | h1 | h1 | h1 <;>
       rcases h2 with h2 | h2 | h2 | h2 <;>
       first
         | (obtain ⟨-, rfl, -⟩ := h1; obtain ⟨-, rfl, -⟩ := h2; rfl)
         | (exfalso; omega))
    | (simp only [selAB, selCD, selE, selFG, selH, selI] at h1 h2
       rcases h1 with h1 | h1 | h1 <;>
       rcases h2 with h2 | h2 | h2 <;>
       first
         | (obtain ⟨-, rfl, -⟩ := h1; obtain ⟨-, rfl, -⟩ := h2; rfl)
         | (exfalso; omega))

/-- After a completed write from a reachable state, the windows holding the
written bank are the windows its new control byte selects. -/
theorem testBit_after_SetBankControl {s s' : MapState} (hs : Reachable s) {bank cnt : Nat}
    (h : SetBankControl bank cnt s = .ok s') (d : Dest) (W : Nat) :
    (s'.VRAMMap d W).testBit bank = true ↔ selected bank (cnt % 256) d W := by
  have w := SetBankControl_spec _ _ _ _ h
  have hi := (Reachable.write bank cnt hs h).inv.1 d W bank
  rw [w.cnt_eq bank, if_pos rfl] at hi
  rw [hi]
  exact ⟨fun x => x.2, fun x => ⟨w.bank_lt, x⟩⟩

/-- C6 (fan-out width), as the code has it.  Let a bank-control write
`(bank, cnt)` complete from a reachable state, `cnt` enabling the bank and
selecting the background or object table `d`.  Then no window of another
table contains the bank.  For banks A..E the windows of `d` containing the
bank form one run of `capacity / 16 KiB` consecutive windows (8 for A..D, 4
for E) inside the table.  For the small banks the windows are the mirrored
sets of the mapping notes: `base` and `base + 2` for F and G, windows 0, 1,
4, 5 for H, windows 2, 3, 6, 7 for I in engine-B BG, and all 8 windows for I
in engine-B OBJ. -/
theorem fan_out_windows (s s' : MapState) (hs : Reachable s) (bank cnt : Nat) (d : Dest)
    (h : SetBankControl bank cnt s = .ok s') (hd : d.hasPtr = true)
    (hsel : ∃ W0, selected bank (cnt % 256) d W0) :
    (∀ d' W, d' ≠ d → (s'.VRAMMap d' W).testBit bank = false) ∧
    (bank ≤ 4 → (bankCapacity bank / 0x4000 = 4 ∨ bankCapacity bank / 0x4000 = 8) ∧
      ∃ base, base + bankCapacity bank / 0x4000 ≤ d.size ∧
        ∀ W, ((s'.VRAMMap d W).testBit bank = true ↔
          base ≤ W ∧ W < base + bankCapacity bank / 0x4000)) ∧
    (bank = 5 ∨ bank = 6 → ∀ W, ((s'.VRAMMap d W).testBit bank = true ↔
        W = baseFG (cnt % 256) ∨ W = baseFG (cnt % 256) + 2)) ∧
    (bank = 7 → ∀ W, ((s'.VRAMMap d W).testBit bank = true ↔ W = 0 ∨ W = 1 ∨ W = 4 ∨ W = 5)) ∧
    (bank = 8 → d = .BBG →
      ∀ W, ((s'.VRAMMap d W).testBit bank = true ↔ W = 2 ∨ W = 3 ∨ W = 6 ∨ W = 7)) ∧
    (bank = 8 → d = .BOBJ → ∀ W, ((s'.VRAMMap d W).testBit bank = true ↔ W < 8)) := by
  have key := testBit_after_SetBankControl hs h
  have hin := (InTable_of_ok hs.inv.2.1 h).2
  unfold InTable at hin
  obtain ⟨W0, h0⟩ := hsel
  generalize cnt % 256 = c at key hin h0
  refine ⟨?_, ?_, ?_, ?_, ?_, ?_⟩
  · intro d' W hne
    by_contra hb
    exact hne (selected_dest_unique ((key d' W).mp (by simpa using hb)) h0)
  · intro hb4
    obtain ⟨h7, h0⟩ := h0
    interval_cases bank
    · simp only [selAB] at h0
      rcases h0 with ⟨-, rfl, -⟩ | ⟨hm, rfl, -⟩ | ⟨hm, rfl, -⟩ | ⟨-, rfl, -⟩
      · cases hd
      · refine ⟨Or.inr (by decide), ((c >>> 3) &&& 0x3) <<< 3, ?_, fun W => ?_⟩
        · have := hin .ABG ((((c >>> 3) &&& 0x3) <<< 3) + 7) (by simp [selected, selAB, hm, h7])
          simp only [Dest.size, bankCapacity] at this ⊢
          omega
        · rw [key]; simp [selected, selAB, hm, h7, bankCapacity]
      · refine ⟨Or.inr (by decide), (((c >>> 3) &&& 0x3) &&& 0x1) <<< 3, ?_, fun W => ?_⟩
        · have := hin .AOBJ (((((c >>> 3) &&& 0x3) &&& 0x1) <<< 3) + 7) (by simp [selected, selAB, hm, h7])
          simp only [Dest.size, bankCapacity] at this ⊢
          omega
        · rw [key]; simp [selected, selAB, hm, h7, bankCapacity]
      · cases hd
    · simp only [selAB] at h0
      rcases h0 with ⟨-, rfl, -⟩ | ⟨hm, rfl, -⟩ | ⟨hm, rfl, -⟩ | ⟨-, rfl, -⟩
      · cases hd
      · refine ⟨Or.inr (by decide), ((c >>> 3) &&& 0x3) <<< 3, ?_, fun W => ?_⟩
        · have := hin .ABG ((((c >>> 3) &&& 0x3) <<< 3) + 7) (by simp [selected, selAB, hm, h7])
          simp only [Dest.size, bankCapacity] at this ⊢
          omega
        · rw [key]; simp [selected, selAB, hm, h7, bankCapacity]
      · refine ⟨Or.inr (by decide), (((c >>> 3) &&& 0x3) &&& 0x1) <<< 3, ?_, fun W => ?_⟩
        · have := hin .AOBJ (((((c >>> 3) &&& 0x3) &&& 0x1) <<< 3) + 7) (by simp [selected, selAB, hm, h7])
          simp only [Dest.size, bankCapacity] at this ⊢
          omega
        · rw [key]; simp [selected, selAB, hm, h7, bankCapacity]
      · cases hd
    · simp only [selCD] at h0
      rcases h0 with ⟨-, rfl, -⟩ | ⟨hm, rfl, -⟩ | ⟨-, rfl, -⟩ | ⟨-, rfl, -⟩ | ⟨hm, -, rfl, -⟩ |
        ⟨-, hne, -⟩
      · cases hd
      · refine ⟨Or.inr (by decide), ((c >>> 3) &&& 0x7) <<< 3, ?_, fun W => ?_⟩
        · have := hin .ABG ((((c >>> 3) &&& 0x7) <<< 3) + 7) (by simp [selected, selCD, hm, h7])
          simp only [Dest.size, bankCapacity] at this ⊢
          omega
        · rw [key]; simp [selected, selCD, hm, h7, bankCapacity]
      · cases hd
      · cases hd
      · refine ⟨Or.inr (by decide), 0, by decide, fun W => ?_⟩
        rw [key]; simp [selected, selCD, hm, h7, bankCapacity]
      · exact absurd rfl hne
    · simp only [selCD] at h0
      rcases h0 with ⟨-, rfl, -⟩ | ⟨hm, rfl, -⟩ | ⟨-, rfl, -⟩ | ⟨-, rfl, -⟩ | ⟨-, hne, -⟩ |
        ⟨hm, -, rfl, -⟩
      · cases hd
      · refine ⟨Or.inr (by decide), ((c >>> 3) &&& 0x7) <<< 3, ?_, fun W => ?_⟩
        · have := hin .ABG ((((c >>> 3) &&& 0x7) <<< 3) + 7) (by simp [selected, selCD, hm, h7])
          simp only [Dest.size, bankCapacity] at this ⊢
          omega
        · rw [key]; simp [selected, selCD, hm, h7, bankCapacity]
      · cases hd
      · cases hd
      · exact absurd hne (by decide)
      · refine ⟨Or.inr (by decide), 0, by decide, fun W => ?_⟩
        rw [key]; simp [selected, selCD, hm, h7, bankCapacity]
    · simp only [selE] at h0
      rcases h0 with ⟨-, rfl, -⟩ | ⟨hm, rfl, -⟩ | ⟨hm, rfl, -⟩ | ⟨-, rfl, -⟩ | ⟨-, rfl, -⟩
      · cases hd
      · refine ⟨Or.inl (by decide), 0, by decide, fun W => ?_⟩
        rw [key]; simp [selected, selE, hm, h7, bankCapacity]
      · refine ⟨Or.inl (by decide), 0, by decide, fun W => ?_⟩
        rw [key]; simp [selected, selE, hm, h7, bankCapacity]
      · cases hd
      · cases hd
  · intro hb W
    obtain ⟨h7, h0⟩ := h0
    rw [key]
    rcases hb with rfl | rfl
    · simp only [selFG] at h0
      rcases h0 with ⟨-, rfl, -⟩ | ⟨hm, rfl, -⟩ | ⟨hm, rfl, -⟩ | ⟨-, rfl, -⟩ | ⟨-, rfl, -⟩ |
        ⟨-, rfl, -⟩
      · cases hd
      · simp [selected, selFG, hm, h7]
      · simp [selected, selFG, hm, h7]
      · cases hd
      · cases hd
      · cases hd
    · simp only [selFG] at h0
      rcases h0 with ⟨-, rfl, -⟩ | ⟨hm, rfl, -⟩ | ⟨hm, rfl, -⟩ | ⟨-, rfl, -⟩ | ⟨-, rfl, -⟩ |
        ⟨-, rfl, -⟩
      · cases hd
      · simp [selected, selFG, hm, h7]
      · simp [selected, selFG, hm, h7]
      · cases hd
      · cases hd
      · cases hd
  · rintro rfl W
    obtain ⟨h7, h0⟩ := h0
    rw [key]
    simp only [selH] at h0
    rcases h0 with ⟨-, rfl, -⟩ | ⟨hm, rfl, -⟩ | ⟨-, rfl, -⟩
    · cases hd
    · simp [selected, selH, hm, h7]
    · cases hd
  · rintro rfl rfl W
    obtain ⟨h7, h0⟩ := h0
    rw [key]
    simp only [selI] at h0
    rcases h0 with ⟨-, h0, -⟩ | ⟨hm, -, -⟩ | ⟨-, h0, -⟩ | ⟨-, h0, -⟩
    · cases h0
    · simp [selected, selI, hm, h7]
    · cases h0
    · cases h0
  · rintro rfl rfl W
    obtain ⟨h7, h0⟩ := h0
    rw [key]
    simp only [selI] at h0
    rcases h0 with ⟨-, h0, -⟩ | ⟨-, h0, -⟩ | ⟨hm, -, -⟩ | ⟨-, h0, -⟩
    · cases h0
    · cases h0
    · simp [selected, selI, hm, h7]
    · cases h0

/-- Witness for `fan_out_windows`: bank E mapped to engine-A OBJ (`0x82`)
from `Reset`. -/
theorem fan_out_windows_witness :
    Reachable Reset ∧ SetBankControl 4 0x82 Reset = .ok (afterWrite 4 0x82 Reset) ∧
    Dest.AOBJ.hasPtr = true ∧ selected 4 (0x82 % 256) .AOBJ 0 ∧
    (bankCapacity 4 / 0x4000 = 4 ∨ bankCapacity 4 / 0x4000 = 8) ∧
    ∃ base, base + bankCapacity 4 / 0x4000 ≤ Dest.AOBJ.size ∧
      ∀ W, (((afterWrite 4 0x82 Reset).VRAMMap .AOBJ W).testBit 4 = true ↔
        base ≤ W ∧ W < base + bankCapacity 4 / 0x4000) :=
  ⟨Reachable.reset, rfl, rfl, by decide,
   (fan_out_windows Reset (afterWrite 4 0x82 Reset) Reachable.reset 4 0x82 .AOBJ rfl rfl
      ⟨0, by decide⟩).2.1 (by decide)⟩

/-- C6 as stated fails: enabling bank F (16 KiB, one window of capacity)
into engine-A BG with control byte `0x81` from `Reset` puts the bank into
windows 0 and 2 and not into window 1, which is neither one run of
consecutive windows nor `capacity / 16 KiB = 1` window. -/
theorem fan_out_counterexample :
    SetBankControl 5 0x81 Reset = .ok (afterWrite 5 0x81 Reset) ∧
    selected 5 0x81 .ABG 0 ∧
    ((afterWrite 5 0x81 Reset).VRAMMap .ABG 0).testBit 5 = true ∧
    ((afterWrite 5 0x81 Reset).VRAMMap .ABG 1).testBit 5 = false ∧
    ((afterWrite 5 0x81 Reset).VRAMMap .ABG 2).testBit 5 = true ∧
    bankCapacity 5 / 0x4000 = 1 ∧
    (¬ ∃ base n, ∀ W, W < Dest.ABG.size →
      (((afterWrite 5 0x81 Reset).VRAMMap .ABG W).testBit 5 = true ↔ base ≤ W ∧ W < base + n)) ∧
    ¬ FanOutRun (afterWrite 5 0x81 Reset) .ABG 5 := by
  have e0 : ((afterWrite 5 0x81 Reset).VRAMMap .ABG 0).testBit 5 = true := by decide
  have e1 : ((afterWrite 5 0x81 Reset).VRAMMap .ABG 1).testBit 5 = false := by decide
  have e2 : ((afterWrite 5 0x81 Reset).VRAMMap .ABG 2).testBit 5 = true := by decide
  refine ⟨rfl, by decide, e0, e1, e2, by decide, ?_, ?_⟩
  · rintro ⟨base, n, hrun⟩
    have h0 := (hrun 0 (by decide)).mp e0
    have h2 := (hrun 2 (by decide)).mp e2
    have h1 := (hrun 1 (by decide)).mpr ⟨by omega, by omega⟩
    rw [e1] at h1
    cases h1
  · rintro ⟨base, n, hn, hcap, -⟩
    simp [bankCapacity] at hcap
    omega

/-! ## Bit fields: words and bits -/

theorem testBit_not64 (x b : Nat) :
    (not64 x).testBit b = (decide (b < 64) && !x.testBit b) := by
  unfold not64
  have : (0xFFFFFFFFFFFFFFFF : Nat) = 2 ^ 64 - 1 := by norm_num
  rw [this, Nat.testBit_xor, Nat.testBit_two_pow_sub_one, Nat.testBit_mod_two_pow]
  by_cases hb : b < 64 <;> simp [hb]

theorem one_shiftLeft (k : Nat) : 1 <<< k = 2 ^ k := by
  rw [Nat.shiftLeft_eq, one_mul]

theorem and_two_pow_ne_zero (x k : Nat) : (x &&& 2 ^ k != 0) = x.testBit k := by
  have h : x &&& 2 ^ k = if x.testBit k then 2 ^ k else 0 := by
    apply Nat.eq_of_testBit_eq
    intro i
    rw [Nat.testBit_and, Nat.testBit_two_pow]
    by_cases hk : k = i
    · subst hk
      by_cases hx : x.testBit k <;> simp [hx, Nat.testBit_two_pow]
    · by_cases hx : x.testBit k <;> simp [hx, hk, Nat.testBit_two_pow]
  rw [h]
  by_cases hx : x.testBit k
  · simp [hx]
  · simp [hx]

/-- Bit `idx` of a bit field is bit `idx % 64` of word `idx / 64`. -/
theorem getBit_eq (data : Nat → Nat) (idx : Nat) :
    getBit data idx = (data (idx / 64)).testBit (idx % 64) := by
  unfold getBit
  have h1 : idx >>> 6 = idx / 64 := by rw [Nat.shiftRight_eq_div_pow]
  have h2 : idx &&& 0x3F = idx % 64 := by
    have := Nat.and_pow_two_sub_one_eq_mod idx 6
    simpa using this
  have h3 : (1 <<< (idx % 64)) % 2 ^ 64 = 2 ^ (idx % 64) := by
    rw [one_shiftLeft]
    exact Nat.mod_eq_of_lt (Nat.pow_lt_pow_right (by norm_num) (Nat.mod_lt _ (by norm_num)))
  rw [h1, h2, h3, and_two_pow_ne_zero]

theorem readWord_eq_ok {len : Nat} {data : Nat → Nat} {i v : Nat} :
    readWord len data i = .ok v ↔ i < len ∧ v = data i := by
  unfold readWord; split <;> simp [*, eq_comm]

theorem writeWord_eq_ok {len : Nat} {data r : Nat → Nat} {i v : Nat} :
    writeWord len data i v = .ok r ↔ i < len ∧ r = fun w => if w = i then v else data w := by
  unfold writeWord; split <;> simp [*, eq_comm]

/-- The word written by `operator=(set)` on bit `b`. -/
theorem testBit_assigned (v b i : Nat) (set : Bool) (hb : b < 64) (hi : i < 64) :
    ((v &&& not64 (1 <<< b)) ||| (((if set then 1 else 0) <<< b) % 2 ^ 64)).testBit i
      = if i = b then set else v.testBit i := by
  have hp : (2 : Nat) ^ b < 2 ^ 64 := Nat.pow_lt_pow_right (by norm_num) hb
  rw [Nat.testBit_or, Nat.testBit_and, testBit_not64, one_shiftLeft, Nat.testBit_two_pow]
  cases set
  · simp only [Bool.false_eq_true, if_false, Nat.zero_shiftLeft, Nat.zero_mod, Nat.zero_testBit,
      Bool.or_false]
    by_cases e : i = b
    · subst e; simp
    · have : ¬ b = i := fun h => e h.symm
      simp [e, this, hi]
  · simp only [if_true, one_shiftLeft, Nat.mod_eq_of_lt hp, Nat.testBit_two_pow]
    by_cases e : i = b
    · subst e; simp
    · have : ¬ b = i := fun h => e h.symm
      simp [e, this, hi]

theorem assignBit_eq_ok {len : Nat} {data r : Nat → Nat} {w b : Nat} {set : Bool} :
    assignBit len data w b set = .ok r ↔ w < len ∧
      r = fun i => if i = w then
        ((data w &&& not64 (1 <<< b)) ||| (((if set then 1 else 0) <<< b) % 2 ^ 64)) else data i := by
  unfold assignBit
  by_cases hw : w < len
  · simp [readWord, writeWord, hw, eq_comm]
  · simp [readWord, hw]

/-- Bits of a field after `operator=(set)` on bit `b` of word `w`. -/
theorem getBit_assignBit {len : Nat} {data r : Nat → Nat} {w b : Nat} {set : Bool}
    (h : assignBit len data w b set = .ok r) (hb : b < 64) (t : Nat) :
    getBit r t = if t = w * 64 + b then set else getBit data t := by
  obtain ⟨-, rfl⟩ := assignBit_eq_ok.mp h
  rw [getBit_eq, getBit_eq]
  by_cases hw : t / 64 = w
  · simp only [hw, if_true]
    rw [testBit_assigned _ _ _ _ hb (Nat.mod_lt _ (by norm_num))]
    by_cases hbb : t % 64 = b
    · have : t = w * 64 + b := by omega
      rw [if_pos hbb, if_pos this]
    · have : ¬ t = w * 64 + b := by omega
      rw [if_neg hbb, if_neg this]
  · have : ¬ t = w * 64 + b := by omega
    simp [hw, this]

theorem shift6_and63 (idx : Nat) : (idx >>> 6) * 64 + (idx &&& 0x3F) = idx := by
  have h1 : idx >>> 6 = idx / 64 := by rw [Nat.shiftRight_eq_div_pow]
  have h2 : idx &&& 0x3F = idx % 64 := by
    have := Nat.and_pow_two_sub_one_eq_mod idx 6
    simpa using this
  rw [h1, h2]; omega

theorem and63_lt (idx : Nat) : idx &&& 0x3F < 64 := by
  have h2 : idx &&& 0x3F = idx % 64 := by
    have := Nat.and_pow_two_sub_one_eq_mod idx 6
    simpa using this
  rw [h2]; omega

/-- Bits of a field after `BitField[idx] = set`. -/
theorem getBit_setBit {len : Nat} {data r : Nat → Nat} {idx : Nat} {set : Bool}
    (h : setBit len data idx set = .ok r) (t : Nat) :
    getBit r t = if t = idx then set else getBit data t := by
  have := getBit_assignBit h (and63_lt idx) t
  rwa [shift6_and63] at this

theorem setBit_defined (len : Nat) (data : Nat → Nat) (idx : Nat) (set : Bool)
    (h : idx < 64 * len) : ∃ r, setBit len data idx set = .ok r := by
  refine ⟨_, assignBit_eq_ok.mpr ⟨?_, rfl⟩⟩
  rw [Nat.shiftRight_eq_div_pow]
  omega

/-! ## Loop rules -/

/-- Invariant rule for the `for` loop. -/
theorem forLoop_inv {σ : Type} (body : Nat → σ → Except Fault σ) (I : Nat → σ → Prop) (n : Nat)
    (hstep : ∀ i s, i < n → I i s → ∃ s', body i s = .ok s' ∧ I (i + 1) s')
    (s0 : σ) (h0 : I 0 s0) : ∃ s', forLoop body n s0 = .ok s' ∧ I n s' := by
  induction n with
  | zero => exact ⟨s0, rfl, h0⟩
  | succ n ih =>
    obtain ⟨s1, h1, i1⟩ := ih (fun i s hi => hstep i s (by omega))
    obtain ⟨s2, h2, i2⟩ := hstep n s1 (by omega) i1
    exact ⟨s2, by simp only [forLoop, h1, ok_bind]; exact h2, i2⟩

theorem inv_skip_to {σ : Type} (I : Nat → σ → Prop) (mapping0 : Nat)
    (hskip : ∀ k s, ¬ mapping0.testBit k = true → I k s → I (k + 1) s)
    (s : σ) (k m : Nat) (hkm : k ≤ m) (hz : ∀ i, k ≤ i → i < m → mapping0.testBit i = false)
    (h : I k s) : I m s := by
  induction m with
  | zero =>
    have : k = 0 := by omega
    subst this; exact h
  | succ m ih =>
    by_cases hk : k = m + 1
    · subst hk; exact h
    · have := ih (by omega) (fun i h1 h2 => hz i h1 (by omega))
      exact hskip m s (by rw [hz m (by omega) (by omega)]; simp) this

/-- Invariant rule for the loop over the banks of a mask: `I k s` says that
the banks below `k` have been dealt with. -/
theorem forEachBank_inv {σ : Type} (body : Nat → σ → Except Fault σ) (I : Nat → σ → Prop)
    (mapping0 : Nat) (hm : mapping0 < 2 ^ 32)
    (hstep : ∀ num s, mapping0.testBit num = true → I num s →
      ∃ s', body num s = .ok s' ∧ I (num + 1) s')
    (hskip : ∀ k s, ¬ mapping0.testBit k = true → I k s → I (k + 1) s)
    (s0 : σ) (h0 : I 0 s0) : ∃ s', forEachBank body 32 mapping0 s0 = .ok s' ∧ I 32 s' := by
  have hhigh : ∀ i, 32 ≤ i → mapping0.testBit i = false := fun i hi =>
    Nat.testBit_lt_two_pow (lt_of_lt_of_le hm (Nat.pow_le_pow_right (by norm_num) hi))
  have gen : ∀ fuel k mapping s, k ≤ 32 → 32 ≤ fuel + k →
      (∀ i, mapping.testBit i = (mapping0.testBit i && decide (k ≤ i))) → I k s →
      ∃ s', forEachBank body fuel mapping s = .ok s' ∧ I 32 s' := by
    intro fuel
    induction fuel with
    | zero =>
      intro k mapping s hk hf hbits hI
      have hk32 : k = 32 := by omega
      subst hk32
      have hz : mapping = 0 := by
        apply Nat.eq_of_testBit_eq
        intro i
        rw [hbits i, Nat.zero_testBit]
        by_cases hi : 32 ≤ i
        · simp [hhigh i hi]
        · simp [hi]
      exact ⟨s, by simp [forEachBank, hz], hI⟩
    | succ fuel ih =>
      intro k mapping s hk hf hbits hI
      by_cases hz : mapping = 0
      · refine ⟨s, by simp [forEachBank, hz], ?_⟩
        apply inv_skip_to I mapping0 hskip s k 32 hk _ hI
        intro i h1 _
        have := hbits i
        rw [hz, Nat.zero_testBit] at this
        simpa [h1] using this.symm
      · have hmlt : mapping < 2 ^ 32 := by
          apply Nat.lt_pow_two_of_testBit
          intro i hi
          rw [hbits i, hhigh i hi]; rfl
        have hnum := ctz_testBit 32 mapping hz hmlt
        have hmin := fun i hi => ctz_min 32 mapping i hi
        have hlt := ctz_lt_of_lt 32 mapping 32 hz hmlt hmlt
        rw [hbits] at hnum
        simp only [Bool.and_eq_true, decide_eq_true_eq] at hnum
        have hInum : I (ctz 32 mapping) s := by
          apply inv_skip_to I mapping0 hskip s k _ hnum.2 _ hI
          intro i h1 h2
          have := hmin i h2
          rw [hbits i] at this
          simpa [h1] using this
        obtain ⟨s1, hb1, hI1⟩ := hstep _ s hnum.1 hInum
        obtain ⟨s', hr, hI'⟩ := ih (ctz 32 mapping + 1) (mapping &&& not32 (1 <<< ctz 32 mapping)) s1
          (by omega) (by omega) (by
            intro i
            rw [Nat.testBit_and, testBit_not32, one_shiftLeft, Nat.testBit_two_pow, hbits i]
            by_cases hi32 : 32 ≤ i
            · have : ¬ i < 32 := by omega
              simp [hhigh i hi32, this]
            · by_cases hik : ctz 32 mapping + 1 ≤ i
              · have h1 : k ≤ i := by omega
                have h2 : ¬ ctz 32 mapping = i := by omega
                have h3 : i < 32 := by omega
                simp [hik, h1, h2, h3]
              · by_cases hieq : ctz 32 mapping = i
                · simp [hik, hieq]
                · have hlt' : i < ctz 32 mapping := by omega
                  have := hmin i hlt'
                  rw [hbits i] at this
                  simp only [hik, decide_False, Bool.and_false]
                  rw [this]; rfl) hI1
        refine ⟨s', ?_, hI'⟩
        simp only [forEachBank, hz, if_false, hb1]
        exact hr
  exact gen 32 0 mapping0 s0 (by norm_num) (by norm_num) (by intro i; simp) h0

/-! ## The iterator finds the set bits in increasing order -/

/-- The lowest set bit of `v`, where `v` is the word `o` with the bits below
`lo` cleared. -/
theorem first_bit (o v lo : Nat) (ho : o < 2 ^ 64)
    (hv : ∀ b, v.testBit b = (o.testBit b && decide (lo ≤ b))) (hne : v ≠ 0) :
    lo ≤ ctz 64 v ∧ ctz 64 v < 64 ∧ o.testBit (ctz 64 v) = true ∧
    (∀ b, lo ≤ b → b < ctz 64 v → o.testBit b = false) ∧
    (∀ b, (v &&& not64 (1 <<< ctz 64 v)).testBit b
        = (o.testBit b && decide (ctz 64 v + 1 ≤ b))) := by
  have hhigh : ∀ i, 64 ≤ i → o.testBit i = false := fun i hi =>
    Nat.testBit_lt_two_pow (lt_of_lt_of_le ho (Nat.pow_le_pow_right (by norm_num) hi))
  have hvlt : v < 2 ^ 64 := by
    apply Nat.lt_pow_two_of_testBit
    intro i hi
    rw [hv i, hhigh i hi]; rfl
  have h1 := ctz_testBit 64 v hne hvlt
  have h2 := fun i hi => ctz_min 64 v i hi
  have h3 := ctz_lt_of_lt 64 v 64 hne hvlt hvlt
  rw [hv] at h1
  simp only [Bool.and_eq_true, decide_eq_true_eq] at h1
  refine ⟨h1.2, h3, h1.1, ?_, ?_⟩
  · intro b hb1 hb2
    have := h2 b hb2
    rw [hv b] at this
    simpa [hb1] using this
  · intro b
    rw [Nat.testBit_and, testBit_not64, one_shiftLeft, Nat.testBit_two_pow, hv b]
    by_cases hb64 : 64 ≤ b
    · have : ¬ b < 64 := by omega
      simp [hhigh b hb64, this]
    · by_cases hik : ctz 64 v + 1 ≤ b
      · have e1 : lo ≤ b := by omega
        have e2 : ¬ ctz 64 v = b := by omega
        have e3 : b < 64 := by omega
        simp [hik, e1, e2, e3]
      · by_cases hieq : ctz 64 v = b
        · simp [hik, hieq]
        · have hlt' : b < ctz 64 v := by omega
          have := h2 b hlt'
          rw [hv b] at this
          simp only [hik, decide_False, Bool.and_false]
          rw [this]; rfl

theorem NoBits_of_zero_words (orig : Nat → Nat) (a b : Nat)
    (h : ∀ w, a ≤ w → w < b → orig w = 0) : NoBits orig (64 * a) (64 * b) := by
  intro j h1 h2
  rw [getBit_eq, h (j / 64) (by omega) (by omega)]
  simp

theorem NoBits_trans {orig : Nat → Nat} {a b c : Nat} (h1 : NoBits orig a b)
    (h2 : NoBits orig b c) : NoBits orig a c := by
  intro j hj1 hj2
  by_cases h : j < b
  · exact h1 j hj1 h
  · exact h2 j (by omega) hj2

theorem NoBits_word (orig : Nat → Nat) (w lo hi : Nat) (hhi : hi ≤ 64)
    (h : ∀ b, lo ≤ b → b < hi → (orig w).testBit b = false) :
    NoBits orig (64 * w + lo) (64 * w + hi) := by
  intro j h1 h2
  rw [getBit_eq]
  have e1 : j / 64 = w := by omega
  rw [e1]
  exact h (j % 64) (by omega) (by omega)

/-- `Begin()` is `End()` on a field without set bits, and otherwise points
at the first set bit. -/
theorem beginFrom_spec (len : Nat) (data : Nat → Nat) (hw : ∀ w, data w < 2 ^ 64)
    (k i : Nat) (hk : i + k = len) :
    ((beginFrom len data k i).DataIdx = len ∧ NoBits data (64 * i) (64 * len)) ∨
    (AtBit data len (beginFrom len data k i) ∧
      NoBits data (64 * i) (beginFrom len data k i).deref) := by
  induction k generalizing i with
  | zero =>
    left
    refine ⟨rfl, ?_⟩
    intro j h1 h2
    omega
  | succ k ih =>
    unfold beginFrom
    split
    · rename_i hne
      right
      obtain ⟨-, f2, f3, f4, f5⟩ := first_bit (data i) (data i) 0 (hw i) (by intro b; simp) hne
      refine ⟨⟨by show i < len; omega, f2, f3, f5⟩, ?_⟩
      have := NoBits_word data i 0 (ctz 64 (data i)) (by omega) (fun b h1 h2 => f4 b h1 h2)
      simpa [Iterator.deref, Nat.mul_comm] using this
    · rename_i hz
      have hz' : data i = 0 := by simpa using hz
      have hnb : NoBits data (64 * i) (64 * (i + 1)) :=
        NoBits_of_zero_words data i (i + 1) (fun w h1 h2 => by
          have : w = i := by omega
          rw [this, hz'])
      rcases ih (i + 1) (by omega) with ⟨h1, h2⟩ | ⟨h1, h2⟩
      · exact Or.inl ⟨h1, NoBits_trans hnb h2⟩
      · exact Or.inr ⟨h1, NoBits_trans hnb h2⟩

theorem Begin_spec (len : Nat) (data : Nat → Nat) (hw : ∀ w, data w < 2 ^ 64) :
    ((Begin len data).DataIdx = len ∧ NoBits data 0 (64 * len)) ∨
    (AtBit data len (Begin len data) ∧ NoBits data 0 (Begin len data).deref) := by
  have := beginFrom_spec len data hw len 0 (by omega)
  simpa [Begin] using this

/-- The loop of `operator++` stops at the next word that is not zero, or at
`DataLength`. -/
theorem skipZero_spec (len : Nat) (cur : Nat → Nat) (k : Nat) (it : Iterator)
    (hd : it.DataIdx < len) (hk : len - it.DataIdx ≤ k) (hr : it.RemainingBits = 0) :
    ((Iterator.skipZero len cur k it).DataIdx = len ∧
      ∀ w, it.DataIdx < w → w < len → cur w = 0) ∨
    ((Iterator.skipZero len cur k it).DataIdx < len ∧
      it.DataIdx < (Iterator.skipZero len cur k it).DataIdx ∧
      (Iterator.skipZero len cur k it).RemainingBits
        = cur (Iterator.skipZero len cur k it).DataIdx ∧
      cur (Iterator.skipZero len cur k it).DataIdx ≠ 0 ∧
      ∀ w, it.DataIdx < w → w < (Iterator.skipZero len cur k it).DataIdx → cur w = 0) := by
  induction k generalizing it with
  | zero => omega
  | succ k ih =>
    unfold Iterator.skipZero
    simp only [hr, if_true]
    split
    · rename_i hge
      left
      refine ⟨by show it.DataIdx + 1 = len; omega, ?_⟩
      intro w h1 h2
      omega
    · rename_i hlt
      by_cases hz : cur (it.DataIdx + 1) = 0
      · rcases ih { it with DataIdx := it.DataIdx + 1, RemainingBits := cur (it.DataIdx + 1) }
          (by show it.DataIdx + 1 < len; omega) (by show len - (it.DataIdx + 1) ≤ k; omega) hz
          with ⟨h1, h2⟩ | ⟨h1, h2, h3, h4, h5⟩
        · left
          refine ⟨h1, ?_⟩
          intro w hw1 hw2
          by_cases e : w = it.DataIdx + 1
          · rw [e, hz]
          · exact h2 w (by show it.DataIdx + 1 < w; omega) hw2
        · right
          refine ⟨h1, by have : it.DataIdx + 1 < _ := h2; omega, h3, h4, ?_⟩
          intro w hw1 hw2
          by_cases e : w = it.DataIdx + 1
          · rw [e, hz]
          · exact h5 w (by show it.DataIdx + 1 < w; omega) hw2
      · right
        have hstop : Iterator.skipZero len cur k
            { it with DataIdx := it.DataIdx + 1, RemainingBits := cur (it.DataIdx + 1) }
            = { it with DataIdx := it.DataIdx + 1, RemainingBits := cur (it.DataIdx + 1) } := by
          cases k with
          | zero => rfl
          | succ k => simp [Iterator.skipZero, hz]
        rw [hstop]
        refine ⟨by show it.DataIdx + 1 < len; omega, by show it.DataIdx < it.DataIdx + 1; omega,
          rfl, hz, ?_⟩
        intro w hw1 hw2
        have : w < it.DataIdx + 1 := hw2
        omega

/-- `operator++` moves to the next set bit of the field, or to `End()`.
`cur` is the field as it is now; it agrees with `orig` after the current
word. -/
theorem next_spec (len : Nat) (orig cur : Nat → Nat) (hw : ∀ w, orig w < 2 ^ 64)
    (it : Iterator) (hv : AtBit orig len it)
    (hcur : ∀ w, it.DataIdx < w → cur w = orig w) :
    ((it.next len cur).DataIdx = len ∧ NoBits orig (it.deref + 1) (64 * len)) ∨
    (AtBit orig len (it.next len cur) ∧ it.deref < (it.next len cur).deref ∧
      it.DataIdx ≤ (it.next len cur).DataIdx ∧
      NoBits orig (it.deref + 1) (it.next len cur).deref) := by
  have hrest : ∀ hi, hi ≤ 64 → (∀ b, it.Idx + 1 ≤ b → b < hi → (orig it.DataIdx).testBit b = false) →
      NoBits orig (it.deref + 1) (64 * it.DataIdx + hi) := by
    intro hi h64 h
    have := NoBits_word orig it.DataIdx (it.Idx + 1) hi h64 h
    have e : it.deref + 1 = 64 * it.DataIdx + (it.Idx + 1) := by simp [Iterator.deref]; omega
    rwa [e]
  by_cases hr : it.RemainingBits = 0
  · -- the current word has no further bit
    have hword : NoBits orig (it.deref + 1) (64 * (it.DataIdx + 1)) := by
      have := hrest 64 (le_refl _) (fun b h1 _ => by
        have := hv.rem b
        rw [hr, Nat.zero_testBit] at this
        simpa [h1] using this.symm)
      simpa [Nat.mul_add] using this
    have hsk := skipZero_spec len cur (len + 1) it hv.word (by omega) hr
    unfold Iterator.next
    simp only []
    rcases hsk with ⟨h1, h2⟩ | ⟨h1, h2, h3, h4, h5⟩
    · left
      have : ¬ (Iterator.skipZero len cur (len + 1) it).DataIdx < len := by omega
      simp only [this, if_false]
      refine ⟨h1, NoBits_trans hword (NoBits_of_zero_words orig _ _ (fun w hw1 hw2 => ?_))⟩
      rw [← hcur w (by omega)]
      exact h2 w (by omega) hw2
    · right
      simp only [h1, if_true]
      have hD := hcur _ h2
      obtain ⟨-, f2, f3, f4, f5⟩ := first_bit (orig (Iterator.skipZero len cur (len + 1) it).DataIdx)
        (Iterator.skipZero len cur (len + 1) it).RemainingBits 0 (hw _)
        (by intro b; rw [h3, hD]; simp) (by rw [h3]; exact h4)
      refine ⟨⟨h1, f2, f3, f5⟩, ?_, by show it.DataIdx ≤ _; omega, ?_⟩
      · show it.deref < (Iterator.skipZero len cur (len + 1) it).DataIdx * 64 + _
        simp only [Iterator.deref]
        have := hv.idx
        omega
      · have hz : NoBits orig (64 * (it.DataIdx + 1))
            (64 * (Iterator.skipZero len cur (len + 1) it).DataIdx) :=
          NoBits_of_zero_words orig _ _ (fun w hw1 hw2 => by
            rw [← hcur w (by omega)]
            exact h5 w (by omega) hw2)
        have hl := NoBits_word orig (Iterator.skipZero len cur (len + 1) it).DataIdx 0 _
          (le_of_lt f2) (fun b h1 h2 => f4 b h1 h2)
        have := NoBits_trans hword (NoBits_trans hz hl)
        simpa [Iterator.deref, Nat.mul_comm] using this
  · -- the next bit is in the current word
    have hsk : Iterator.skipZero len cur (len + 1) it = it := by
      simp [Iterator.skipZero, hr]
    unfold Iterator.next
    simp only [hsk, hv.word, if_true]
    right
    obtain ⟨f1, f2, f3, f4, f5⟩ := first_bit (orig it.DataIdx) it.RemainingBits (it.Idx + 1)
      (hw _) hv.rem hr
    refine ⟨⟨hv.word, f2, f3, f5⟩, ?_, le_refl _, ?_⟩
    · show it.DataIdx * 64 + it.Idx < it.DataIdx * 64 + ctz 64 it.RemainingBits
      omega
    · have := hrest (ctz 64 it.RemainingBits) (le_of_lt f2) f4
      simpa [Iterator.deref, Nat.mul_comm] using this

/-! ## `SyncDirtyFlags` -/

theorem VRAMMask_eq_maskOf (b : Nat) (hb : b < 9) : VRAMMask b = .ok (maskOf b) := by
  interval_cases b <;> rfl

theorem maskOf_le (b : Nat) : maskOf b / 512 ≤ 255 := by
  by_cases hb : b < 9
  · interval_cases b <;> decide
  · have e : VRAMMask b = .error (.badBank b) := by
      unfold VRAMMask
      split <;> first | omega | rfl
    have : maskOf b = 0 := by simp only [maskOf, e]
    rw [this]; decide

theorem lt_nine_of_testBit {mapping b : Nat} (hm : mapping < 2 ^ 9)
    (h : mapping.testBit b = true) : b < 9 := by
  by_contra hge
  have := Nat.testBit_lt_two_pow (lt_of_lt_of_le hm (Nat.pow_le_pow_right (by norm_num) (not_lt.mp hge)))
  rw [h] at this
  cases this

theorem setDirty_spec (dirty : Nat → Nat → Nat) (num idx : Nat) (hn : num < 9) (hi : idx < 256) :
    ∃ r, setDirty dirty num idx = .ok r ∧
      ∀ b t, getBit (r b) t = if b = num ∧ t = idx then true else getBit (dirty b) t := by
  obtain ⟨x, hx⟩ := setBit_defined 4 (dirty num) idx true (by omega)
  refine ⟨fun b => if b = num then x else dirty b, by simp [setDirty, hn, hx], ?_⟩
  intro b t
  by_cases hb : b = num
  · subst hb
    simp only [if_true, true_and]
    exact getBit_setBit hx t
  · simp [hb]

/-- The inner loop of `SyncDirtyFlags` for the written unit `j`: the dirty bit
`j & (VRAMMask[b] / 512)` of every bank `b` of the mask is set, nothing else
changes. -/
theorem sync_inner (j mapping : Nat) (dirty : Nat → Nat → Nat) (hm : mapping < 2 ^ 9) :
    ∃ r, forEachBank (syncBank j) 32 mapping dirty = .ok r ∧
      ∀ b t, getBit (r b) t = true ↔
        getBit (dirty b) t = true ∨ (mapping.testBit b = true ∧ t = j &&& (maskOf b / 512)) := by
  obtain ⟨r, hr, hI⟩ := forEachBank_inv (syncBank j)
    (fun k X => ∀ b t, getBit (X b) t = true ↔
      getBit (dirty b) t = true ∨ (b < k ∧ mapping.testBit b = true ∧ t = j &&& (maskOf b / 512)))
    mapping (lt_trans hm (by norm_num))
    (by
      intro num X hbit hX
      have hn := lt_nine_of_testBit hm hbit
      have hidx : j &&& (maskOf num / 512) < 256 :=
        Nat.lt_succ_of_le (le_trans Nat.and_le_right (maskOf_le num))
      obtain ⟨r, hr, hs⟩ := setDirty_spec X num _ hn hidx
      refine ⟨r, by simp only [syncBank, VRAMMask_eq_maskOf num hn]; exact hr, ?_⟩
      intro b t
      rw [hs b t]
      by_cases hbt : b = num ∧ t = j &&& (maskOf num / 512)
      · obtain ⟨rfl, rfl⟩ := hbt
        simp [hbit]
      · rw [if_neg hbt, hX b t]
        constructor
        · rintro (h | ⟨h1, h2, h3⟩)
          · exact Or.inl h
          · exact Or.inr ⟨by omega, h2, h3⟩
        · rintro (h | ⟨h1, h2, h3⟩)
          · exact Or.inl h
          · refine Or.inr ⟨?_, h2, h3⟩
            by_contra hge
            have : b = num := by omega
            subst this
            exact hbt ⟨rfl, h3⟩)
    (by
      intro k X hbit hX b t
      rw [hX b t]
      constructor
      · rintro (h | ⟨h1, h2, h3⟩)
        · exact Or.inl h
        · exact Or.inr ⟨by omega, h2, h3⟩
      · rintro (h | ⟨h1, h2, h3⟩)
        · exact Or.inl h
        · refine Or.inr ⟨?_, h2, h3⟩
          by_contra hge
          have : b = k := by omega
          subst this
          exact hbit h2)
    dirty (by intro b t; simp)
  refine ⟨r, hr, fun b t => ?_⟩
  rw [hI b t]
  constructor
  · rintro (h | ⟨-, h2, h3⟩)
    · exact Or.inl h
    · exact Or.inr ⟨h2, h3⟩
  · rintro (h | ⟨h2, h3⟩)
    · exact Or.inl h
    · exact Or.inr ⟨lt_trans (lt_nine_of_testBit hm h2) (by norm_num), h2, h3⟩

theorem pos_le (len : Nat) (it : Iterator) (h : it.DataIdx = len ∨ it.Idx < 64) :
    it.pos len ≤ 64 * len := by
  unfold Iterator.pos Iterator.deref
  split
  · rcases h with h | h <;> omega
  · exact le_refl _

theorem syncLoop_spec (d : Dest) (M : Nat → Nat) (len : Nat) (hd : 64 * len ≤ 32 * d.size)
    (hM : ∀ w, w < d.size → M w < 2 ^ 9) (Wr0 : Nat → Nat) (hW : ∀ w, Wr0 w < 2 ^ 64)
    (D0 : Nat → Nat → Nat) (fuel : Nat) (it : Iterator) (st : SyncState)
    (hinv : SyncInv M len Wr0 D0 it st) (hf : 64 * len + 1 ≤ fuel + it.pos len) :
    ∃ st', syncLoop d M len fuel it st = .ok st' ∧ SyncInv M len Wr0 D0 (End len) st' := by
  induction fuel generalizing it st with
  | zero =>
    have := pos_le len it (hinv.it_ok.imp id (fun h => h.idx))
    omega
  | succ fuel ih =>
    rcases hinv.it_ok with hend | hat
    · -- the iterator is `End()`
      have e : it.eq (End len) = true := by simp [Iterator.eq, End, hend]
      refine ⟨st, by simp [syncLoop, e], ?_⟩
      have hp : it.pos len = (End len).pos len := by
        simp [Iterator.pos, End, hend]
      exact ⟨Or.inl rfl, hinv.wr_lt, fun w hw => hinv.wr_after w (by rw [hend]; exact hw),
        fun j => by rw [← hp]; exact hinv.wr_bits j, fun b t => by rw [← hp]; exact hinv.dirty b t⟩
    · have hne : it.eq (End len) = false := by
        have := hat.word
        simp [Iterator.eq, End]; omega
      have hpos : it.pos len = it.deref := by simp [Iterator.pos, hat.word]
      have hj : it.deref < 64 * len := by
        have := hat.word; have := hat.idx
        simp only [Iterator.deref]; omega
      have hwin : it.deref / 32 < d.size := by omega
      obtain ⟨D1, hD1, hD1s⟩ := sync_inner it.deref (M (it.deref / 32)) st.VRAMDirty (hM _ hwin)
      obtain ⟨W1, hW1⟩ : ∃ W1, it.assign len st.writtenFlags false = .ok W1 :=
        ⟨_, assignBit_eq_ok.mpr ⟨hat.word, rfl⟩⟩
      have hbody : syncBody d M len it st = .ok { writtenFlags := W1, VRAMDirty := D1 } := by
        simp only [syncBody, hwin, if_true, hD1, hW1]
      have hW1bits := fun t => getBit_assignBit hW1 hat.idx t
      obtain ⟨-, hW1eq⟩ := assignBit_eq_ok.mp hW1
      have hW1other : ∀ w, w ≠ it.DataIdx → W1 w = st.writtenFlags w := by
        intro w hw; rw [hW1eq]; simp [hw]
      have hW1lt : ∀ w, W1 w < 2 ^ 64 := by
        intro w
        rw [hW1eq]
        by_cases hw : w = it.DataIdx
        · simp only [hw, if_true, Bool.false_eq_true, if_false, Nat.zero_shiftLeft, Nat.zero_mod,
            Nat.or_zero]
          exact lt_of_le_of_lt Nat.and_le_left (hinv.wr_lt _)
        · simp only [hw, if_false]; exact hinv.wr_lt w
      have hnext := next_spec len Wr0 W1 hW it hat (fun w hw => by
        rw [hW1other w (by omega)]; exact hinv.wr_after w hw)
      -- facts shared by both outcomes of `operator++`
      have hkey : ∀ it', (it'.DataIdx = len ∨ AtBit Wr0 len it') → it.DataIdx ≤ it'.DataIdx →
          it.deref < it'.pos len → NoBits Wr0 (it.deref + 1) (it'.pos len) →
          SyncInv M len Wr0 D0 it' { writtenFlags := W1, VRAMDirty := D1 } := by
        intro it' hok hle hlt hnb
        refine ⟨hok, hW1lt, ?_, ?_, ?_⟩
        · intro w hw
          show W1 w = Wr0 w
          rw [hW1other w (by omega)]
          exact hinv.wr_after w (by omega)
        · intro t
          show getBit W1 t = _
          have e : it.DataIdx * 64 + it.Idx = it.deref := rfl
          rw [hW1bits t, e, hinv.wr_bits t, hpos]
          by_cases ht : t = it.deref
          · have : ¬ (it'.pos len ≤ t ∨ 64 * len ≤ t) := by omega
            simp [ht, this]
            intro _
            omega
          · rw [if_neg ht]
            by_cases h1 : t < it.deref
            · have a : ¬ (it.deref ≤ t ∨ 64 * len ≤ t) := by omega
              have b : ¬ (it'.pos len ≤ t ∨ 64 * len ≤ t) := by omega
              simp [a, b]
            · by_cases h2 : t < it'.pos len
              · have := hnb t (by omega) h2
                simp [this]
              · have a : (it.deref ≤ t ∨ 64 * len ≤ t) := by omega
                have b : (it'.pos len ≤ t ∨ 64 * len ≤ t) := by omega
                simp [a, b]
        · intro b t
          show getBit (D1 b) t = true ↔ _
          rw [hD1s b t, hinv.dirty b t, hpos]
          constructor
          · rintro ((h | ⟨j, h1, h2, h3, h4⟩) | ⟨h3, h4⟩)
            · exact Or.inl h
            · exact Or.inr ⟨j, by omega, h2, h3, h4⟩
            · exact Or.inr ⟨it.deref, hlt, by rw [getBit_eq]; exact hat.set ▸ (by
                simp only [Iterator.deref]
                have := hat.idx
                have e1 : (it.DataIdx * 64 + it.Idx) / 64 = it.DataIdx := by omega
                have e2 : (it.DataIdx * 64 + it.Idx) % 64 = it.Idx := by omega
                rw [e1, e2]), h3, h4⟩
          · rintro (h | ⟨j, h1, h2, h3, h4⟩)
            · exact Or.inl (Or.inl h)
            · by_cases hjlt : j < it.deref
              · exact Or.inl (Or.inr ⟨j, hjlt, h2, h3, h4⟩)
              · by_cases hjeq : j = it.deref
                · subst hjeq
                  exact Or.inr ⟨h3, h4⟩
                · have := hnb j (by omega) h1
                  rw [h2] at this
                  cases this
      rcases hnext with ⟨h1, h2⟩ | ⟨h1, h2, h3, h4⟩
      · have hp' : (it.next len W1).pos len = 64 * len := by simp [Iterator.pos, h1]
        have hinv' := hkey (it.next len W1) (Or.inl h1) (by rw [h1]; exact le_of_lt hat.word)
          (by rw [hp']; exact hj) (by rw [hp']; exact h2)
        obtain ⟨st', hs', hI'⟩ := ih (it.next len W1) _ hinv' (by rw [hp']; omega)
        exact ⟨st', by simp only [syncLoop, hne, hbody]; exact hs', hI'⟩
      · have hp' : (it.next len W1).pos len = (it.next len W1).deref := by
          simp [Iterator.pos, h1.word]
        have hinv' := hkey (it.next len W1) (Or.inr h1) h3
          (by rw [hp']; exact h2) (by rw [hp']; exact h4)
        obtain ⟨st', hs', hI'⟩ := ih (it.next len W1) _ hinv' (by rw [hp']; rw [hpos] at hf; omega)
        exact ⟨st', by simp only [syncLoop, hne, hbody]; exact hs', hI'⟩

/-! ## `DeriveState` -/

theorem and63_eq_mod (x : Nat) : x &&& 0x3F = x % 64 := by
  have := Nat.and_pow_two_sub_one_eq_mod x 6
  simpa using this

theorem testBit_low32 (c : Nat) : (0xFFFFFFFF : Nat).testBit c = decide (c < 32) := by
  have : (0xFFFFFFFF : Nat) = 2 ^ 32 - 1 := by norm_num
  rw [this, Nat.testBit_two_pow_sub_one]

theorem testBit_all64 (c : Nat) : (0xFFFFFFFFFFFFFFFF : Nat).testBit c = decide (c < 64) := by
  have : (0xFFFFFFFFFFFFFFFF : Nat) = 2 ^ 64 - 1 := by norm_num
  rw [this, Nat.testBit_two_pow_sub_one]

/-- The range constructor on a window of 32 units (16 KiB) or 256 units
(128 KiB): exactly the bits of the window are set. -/
theorem rangeField_window (len i k : Nat) (hk : k = 32 ∨ k = 256) (hin : (i + 1) * k ≤ 64 * len) :
    ∃ r, rangeField len (i * k) k = .ok r ∧ (∀ w, len ≤ w → r w = 0) ∧
      ∀ t, getBit r t = true ↔ i * k ≤ t ∧ t < (i + 1) * k := by
  rcases hk with rfl | rfl
  · have e1 : (i * 32) >>> 6 = i / 2 := by rw [Nat.shiftRight_eq_div_pow]; omega
    have e2 : (i * 32 + 32 - 1) >>> 6 = i / 2 := by rw [Nat.shiftRight_eq_div_pow]; omega
    have e3 : (i * 32) &&& 0x3F = 32 * (i % 2) := by rw [and63_eq_mod]; omega
    have e4 : not64 (0xFFFFFFFFFFFFFFFF <<< (32 &&& 0x3F)) = 0xFFFFFFFF := by decide
    have hlen : i / 2 < len := by omega
    refine ⟨fun w => if w = i / 2 then ((0xFFFFFFFF : Nat) <<< (32 * (i % 2))) % 2 ^ 64 else 0,
      by simp only [rangeField, e1, e2, e3, e4, hlen, if_true]; simp, ?_, ?_⟩
    · intro w hw
      have : ¬ w = i / 2 := by omega
      simp [this]
    · intro t
      rw [getBit_eq]
      by_cases hw : t / 64 = i / 2
      · simp only [hw, if_true]
        rcases Nat.mod_two_eq_zero_or_one i with h0 | h1
        · rw [h0]
          have : ((0xFFFFFFFF : Nat) <<< (32 * 0)) % 2 ^ 64 = 0xFFFFFFFF := by decide
          rw [this, testBit_low32]
          simp only [decide_eq_true_eq]
          omega
        · rw [h1]
          have : ((0xFFFFFFFF : Nat) <<< (32 * 1)) % 2 ^ 64 = (0xFFFFFFFF : Nat) <<< 32 := by decide
          rw [this, Nat.testBit_shiftLeft, testBit_low32]
          simp only [Bool.and_eq_true, decide_eq_true_eq, ge_iff_le]
          omega
      · simp only [hw, if_false, Nat.zero_testBit, Bool.false_eq_true, false_iff]
        omega
  · have e1 : (i * 256) >>> 6 = 4 * i := by rw [Nat.shiftRight_eq_div_pow]; omega
    have e2 : (i * 256 + 256 - 1) >>> 6 = 4 * i + 3 := by rw [Nat.shiftRight_eq_div_pow]; omega
    have e3 : (i * 256) &&& 0x3F = 0 := by rw [and63_eq_mod]; omega
    have e4 : (i * 256 + 256) &&& 0x3F = 0 := by rw [and63_eq_mod]; omega
    have e5 : ¬ (4 * i = 4 * i + 3) := by omega
    have hlen : 4 * i + 3 < len := by omega
    refine ⟨fun w => if 4 * i ≤ w ∧ w ≤ 4 * i + 3 then 0xFFFFFFFFFFFFFFFF else 0,
      by simp only [rangeField, e1, e2, e3, e4, e5, hlen, if_true, if_false]; simp, ?_, ?_⟩
    · intro w hw
      have : ¬ (4 * i ≤ w ∧ w ≤ 4 * i + 3) := by omega
      simp [this]
    · intro t
      rw [getBit_eq]
      by_cases hw : 4 * i ≤ t / 64 ∧ t / 64 ≤ 4 * i + 3
      · simp only [hw, and_self, if_true, testBit_all64, decide_eq_true_eq]
        omega
      · simp only [hw, if_false, Nat.zero_testBit, Bool.false_eq_true, false_iff]
        omega

theorem getBit_orField (len : Nat) (a r : Nat → Nat) (hr : ∀ w, len ≤ w → r w = 0) (t : Nat) :
    getBit (orField len a r) t = (getBit a t || getBit r t) := by
  rw [getBit_eq, getBit_eq, getBit_eq]
  unfold orField
  split
  · rw [Nat.testBit_or]
  · rw [hr _ (by omega)]
    simp

theorem and_low_eq_mod (x : Nat) :
    x &&& 0 = 0 ∧ x &&& 1 = x % 2 ∧ x &&& 3 = x % 4 ∧ x &&& 7 = x % 8 ∧
    x &&& 31 = x % 32 ∧ x &&& 63 = x % 64 ∧ x &&& 127 = x % 128 ∧ x &&& 255 = x % 256 := by
  refine ⟨by simp, ?_, ?_, ?_, ?_, ?_, ?_, ?_⟩
  · simp
  · simpa using Nat.and_pow_two_sub_one_eq_mod x 2
  · simpa using Nat.and_pow_two_sub_one_eq_mod x 3
  · simpa using Nat.and_pow_two_sub_one_eq_mod x 5
  · simpa using Nat.and_pow_two_sub_one_eq_mod x 6
  · simpa using Nat.and_pow_two_sub_one_eq_mod x 7
  · simpa using Nat.and_pow_two_sub_one_eq_mod x 8

/-- The unit `t` of window `t / 32`, seen through bank `num`, is bit `t % 32`
of the 32-bit word `(t / 32) & (VRAMMask[num] >> 14)` of the bank's dirty
field. -/
theorem dirty32_index (num t : Nat) (hn : num < 9) :
    t &&& (maskOf num / 512) = 32 * ((t / 32) &&& (maskOf num >>> 14)) + t % 32 := by
  obtain ⟨a0, a1, a3, a7, a31, a63, a127, a255⟩ := and_low_eq_mod t
  obtain ⟨b0, b1, b3, b7, -, -, -, -⟩ := and_low_eq_mod (t / 32)
  interval_cases num
  all_goals
    simp only [maskOf, VRAMMask, Nat.reduceDiv, Nat.reduceShiftRight]
    omega

theorem getBit_readDirty32 (dirty : Nat → Nat → Nat) (num k c : Nat) (hn : num < 9) (hk : k < 8)
    (hc : c < 32) :
    ∃ v, readDirty32 dirty num k = .ok v ∧ v.testBit c = getBit (dirty num) (32 * k + c) := by
  have hk2 : k / 2 < 4 := by omega
  refine ⟨_, by simp only [readDirty32, hn, if_true, readWord, hk2]; rfl, ?_⟩
  rw [Nat.testBit_and, Nat.testBit_shiftRight, testBit_low32, getBit_eq]
  have e1 : (32 * k + c) / 64 = k / 2 := by omega
  have e2 : (32 * k + c) % 64 = 32 * (k % 2) + c := by omega
  rw [e1, e2]
  simp [hc]

theorem getBit_or32 {len : Nat} {X r : Nat → Nat} {i v : Nat} (h : or32 len X i v = .ok r)
    (t : Nat) :
    getBit r t = (getBit X t || (decide (t / 32 = i) && v.testBit (t % 32))) := by
  unfold or32 at h
  by_cases hl : i / 2 < len
  · simp only [readWord, hl, if_true, writeWord, Except.ok.injEq] at h
    subst h
    rw [getBit_eq, getBit_eq]
    by_cases hw : t / 64 = i / 2
    · simp only [hw, if_true]
      rw [Nat.testBit_or, Nat.testBit_shiftLeft, Nat.testBit_mod_two_pow]
      by_cases hti : t / 32 = i
      · have e1 : t % 64 ≥ 32 * (i % 2) := by omega
        have e2 : t % 64 - 32 * (i % 2) = t % 32 := by omega
        have e3 : t % 32 < 32 := by omega
        simp [hti, e1, e2, e3]
      · have : ¬ (t % 64 ≥ 32 * (i % 2) ∧ t % 64 - 32 * (i % 2) < 32) := by omega
        by_cases e1 : t % 64 ≥ 32 * (i % 2)
        · have e2 : ¬ t % 64 - 32 * (i % 2) < 32 := by omega
          simp [hti, e1, e2]
        · simp [hti, e1]
    · have hti : ¬ t / 32 = i := by omega
      simp [hw, hti]
  · simp [readWord, hl] at h

theorem or64_spec (len : Nat) (X : Nat → Nat) (dirty : Nat → Nat → Nat) (i num k : Nat)
    (hn : num < 9) (hk : k < 4) (hi : i < len) :
    ∃ r, or64 len X dirty i num k = .ok r ∧
      ∀ t, getBit r t = (getBit X t || (decide (t / 64 = i) && (dirty num k).testBit (t % 64))) := by
  refine ⟨fun w => if w = i then X i ||| dirty num k else X w,
    by simp [or64, hn, readWord, hk, hi, writeWord], ?_⟩
  intro t
  rw [getBit_eq, getBit_eq]
  by_cases hw : t / 64 = i
  · simp [hw, Nat.testBit_or]
  · simp [hw]

/-- The inner statement of `DeriveState` for bank `num` of window `i` ORs the
bank's dirty bits of the window into the result. -/
theorem deriveBank_spec (len G : Nat) (dirty : Nat → Nat → Nat) (i num : Nat) (X : Nat → Nat)
    (hG : G = 16 * 1024 ∨ G = 128 * 1024) (hn : num < 9) (hin : (i + 1) * (G / 512) ≤ 64 * len) :
    ∃ r, deriveBank len G dirty i num X = .ok r ∧
      ∀ t, getBit r t = true ↔
        getBit X t = true ∨ (t / (G / 512) = i ∧ getBit (dirty num) (dirtyIdx G num t) = true) := by
  rcases hG with rfl | rfl
  · have hk : i &&& (maskOf num >>> 14) < 8 := by
      have : maskOf num >>> 14 ≤ 7 := by interval_cases num <;> decide
      exact Nat.lt_succ_of_le (le_trans Nat.and_le_right this)
    have hlen : i / 2 < len := by omega
    have hor : ∀ v, ∃ r, or32 len X i v = .ok r := by
      intro v
      exact ⟨fun w => if w = i / 2 then X (i / 2) ||| (v % 2 ^ 32) <<< (32 * (i % 2)) else X w,
        by simp only [or32, readWord, hlen, if_true, writeWord]⟩
    obtain ⟨v0, hv0, -⟩ := getBit_readDirty32 dirty num _ 0 hn hk (by norm_num)
    obtain ⟨r, hr⟩ := hor v0
    refine ⟨r, by simp only [deriveBank, if_true, VRAMMask_eq_maskOf num hn, hv0]; exact hr, ?_⟩
    intro t
    rw [getBit_or32 hr t]
    simp only [Bool.or_eq_true, Bool.and_eq_true, decide_eq_true_eq, Nat.reduceMul, Nat.reduceDiv]
    constructor
    · rintro (h | ⟨h1, h2⟩)
      · exact Or.inl h
      · refine Or.inr ⟨h1, ?_⟩
        obtain ⟨v, hv, hvb⟩ := getBit_readDirty32 dirty num _ (t % 32) hn hk (Nat.mod_lt _ (by norm_num))
        rw [hv0] at hv
        cases hv
        rw [hvb] at h2
        simp only [dirtyIdx, if_true, dirty32_index num t hn, h1]
        exact h2
    · rintro (h | ⟨h1, h2⟩)
      · exact Or.inl h
      · refine Or.inr ⟨h1, ?_⟩
        obtain ⟨v, hv, hvb⟩ := getBit_readDirty32 dirty num _ (t % 32) hn hk (Nat.mod_lt _ (by norm_num))
        rw [hv0] at hv
        cases hv
        rw [hvb]
        simp only [dirtyIdx, if_true, dirty32_index num t hn, h1] at h2
        exact h2
  · have hne : ¬ (128 * 1024 = 16 * 1024) := by norm_num
    simp only [Nat.reduceMul, Nat.reduceDiv] at hin
    obtain ⟨r0, h0, s0⟩ := or64_spec len X dirty (i * 4 + 0) num 0 hn (by norm_num) (by omega)
    obtain ⟨r1, h1, s1⟩ := or64_spec len r0 dirty (i * 4 + 1) num 1 hn (by norm_num) (by omega)
    obtain ⟨r2, h2, s2⟩ := or64_spec len r1 dirty (i * 4 + 2) num 2 hn (by norm_num) (by omega)
    obtain ⟨r3, h3, s3⟩ := or64_spec len r2 dirty (i * 4 + 3) num 3 hn (by norm_num) (by omega)
    refine ⟨r3, by simp only [deriveBank, hne, if_false, if_true, h0, h1, h2, ok_bind]; exact h3, ?_⟩
    intro t
    rw [s3 t, s2 t, s1 t, s0 t]
    simp only [dirtyIdx, hne, if_false, Nat.reduceMul, Nat.reduceDiv, Bool.or_eq_true,
      Bool.and_eq_true, decide_eq_true_eq, getBit_eq]
    have hq : t % 256 % 64 = t % 64 := by omega
    rw [hq]
    constructor
    · rintro ((((h | ⟨e, h⟩) | ⟨e, h⟩) | ⟨e, h⟩) | ⟨e, h⟩)
      · exact Or.inl h
      · refine Or.inr ⟨by omega, ?_⟩
        have : t % 256 / 64 = 0 := by omega
        rw [this]; exact h
      · refine Or.inr ⟨by omega, ?_⟩
        have : t % 256 / 64 = 1 := by omega
        rw [this]; exact h
      · refine Or.inr ⟨by omega, ?_⟩
        have : t % 256 / 64 = 2 := by omega
        rw [this]; exact h
      · refine Or.inr ⟨by omega, ?_⟩
        have : t % 256 / 64 = 3 := by omega
        rw [this]; exact h
    · rintro (h | ⟨e, h⟩)
      · exact Or.inl (Or.inl (Or.inl (Or.inl h)))
      · have hc : t % 256 / 64 = 0 ∨ t % 256 / 64 = 1 ∨ t % 256 / 64 = 2 ∨ t % 256 / 64 = 3 := by
          omega
        rcases hc with c | c | c | c <;> rw [c] at h
        · exact Or.inl (Or.inl (Or.inl (Or.inr ⟨by omega, h⟩)))
        · exact Or.inl (Or.inl (Or.inr ⟨by omega, h⟩))
        · exact Or.inl (Or.inr ⟨by omega, h⟩)
        · exact Or.inr ⟨by omega, h⟩

/-! ## `DeriveState` -/

theorem window_of_unit (G : Nat) (hG : G = 16 * 1024 ∨ G = 128 * 1024) (t i : Nat) :
    t / (G / 512) = i ↔ i * (G / 512) ≤ t ∧ t < (i + 1) * (G / 512) := by
  rcases hG with rfl | rfl <;> norm_num <;> omega

theorem banks_step {cur : Nat → Nat} {i Z : Nat} (hM : ∀ w, w < i + 1 → cur w < 2 ^ 9)
    (hZ : ∀ b, Z.testBit b = true ↔ ∃ w, w < i ∧ (cur w).testBit b = true) (b : Nat) :
    ((Z ||| cur i) % 2 ^ 16).testBit b = true ↔ ∃ w, w < i + 1 ∧ (cur w).testBit b = true := by
  rw [Nat.testBit_mod_two_pow, Nat.testBit_or]
  simp only [Bool.and_eq_true, decide_eq_true_eq, Bool.or_eq_true]
  constructor
  · rintro ⟨-, h | h⟩
    · obtain ⟨w, hw, hb⟩ := (hZ b).1 h
      exact ⟨w, by omega, hb⟩
    · exact ⟨i, by omega, h⟩
  · rintro ⟨w, hw, hb⟩
    have h9 := lt_nine_of_testBit (hM w hw) hb
    by_cases e : w = i
    · subst e
      exact ⟨by omega, Or.inr hb⟩
    · exact ⟨by omega, Or.inl ((hZ b).2 ⟨w, by omega, hb⟩)⟩

/-- The inner loop of `DeriveState` on an unchanged window ORs the window's
dirty bits of every bank of the mask into the result. -/
theorem deriveBanks_spec (len G : Nat) (dirty : Nat → Nat → Nat) (i mapping : Nat)
    (X0 : Nat → Nat) (hG : G = 16 * 1024 ∨ G = 128 * 1024) (hm : mapping < 2 ^ 9)
    (hin : (i + 1) * (G / 512) ≤ 64 * len) :
    ∃ r, forEachBank (deriveBank len G dirty i) 32 mapping X0 = .ok r ∧
      ∀ t, getBit r t = true ↔ getBit X0 t = true ∨
        (t / (G / 512) = i ∧ ∃ b, mapping.testBit b = true ∧
          getBit (dirty b) (dirtyIdx G b t) = true) := by
  obtain ⟨r, hr, hI⟩ := forEachBank_inv (deriveBank len G dirty i)
    (fun m X => ∀ t, getBit X t = true ↔ getBit X0 t = true ∨
      (t / (G / 512) = i ∧ ∃ b, b < m ∧ mapping.testBit b = true ∧
        getBit (dirty b) (dirtyIdx G b t) = true))
    mapping (lt_of_lt_of_le hm (by norm_num))
    (by
      intro num X hbit hI
      obtain ⟨r, hr, hs⟩ := deriveBank_spec len G dirty i num X hG (lt_nine_of_testBit hm hbit) hin
      refine ⟨r, hr, fun t => ?_⟩
      rw [hs t, hI t]
      constructor
      · rintro ((h | ⟨e, b, hb, h1, h2⟩) | ⟨e, h⟩)
        · exact Or.inl h
        · exact Or.inr ⟨e, b, by omega, h1, h2⟩
        · exact Or.inr ⟨e, num, by omega, hbit, h⟩
      · rintro (h | ⟨e, b, hb, h1, h2⟩)
        · exact Or.inl (Or.inl h)
        · by_cases hbn : b = num
          · subst hbn
            exact Or.inr ⟨e, h2⟩
          · exact Or.inl (Or.inr ⟨e, b, by omega, h1, h2⟩))
    (by
      intro k X hnot hI t
      rw [hI t]
      constructor
      · rintro (h | ⟨e, b, hb, h1, h2⟩)
        · exact Or.inl h
        · exact Or.inr ⟨e, b, by omega, h1, h2⟩
      · rintro (h | ⟨e, b, hb, h1, h2⟩)
        · exact Or.inl h
        · by_cases hbk : b = k
          · subst hbk
            exact absurd h1 hnot
          · exact Or.inr ⟨e, b, by omega, h1, h2⟩)
    X0
    (by
      intro t
      constructor
      · intro h; exact Or.inl h
      · rintro (h | ⟨_, b, hb, _, _⟩)
        · exact h
        · omega)
  refine ⟨r, hr, fun t => ?_⟩
  rw [hI t]
  constructor
  · rintro (h | ⟨e, b, _, h1, h2⟩)
    · exact Or.inl h
    · exact Or.inr ⟨e, b, h1, h2⟩
  · rintro (h | ⟨e, b, h1, h2⟩)
    · exact Or.inl h
    · have := lt_nine_of_testBit hm h1
      exact Or.inr ⟨e, b, by omega, h1, h2⟩

theorem deriveWindow_step (Size G : Nat) (cur : Nat → Nat) (st : TrackState)
    (hG : G = 16 * 1024 ∨ G = 128 * 1024)
    (hlen : (Size / G) * (G / 512) = 64 * ((Size / 512) >>> 6))
    (hM : ∀ w, w < Size / G → cur w < 2 ^ 9) (i : Nat) (loc : DeriveLocals)
    (hi : i < Size / G) (hinv : DeriveInv G cur st i loc) :
    ∃ loc', deriveWindow Size G cur st.VRAMDirty i loc = .ok loc' ∧
      DeriveInv G cur st (i + 1) loc' := by
  have hin : (i + 1) * (G / 512) ≤ 64 * ((Size / 512) >>> 6) := by
    rw [← hlen]
    exact Nat.mul_le_mul_right _ hi
  have hk : G / 512 = 32 ∨ G / 512 = 256 := by
    rcases hG with rfl | rfl
    · exact Or.inl (by norm_num)
    · exact Or.inr (by norm_num)
  have hmi : loc.Mapping i = st.Mapping i := by
    rw [hinv.mapping i]; simp
  have hmap : ∀ w, (if w = i then cur i else loc.Mapping w)
      = if w < i + 1 then cur w else st.Mapping w := by
    intro w
    rw [hinv.mapping w]
    by_cases e : w = i
    · subst e; simp
    · by_cases l : w < i
      · have : w < i + 1 := by omega
        simp [e, l, this]
      · have : ¬ w < i + 1 := by omega
        simp [e, l, this]
  by_cases hc : cur i ≠ loc.Mapping i
  · obtain ⟨r, hr, hr0, hrb⟩ := rangeField_window ((Size / 512) >>> 6) i (G / 512) hk hin
    refine ⟨{ result := orField ((Size / 512) >>> 6) loc.result r
              banksToBeZeroed := (loc.banksToBeZeroed ||| cur i) % 2 ^ 16
              Mapping := fun w => if w = i then cur i else loc.Mapping w },
      by simp only [deriveWindow, hc, if_true, ne_eq, not_false_eq_true, hr], ?_⟩
    refine ⟨hmap, Nat.mod_lt _ (by norm_num),
      banks_step (fun w hw => hM w (by omega)) hinv.banks, fun t => ?_⟩
    show getBit (orField _ loc.result r) t = true ↔ _
    rw [getBit_orField _ _ _ hr0 t, Bool.or_eq_true, hinv.result t, hrb t,
      ← window_of_unit G hG t i]
    constructor
    · rintro (⟨h1, h2⟩ | e)
      · exact ⟨by omega, h2⟩
      · refine ⟨by omega, Or.inl ?_⟩
        rw [e, ← hmi]; exact hc
    · rintro ⟨h1, h2⟩
      by_cases e : t / (G / 512) = i
      · exact Or.inr e
      · exact Or.inl ⟨by omega, h2⟩
  · have hc2 : cur i = loc.Mapping i := not_not.mp hc
    have hmlt : loc.Mapping i < 2 ^ 9 := by rw [← hc2]; exact hM i hi
    obtain ⟨r, hr, hrb⟩ := deriveBanks_spec ((Size / 512) >>> 6) G st.VRAMDirty i
      (loc.Mapping i) loc.result hG hmlt hin
    refine ⟨{ result := r
              banksToBeZeroed := (loc.banksToBeZeroed ||| loc.Mapping i) % 2 ^ 16
              Mapping := loc.Mapping },
      by simp only [deriveWindow, hc, if_false, hr], ?_⟩
    refine ⟨?_, Nat.mod_lt _ (by norm_num), ?_, fun t => ?_⟩
    · intro w
      have := hmap w
      by_cases e : w = i
      · subst e
        simp only [if_true] at this
        rw [← this]; exact hc2.symm
      · simp only [e, if_false] at this
        exact this
    · intro b
      show ((loc.banksToBeZeroed ||| loc.Mapping i) % 2 ^ 16).testBit b = true ↔ _
      rw [← hc2]
      exact banks_step (fun w hw => hM w (by omega)) hinv.banks b
    · show getBit r t = true ↔ _
      rw [hrb t, hinv.result t]
      constructor
      · rintro (⟨h1, h2⟩ | ⟨e, b, h1, h2⟩)
        · exact ⟨by omega, h2⟩
        · refine ⟨by omega, Or.inr ⟨b, ?_, h2⟩⟩
          rw [e, hc2]; exact h1
      · rintro ⟨h1, h2⟩
        by_cases e : t / (G / 512) = i
        · rcases h2 with h2 | ⟨b, h2, h3⟩
          · exfalso
            rw [e, ← hmi] at h2
            exact h2 hc2
          · refine Or.inr ⟨e, b, ?_, h3⟩
            rw [e, hc2] at h2; exact h2
        · exact Or.inl ⟨by omega, h2⟩

/-- The last loop of `DeriveState` clears the dirty field of every bank of
`banksToBeZeroed` and leaves the other banks alone. -/
theorem zeroLoop_spec (Z : Nat) (hZ : Z < 2 ^ 9) (dirty : Nat → Nat → Nat) :
    ∃ D, forEachBank zeroDirty 32 Z dirty = .ok D ∧
      ∀ b, D b = if Z.testBit b = true then (fun _ => 0) else dirty b := by
  obtain ⟨D, hD, hI⟩ := forEachBank_inv zeroDirty
    (fun m D => ∀ b, D b = if b < m ∧ Z.testBit b = true then (fun _ => 0) else dirty b)
    Z (lt_of_lt_of_le hZ (by norm_num))
    (by
      intro num D hbit hI
      have hn := lt_nine_of_testBit hZ hbit
      refine ⟨fun b => if b = num then (fun _ => 0) else D b,
        by simp only [zeroDirty, hn, if_true], fun b => ?_⟩
      by_cases e : b = num
      · subst e
        simp [hbit]
      · simp only [e, if_false, hI b]
        by_cases l : b < num
        · have : b < num + 1 := by omega
          simp [l, this]
        · have : ¬ b < num + 1 := by omega
          simp [l, this])
    (by
      intro k D hnot hI b
      rw [hI b]
      by_cases e : b = k
      · subst e
        simp [hnot]
      · by_cases l : b < k
        · have : b < k + 1 := by omega
          simp [l, this]
        · have : ¬ b < k + 1 := by omega
          simp [l, this])
    dirty (by intro b; simp)
  refine ⟨D, hD, fun b => ?_⟩
  rw [hI b]
  by_cases h : Z.testBit b = true
  · have := lt_nine_of_testBit hZ h
    have l : b < 32 := by omega
    simp [h, l]
  · simp [h]

/-- `DeriveState` returns, and this is what it returns and leaves behind, for
a table `cur` of masks over the banks 0..8: the stored masks become `cur`;
unit `t` of window `w` is reported when the window's mask changed or a bank
of its mask has the unit's dirty bit set; the dirty fields of the banks of
`cur` are cleared and the others kept. -/
theorem DeriveState_spec (Size G : Nat) (cur : Nat → Nat) (st : TrackState)
    (hG : G = 16 * 1024 ∨ G = 128 * 1024)
    (hlen : (Size / G) * (G / 512) = 64 * ((Size / 512) >>> 6))
    (hM : ∀ w, w < Size / G → cur w < 2 ^ 9) :
    ∃ res st', DeriveState Size G cur st = .ok (res, st') ∧
      (∀ w, st'.Mapping w = if w < Size / G then cur w else st.Mapping w) ∧
      (∀ t, getBit res t = true ↔
        t / (G / 512) < Size / G ∧ (cur (t / (G / 512)) ≠ st.Mapping (t / (G / 512)) ∨
          ∃ b, (cur (t / (G / 512))).testBit b = true ∧
            getBit (st.VRAMDirty b) (dirtyIdx G b t) = true)) ∧
      (∀ b, (∃ w, w < Size / G ∧ (cur w).testBit b = true) → st'.VRAMDirty b = fun _ => 0) ∧
      (∀ b, (¬ ∃ w, w < Size / G ∧ (cur w).testBit b = true) →
        st'.VRAMDirty b = st.VRAMDirty b) := by
  obtain ⟨loc, hloc, hinv⟩ := forLoop_inv (deriveWindow Size G cur st.VRAMDirty)
    (DeriveInv G cur st) (Size / G)
    (fun i s hi hI => deriveWindow_step Size G cur st hG hlen hM i s hi hI)
    { result := fun _ => 0, banksToBeZeroed := 0, Mapping := st.Mapping }
    ⟨by intro w; simp, by norm_num, by intro b; simp,
      by intro t; simp [getBit_eq]⟩
  have hZ : loc.banksToBeZeroed < 2 ^ 9 := by
    apply Nat.lt_pow_two_of_testBit
    intro b hb
    by_contra h
    have h1 : loc.banksToBeZeroed.testBit b = true := by simpa using h
    obtain ⟨w, hw, hbit⟩ := (hinv.banks b).1 h1
    have := lt_nine_of_testBit (hM w hw) hbit
    omega
  obtain ⟨D, hD, hDb⟩ := zeroLoop_spec loc.banksToBeZeroed hZ st.VRAMDirty
  refine ⟨loc.result, { Mapping := loc.Mapping, VRAMDirty := D },
    by simp only [DeriveState, hloc, hD], hinv.mapping, hinv.result, ?_, ?_⟩
  · intro b hb
    show D b = _
    rw [hDb b, if_pos ((hinv.banks b).2 hb)]
  · intro b hb
    show D b = _
    rw [hDb b, if_neg (fun h => hb ((hinv.banks b).1 h))]

/-- The invariant of `SyncDirtyFlags` holds at `Begin()`. -/
theorem SyncInv_Begin (M : Nat → Nat) (len : Nat) (st : SyncState)
    (hW : ∀ w, st.writtenFlags w < 2 ^ 64) :
    SyncInv M len st.writtenFlags st.VRAMDirty (Begin len st.writtenFlags) st := by
  have hnb : NoBits st.writtenFlags 0 ((Begin len st.writtenFlags).pos len) ∧
      ((Begin len st.writtenFlags).DataIdx = len ∨
        AtBit st.writtenFlags len (Begin len st.writtenFlags)) := by
    rcases Begin_spec len st.writtenFlags hW with ⟨h1, h2⟩ | ⟨h1, h2⟩
    · refine ⟨?_, Or.inl h1⟩
      have : (Begin len st.writtenFlags).pos len = 64 * len := by
        simp [Iterator.pos, h1]
      rw [this]; exact h2
    · refine ⟨?_, Or.inr h1⟩
      have : (Begin len st.writtenFlags).pos len = (Begin len st.writtenFlags).deref := by
        simp [Iterator.pos, h1.word]
      rw [this]; exact h2
  obtain ⟨hno, hit⟩ := hnb
  refine ⟨hit, hW, fun _ _ => rfl, fun j => ?_, fun b t => ?_⟩
  · by_cases hj : (Begin len st.writtenFlags).pos len ≤ j ∨ 64 * len ≤ j
    · simp [hj]
    · have := hno j (by omega) (by omega)
      simp [hj, this]
  · constructor
    · intro h; exact Or.inl h
    · rintro (h | ⟨j, hj, hset, -, -⟩)
      · exact h
      · have := hno j (by omega) hj
        rw [this] at hset
        cases hset

theorem VRAMWrittenSize_eq (d : Dest) (hd : d.hasPtr = true) :
    VRAMWrittenSize d = 64 * (VRAMWrittenSize d >>> 6) ∧
      64 * (VRAMWrittenSize d >>> 6) = 32 * d.size := by
  cases d <;> simp [Dest.hasPtr] at hd <;> decide

/-- `SyncDirtyFlags` on the written field of a BG/OBJ destination returns,
and the loop invariant holds at `End()`. -/
theorem SyncDirtyFlags_spec (d : Dest) (hd : d.hasPtr = true) (M : Nat → Nat)
    (hM : ∀ w, w < d.size → M w < 2 ^ 9) (st : SyncState)
    (hW : ∀ w, st.writtenFlags w < 2 ^ 64) :
    ∃ st', SyncDirtyFlags (VRAMWrittenSize d) d M st = .ok st' ∧
      SyncInv M (VRAMWrittenSize d >>> 6) st.writtenFlags st.VRAMDirty
        (End (VRAMWrittenSize d >>> 6)) st' := by
  obtain ⟨e1, e2⟩ := VRAMWrittenSize_eq d hd
  exact syncLoop_spec d M (VRAMWrittenSize d >>> 6) (le_of_eq e2) hM st.writtenFlags hW
    st.VRAMDirty (VRAMWrittenSize d + 1) (Begin _ st.writtenFlags) st
    (SyncInv_Begin M _ st hW) (by omega)

theorem End_pos (len : Nat) : (End len).pos len = 64 * len := by
  simp [Iterator.pos, End]

theorem word_zero_of_bits (data : Nat → Nat) (w : Nat) (hlt : data w < 2 ^ 64)
    (h : ∀ c, c < 64 → getBit data (64 * w + c) = false) : data w = 0 := by
  apply Nat.eq_of_testBit_eq
  intro c
  rw [Nat.zero_testBit]
  by_cases hc : c < 64
  · have := h c hc
    rw [getBit_eq] at this
    have e1 : (64 * w + c) / 64 = w := by omega
    have e2 : (64 * w + c) % 64 = c := by omega
    rw [e1, e2] at this
    exact this
  · exact Nat.testBit_lt_two_pow
      (lt_of_lt_of_le hlt (Nat.pow_le_pow_right (by norm_num) (not_lt.mp hc)))

/-- C8 (`SyncDirtyFlags` fan-out).  For each of the four BG/OBJ destinations `d`, every mask table `M`
whose entries contain only banks 0..8 and every written field `Wr`,
`SyncDirtyFlags` returns and afterwards: for every unit `j` that was set in
`Wr` and every bank `b` in `M[j / 32]`, dirty bit `j & (VRAMMask[b] / 512)`
of bank `b` is set; every dirty bit that was set before is still set; every
other dirty bit that is set comes from such a `j` and `b`; and every word of
`Wr` is zero. -/
theorem SyncDirtyFlags_fan_out (d : Dest) (hd : d.hasPtr = true) (M : Nat → Nat)
    (hM : ∀ w, w < d.size → M w < 2 ^ 9) (Wr : Nat → Nat) (hW : ∀ w, Wr w < 2 ^ 64)
    (D : Nat → Nat → Nat) :
    ∃ st', SyncDirtyFlags (VRAMWrittenSize d) d M { writtenFlags := Wr, VRAMDirty := D }
        = .ok st' ∧
      (∀ j b m, j < VRAMWrittenSize d → getBit Wr j = true →
        (M (j / 32)).testBit b = true → VRAMMask b = .ok m →
        getBit (st'.VRAMDirty b) (j &&& (m / 512)) = true) ∧
      (∀ b t, getBit (D b) t = true → getBit (st'.VRAMDirty b) t = true) ∧
      (∀ b t, getBit (st'.VRAMDirty b) t = true → getBit (D b) t = true ∨
        ∃ j m, j < VRAMWrittenSize d ∧ getBit Wr j = true ∧
          (M (j / 32)).testBit b = true ∧ VRAMMask b = .ok m ∧ t = j &&& (m / 512)) ∧
      (∀ w, w < VRAMWrittenSize d >>> 6 → st'.writtenFlags w = 0) := by
  obtain ⟨st', hrun, hinv⟩ := SyncDirtyFlags_spec d hd M hM
    { writtenFlags := Wr, VRAMDirty := D } hW
  obtain ⟨e1, e2⟩ := VRAMWrittenSize_eq d hd
  have hpos := End_pos (VRAMWrittenSize d >>> 6)
  refine ⟨st', hrun, ?_, ?_, ?_, ?_⟩
  · intro j b m hj hset hb hm
    have hb9 : b < 9 := lt_nine_of_testBit (hM (j / 32) (by omega)) hb
    rw [VRAMMask_eq_maskOf b hb9] at hm
    cases hm
    exact (hinv.dirty b _).2 (Or.inr ⟨j, by rw [hpos]; omega, hset, hb, rfl⟩)
  · intro b t h
    exact (hinv.dirty b t).2 (Or.inl h)
  · intro b t h
    rcases (hinv.dirty b t).1 h with h1 | ⟨j, hj, hset, hb, ht⟩
    · exact Or.inl h1
    · rw [hpos] at hj
      have hb9 : b < 9 := lt_nine_of_testBit (hM (j / 32) (by omega)) hb
      exact Or.inr ⟨j, maskOf b, by omega, hset, hb, VRAMMask_eq_maskOf b hb9, ht⟩
  · intro w hw
    apply word_zero_of_bits _ w (hinv.wr_lt w)
    intro c hc
    rw [hinv.wr_bits, hpos]
    have : ¬ (64 * (VRAMWrittenSize d >>> 6) ≤ 64 * w + c ∨
        64 * (VRAMWrittenSize d >>> 6) ≤ 64 * w + c) := by omega
    rw [decide_eq_false this, Bool.and_false]

/-- Witness for `SyncDirtyFlags_fan_out`: banks A and B both mapped to
engine-A BG window 3 and unit 96 (byte `0x100` of the window) written; the
dirty bit 96 is set in bank A and in bank B, and the written word is zero. -/
theorem SyncDirtyFlags_fan_out_witness :
    Dest.ABG.hasPtr = true ∧ (∀ w, w < Dest.ABG.size → banksABInWindow3 w < 2 ^ 9) ∧
    (∀ w, unit96Written w < 2 ^ 64) ∧ getBit unit96Written 96 = true ∧
    ∃ st', SyncDirtyFlags (VRAMWrittenSize .ABG) .ABG banksABInWindow3
        { writtenFlags := unit96Written, VRAMDirty := noDirty } = .ok st' ∧
      getBit (st'.VRAMDirty 0) 96 = true ∧ getBit (st'.VRAMDirty 1) 96 = true ∧
      st'.writtenFlags 1 = 0 := by
  have h1 : ∀ w, w < Dest.ABG.size → banksABInWindow3 w < 2 ^ 9 := by
    intro w _
    unfold banksABInWindow3
    split <;> norm_num
  have h2 : ∀ w, unit96Written w < 2 ^ 64 := by
    intro w
    unfold unit96Written
    split <;> norm_num
  obtain ⟨st', hrun, a, -, -, z⟩ :=
    SyncDirtyFlags_fan_out .ABG rfl banksABInWindow3 h1 unit96Written h2 noDirty
  exact ⟨rfl, h1, h2, by decide, st', hrun,
    a 96 0 0x1FFFF (by decide) (by decide) (by decide) rfl,
    a 96 1 0x1FFFF (by decide) (by decide) (by decide) rfl,
    z 1 (by decide)⟩

theorem trackingSet_facts (d : Dest) (Size G : Nat) (ht : trackingSet d = some (Size, G)) :
    (G = 16 * 1024 ∨ G = 128 * 1024) ∧
      (Size / G) * (G / 512) = 64 * ((Size / 512) >>> 6) ∧ Size / G = d.size := by
  cases d <;> simp [trackingSet] at ht <;> obtain ⟨rfl, rfl⟩ := ht <;> decide

theorem trackingSet_written (d : Dest) (hd : d.hasPtr = true) (Size G : Nat)
    (ht : trackingSet d = some (Size, G)) :
    G = 16 * 1024 ∧ VRAMWrittenSize d = 32 * d.size := by
  cases d <;> simp [Dest.hasPtr] at hd <;> simp [trackingSet] at ht <;>
    obtain ⟨rfl, rfl⟩ := ht <;> decide

theorem exists_bit_of_ne_zero {m : Nat} (h : m ≠ 0) : ∃ b, m.testBit b = true := by
  by_contra hno
  apply h
  apply Nat.eq_of_testBit_eq
  intro b
  rw [Nat.zero_testBit]
  by_contra hb
  exact hno ⟨b, by simpa using hb⟩

/-- Every mask of a reachable mapping state contains only banks 0..8. -/
theorem Reachable.mask_lt {s : MapState} (h : Reachable s) (d : Dest) (W : Nat) :
    s.VRAMMap d W < 2 ^ 9 := by
  apply Nat.lt_pow_two_of_testBit
  intro b hb
  by_contra hbit
  have h1 : (s.VRAMMap d W).testBit b = true := by simpa using hbit
  have := ((h.inv.1 d W b).1 h1).1
  omega

/-- `SyncDirtyFlags` followed by `DeriveState` on a table `M` of masks over
the banks 0..8: both return, and every written unit whose window has a bank
mapped is set in the returned field. -/
theorem sync_then_derive (d : Dest) (hd : d.hasPtr = true) (Size G : Nat)
    (ht : trackingSet d = some (Size, G)) (M : Nat → Nat)
    (hM : ∀ w, w < d.size → M w < 2 ^ 9) (Wr : Nat → Nat) (hW : ∀ w, Wr w < 2 ^ 64)
    (D : Nat → Nat → Nat) (Mp : Nat → Nat) :
    ∃ st1 res st2,
      SyncDirtyFlags (VRAMWrittenSize d) d M { writtenFlags := Wr, VRAMDirty := D }
        = .ok st1 ∧
      DeriveState Size G M { Mapping := Mp, VRAMDirty := st1.VRAMDirty } = .ok (res, st2) ∧
      ∀ j, j < VRAMWrittenSize d → getBit Wr j = true → M (j / 32) ≠ 0 →
        getBit res j = true := by
  obtain ⟨hG, hlen, hn⟩ := trackingSet_facts d Size G ht
  obtain ⟨hG16, hsz⟩ := trackingSet_written d hd Size G ht
  obtain ⟨st1, hrun, hinv⟩ := SyncDirtyFlags_spec d hd M hM
    { writtenFlags := Wr, VRAMDirty := D } hW
  obtain ⟨res, st2, hder, -, hres, -, -⟩ := DeriveState_spec Size G M
    { Mapping := Mp, VRAMDirty := st1.VRAMDirty } hG hlen (by rw [hn]; exact hM)
  refine ⟨st1, res, st2, hrun, hder, ?_⟩
  intro j hj hset hne
  obtain ⟨b, hb⟩ := exists_bit_of_ne_zero hne
  have hk : G / 512 = 32 := by rw [hG16]
  have hpos := End_pos (VRAMWrittenSize d >>> 6)
  obtain ⟨e1, -⟩ := VRAMWrittenSize_eq d hd
  rw [hres j, hk, hn]
  refine ⟨by omega, Or.inr ⟨b, hb, ?_⟩⟩
  have : dirtyIdx G b j = j &&& (maskOf b / 512) := by
    simp only [dirtyIdx, hG16, if_true]
  rw [this]
  exact (hinv.dirty b _).2 (Or.inr ⟨j, by rw [hpos]; omega, hset, hb, rfl⟩)

/-- C9 (no under-reporting, end to end).  In every reachable mapping state `s`, for each BG/OBJ destination
`d` with its tracking set `<Size, G>`, every written field `Wr`, every state
`D` of the dirty fields and every mapping `Mp` the tracking set had last
observed: `SyncDirtyFlags` and then `DeriveState` on the destination's
current mask table both return, and every unit `j` that was set in `Wr` and
whose window `j / 32` currently has at least one bank mapped is set in the
returned field. -/
theorem no_under_reporting (s : MapState) (hs : Reachable s) (d : Dest)
    (hd : d.hasPtr = true) (Size G : Nat) (ht : trackingSet d = some (Size, G))
    (Wr : Nat → Nat) (hW : ∀ w, Wr w < 2 ^ 64) (D : Nat → Nat → Nat) (Mp : Nat → Nat) :
    ∃ st1 res st2,
      SyncDirtyFlags (VRAMWrittenSize d) d (s.VRAMMap d)
        { writtenFlags := Wr, VRAMDirty := D } = .ok st1 ∧
      DeriveState Size G (s.VRAMMap d) { Mapping := Mp, VRAMDirty := st1.VRAMDirty }
        = .ok (res, st2) ∧
      ∀ j, j < VRAMWrittenSize d → getBit Wr j = true → s.VRAMMap d (j / 32) ≠ 0 →
        getBit res j = true :=
  sync_then_derive d hd Size G ht (s.VRAMMap d) (fun w _ => hs.mask_lt d w) Wr hW D Mp

/-- Witness for `no_under_reporting`: banks A and B both mapped to engine-A
BG windows 0..7 (control bytes `0x81`), unit 96 of window 3 written, and a
tracking set that had last observed the same mapping; the reported field has
bit 96 set. -/
theorem no_under_reporting_witness :
    Reachable (afterWrite 1 0x81 (afterWrite 0 0x81 Reset)) ∧
    Dest.ABG.hasPtr = true ∧ trackingSet .ABG = some (512 * 1024, 16 * 1024) ∧
    (∀ w, unit96Written w < 2 ^ 64) ∧ getBit unit96Written 96 = true ∧
    (afterWrite 1 0x81 (afterWrite 0 0x81 Reset)).VRAMMap .ABG (96 / 32) = 3 ∧
    ∃ st1 res st2,
      SyncDirtyFlags (VRAMWrittenSize .ABG) .ABG
        ((afterWrite 1 0x81 (afterWrite 0 0x81 Reset)).VRAMMap .ABG)
        { writtenFlags := unit96Written, VRAMDirty := noDirty } = .ok st1 ∧
      DeriveState (512 * 1024) (16 * 1024)
        ((afterWrite 1 0x81 (afterWrite 0 0x81 Reset)).VRAMMap .ABG)
        { Mapping := (afterWrite 1 0x81 (afterWrite 0 0x81 Reset)).VRAMMap .ABG,
          VRAMDirty := st1.VRAMDirty } = .ok (res, st2) ∧
      getBit res 96 = true := by
  have hr : Reachable (afterWrite 1 0x81 (afterWrite 0 0x81 Reset)) :=
    Reachable.write 1 0x81 (Reachable.write 0 0x81 Reachable.reset rfl) rfl
  have h2 : ∀ w, unit96Written w < 2 ^ 64 := by
    intro w
    unfold unit96Written
    split <;> norm_num
  obtain ⟨st1, res, st2, hrun, hder, hbit⟩ :=
    no_under_reporting _ hr .ABG rfl (512 * 1024) (16 * 1024) rfl unit96Written h2 noDirty
      ((afterWrite 1 0x81 (afterWrite 0 0x81 Reset)).VRAMMap .ABG)
  exact ⟨hr, rfl, rfl, h2, by decide, by decide, st1, res, st2, hrun, hder,
    hbit 96 (by decide) (by decide) (by decide)⟩

/-- C10 (`DeriveState` on a remapped window), for tables over the banks
0..8.  For every tracking set `<Size, G>` and every current mask
table `M` whose entries contain only banks 0..8, `DeriveState` returns; for
every window `i` whose mask `M[i]` differs from the stored last-observed
mask, every bit of the window's range `[i*k, (i+1)*k)` is set in the result,
where `k = G / 512` is 32 for 16 KiB windows and 256 for 128 KiB windows,
whatever the dirty fields hold; and after the call the stored mask of every
window `i` equals `M[i]`. -/
theorem DeriveState_remapped_window (d : Dest) (Size G : Nat)
    (ht : trackingSet d = some (Size, G)) (M : Nat → Nat)
    (hM : ∀ w, w < Size / G → M w < 2 ^ 9) (st : TrackState) :
    ((G = 16 * 1024 ∧ G / 512 = 32) ∨ (G = 128 * 1024 ∧ G / 512 = 256)) ∧
    ∃ res st', DeriveState Size G M st = .ok (res, st') ∧
      (∀ i, i < Size / G → M i ≠ st.Mapping i →
        ∀ t, i * (G / 512) ≤ t → t < (i + 1) * (G / 512) → getBit res t = true) ∧
      (∀ i, i < Size / G → st'.Mapping i = M i) := by
  obtain ⟨hG, hlen, -⟩ := trackingSet_facts d Size G ht
  obtain ⟨res, st', hder, hmap, hres, -, -⟩ := DeriveState_spec Size G M st hG hlen hM
  refine ⟨?_, res, st', hder, ?_, ?_⟩
  · rcases hG with rfl | rfl
    · exact Or.inl ⟨rfl, by norm_num⟩
    · exact Or.inr ⟨rfl, by norm_num⟩
  · intro i hi hne t h1 h2
    have e : t / (G / 512) = i := (window_of_unit G hG t i).2 ⟨h1, h2⟩
    rw [hres t, e]
    exact ⟨hi, Or.inl hne⟩
  · intro i hi
    rw [hmap i, if_pos hi]

/-- Witness for `DeriveState_remapped_window`: the texture tracking set had
last observed no bank anywhere and bank A is now mapped to window 1; unit 300
of the window's range 256..511 is reported although no dirty bit is set, and
the stored mask of window 1 becomes that of bank A. -/
theorem DeriveState_remapped_window_witness :
    trackingSet .Texture = some (512 * 1024, 128 * 1024) ∧
    (∀ w, w < 512 * 1024 / (128 * 1024) → bankAInWindow1 w < 2 ^ 9) ∧
    bankAInWindow1 1 ≠ 0 ∧
    ∃ res st', DeriveState (512 * 1024) (128 * 1024) bankAInWindow1
        { Mapping := fun _ => 0, VRAMDirty := noDirty } = .ok (res, st') ∧
      getBit res 300 = true ∧ st'.Mapping 1 = 1 := by
  have h1 : ∀ w, w < 512 * 1024 / (128 * 1024) → bankAInWindow1 w < 2 ^ 9 := by
    intro w _
    unfold bankAInWindow1
    split <;> norm_num
  obtain ⟨-, res, st', hder, hbits, hmap⟩ :=
    DeriveState_remapped_window .Texture (512 * 1024) (128 * 1024) rfl bankAInWindow1 h1
      { Mapping := fun _ => 0, VRAMDirty := noDirty }
  exact ⟨rfl, h1, by decide, res, st', hder,
    hbits 1 (by decide) (by decide) 300 (by decide) (by decide),
    hmap 1 (by decide)⟩

/-- C10 as stated fails for a table that is not over the banks 0..8: the
engine-B BG tracking set had last observed no bank and window 0 now holds the
mask `0x200` (bit 9).  The window counts as remapped, `banksToBeZeroed`
receives bit 9, and the last loop of `DeriveState` runs
`memset(VRAMDirty[9].Data, ...)` on an array of 9 bit fields: the call has no
defined result. -/
theorem DeriveState_remapped_counterexample :
    trackingSet .BBG = some (128 * 1024, 16 * 1024) ∧
    bit9InWindow0 0 ≠ (fun _ => 0 : Nat → Nat) 0 ∧
    DeriveState (128 * 1024) (16 * 1024) bit9InWindow0
        { Mapping := fun _ => 0, VRAMDirty := noDirty } = .error (.badBank 9) ∧
    ¬ ∃ res st', DeriveState (128 * 1024) (16 * 1024) bit9InWindow0
        { Mapping := fun _ => 0, VRAMDirty := noDirty } = .ok (res, st') := by
  have h : DeriveState (128 * 1024) (16 * 1024) bit9InWindow0
      { Mapping := fun _ => 0, VRAMDirty := noDirty } = .error (.badBank 9) := by
    rfl
  refine ⟨rfl, by decide, h, ?_⟩
  rintro ⟨res, st', h2⟩
  rw [h] at h2
  cases h2

theorem getBit_zero (t : Nat) : getBit (fun _ => 0) t = false := by
  rw [getBit_eq]
  exact Nat.zero_testBit _

/-- C11 (`DeriveState` on an unchanged window).  For every tracking set
`<Size, G>` and every current mask table `M` over the banks 0..8,
`DeriveState` returns, and for every window `i` whose mask `M[i]` equals the
stored mask: with 16 KiB windows, result bit `i*32+u` (`u < 32`) is set if and
only if some bank `b` in `M[i]` had dirty bit `(i*32+u) & (VRAMMask[b] / 512)`
set before the call; with 128 KiB windows (the texture set), result bit
`i*256+u` (`u < 256`) is set if and only if some bank in `M[i]` had dirty bit
`u` set; and the window's result bits are all zero when no bank is mapped. -/
theorem DeriveState_unchanged_window (d : Dest) (Size G : Nat)
    (ht : trackingSet d = some (Size, G)) (M : Nat → Nat)
    (hM : ∀ w, w < Size / G → M w < 2 ^ 9) (st : TrackState) :
    ∃ res st', DeriveState Size G M st = .ok (res, st') ∧
      ∀ i, i < Size / G → M i = st.Mapping i →
        (G = 16 * 1024 → ∀ u, u < 32 →
          (getBit res (i * 32 + u) = true ↔
            ∃ b m, (M i).testBit b = true ∧ VRAMMask b = .ok m ∧
              getBit (st.VRAMDirty b) ((i * 32 + u) &&& (m / 512)) = true)) ∧
        (G = 128 * 1024 → ∀ u, u < 256 →
          (getBit res (i * 256 + u) = true ↔
            ∃ b, (M i).testBit b = true ∧ getBit (st.VRAMDirty b) u = true)) ∧
        (M i = 0 → ∀ t, i * (G / 512) ≤ t → t < (i + 1) * (G / 512) →
          getBit res t = false) := by
  obtain ⟨hG, hlen, -⟩ := trackingSet_facts d Size G ht
  obtain ⟨res, st', hder, -, hres, -, -⟩ := DeriveState_spec Size G M st hG hlen hM
  refine ⟨res, st', hder, fun i hi heq => ⟨?_, ?_, ?_⟩⟩
  · rintro rfl u hu
    have e : (i * 32 + u) / (16 * 1024 / 512) = i := by norm_num; omega
    rw [hres, e]
    constructor
    · rintro ⟨-, h | ⟨b, hb, hd⟩⟩
      · exact absurd heq h
      · have hb9 := lt_nine_of_testBit (hM i hi) hb
        refine ⟨b, maskOf b, hb, VRAMMask_eq_maskOf b hb9, ?_⟩
        simpa only [dirtyIdx, if_true] using hd
    · rintro ⟨b, m, hb, hm, hd⟩
      have hb9 := lt_nine_of_testBit (hM i hi) hb
      rw [VRAMMask_eq_maskOf b hb9] at hm
      cases hm
      refine ⟨hi, Or.inr ⟨b, hb, ?_⟩⟩
      simpa only [dirtyIdx, if_true] using hd
  · rintro rfl u hu
    have e : (i * 256 + u) / (128 * 1024 / 512) = i := by norm_num; omega
    have hne : ¬ (128 * 1024 = 16 * 1024) := by norm_num
    have e2 : (i * 256 + u) % 256 = u := by omega
    rw [hres, e]
    constructor
    · rintro ⟨-, h | ⟨b, hb, hd⟩⟩
      · exact absurd heq h
      · refine ⟨b, hb, ?_⟩
        simpa only [dirtyIdx, hne, if_false, e2] using hd
    · rintro ⟨b, hb, hd⟩
      refine ⟨hi, Or.inr ⟨b, hb, ?_⟩⟩
      simpa only [dirtyIdx, hne, if_false, e2] using hd
  · intro hz t h1 h2
    have e : t / (G / 512) = i := (window_of_unit G hG t i).2 ⟨h1, h2⟩
    by_contra hne
    have hset : getBit res t = true := by simpa using hne
    rw [hres, e] at hset
    rcases hset with ⟨-, h | ⟨b, hb, -⟩⟩
    · exact h heq
    · rw [hz, Nat.zero_testBit] at hb
      cases hb

/-- Witness for `DeriveState_unchanged_window`: banks A and B are mapped to
engine-A BG window 3 as last observed, and bank B has dirty unit 100; unit
100 = 3*32+4 of the result is set and unit 101 is not. -/
theorem DeriveState_unchanged_window_witness :
    trackingSet .ABG = some (512 * 1024, 16 * 1024) ∧
    (∀ w, w < 512 * 1024 / (16 * 1024) → banksABInWindow3 w < 2 ^ 9) ∧
    ∃ res st', DeriveState (512 * 1024) (16 * 1024) banksABInWindow3
        { Mapping := banksABInWindow3, VRAMDirty := unit100DirtyInB } = .ok (res, st') ∧
      getBit res (3 * 32 + 4) = true ∧ getBit res (3 * 32 + 5) = false := by
  have h1 : ∀ w, w < 512 * 1024 / (16 * 1024) → banksABInWindow3 w < 2 ^ 9 := by
    intro w _
    unfold banksABInWindow3
    split <;> norm_num
  obtain ⟨res, st', hder, h⟩ :=
    DeriveState_unchanged_window .ABG (512 * 1024) (16 * 1024) rfl banksABInWindow3 h1
      { Mapping := banksABInWindow3, VRAMDirty := unit100DirtyInB }
  obtain ⟨h16, -, -⟩ := h 3 (by decide) rfl
  refine ⟨rfl, h1, res, st', hder, (h16 rfl 4 (by decide)).2 ⟨1, 0x1FFFF, by decide, rfl, by decide⟩, ?_⟩
  by_contra hne
  have hset : getBit res (3 * 32 + 5) = true := by simpa using hne
  obtain ⟨b, m, hb, hm, hd⟩ := (h16 rfl 5 (by decide)).1 hset
  have hb2 : b < 2 := by
    by_contra hge
    have : (3 : Nat).testBit b = false :=
      Nat.testBit_lt_two_pow (lt_of_lt_of_le (by norm_num : 3 < 2 ^ 2)
        (Nat.pow_le_pow_right (by norm_num) (not_lt.mp hge)))
    have hb3 : (3 : Nat).testBit b = true := hb
    rw [this] at hb3
    cases hb3
  interval_cases b
  · cases hm
    revert hd
    decide
  · cases hm
    revert hd
    decide

/-- C12 (`DeriveState` round trip).  For every tracking set `<Size, G>`,
every mask table `M` over the banks 0..8 and every state of the stored masks
and of the dirty fields: `DeriveState(M)` followed at once by a second
`DeriveState(M)` both return, and the second returns a field without any set
bit. -/
theorem DeriveState_round_trip (d : Dest) (Size G : Nat)
    (ht : trackingSet d = some (Size, G)) (M : Nat → Nat)
    (hM : ∀ w, w < Size / G → M w < 2 ^ 9) (st : TrackState) :
    ∃ res1 st1 res2 st2, DeriveState Size G M st = .ok (res1, st1) ∧
      DeriveState Size G M st1 = .ok (res2, st2) ∧ ∀ t, getBit res2 t = false := by
  obtain ⟨hG, hlen, -⟩ := trackingSet_facts d Size G ht
  obtain ⟨res1, st1, hder1, hmap, -, hzero, -⟩ := DeriveState_spec Size G M st hG hlen hM
  obtain ⟨res2, st2, hder2, -, hres, -, -⟩ := DeriveState_spec Size G M st1 hG hlen hM
  refine ⟨res1, st1, res2, st2, hder1, hder2, fun t => ?_⟩
  by_contra hne
  have hset : getBit res2 t = true := by simpa using hne
  rw [hres] at hset
  obtain ⟨hlt, h | ⟨b, hb, hd⟩⟩ := hset
  · apply h
    rw [hmap, if_pos hlt]
  · rw [hzero b ⟨_, hlt, hb⟩, getBit_zero] at hd
    cases hd

/-- Witness for `DeriveState_round_trip`: the texture tracking set had last
observed nothing, bank A is mapped to window 1 and bank B has a dirty unit;
the first call reports unit 300, the second call reports nothing. -/
theorem DeriveState_round_trip_witness :
    trackingSet .Texture = some (512 * 1024, 128 * 1024) ∧
    (∀ w, w < 512 * 1024 / (128 * 1024) → bankAInWindow1 w < 2 ^ 9) ∧
    ∃ res1 st1 res2 st2, DeriveState (512 * 1024) (128 * 1024) bankAInWindow1
        { Mapping := fun _ => 0, VRAMDirty := unit100DirtyInB } = .ok (res1, st1) ∧
      DeriveState (512 * 1024) (128 * 1024) bankAInWindow1 st1 = .ok (res2, st2) ∧
      getBit res2 300 = false := by
  have h1 : ∀ w, w < 512 * 1024 / (128 * 1024) → bankAInWindow1 w < 2 ^ 9 := by
    intro w _
    unfold bankAInWindow1
    split <;> norm_num
  obtain ⟨res1, st1, res2, st2, hd1, hd2, h⟩ :=
    DeriveState_round_trip .Texture (512 * 1024) (128 * 1024) rfl bankAInWindow1 h1
      { Mapping := fun _ => 0, VRAMDirty := unit100DirtyInB }
  exact ⟨rfl, h1, res1, st1, res2, st2, hd1, hd2, h 300⟩

/-- Partial-correctness rule for the `for` loop: an invariant kept by every
round that returns holds when the loop returns. -/
theorem forLoop_partial {σ : Type} (body : Nat → σ → Except Fault σ) (I : Nat → σ → Prop)
    (n : Nat) (hstep : ∀ i s s', i < n → I i s → body i s = .ok s' → I (i + 1) s')
    (s0 : σ) (h0 : I 0 s0) (s' : σ) (h : forLoop body n s0 = .ok s') : I n s' := by
  induction n generalizing s' with
  | zero =>
    simp only [forLoop, Except.ok.injEq] at h
    subst h; exact h0
  | succ n ih =>
    rw [forLoop_succ_eq_ok] at h
    obtain ⟨s1, h1, h2⟩ := h
    exact hstep n s1 s' (by omega) (ih (fun i s s' hi => hstep i s s' (by omega)) s1 h1) h2

/-- Whenever the last loop of `DeriveState` returns, it has cleared the dirty
field of every bank of `banksToBeZeroed` and left the other banks alone. -/
theorem zeroLoop_partial (fuel Z : Nat) (D D' : Nat → Nat → Nat) (hZ : Z < 2 ^ 32)
    (h : forEachBank zeroDirty fuel Z D = .ok D') :
    ∀ b, D' b = if Z.testBit b = true then (fun _ => 0) else D b := by
  induction fuel generalizing Z D with
  | zero =>
    unfold forEachBank at h
    split at h
    · rename_i hz
      cases h
      intro b
      simp [hz]
    · cases h
  | succ fuel ih =>
    unfold forEachBank at h
    split at h
    · rename_i hz
      cases h
      intro b
      simp [hz]
    · rename_i hz
      by_cases hn : ctz 32 Z < 9
      · have e : zeroDirty (ctz 32 Z) D
            = .ok (fun b => if b = ctz 32 Z then (fun _ => 0) else D b) := by
          simp only [zeroDirty, hn, if_true]
        simp only [e] at h
        have hlt : Z &&& not32 (1 <<< ctz 32 Z) < 2 ^ 32 :=
          lt_of_le_of_lt Nat.and_le_left hZ
        have := ih _ _ hlt h
        intro b
        rw [this b]
        have hbit : (Z &&& not32 (1 <<< ctz 32 Z)).testBit b
            = (Z.testBit b && !decide (ctz 32 Z = b)) := by
          rw [Nat.testBit_and, testBit_not32, Nat.shiftLeft_eq, one_mul, Nat.testBit_two_pow]
          by_cases hb : b < 32
          · simp [hb]
          · have : Z.testBit b = false :=
              Nat.testBit_lt_two_pow (lt_of_lt_of_le hZ
                (Nat.pow_le_pow_right (by norm_num) (not_lt.mp hb)))
            simp [this]
        rw [hbit]
        by_cases hb : b = ctz 32 Z
        · subst hb
          simp [ctz_testBit 32 Z hz hZ]
        · have hb2 : ¬ ctz 32 Z = b := fun e => hb e.symm
          simp [hb, hb2]
      · have e : zeroDirty (ctz 32 Z) D = .error (.badBank (ctz 32 Z)) := by
          simp only [zeroDirty, hn, if_false]
        simp only [e] at h
        cases h

/-- Whenever a round of the window loop of `DeriveState` returns, it has
added the window's current mask to `banksToBeZeroed`. -/
theorem deriveWindow_banks {Size G : Nat} {cur : Nat → Nat} {dirty : Nat → Nat → Nat}
    {i : Nat} {loc loc' : DeriveLocals}
    (h : deriveWindow Size G cur dirty i loc = .ok loc') :
    loc'.banksToBeZeroed = (loc.banksToBeZeroed ||| cur i) % 2 ^ 16 := by
  unfold deriveWindow at h
  by_cases hc : cur i ≠ loc.Mapping i
  · simp only [hc, if_true, ne_eq, not_false_eq_true] at h
    split at h
    · cases h
    · cases h; rfl
  · have hc2 : cur i = loc.Mapping i := not_not.mp hc
    simp only [hc, if_false] at h
    split at h
    · cases h
    · cases h
      show (loc.banksToBeZeroed ||| loc.Mapping i) % 2 ^ 16 = _
      rw [hc2]

/-- Whenever `DeriveState` returns, for any table at all: each of the banks
0..15 that occurs in a window's current mask has its dirty field cleared,
and every other bank keeps its dirty field. -/
theorem DeriveState_zeroed_partial (Size G : Nat) (cur : Nat → Nat) (st : TrackState)
    (res : Nat → Nat) (st' : TrackState) (h : DeriveState Size G cur st = .ok (res, st')) :
    ∀ b, st'.VRAMDirty b =
      if b < 16 ∧ ∃ w, w < Size / G ∧ (cur w).testBit b = true
      then (fun _ => 0) else st.VRAMDirty b := by
  classical
  unfold DeriveState at h
  split at h
  · cases h
  · rename_i loc hloc
    split at h
    · cases h
    · rename_i D hD
      cases h
      have hinv := forLoop_partial (deriveWindow Size G cur st.VRAMDirty)
        (fun i (l : DeriveLocals) => l.banksToBeZeroed < 2 ^ 16 ∧
          ∀ b, l.banksToBeZeroed.testBit b = true ↔
            b < 16 ∧ ∃ w, w < i ∧ (cur w).testBit b = true)
        (Size / G)
        (by
          intro i s s' _ hI hs
          have e := deriveWindow_banks hs
          refine ⟨by rw [e]; exact Nat.mod_lt _ (by norm_num), fun b => ?_⟩
          rw [e, Nat.testBit_mod_two_pow, Nat.testBit_or]
          simp only [Bool.and_eq_true, decide_eq_true_eq, Bool.or_eq_true, hI.2 b]
          constructor
          · rintro ⟨h16, ⟨-, w, hw, hb⟩ | hb⟩
            · exact ⟨h16, w, by omega, hb⟩
            · exact ⟨h16, i, by omega, hb⟩
          · rintro ⟨h16, w, hw, hb⟩
            by_cases e : w = i
            · subst e; exact ⟨h16, Or.inr hb⟩
            · exact ⟨h16, Or.inl ⟨h16, w, by omega, hb⟩⟩)
        _ ⟨by norm_num, by intro b; simp⟩ loc hloc
      have hz := zeroLoop_partial 32 loc.banksToBeZeroed st.VRAMDirty D
        (lt_trans hinv.1 (by norm_num)) hD
      intro b
      show D b = _
      rw [hz b]
      by_cases hb : loc.banksToBeZeroed.testBit b = true
      · rw [if_pos hb, if_pos ((hinv.2 b).1 hb)]
      · rw [if_neg hb, if_neg (fun hc => hb ((hinv.2 b).2 hc))]

/-- C13 (`DeriveState` clears exactly the touched banks).  For every tracking
set `<Size, G>`, every table `M` and every state: whenever `DeriveState(M)`
returns, the dirty field of every bank `b` (0..8) that occurs in `M[i]` for
some window `i` of the destination is all zero, whether that window's mask
had changed or not, and the dirty field of every bank that occurs in no
`M[i]` is unchanged; and `DeriveState(M)` does return when the masks of `M`
contain only banks 0..8. -/
theorem DeriveState_clears_touched_banks (d : Dest) (Size G : Nat)
    (ht : trackingSet d = some (Size, G)) (M : Nat → Nat) (st : TrackState) :
    (∀ res st', DeriveState Size G M st = .ok (res, st') →
      ∀ b, b < 9 →
        ((∃ i, i < Size / G ∧ (M i).testBit b = true) → st'.VRAMDirty b = fun _ => 0) ∧
        ((¬ ∃ i, i < Size / G ∧ (M i).testBit b = true) →
          st'.VRAMDirty b = st.VRAMDirty b)) ∧
    ((∀ w, w < Size / G → M w < 2 ^ 9) →
      ∃ res st', DeriveState Size G M st = .ok (res, st')) := by
  refine ⟨?_, ?_⟩
  · intro res st' h b hb
    have := DeriveState_zeroed_partial Size G M st res st' h b
    constructor
    · intro hocc
      rw [this, if_pos ⟨by omega, hocc⟩]
    · intro hno
      rw [this, if_neg (fun hc => hno hc.2)]
  · intro hM
    obtain ⟨hG, hlen, -⟩ := trackingSet_facts d Size G ht
    obtain ⟨res, st', hder, -⟩ := DeriveState_spec Size G M st hG hlen hM
    exact ⟨res, st', hder⟩

/-- Witness for `DeriveState_clears_touched_banks`: banks A and B are mapped
to engine-A BG window 3 as last observed and bank B has a dirty unit; the
call returns, bank B's dirty field is cleared and bank C's is kept. -/
theorem DeriveState_clears_touched_banks_witness :
    trackingSet .ABG = some (512 * 1024, 16 * 1024) ∧
    (∀ w, w < 512 * 1024 / (16 * 1024) → banksABInWindow3 w < 2 ^ 9) ∧
    getBit (unit100DirtyInB 1) 100 = true ∧
    ∃ res st', DeriveState (512 * 1024) (16 * 1024) banksABInWindow3
        { Mapping := banksABInWindow3, VRAMDirty := unit100DirtyInB } = .ok (res, st') ∧
      (st'.VRAMDirty 1 = fun _ => 0) ∧ st'.VRAMDirty 2 = unit100DirtyInB 2 := by
  have h1 : ∀ w, w < 512 * 1024 / (16 * 1024) → banksABInWindow3 w < 2 ^ 9 := by
    intro w _
    unfold banksABInWindow3
    split <;> norm_num
  obtain ⟨hp, ht⟩ :=
    DeriveState_clears_touched_banks .ABG (512 * 1024) (16 * 1024) rfl banksABInWindow3
      { Mapping := banksABInWindow3, VRAMDirty := unit100DirtyInB }
  obtain ⟨res, st', hder⟩ := ht h1
  refine ⟨rfl, h1, by decide, res, st', hder,
    (hp res st' hder 1 (by decide)).1 ⟨3, by decide, by decide⟩,
    (hp res st' hder 2 (by decide)).2 ?_⟩
  rintro ⟨i, -, hb⟩
  unfold banksABInWindow3 at hb
  split at hb
  · revert hb; decide
  · revert hb; decide

/-! ## Range construction -/

theorem shift6_eq_div (x : Nat) : x >>> 6 = x / 64 := by
  rw [Nat.shiftRight_eq_div_pow]

/-- Bits of `~(0xFFFFFFFFFFFFFFFF << e)` for `e < 64`: the `e` low bits. -/
theorem testBit_low_mask (e c : Nat) (he : e < 64) :
    (not64 (0xFFFFFFFFFFFFFFFF <<< e)).testBit c = decide (c < e) := by
  rw [testBit_not64, Nat.testBit_shiftLeft, testBit_all64]
  by_cases h1 : c < e
  · have h2 : c < 64 := by omega
    have h3 : ¬ c ≥ e := by omega
    simp [h1, h2, h3]
  · by_cases h2 : c < 64
    · have h3 : c ≥ e := by omega
      have h4 : c - e < 64 := by omega
      simp [h1, h2, h3, h4]
    · simp [h1, h2]

/-- Bits of `0xFFFFFFFFFFFFFFFF << s` as a `u64`, for `s < 64`. -/
theorem testBit_high_mask (s c : Nat) (hs : s < 64) :
    (((0xFFFFFFFFFFFFFFFF : Nat) <<< s) % 2 ^ 64).testBit c = decide (s ≤ c ∧ c < 64) := by
  rw [Nat.testBit_mod_two_pow, Nat.testBit_shiftLeft, testBit_all64]
  by_cases h1 : c < 64
  · by_cases h2 : s ≤ c
    · have h3 : c - s < 64 := by omega
      simp [h1, h2, h3]
    · simp [h1, h2]
  · simp [h1]

/-- The range constructor sets exactly the bits of the range, except for a
range that is exactly one 64-bit word. -/
theorem rangeField_spec (len start size : Nat) (hin : start + size ≤ 64 * len)
    (hone : ¬ (size = 64 ∧ start % 64 = 0)) :
    ∃ r, rangeField len start size = .ok r ∧
      ∀ t, getBit r t = true ↔ start ≤ t ∧ t < start + size := by
  by_cases hs : size = 0
  · refine ⟨fun _ => 0, by simp [rangeField, hs], fun t => ?_⟩
    rw [getBit_zero]
    constructor
    · intro h; cases h
    · intro h; omega
  · have hlen : (start + size - 1) / 64 < len := by omega
    by_cases hw : start / 64 = (start + size - 1) / 64
    · have hsz : size % 64 = size := by
        apply Nat.mod_eq_of_lt
        by_contra hge
        have : size = 64 := by omega
        exact hone ⟨this, by omega⟩
      have hsz64 : size < 64 := by omega
      refine ⟨fun w => if w = start / 64 then
          ((not64 (0xFFFFFFFFFFFFFFFF <<< size)) <<< (start % 64)) % 2 ^ 64 else 0, ?_, ?_⟩
      · simp only [rangeField, hs, if_false, shift6_eq_div, and63_eq_mod, hlen, if_true, hw, hsz]
      · intro t
        rw [getBit_eq]
        by_cases ht : t / 64 = start / 64
        · simp only [ht, if_true]
          rw [Nat.testBit_mod_two_pow, Nat.testBit_shiftLeft, testBit_low_mask _ _ hsz64]
          simp only [Bool.and_eq_true, decide_eq_true_eq, ge_iff_le]
          omega
        · simp only [ht, if_false, Nat.zero_testBit, Bool.false_eq_true, false_iff]
          omega
    · refine ⟨fun w =>
          if start / 64 ≤ w ∧ w ≤ (start + size - 1) / 64 then
            if w = start / 64 then (0xFFFFFFFFFFFFFFFF <<< (start % 64)) % 2 ^ 64
            else if w = (start + size - 1) / 64 then
              (if (start + size) % 64 ≠ 0
                then not64 (0xFFFFFFFFFFFFFFFF <<< ((start + size) % 64))
                else 0xFFFFFFFFFFFFFFFF)
            else 0xFFFFFFFFFFFFFFFF
          else 0, ?_, ?_⟩
      · simp only [rangeField, hs, if_false, shift6_eq_div, and63_eq_mod, hlen, if_true, hw]
      · intro t
        rw [getBit_eq]
        by_cases hr : start / 64 ≤ t / 64 ∧ t / 64 ≤ (start + size - 1) / 64
        · rw [if_pos hr]
          by_cases h1 : t / 64 = start / 64
          · rw [if_pos h1, testBit_high_mask _ _ (Nat.mod_lt _ (by norm_num))]
            simp only [decide_eq_true_eq]
            omega
          · rw [if_neg h1]
            by_cases h2 : t / 64 = (start + size - 1) / 64
            · rw [if_pos h2]
              by_cases he : (start + size) % 64 ≠ 0
              · rw [if_pos he, testBit_low_mask _ _ (Nat.mod_lt _ (by norm_num))]
                simp only [decide_eq_true_eq]
                omega
              · rw [if_neg he, testBit_all64]
                simp only [decide_eq_true_eq]
                omega
            · rw [if_neg h2, testBit_all64]
              simp only [decide_eq_true_eq]
              omega
        · rw [if_neg hr]
          simp only [Nat.zero_testBit, Bool.false_eq_true, false_iff]
          omega

/-- A range that is exactly word `w` of the field gives the empty field: the
single-word branch computes `~(0xFFFFFFFFFFFFFFFF << (64 & 0x3F))`, which is
0. -/
theorem rangeField_word (len w : Nat) (hw : w < len) :
    rangeField len (64 * w) 64 = .ok (fun _ => 0) := by
  have e1 : (64 * w) / 64 = w := by omega
  have e2 : (64 * w + 64 - 1) / 64 = w := by omega
  have e3 : (64 * w) % 64 = 0 := by omega
  have e4 : ((not64 (0xFFFFFFFFFFFFFFFF <<< (64 % 64))) <<< 0) % 2 ^ 64 = 0 := by decide
  simp only [rangeField, shift6_eq_div, and63_eq_mod, e1, e2, e3, e4, hw, if_true]
  simp

/-- C15 (bit-field range construction) fails for a range that is exactly one
64-bit word: `NonStupidBitField<64>(0, 64)` takes the single-word branch
(`startIdx == endIdx == 0`) and stores
`~(0xFFFFFFFFFFFFFFFF << (64 & 0x3F)) << 0 = 0`, so no bit of the range 0..63
is set; the same happens for word 1 of a 256-bit field.  The multi-word
branch treats `(start + size) & 0x3F == 0` as a full word. -/
theorem rangeField_one_word_empty :
    0 + 64 ≤ 64 ∧ rangeField 1 0 64 = .ok (fun _ => 0) ∧
    getBit (fun _ => 0) 0 = false ∧
    64 + 64 ≤ 256 ∧ rangeField 4 64 64 = .ok (fun _ => 0) ∧
    getBit (fun _ => 0) 64 = false :=
  ⟨by decide, rangeField_word 1 0 (by decide), by decide, by decide,
   rangeField_word 4 1 (by decide), by decide⟩

/-! ## Set-bit iteration -/

theorem AtBit.getBit_deref {orig : Nat → Nat} {len : Nat} {it : Iterator}
    (h : AtBit orig len it) : getBit orig it.deref = true := by
  rw [getBit_eq]
  have := h.idx
  have e1 : it.deref / 64 = it.DataIdx := by simp only [Iterator.deref]; omega
  have e2 : it.deref % 64 = it.Idx := by simp only [Iterator.deref]; omega
  rw [e1, e2]
  exact h.set

theorem iterate_spec (orig : Nat → Nat) (len : Nat) (clear : Bool)
    (hW : ∀ w, orig w < 2 ^ 64) (fuel : Nat) (it : Iterator) (cur : Nat → Nat)
    (acc : List Nat) (hinv : IterInv orig len it cur acc)
    (hf : 64 * len + 1 ≤ fuel + it.pos len) :
    ∃ L cur', iterate len clear fuel it cur acc = .ok (L, cur') ∧
      List.Pairwise (fun a b => a < b) L ∧
      ∀ j, j ∈ L ↔ j < 64 * len ∧ getBit orig j = true := by
  induction fuel generalizing it cur acc with
  | zero =>
    have := pos_le len it (hinv.it_ok.imp id (fun h => h.idx))
    omega
  | succ fuel ih =>
    rcases hinv.it_ok with hend | hat
    · have e : it.eq (End len) = true := by simp [Iterator.eq, End, hend]
      have hp : it.pos len = 64 * len := by simp [Iterator.pos, hend]
      refine ⟨acc, cur, by simp [iterate, e], hinv.sorted, fun j => ?_⟩
      rw [hinv.mem j, hp]
    · have hne : it.eq (End len) = false := by
        have := hat.word
        simp [Iterator.eq, End]; omega
      have hpos : it.pos len = it.deref := by simp [Iterator.pos, hat.word]
      have hj : it.deref < 64 * len := by
        have := hat.word; have := hat.idx
        simp only [Iterator.deref]; omega
      obtain ⟨cur1, hc1, hother⟩ : ∃ cur1,
          (if clear then it.assign len cur false else .ok cur) = .ok cur1 ∧
          ∀ w, w ≠ it.DataIdx → cur1 w = cur w := by
        cases clear
        · exact ⟨cur, rfl, fun _ _ => rfl⟩
        · refine ⟨_, assignBit_eq_ok.mpr ⟨hat.word, rfl⟩, fun w hw => ?_⟩
          simp [hw]
      have hnext := next_spec len orig cur1 hW it hat (fun w hw => by
        rw [hother w (by omega)]; exact hinv.cur_after w hw)
      have hkey : ∀ it', (it'.DataIdx = len ∨ AtBit orig len it') →
          it.DataIdx ≤ it'.DataIdx → it.deref < it'.pos len →
          NoBits orig (it.deref + 1) (it'.pos len) →
          IterInv orig len it' cur1 (acc ++ [it.deref]) := by
        intro it' hok hle hlt hnb
        refine ⟨hok, ?_, ?_, ?_⟩
        · intro w hw
          rw [hother w (by omega)]
          exact hinv.cur_after w (by omega)
        · rw [List.pairwise_append]
          refine ⟨hinv.sorted, List.pairwise_singleton _ _, ?_⟩
          intro a ha b hb
          have h1 := ((hinv.mem a).1 ha).1
          have h2 : b = it.deref := by simpa using hb
          omega
        · intro j
          rw [List.mem_append, hinv.mem j, hpos]
          simp only [List.mem_singleton]
          constructor
          · rintro (⟨h1, h2⟩ | rfl)
            · exact ⟨by omega, h2⟩
            · exact ⟨hlt, hat.getBit_deref⟩
          · rintro ⟨h1, h2⟩
            by_cases hlt2 : j < it.deref
            · exact Or.inl ⟨hlt2, h2⟩
            · by_cases heq : j = it.deref
              · exact Or.inr heq
              · have := hnb j (by omega) h1
                rw [h2] at this
                cases this
      rcases hnext with ⟨h1, h2⟩ | ⟨h1, h2, h3, h4⟩
      · have hp' : (it.next len cur1).pos len = 64 * len := by simp [Iterator.pos, h1]
        have hinv' := hkey (it.next len cur1) (Or.inl h1)
          (by rw [h1]; exact le_of_lt hat.word) (by rw [hp']; exact hj) (by rw [hp']; exact h2)
        obtain ⟨L, c', hs', hL⟩ := ih (it.next len cur1) _ _ hinv' (by rw [hp']; omega)
        exact ⟨L, c', by simp only [iterate, hne, hc1]; exact hs', hL⟩
      · have hp' : (it.next len cur1).pos len = (it.next len cur1).deref := by
          simp [Iterator.pos, h1.word]
        have hinv' := hkey (it.next len cur1) (Or.inr h1) h3
          (by rw [hp']; exact h2) (by rw [hp']; exact h4)
        obtain ⟨L, c', hs', hL⟩ := ih (it.next len cur1) _ _ hinv'
          (by rw [hp']; rw [hpos] at hf; omega)
        exact ⟨L, c', by simp only [iterate, hne, hc1]; exact hs', hL⟩

theorem IterInv_Begin (data : Nat → Nat) (len : Nat) (hW : ∀ w, data w < 2 ^ 64) :
    IterInv data len (Begin len data) data [] := by
  have hnb : NoBits data 0 ((Begin len data).pos len) ∧
      ((Begin len data).DataIdx = len ∨ AtBit data len (Begin len data)) := by
    rcases Begin_spec len data hW with ⟨h1, h2⟩ | ⟨h1, h2⟩
    · refine ⟨?_, Or.inl h1⟩
      have : (Begin len data).pos len = 64 * len := by simp [Iterator.pos, h1]
      rw [this]; exact h2
    · refine ⟨?_, Or.inr h1⟩
      have : (Begin len data).pos len = (Begin len data).deref := by
        simp [Iterator.pos, h1.word]
      rw [this]; exact h2
  refine ⟨hnb.2, fun _ _ => rfl, List.Pairwise.nil, fun j => ?_⟩
  constructor
  · intro h; cases h
  · rintro ⟨h1, h2⟩
    have := hnb.1 j (by omega) h1
    rw [h2] at this
    cases this

/-- C16 (set-bit iteration).  For every bit field of `len` 64-bit words,
iterating from `Begin()` with `operator++` until the iterator equals `End()`
terminates, and the values dereferenced are strictly increasing and are
exactly the indices of the set bits (so each once, and none for the empty
field); this holds both when the field is left alone (`clear = false`) and
when the bit at the current position is cleared through the iterator before
advancing (`clear = true`). -/
theorem iteration_visits_set_bits (len : Nat) (data : Nat → Nat)
    (hW : ∀ w, data w < 2 ^ 64) (clear : Bool) :
    ∃ L data', visitAll len clear data = .ok (L, data') ∧
      List.Pairwise (fun a b => a < b) L ∧
      ∀ j, j ∈ L ↔ j < 64 * len ∧ getBit data j = true :=
  iterate_spec data len clear hW (64 * len + 1) (Begin len data) data []
    (IterInv_Begin data len hW) (by omega)

/-- Witness for `iteration_visits_set_bits`: a field of 128 bits with the
bits 3, 64 and 127 set is visited as 3, 64, 127, also when each bit is
cleared on the way. -/
theorem iteration_visits_set_bits_witness :
    (∀ w, bits3And64And127 w < 2 ^ 64) ∧
    (∃ d, visitAll 2 false bits3And64And127 = .ok ([3, 64, 127], d)) ∧
    (∃ d, visitAll 2 true bits3And64And127 = .ok ([3, 64, 127], d)) ∧
    ∃ L data', visitAll 2 true bits3And64And127 = .ok (L, data') ∧
      List.Pairwise (fun a b => a < b) L ∧
      ∀ j, j ∈ L ↔ j < 64 * 2 ∧ getBit bits3And64And127 j = true := by
  have h : ∀ w, bits3And64And127 w < 2 ^ 64 := by
    intro w
    unfold bits3And64And127
    split
    · norm_num
    · split <;> norm_num
  exact ⟨h, ⟨_, rfl⟩, ⟨_, rfl⟩, iteration_visits_set_bits 2 bits3And64And127 h true⟩

/-! ## `CopyLinearVRAM` -/

/-- The fast path of `CopyLinearVRAM` for a unit whose window holds exactly
bank `b`: the 512 bytes are copied from offset
`(addr & VRAMMask[b]) + (addr & (MappingGranularity - 1))` of the bank, where
`addr = u * 512`: the offset of the unit inside its window is added to the
pointer `GetUniqueBankPtr` returned, which already contains it. -/
theorem copyUnit_unique (G : Nat) (d : Dest) (M : Nat → Nat) (VRAM : Nat → Nat → Nat)
    (slowAccess : Nat → Nat) (u : Nat) (flat : Nat → Nat) (b : Nat) (hb : b < 9)
    (hw : u / (G / 512) < d.size) (hM : M (u / (G / 512)) = 2 ^ b) (hu : u * 512 < 2 ^ 32) :
    copyUnit G d M VRAM slowAccess u flat
      = copyFromBank VRAM flat (u * 512) b
          (((u * 512) &&& maskOf b) + ((u * 512) &&& (G - 1))) := by
  have hlt : M (u / (G / 512)) < 2 ^ 9 := by
    rw [hM]; exact Nat.pow_lt_pow_right (by norm_num) hb
  obtain ⟨-, m, hm, hp⟩ := (GetUniqueBankPtr_small _ ((u * 512) % 2 ^ 32) hlt).2 b
    ((soleBank_iff _ b).2 hM)
  rw [VRAMMask_eq_maskOf b hb] at hm
  cases hm
  rw [Nat.mod_eq_of_lt hu] at hp
  simp only [copyUnit, hw, if_true, Nat.mod_eq_of_lt hu, hp]

/-- C14 (`CopyLinearVRAM` result) fails on the fast path.  Bank A alone is
mapped to window 0 of engine-A BG, unit 1 is dirty, and every byte of a bank
holds the number of its 512-byte unit.  The claim has
`flat[512] = VRAM[0][(512 & VRAMMask[0]) + 0]`, the byte 1 the window's
direct pointer addresses; the code copies from
`fastAccess + (512 & (16*1024 - 1))`, that is from `VRAM[0][1024]`, and
`flat[512]` becomes 2. -/
theorem CopyLinearVRAM_double_offset :
    GetUniqueBankPtr (bankAInWindow0 (1 * 512 / (16 * 1024))) (1 * 512) = .ok (Ptr.bank 0 512) ∧
    unitNumberBytes 0 ((1 * 512 &&& 0x1FFFF) + 0) = 1 ∧
    (CopyLinearVRAM (16 * 1024) 1024 .ABG bankAInWindow0 unitNumberBytes (fun _ => 0)
        unit1Dirty (fun _ => 0)).toOption.map (fun r => (r.1 512, r.1 1023, r.2))
      = some (2, 2, true) ∧
    unitNumberBytes 0 1024 = 2 := by
  exact ⟨rfl, by decide, rfl, by decide⟩

/-! ## The scanline engine -/

theorem testBit_or16 (x k i : Nat) (hi : i < 16) :
    ((x ||| (1 <<< k)) % 2 ^ 16).testBit i = (x.testBit i || decide (k = i)) := by
  rw [Nat.testBit_mod_two_pow, Nat.testBit_or, one_shiftLeft, Nat.testBit_two_pow]
  simp [hi]

theorem testBit_andNot16 (x k i : Nat) (hi : i < 16) :
    ((x &&& not32 (1 <<< k)) % 2 ^ 16).testBit i = (x.testBit i && !decide (k = i)) := by
  have h32 : i < 32 := by omega
  rw [Nat.testBit_mod_two_pow, Nat.testBit_and, testBit_not32, one_shiftLeft,
    Nat.testBit_two_pow]
  simp [hi, h32]

theorem and_bit_ne_zero (x k : Nat) : x &&& (1 <<< k) ≠ 0 ↔ x.testBit k = true := by
  rw [one_shiftLeft, ← and_two_pow_ne_zero]
  simp

theorem Keeps.same (s : LCDState) : Keeps s s :=
  ⟨rfl, rfl, rfl, rfl, rfl, fun h => h, fun _ _ _ _ _ => rfl, [], by simp, by simp⟩

theorem Keeps.followedBy {s s1 s2 : LCDState} (h1 : Keeps s s1) (h2 : Keeps s1 s2) : Keeps s s2 := by
  obtain ⟨L1, e1, n1⟩ := h1.calls
  obtain ⟨L2, e2, n2⟩ := h2.calls
  refine ⟨h2.VCount.trans h1.VCount, h2.NextVCount.trans h1.NextVCount,
    h2.TotalScanlines.trans h1.TotalScanlines, h2.VMatch.trans h1.VMatch,
    h2.lcd.trans h1.lcd, fun h => h2.fifo (h1.fifo h),
    fun c i a b d => (h2.bits c i a b d).trans (h1.bits c i a b d),
    L1 ++ L2, by rw [e2, e1, List.append_assoc], ?_⟩
  intro c hc
  rcases List.mem_append.mp hc with h | h
  · exact n1 c h
  · exact n2 c h

theorem Keeps.call (c : Ext) (s : LCDState) (hc : ∀ cpu, c ≠ Ext.SetIRQ cpu .VBlank) :
    Keeps s (call c s) :=
  ⟨rfl, rfl, rfl, rfl, rfl, fun h => h, fun _ _ _ _ _ => rfl, [c], rfl, by
    intro cpu h
    rw [List.mem_singleton] at h
    exact hc cpu h.symm⟩

theorem Keeps.orDispStat (cpu k : Nat) (s : LCDState) (hk : k = 1 ∨ k = 2) :
    Keeps s (orDispStat cpu (1 <<< k) s) := by
  refine ⟨rfl, rfl, rfl, rfl, rfl, fun h => h, ?_, [], by simp [GPU.orDispStat], by simp⟩
  intro c i hi h1 h2
  show (if c = cpu then _ else _ : Nat).testBit i = _
  split
  · rw [testBit_or16 _ _ _ hi]
    have : ¬ k = i := by omega
    simp [this]
  · rfl

theorem Keeps.andNotDispStat (cpu k : Nat) (s : LCDState) (hk : k = 1 ∨ k = 2) :
    Keeps s (andNotDispStat cpu (1 <<< k) s) := by
  refine ⟨rfl, rfl, rfl, rfl, rfl, fun h => h, ?_, [], by simp [GPU.andNotDispStat], by simp⟩
  intro c i hi h1 h2
  show (if c = cpu then _ else _ : Nat).testBit i = _
  split
  · rw [testBit_andNot16 _ _ _ hi]
    have : ¬ k = i := by omega
    simp [this]
  · rfl

theorem Keeps.scheduleFIFO (periodic : Bool) (delay param : Nat) (s : LCDState) :
    Keeps s (ScheduleEvent .DisplayFIFO periodic delay .DisplayFIFO param s) :=
  ⟨rfl, rfl, rfl, rfl, by simp [ScheduleEvent],
    by
      intro _ cb a e
      simp only [ScheduleEvent, if_true, Option.some.injEq, Prod.mk.injEq] at e
      exact e.1.symm,
    fun _ _ _ _ _ => rfl,
    [.ScheduleEvent .DisplayFIFO periodic delay .DisplayFIFO param], rfl, by simp⟩

theorem Keeps.ite {s a b : LCDState} (c : Prop) [Decidable c] (ha : Keeps s a)
    (hb : Keeps s b) : Keeps s (if c then a else b) := by
  split
  · exact ha
  · exact hb

theorem Keeps.call2 (c1 c2 : Ext) (s : LCDState) (h1 : ∀ cpu, c1 ≠ Ext.SetIRQ cpu .VBlank)
    (h2 : ∀ cpu, c2 ≠ Ext.SetIRQ cpu .VBlank) : Keeps s (GPU.call c2 (GPU.call c1 s)) :=
  (Keeps.call c1 s h1).followedBy (Keeps.call c2 _ h2)

theorem Keeps.clearHBlank (s : LCDState) : Keeps s (clearHBlank s) :=
  (Keeps.andNotDispStat 0 1 s (Or.inl rfl)).followedBy (Keeps.andNotDispStat 1 1 _ (Or.inl rfl))

theorem Keeps.vcountMatch (cpu : Nat) (s : LCDState) : Keeps s (vcountMatch cpu s) :=
  Keeps.ite _
    ((Keeps.orDispStat cpu 2 s (Or.inr rfl)).followedBy
      (Keeps.ite _ (Keeps.call _ _ (by simp)) (Keeps.same _)))
    (Keeps.andNotDispStat cpu 2 s (Or.inr rfl))

theorem Keeps.scanlineDMA (s : LCDState) : Keeps s (scanlineDMA s) :=
  (Keeps.call2 (.CheckWindows 0 s.VCount) (.CheckWindows 1 s.VCount) s (by simp) (by simp)).followedBy
    (Keeps.ite _ (Keeps.call _ _ (by simp))
      (Keeps.ite _ (Keeps.call _ _ (by simp)) (Keeps.same _)))

theorem Keeps.visibleLineStart (line : Nat) (s : LCDState) :
    Keeps s (visibleLineStart line s) :=
  Keeps.ite _
    ((Keeps.ite (line = 0) (Keeps.call2 (.VBlankEnd 0) (.VBlankEnd 1) s (by simp) (by simp))
        (Keeps.same s)).followedBy
      (Keeps.ite _ (Keeps.scheduleFIFO _ _ _ _) (Keeps.same _)))
    (Keeps.same s)

theorem Keeps.hblankDraw (line : Nat) (s : LCDState) : Keeps s (hblankDraw line s) :=
  Keeps.ite _
    (((Keeps.ite (line < 192)
          (Keeps.call2 (.DrawScanline 0 line) (.DrawScanline 1 line) s (by simp) (by simp))
          (Keeps.same s)).followedBy
        (Keeps.ite (line < 191)
          (Keeps.call2 (.DrawSprites 0 (line + 1)) (.DrawSprites 1 (line + 1)) _ (by simp)
            (by simp))
          (Keeps.same _))).followedBy
      (Keeps.call _ _ (by simp)))
    (Keeps.ite _ (Keeps.call _ s (by simp))
      (Keeps.ite _ (Keeps.call2 (.DrawSprites 0 0) (.DrawSprites 1 0) s (by simp) (by simp))
        (Keeps.same s)))

theorem Keeps.hblankIRQ (s : LCDState) : Keeps s (hblankIRQ s) :=
  (Keeps.ite (s.DispStat 0 &&& (1 <<< 4) ≠ 0) (Keeps.call (.SetIRQ 0 .HBlank) s (by simp))
      (Keeps.same s)).followedBy
    (Keeps.ite _ (Keeps.call (.SetIRQ 1 .HBlank) _ (by simp)) (Keeps.same _))

theorem Keeps.DisplayFIFO (x : Nat) (s : LCDState) : Keeps s (DisplayFIFO x s) :=
  (Keeps.ite (x > 0)
      (Keeps.ite (x = 8) (Keeps.call (.SampleFIFO 0 5) s (by simp))
        (Keeps.call (.SampleFIFO ((x + 2 ^ 32 - 11) % 2 ^ 32) 8) s (by simp)))
      (Keeps.same s)).followedBy
    (Keeps.ite _
      ((Keeps.call (.CheckDMAs 0 0x04) _ (by simp)).followedBy (Keeps.scheduleFIFO _ _ _ _))
      (Keeps.call (.SampleFIFO 253 3) _ (by simp)))

theorem Keeps.toStep {s s' : LCDState} (h : Keeps s s') : LCDStep false (fun _ => 0) s s' := by
  obtain ⟨L, e, hn⟩ := h.calls
  exact ⟨h.VCount, h.NextVCount, h.TotalScanlines, h.VMatch, h.lcd, h.fifo,
    fun c i a b d _ => h.bits c i a b d, L, e, fun c => List.count_eq_zero.mpr (hn c)⟩

theorem LCDStep.andThen {z1 z2 : Bool} {n1 n2 : Nat → Nat} {s s1 s2 : LCDState}
    (h1 : LCDStep z1 n1 s s1) (h2 : LCDStep z2 n2 s1 s2) :
    LCDStep (z1 || z2) (fun c => n1 c + n2 c) s s2 := by
  obtain ⟨L1, e1, c1⟩ := h1.calls
  obtain ⟨L2, e2, c2⟩ := h2.calls
  refine ⟨h2.VCount.trans h1.VCount, h2.NextVCount.trans h1.NextVCount,
    h2.TotalScanlines.trans h1.TotalScanlines, h2.VMatch.trans h1.VMatch,
    h2.lcd.trans h1.lcd, fun h => h2.fifo (h1.fifo h), ?_, L1 ++ L2,
    by rw [e2, e1, List.append_assoc], ?_⟩
  · intro c i a b d hz
    have hz1 : z1 = true → i ≠ 0 := fun h => hz (by simp [h])
    have hz2 : z2 = true → i ≠ 0 := fun h => hz (by simp [h])
    exact (h2.bits c i a b d hz2).trans (h1.bits c i a b d hz1)
  · intro c
    rw [List.count_append, c1 c, c2 c]

theorem LCDStep.weaken {z z' : Bool} {n n' : Nat → Nat} {s s' : LCDState}
    (h : LCDStep z n s s') (hz : z = true → z' = true) (hn : ∀ c, n c = n' c) :
    LCDStep z' n' s s' := by
  obtain ⟨L, e, c⟩ := h.calls
  refine ⟨h.VCount, h.NextVCount, h.TotalScanlines, h.VMatch, h.lcd, h.fifo, ?_, L, e,
    fun k => (c k).trans (hn k)⟩
  intro k i a b d hz'
  exact h.bits k i a b d (fun hh => hz' (hz hh))

/-- The statement `if (DispStat[cpu] & (1<<3)) NDS::SetIRQ(cpu, NDS::IRQ_VBlank);`. -/
theorem LCDStep.vblankIRQ (cpu : Nat) (s : LCDState) :
    LCDStep false (fun c => if c = cpu ∧ (s.DispStat cpu).testBit 3 = true then 1 else 0) s
      (if s.DispStat cpu &&& (1 <<< 3) ≠ 0 then call (.SetIRQ cpu .VBlank) s else s) := by
  by_cases h : s.DispStat cpu &&& (1 <<< 3) ≠ 0
  · rw [if_pos h]
    have hb := (and_bit_ne_zero _ _).1 h
    refine ⟨rfl, rfl, rfl, rfl, rfl, fun h => h, fun _ _ _ _ _ _ => rfl, [.SetIRQ cpu .VBlank], rfl, ?_⟩
    intro c
    by_cases hc : c = cpu
    · subst hc; simp [hb]
    · have : ¬ cpu = c := fun e => hc e.symm
      simp [hc, this]
  · rw [if_neg h]
    have hb : ¬ (s.DispStat cpu).testBit 3 = true := fun hb => h ((and_bit_ne_zero _ _).2 hb)
    refine ⟨rfl, rfl, rfl, rfl, rfl, fun h => h, fun _ _ _ _ _ _ => rfl, [], by simp, ?_⟩
    intro c
    simp [hb]

/-- The two statements `DispStat[0] |= (1<<0); DispStat[1] |= (1<<0);`. -/
theorem LCDStep.setVBlank (s : LCDState) :
    LCDStep true (fun _ => 0) s (orDispStat 1 (1 <<< 0) (orDispStat 0 (1 <<< 0) s)) ∧
    ∀ c, c < 2 →
      ((orDispStat 1 (1 <<< 0) (orDispStat 0 (1 <<< 0) s)).DispStat c).testBit 0 = true := by
  constructor
  · refine ⟨rfl, rfl, rfl, rfl, rfl, fun h => h, ?_, [], by simp [orDispStat], by simp⟩
    intro c i hi _ _ h0
    have hne : ¬ 0 = i := fun e => h0 rfl e.symm
    show (if c = 1 then ((if c = 0 then _ else _ : Nat) ||| _) % 2 ^ 16
      else (if c = 0 then _ else _ : Nat)).testBit i = _
    by_cases c1 : c = 1
    · have c0 : ¬ c = 0 := by omega
      rw [if_pos c1, if_neg c0, testBit_or16 _ _ _ hi]
      simp [hne]
    · rw [if_neg c1]
      by_cases c0 : c = 0
      · rw [if_pos c0, testBit_or16 _ _ _ hi]
        simp [hne]
      · rw [if_neg c0]
  · intro c hc
    show (if c = 1 then ((if c = 0 then _ else _ : Nat) ||| _) % 2 ^ 16
      else (if c = 0 then _ else _ : Nat)).testBit 0 = true
    by_cases c1 : c = 1
    · have c0 : ¬ c = 0 := by omega
      rw [if_pos c1, if_neg c0, testBit_or16 _ _ _ (by norm_num)]
      simp
    · have c0 : c = 0 := by omega
      rw [if_neg c1, if_pos c0, testBit_or16 _ _ _ (by norm_num)]
      simp

/-- The two statements `DispStat[0] &= ~(1<<0); DispStat[1] &= ~(1<<0);`. -/
theorem LCDStep.clearVBlank (s : LCDState) :
    LCDStep true (fun _ => 0) s (andNotDispStat 1 (1 <<< 0) (andNotDispStat 0 (1 <<< 0) s)) ∧
    ∀ c, c < 2 →
      ((andNotDispStat 1 (1 <<< 0) (andNotDispStat 0 (1 <<< 0) s)).DispStat c).testBit 0
        = false := by
  constructor
  · refine ⟨rfl, rfl, rfl, rfl, rfl, fun h => h, ?_, [], by simp [andNotDispStat], by simp⟩
    intro c i hi _ _ h0
    have hne : ¬ 0 = i := fun e => h0 rfl e.symm
    show (if c = 1 then ((if c = 0 then _ else _ : Nat) &&& _) % 2 ^ 16
      else (if c = 0 then _ else _ : Nat)).testBit i = _
    by_cases c1 : c = 1
    · have c0 : ¬ c = 0 := by omega
      rw [if_pos c1, if_neg c0, testBit_andNot16 _ _ _ hi]
      simp [hne]
    · rw [if_neg c1]
      by_cases c0 : c = 0
      · rw [if_pos c0, testBit_andNot16 _ _ _ hi]
        simp [hne]
      · rw [if_neg c0]
  · intro c hc
    show (if c = 1 then ((if c = 0 then _ else _ : Nat) &&& _) % 2 ^ 16
      else (if c = 0 then _ else _ : Nat)).testBit 0 = false
    by_cases c1 : c = 1
    · have c0 : ¬ c = 0 := by omega
      rw [if_pos c1, if_neg c0, testBit_andNot16 _ _ _ (by norm_num)]
      simp
    · have c0 : c = 0 := by omega
      rw [if_neg c1, if_pos c0, testBit_andNot16 _ _ _ (by norm_num)]
      simp

/-- The block `if (VCount == 262) ... else ...` of `StartScanline`: the VBlank
flag of both registers is cleared at 262 and set at 192, where each cpu with
bit 3 of its register set gets one VBlank interrupt. -/
theorem vblankEdge_spec (env : Env) (s : LCDState) :
    LCDStep true
      (fun c => if s.VCount = 192 ∧ c < 2 ∧ (s.DispStat c).testBit 3 = true then 1 else 0)
      s (vblankEdge env s) ∧
    ∀ c, c < 2 → ((vblankEdge env s).DispStat c).testBit 0 =
      if s.VCount = 262 then false else if s.VCount = 192 then true
      else (s.DispStat c).testBit 0 := by
  by_cases h262 : s.VCount = 262
  · have e : vblankEdge env s = andNotDispStat 1 (1 <<< 0) (andNotDispStat 0 (1 <<< 0) s) := by
      unfold vblankEdge; rw [if_pos h262]
    rw [e]
    obtain ⟨A, A0⟩ := LCDStep.clearVBlank s
    refine ⟨A.weaken (fun h => h) (fun c => ?_), fun c hc => ?_⟩
    · have : ¬ s.VCount = 192 := by omega
      simp [this]
    · rw [A0 c hc, if_pos h262]
  · by_cases h192 : s.VCount = 192
    · obtain ⟨A, A0⟩ := LCDStep.setVBlank s
      unfold vblankEdge
      rw [if_neg h262, if_pos h192]
      simp only []
      generalize orDispStat 1 (1 <<< 0) (orDispStat 0 (1 <<< 0) s) = s1 at A A0 ⊢
      have B : Keeps s1 (call (.CheckDMAs 1 0x11) (call (.CheckDMAs 0 0x01)
          (call (.StopDMAs 0 0x04) s1))) :=
        ((Keeps.call _ _ (by simp)).followedBy (Keeps.call _ _ (by simp))).followedBy
          (Keeps.call _ _ (by simp))
      generalize call (.CheckDMAs 1 0x11) (call (.CheckDMAs 0 0x01)
          (call (.StopDMAs 0 0x04) s1)) = s2 at B ⊢
      have C := LCDStep.vblankIRQ 0 s2
      generalize (if s2.DispStat 0 &&& (1 <<< 3) ≠ 0 then call (.SetIRQ 0 .VBlank) s2 else s2)
        = s3 at C ⊢
      have D := LCDStep.vblankIRQ 1 s3
      generalize (if s3.DispStat 1 &&& (1 <<< 3) ≠ 0 then call (.SetIRQ 1 .VBlank) s3 else s3)
        = s4 at D ⊢
      have E : Keeps s4 (call .VBlank3D (call (.VBlank 1) (call (.VBlank 0) s4))) :=
        ((Keeps.call _ _ (by simp)).followedBy (Keeps.call _ _ (by simp))).followedBy
          (Keeps.call _ _ (by simp))
      generalize call .VBlank3D (call (.VBlank 1) (call (.VBlank 0) s4)) = s5 at E ⊢
      have F : Keeps s5 (if env.oglRenderer = true ∧ s5.Accelerated = true
          then call .RenderFrame s5 else s5) :=
        Keeps.ite _ (Keeps.call _ _ (by simp)) (Keeps.same _)
      have AB := A.andThen B.toStep
      have ABC := AB.andThen C
      have tail := (D.andThen (E.toStep.andThen F.toStep))
      have b2 : (s2.DispStat 0).testBit 3 = (s.DispStat 0).testBit 3 :=
        AB.bits 0 3 (by norm_num) (by norm_num) (by norm_num) (by norm_num)
      have b3 : (s3.DispStat 1).testBit 3 = (s.DispStat 1).testBit 3 :=
        ABC.bits 1 3 (by norm_num) (by norm_num) (by norm_num) (by norm_num)
      refine ⟨(ABC.andThen tail).weaken (fun _ => rfl) (fun c => ?_), fun c hc => ?_⟩
      · simp only [b2, b3, h192, true_and, Nat.zero_add, Nat.add_zero]
        by_cases c0 : c = 0
        · subst c0; simp
        · by_cases c1 : c = 1
          · subst c1; simp
          · have : ¬ c < 2 := by omega
            simp [c0, c1, this]
      · rw [if_neg h262, if_pos h192]
        exact (((B.toStep.andThen C).andThen tail).bits c 0 (by norm_num) (by norm_num) (by norm_num)
          (by simp)).trans (A0 c hc)
    · have K : Keeps s (vblankEdge env s) := by
        unfold vblankEdge
        rw [if_neg h262, if_neg h192]
        exact Keeps.ite _ (Keeps.call _ _ (by simp)) (Keeps.same _)
      refine ⟨K.toStep.weaken (by simp) (fun c => by simp [h192]), fun c _ => ?_⟩
      rw [if_neg h262, if_neg h192]
      exact K.bits c 0 (by norm_num) (by norm_num) (by norm_num)

theorem setLineCounter_fields (line : Nat) (s : LCDState) :
    (setLineCounter line s).NextVCount = 0xFFFFFFFF ∧
    (setLineCounter line s).TotalScanlines = s.TotalScanlines ∧
    (setLineCounter line s).VMatch = s.VMatch ∧
    (setLineCounter line s).events = s.events ∧
    (setLineCounter line s).DispStat = s.DispStat ∧
    (setLineCounter line s).calls = s.calls := by
  unfold setLineCounter
  by_cases h1 : line = 0
  · simp [h1]
  · by_cases h2 : s.NextVCount ≠ 0xFFFFFFFF
    · simp [h1, h2]
    · simp [h1, h2]

/-- The line counter `StartScanline(line)` computes. -/
theorem setLineCounter_VCount (line : Nat) (s : LCDState) :
    (setLineCounter line s).VCount =
      if line = 0 then 0
      else if s.NextVCount ≠ 0xFFFFFFFF then s.NextVCount % 2 ^ 16
      else (s.VCount + 1) % 2 ^ 16 := by
  unfold setLineCounter
  by_cases h1 : line = 0
  · simp [h1]
  · by_cases h2 : s.NextVCount ≠ 0xFFFFFFFF
    · simp [h1, h2]
    · simp [h1, h2]

theorem StartScanline_spec (env : Env) (line : Nat) (s : LCDState) :
    ScanlineEffect line (setLineCounter line s).VCount s (StartScanline env line s) := by
  obtain ⟨f1, f2, f3, f4, f5, f6⟩ := setLineCounter_fields line s
  obtain ⟨s2, hs2⟩ : ∃ s2, s2 = visibleLineStart line (scanlineDMA (vcountMatch 1
      (vcountMatch 0 (clearHBlank (setLineCounter line s))))) := ⟨_, rfl⟩
  have K : Keeps (setLineCounter line s) s2 := by
    rw [hs2]
    exact ((((Keeps.clearHBlank _).followedBy (Keeps.vcountMatch 0 _)).followedBy
      (Keeps.vcountMatch 1 _)).followedBy (Keeps.scanlineDMA _)).followedBy (Keeps.visibleLineStart line _)
  obtain ⟨V, V0⟩ := vblankEdge_spec env s2
  obtain ⟨s3, hs3⟩ : ∃ s3, s3 = vblankEdge env s2 := ⟨_, rfl⟩
  have hS : StartScanline env line s
      = ScheduleEvent .LCD true HBLANK_CYCLES .StartHBlank line s3 := by
    rw [hs3, hs2]; rfl
  rw [← hs3] at V V0
  have T := K.toStep.andThen V
  obtain ⟨L, eL, cL⟩ := T.calls
  have b3 : ∀ c, (s2.DispStat c).testBit 3 = (s.DispStat c).testBit 3 := by
    intro c
    rw [K.bits c 3 (by norm_num) (by norm_num) (by norm_num), f5]
  have b0 : ∀ c, (s2.DispStat c).testBit 0 = (s.DispStat c).testBit 0 := by
    intro c
    rw [K.bits c 0 (by norm_num) (by norm_num) (by norm_num), f5]
  rw [hS]
  refine ⟨T.VCount, T.NextVCount.trans f1, T.TotalScanlines.trans f2, T.VMatch.trans f3,
    by simp [ScheduleEvent], ?_, ?_, ?_, L ++ [.ScheduleEvent .LCD true HBLANK_CYCLES
      .StartHBlank line], ?_, ?_⟩
  · intro h cb a e
    have h1 : FIFOChannelOk (setLineCounter line s) := by
      unfold FIFOChannelOk; rw [f4]; exact h
    have e3 : s3.events .DisplayFIFO = some (cb, a) := by
      simpa [ScheduleEvent] using e
    exact T.fifo h1 cb a e3
  · intro c i hi h0 h1 h2
    show (s3.DispStat c).testBit i = _
    rw [T.bits c i hi h1 h2 (fun _ => h0), f5]
  · intro c hc
    show (s3.DispStat c).testBit 0 = _
    rw [V0 c hc, K.VCount, b0 c]
  · show s3.calls ++ _ = _
    rw [eL, f6, List.append_assoc]
  · intro c
    rw [List.count_append, cL c, K.VCount, b3 c]
    simp

theorem StartHBlank_spec (line : Nat) (s : LCDState) :
    HBlankEffect line s (StartHBlank line s) := by
  obtain ⟨s1, hs1⟩ : ∃ s1, s1 = hblankIRQ (hblankDraw line
      (orDispStat 1 (1 <<< 1) (orDispStat 0 (1 <<< 1) s))) := ⟨_, rfl⟩
  have K : Keeps s s1 := by
    rw [hs1]
    exact (((Keeps.orDispStat 0 1 s (Or.inl rfl)).followedBy
      (Keeps.orDispStat 1 1 _ (Or.inl rfl))).followedBy (Keeps.hblankDraw line _)).followedBy
      (Keeps.hblankIRQ _)
  have hS : StartHBlank line s
      = ScheduleEvent .LCD true (LINE_CYCLES - HBLANK_CYCLES)
          (if s.VCount < 262 then .StartScanline else .FinishFrame) ((line + 1) % 2 ^ 32) s1 := by
    have e : StartHBlank line s =
        if s1.VCount < 262 then
          ScheduleEvent .LCD true (LINE_CYCLES - HBLANK_CYCLES) .StartScanline
            ((line + 1) % 2 ^ 32) s1
        else
          ScheduleEvent .LCD true (LINE_CYCLES - HBLANK_CYCLES) .FinishFrame
            ((line + 1) % 2 ^ 32) s1 := by
      rw [hs1]; rfl
    rw [e, K.VCount]
    split <;> rfl
  obtain ⟨L, eL, nL⟩ := K.calls
  rw [hS]
  refine ⟨K.VCount, K.NextVCount, K.TotalScanlines, K.VMatch, by simp [ScheduleEvent], ?_,
    K.bits, L ++ [.ScheduleEvent .LCD true (LINE_CYCLES - HBLANK_CYCLES)
      (if s.VCount < 262 then .StartScanline else .FinishFrame) ((line + 1) % 2 ^ 32)], ?_, ?_⟩
  · intro h cb a e
    have e1 : s1.events .DisplayFIFO = some (cb, a) := by
      simpa [ScheduleEvent] using e
    exact K.fifo h cb a e1
  · show s1.calls ++ _ = _
    rw [eL, List.append_assoc]
  · intro c hc
    rcases List.mem_append.mp hc with h | h
    · exact nL c h
    · simp at h

theorem Keeps.AssignFramebuffers (env : Env) (s : LCDState) :
    Keeps s (AssignFramebuffers env s) :=
  Keeps.ite _ (Keeps.call2 _ _ s (by simp) (by simp)) (Keeps.call2 _ _ s (by simp) (by simp))

/-- What `FinishFrame(lines)` does to the state `s`: it stores the number of
lines, and swaps and hands out the framebuffers. -/
theorem FinishFrame_spec (env : Env) (lines : Nat) (s : LCDState) :
    ∃ t, Keeps s t ∧ FinishFrame env lines s = { t with TotalScanlines := lines % 2 ^ 16 } := by
  refine ⟨AssignFramebuffers env { s with FrontBuffer := if s.FrontBuffer ≠ 0 then 0 else 1 },
    ?_, rfl⟩
  have K0 : Keeps s { s with FrontBuffer := if s.FrontBuffer ≠ 0 then 0 else 1 } :=
    ⟨rfl, rfl, rfl, rfl, rfl, fun h => h, fun _ _ _ _ _ => rfl, [], by simp, by simp⟩
  exact K0.followedBy (Keeps.AssignFramebuffers env _)

/-- Firing the display-FIFO channel leaves the scanline registers alone. -/
theorem fire_FIFO_keeps (env : Env) (s : LCDState) (h : FIFOChannelOk s) :
    Keeps s (fire env .DisplayFIFO s) := by
  unfold fire
  cases he : s.events .DisplayFIFO with
  | none => exact Keeps.same s
  | some p =>
    obtain ⟨cb, a⟩ := p
    have hcb := h cb a he
    subst hcb
    have K0 : Keeps s { s with events := fun e => if e = .DisplayFIFO then none else s.events e } :=
      ⟨rfl, rfl, rfl, rfl, by simp, by
        intro _ cb a e
        simp at e, fun _ _ _ _ _ => rfl, [], by simp, by simp⟩
    exact K0.followedBy (Keeps.DisplayFIFO a _)

theorem iterate_FIFO_keeps (env : Env) (k : Nat) (s : LCDState) (h : FIFOChannelOk s) :
    Keeps s (Nat.iterate (fire env .DisplayFIFO) k s) := by
  induction k generalizing s with
  | zero => exact Keeps.same s
  | succ k ih =>
    have K1 := fire_FIFO_keeps env s h
    exact K1.followedBy (ih _ (K1.fifo h))

theorem FrameInv.keeps {s0 s s' : LCDState} {n : Nat} (h : FrameInv s0 n s)
    (K : Keeps s s') : FrameInv s0 n s' := by
  obtain ⟨L, eL, cL⟩ := h.calls
  obtain ⟨L', eL', nL'⟩ := K.calls
  refine ⟨K.fifo h.fifo, K.NextVCount.trans h.next, K.VCount.trans h.vcount,
    K.lcd.trans h.lcd, K.TotalScanlines.trans h.total, ?_, ?_, L ++ L', ?_, ?_⟩
  · intro c
    rw [K.bits c 3 (by norm_num) (by norm_num) (by norm_num), h.bit3 c]
  · intro c hc
    rw [K.bits c 0 (by norm_num) (by norm_num) (by norm_num), h.bit0 c hc]
  · rw [eL', eL, List.append_assoc]
  · intro c
    rw [List.count_append, cL c, List.count_eq_zero.mpr (nL' c), Nat.add_zero]

/-- The state in which a fired callback of channel `ev` starts. -/
theorem Keeps.cleared (s : LCDState) :
    (FIFOChannelOk s →
      FIFOChannelOk { s with events := fun e => if e = .LCD then none else s.events e }) ∧
    ({ s with events := fun e => if e = Event.LCD then none else s.events e } : LCDState).events
      .LCD = none := by
  constructor
  · intro h cb a e
    have : s.events .DisplayFIFO = some (cb, a) := by simpa using e
    exact h cb a this
  · simp

theorem FrameInv.start (env : Env) (s0 : LCDState) (h : FIFOChannelOk s0) :
    FrameInv s0 0 (StartFrame env s0) := by
  have S := StartScanline_spec env 0
    { s0 with RunFIFO := env.usesFIFO || env.dmasInMode, TotalScanlines := 0 }
  have hv : (setLineCounter 0
      { s0 with RunFIFO := env.usesFIFO || env.dmasInMode, TotalScanlines := 0 }).VCount = 0 := by
    rw [setLineCounter_VCount]; simp
  rw [hv] at S
  obtain ⟨L, eL, cL⟩ := S.calls
  refine ⟨S.fifo h, S.NextVCount, S.VCount, S.lcd, S.TotalScanlines, ?_, ?_, L, eL, ?_⟩
  · intro c
    exact S.bits c 3 (by norm_num) (by norm_num) (by norm_num) (by norm_num)
  · intro c hc
    exact (S.bit0 c hc).trans (by simp)
  · intro c
    exact (cL c).trans (by simp)

theorem FrameInv.fire_step (env : Env) (s0 s : LCDState) (n : Nat) (hn : n < 526)
    (h : FrameInv s0 n s) : FrameInv s0 (n + 1) (fire env .LCD s) := by
  obtain ⟨L, eL, cL⟩ := h.calls
  obtain ⟨hcf, hcl⟩ := Keeps.cleared s
  have hlcd := h.lcd
  have hvc := h.vcount
  rw [if_pos hn] at hlcd hvc
  by_cases hev : n % 2 = 0
  · -- `StartHBlank(n / 2)` runs
    rw [if_pos hev] at hlcd
    have hf : fire env .LCD s = StartHBlank (n / 2)
        { s with events := fun e => if e = .LCD then none else s.events e } := by
      unfold fire; rw [hlcd]; rfl
    have S := StartHBlank_spec (n / 2)
      { s with events := fun e => if e = .LCD then none else s.events e }
    rw [← hf] at S
    obtain ⟨L', eL', nL'⟩ := S.calls
    have hn1 : n + 1 < 526 := by omega
    refine ⟨S.fifo (hcf h.fifo), S.NextVCount.trans h.next, ?_, ?_, ?_, ?_, ?_, L ++ L', ?_, ?_⟩
    · rw [S.VCount, if_pos hn1]
      show s.VCount = _
      rw [hvc]; omega
    · rw [S.lcd, if_pos hn1]
      show some (if s.VCount < 262 then _ else _, _) = _
      rw [hvc]
      have h2 : ¬ (n + 1) % 2 = 0 := by omega
      rw [if_neg h2]
      by_cases hl : n / 2 < 262
      · have h3 : n + 1 < 525 := by omega
        have h4 : (n / 2 + 1) % 2 ^ 32 = (n + 1) / 2 + 1 := by omega
        rw [if_pos hl, if_pos h3, h4]
      · have h3 : ¬ n + 1 < 525 := by omega
        have h4 : (n / 2 + 1) % 2 ^ 32 = 263 := by omega
        rw [if_neg hl, if_neg h3, h4]
    · rw [S.TotalScanlines, if_pos hn1]
      show s.TotalScanlines = 0
      rw [h.total, if_pos hn]
    · intro c
      rw [S.bits c 3 (by norm_num) (by norm_num) (by norm_num)]
      exact h.bit3 c
    · intro c hc
      rw [S.bits c 0 (by norm_num) (by norm_num) (by norm_num)]
      show (s.DispStat c).testBit 0 = _
      rw [h.bit0 c hc]
      by_cases h384 : n < 384
      · have : n + 1 < 384 := by omega
        rw [if_pos h384, if_pos this]
      · have : ¬ n + 1 < 384 := by omega
        rw [if_neg h384, if_neg this]
        have e : (n < 524) = (n + 1 < 524) := by
          apply propext; omega
        simp only [e]
    · rw [eL']
      show s.calls ++ L' = _
      rw [eL, List.append_assoc]
    · intro c
      rw [List.count_append, cL c, List.count_eq_zero.mpr (nL' c), Nat.add_zero]
      have e : (384 ≤ n) = (384 ≤ n + 1) := by
        apply propext; omega
      simp only [e]
  · by_cases h525 : n < 525
    · -- `StartScanline(n / 2 + 1)` runs
      rw [if_neg hev, if_pos h525] at hlcd
      have hf : fire env .LCD s = StartScanline env (n / 2 + 1)
          { s with events := fun e => if e = .LCD then none else s.events e } := by
        unfold fire; rw [hlcd]; rfl
      have S := StartScanline_spec env (n / 2 + 1)
        { s with events := fun e => if e = .LCD then none else s.events e }
      have hv : (setLineCounter (n / 2 + 1)
          { s with events := fun e => if e = .LCD then none else s.events e }).VCount
          = n / 2 + 1 := by
        rw [setLineCounter_VCount]
        have h1 : ¬ n / 2 + 1 = 0 := by omega
        rw [if_neg h1]
        show (if s.NextVCount ≠ 0xFFFFFFFF then _ else (s.VCount + 1) % 2 ^ 16) = _
        rw [h.next, hvc]
        simp only [ne_eq, not_true_eq_false, if_false]
        omega
      rw [hv, ← hf] at S
      obtain ⟨L', eL', cL'⟩ := S.calls
      have hn1 : n + 1 < 526 := by omega
      have hev1 : (n + 1) % 2 = 0 := by omega
      refine ⟨S.fifo (hcf h.fifo), S.NextVCount, ?_, ?_, ?_, ?_, ?_, L ++ L', ?_, ?_⟩
      · rw [S.VCount, if_pos hn1]; omega
      · rw [S.lcd, if_pos hn1, if_pos hev1]
        have : n / 2 + 1 = (n + 1) / 2 := by omega
        rw [this]
      · rw [S.TotalScanlines, if_pos hn1]
        show s.TotalScanlines = 0
        rw [h.total, if_pos hn]
      · intro c
        rw [S.bits c 3 (by norm_num) (by norm_num) (by norm_num) (by norm_num)]
        exact h.bit3 c
      · intro c hc
        rw [S.bit0 c hc]
        show (if n / 2 + 1 = 262 then false else if n / 2 + 1 = 192 then true
          else (s.DispStat c).testBit 0) = _
        rw [h.bit0 c hc]
        by_cases e262 : n / 2 + 1 = 262
        · have a : ¬ n + 1 < 384 := by omega
          have b : ¬ n + 1 < 524 := by omega
          simp [e262, a, b]
        · by_cases e192 : n / 2 + 1 = 192
          · have a : ¬ n + 1 < 384 := by omega
            have b : n + 1 < 524 := by omega
            simp [e192, a, b]
          · rw [if_neg e262, if_neg e192]
            by_cases h384 : n < 384
            · have : n + 1 < 384 := by omega
              rw [if_pos h384, if_pos this]
            · have : ¬ n + 1 < 384 := by omega
              rw [if_neg h384, if_neg this]
              have e : (n < 524) = (n + 1 < 524) := by
                apply propext; omega
              simp only [e]
      · rw [eL']
        show s.calls ++ L' = _
        rw [eL, List.append_assoc]
      · intro c
        rw [List.count_append, cL c, cL' c]
        show _ + (if n / 2 + 1 = 192 ∧ c < 2 ∧ (s.DispStat c).testBit 3 = true then 1 else 0) = _
        rw [h.bit3 c]
        by_cases e192 : n / 2 + 1 = 192
        · have a : ¬ 384 ≤ n := by omega
          have b : 384 ≤ n + 1 := by omega
          simp [e192, a, b]
        · have e : (384 ≤ n) = (384 ≤ n + 1) := by
            apply propext; omega
          simp [e192, e]
    · -- `FinishFrame(263)` runs
      rw [if_neg hev, if_neg h525] at hlcd
      have hf : fire env .LCD s = FinishFrame env 263
          { s with events := fun e => if e = .LCD then none else s.events e } := by
        unfold fire; rw [hlcd]; rfl
      obtain ⟨t, K, ht⟩ := FinishFrame_spec env 263
        { s with events := fun e => if e = .LCD then none else s.events e }
      rw [hf, ht]
      obtain ⟨L', eL', nL'⟩ := K.calls
      have hn1 : ¬ n + 1 < 526 := by omega
      have hn2 : n = 525 := by omega
      refine ⟨K.fifo (hcf h.fifo), K.NextVCount.trans h.next, ?_, ?_, ?_, ?_, ?_, L ++ L', ?_, ?_⟩
      · rw [if_neg hn1]
        show t.VCount = 262
        rw [K.VCount]
        show s.VCount = 262
        rw [hvc, hn2]
      · rw [if_neg hn1]
        show t.events .LCD = none
        rw [K.lcd]
        exact hcl
      · rw [if_neg hn1]
        rfl
      · intro c
        show (t.DispStat c).testBit 3 = _
        rw [K.bits c 3 (by norm_num) (by norm_num) (by norm_num)]
        exact h.bit3 c
      · intro c hc
        show (t.DispStat c).testBit 0 = _
        rw [K.bits c 0 (by norm_num) (by norm_num) (by norm_num)]
        show (s.DispStat c).testBit 0 = _
        rw [h.bit0 c hc, hn2]
        simp
      · show t.calls = _
        rw [eL']
        show s.calls ++ L' = _
        rw [eL, List.append_assoc]
      · intro c
        rw [List.count_append, cL c, List.count_eq_zero.mpr (nL' c), Nat.add_zero, hn2]
        simp

/-- The invariant holds all along an undisturbed frame. -/
theorem frameRun_inv (env : Env) (fifo : Nat → Nat) (s0 : LCDState) (h : FIFOChannelOk s0)
    (n : Nat) (hn : n ≤ 526) : FrameInv s0 n (frameRun env fifo n s0) := by
  induction n with
  | zero =>
    have S := FrameInv.start env s0 h
    exact S.keeps (iterate_FIFO_keeps env (fifo 0) _ S.fifo)
  | succ n ih =>
    have S := FrameInv.fire_step env s0 _ n (by omega) (ih (by omega))
    exact S.keeps (iterate_FIFO_keeps env (fifo (n + 1)) _ S.fifo)

theorem idleState_fifo (val : Nat) : FIFOChannelOk (idleState val) := by
  intro cb a e
  simp [idleState] at e

theorem issued_append (s s' : LCDState) (L : List Ext) (h : s'.calls = s.calls ++ L) :
    issued s s' = L := by
  unfold issued
  rw [h, List.drop_left]

/-- C17 (an undisturbed frame has 263 lines).  Start with `StartFrame` and let
the scheduler fire the LCD channel again and again (the display-FIFO channel
firing any number of times in between, nothing else running).  For every
`line = 0, ..., 262`: after `2 * line` firings `StartScanline(line)` has just
run, `VCount = line` and the pending callback is `StartHBlank(line)`; after
one more firing `StartHBlank(line)` has run, `VCount` is still `line` and
the pending callback is `StartScanline(line + 1)`, or `FinishFrame(263)` when
`line = 262`.  After firing 526, `FinishFrame(263)` has run, nothing is
pending and `TotalScanlines = 263`. -/
theorem undisturbed_frame_has_263_lines (env : Env) (fifo : Nat → Nat) (s0 : LCDState)
    (h : FIFOChannelOk s0) :
    (∀ line, line ≤ 262 →
      (frameRun env fifo (2 * line) s0).VCount = line ∧
      (frameRun env fifo (2 * line) s0).events .LCD = some (.StartHBlank, line) ∧
      (frameRun env fifo (2 * line + 1) s0).VCount = line ∧
      (frameRun env fifo (2 * line + 1) s0).events .LCD =
        some (if line < 262 then (.StartScanline, line + 1) else (.FinishFrame, 263))) ∧
    (frameRun env fifo 526 s0).events .LCD = none ∧
    (frameRun env fifo 526 s0).TotalScanlines = 263 := by
  refine ⟨fun line hl => ?_, ?_, ?_⟩
  · have A := frameRun_inv env fifo s0 h (2 * line) (by omega)
    have B := frameRun_inv env fifo s0 h (2 * line + 1) (by omega)
    have a1 : 2 * line < 526 := by omega
    have a2 : 2 * line % 2 = 0 := by omega
    have b1 : 2 * line + 1 < 526 := by omega
    have b2 : ¬ (2 * line + 1) % 2 = 0 := by omega
    refine ⟨?_, ?_, ?_, ?_⟩
    · rw [A.vcount, if_pos a1]; omega
    · rw [A.lcd, if_pos a1, if_pos a2]
      have : 2 * line / 2 = line := by omega
      rw [this]
    · rw [B.vcount, if_pos b1]; omega
    · rw [B.lcd, if_pos b1, if_neg b2]
      by_cases hl2 : line < 262
      · have : 2 * line + 1 < 525 := by omega
        have e : (2 * line + 1) / 2 + 1 = line + 1 := by omega
        rw [if_pos this, if_pos hl2, e]
      · have : ¬ 2 * line + 1 < 525 := by omega
        rw [if_neg this, if_neg hl2]
  · rw [(frameRun_inv env fifo s0 h 526 (by omega)).lcd]
    simp
  · rw [(frameRun_inv env fifo s0 h 526 (by omega)).total]
    simp

/-- Witness for `undisturbed_frame_has_263_lines`: a frame started in the
idle state, without display FIFO. -/
theorem undisturbed_frame_has_263_lines_witness :
    FIFOChannelOk (idleState 0) ∧
    (frameRun plainEnv (fun _ => 0) (2 * 100) (idleState 0)).VCount = 100 ∧
    (frameRun plainEnv (fun _ => 0) (2 * 262 + 1) (idleState 0)).events .LCD
      = some (.FinishFrame, 263) ∧
    (frameRun plainEnv (fun _ => 0) 526 (idleState 0)).TotalScanlines = 263 :=
  ⟨idleState_fifo 0,
   ((undisturbed_frame_has_263_lines plainEnv (fun _ => 0) (idleState 0)
      (idleState_fifo 0)).1 100 (by decide)).1,
   ((undisturbed_frame_has_263_lines plainEnv (fun _ => 0) (idleState 0)
      (idleState_fifo 0)).1 262 (by decide)).2.2.2,
   (undisturbed_frame_has_263_lines plainEnv (fun _ => 0) (idleState 0)
      (idleState_fifo 0)).2.2⟩

/-- C18 (VBlank status over a frame), as the code has it.  In an undisturbed
frame begun from the `Reset` state, for each cpu `c` and each `v = 0, ..., 262`:
after the `StartScanline` call that makes `VCount = v`, and after the
`StartHBlank` call of that line, the VBlank flag (bit 0 of `DispStat[c]`) is
set exactly when `192 ≤ v ≤ 261`.  So it is clear for `v ≤ 191`, becomes set
at `v = 192`, stays set up to `v = 261` and is cleared by the `StartScanline`
call that makes `VCount = 262`; it is still clear after `FinishFrame` and
after the `StartFrame` of the next frame has set `VCount` to 0. -/
theorem vblank_flag_over_frame (env env' : Env) (fifo : Nat → Nat) (s : LCDState)
    (h : FIFOChannelOk s) (c : Nat) (hc : c < 2) :
    (∀ v, v ≤ 262 →
      (frameRun env fifo (2 * v) (ResetLCD s)).VCount = v ∧
      ((frameRun env fifo (2 * v) (ResetLCD s)).DispStat c).testBit 0
        = decide (192 ≤ v ∧ v ≤ 261) ∧
      ((frameRun env fifo (2 * v + 1) (ResetLCD s)).DispStat c).testBit 0
        = decide (192 ≤ v ∧ v ≤ 261)) ∧
    ((frameRun env fifo 526 (ResetLCD s)).DispStat c).testBit 0 = false ∧
    (StartFrame env' (frameRun env fifo 526 (ResetLCD s))).VCount = 0 ∧
    ((StartFrame env' (frameRun env fifo 526 (ResetLCD s))).DispStat c).testBit 0 = false := by
  have h0 : FIFOChannelOk (ResetLCD s) := h
  have z : ((ResetLCD s).DispStat c).testBit 0 = false := Nat.zero_testBit 0
  have key : ∀ n, n ≤ 526 → ((frameRun env fifo n (ResetLCD s)).DispStat c).testBit 0
      = decide (384 ≤ n ∧ n < 524) := by
    intro n hn
    rw [(frameRun_inv env fifo _ h0 n hn).bit0 c hc, z]
    by_cases h384 : n < 384
    · have : ¬ (384 ≤ n ∧ n < 524) := by omega
      simp [h384, this]
    · by_cases h524 : n < 524
      · have : 384 ≤ n ∧ n < 524 := by omega
        simp [h384, h524, this]
      · have : ¬ (384 ≤ n ∧ n < 524) := by omega
        simp [h384, h524, this]
  have E := frameRun_inv env fifo _ h0 526 (by omega)
  have N := FrameInv.start env' (frameRun env fifo 526 (ResetLCD s)) E.fifo
  refine ⟨fun v hv => ⟨?_, ?_, ?_⟩, ?_, ?_, ?_⟩
  · rw [(frameRun_inv env fifo _ h0 (2 * v) (by omega)).vcount]
    have : 2 * v < 526 := by omega
    rw [if_pos this]; omega
  · rw [key _ (by omega)]
    have e : (384 ≤ 2 * v ∧ 2 * v < 524) = (192 ≤ v ∧ v ≤ 261) := by
      apply propext; omega
    simp only [e]
  · rw [key _ (by omega)]
    have e : (384 ≤ 2 * v + 1 ∧ 2 * v + 1 < 524) = (192 ≤ v ∧ v ≤ 261) := by
      apply propext; omega
    simp only [e]
  · rw [key 526 (by omega)]
    simp
  · rw [N.vcount]
    simp
  · rw [N.bit0 c hc, key 526 (by omega)]
    simp

/-- Witness for `vblank_flag_over_frame`: cpu 0 in a frame begun from the
`Reset` of the idle state: the flag is set at line 192 and clear at line 262. -/
theorem vblank_flag_over_frame_witness :
    FIFOChannelOk (idleState 8) ∧ (0 : Nat) < 2 ∧
    ((frameRun plainEnv (fun _ => 0) (2 * 192) (ResetLCD (idleState 8))).DispStat 0).testBit 0
      = true ∧
    ((frameRun plainEnv (fun _ => 0) (2 * 262) (ResetLCD (idleState 8))).DispStat 0).testBit 0
      = false :=
  ⟨idleState_fifo 8, by decide,
   ((vblank_flag_over_frame plainEnv plainEnv (fun _ => 0) (idleState 8) (idleState_fifo 8)
      0 (by decide)).1 192 (by decide)).2.1,
   ((vblank_flag_over_frame plainEnv plainEnv (fun _ => 0) (idleState 8) (idleState_fifo 8)
      0 (by decide)).1 262 (by decide)).2.1⟩

/-- C18 as stated fails at the last line: in the frame begun from the
`Reset` of the idle state, after the `StartScanline` call that makes
`VCount = 262` the VBlank flag of both `DispStat` registers is clear (it is
set after the call that makes `VCount = 261`), where the claim has it set up
to and including 262 and cleared only at the wrap to 0. -/
theorem vblank_flag_counterexample :
    (frameRun plainEnv (fun _ => 0) (2 * 262) (ResetLCD (idleState 8))).VCount = 262 ∧
    ((frameRun plainEnv (fun _ => 0) (2 * 262) (ResetLCD (idleState 8))).DispStat 0).testBit 0
      = false ∧
    ((frameRun plainEnv (fun _ => 0) (2 * 262) (ResetLCD (idleState 8))).DispStat 1).testBit 0
      = false ∧
    ((frameRun plainEnv (fun _ => 0) (2 * 261) (ResetLCD (idleState 8))).DispStat 0).testBit 0
      = true := by
  have h0 : FIFOChannelOk (ResetLCD (idleState 8)) := idleState_fifo 8
  have A := frameRun_inv plainEnv (fun _ => 0) _ h0 (2 * 262) (by decide)
  have B := frameRun_inv plainEnv (fun _ => 0) _ h0 (2 * 261) (by decide)
  refine ⟨?_, ?_, ?_, ?_⟩
  · rw [A.vcount]; decide
  · rw [A.bit0 0 (by decide)]; decide
  · rw [A.bit0 1 (by decide)]; decide
  · rw [B.bit0 0 (by decide)]; decide

/-- C19 (VBlank flag transitions in `StartScanline`).  For every state, every
`line` argument and each cpu `c`: `StartScanline` sets bit 0 of `DispStat[c]`
when the `VCount` it computes is 192, clears it when the `VCount` it computes
is 262, and leaves it as it was for every other `VCount`. -/
theorem StartScanline_vblank_flag (env : Env) (line : Nat) (s : LCDState) (c : Nat)
    (hc : c < 2) :
    ((StartScanline env line s).VCount = 192 →
      ((StartScanline env line s).DispStat c).testBit 0 = true) ∧
    ((StartScanline env line s).VCount = 262 →
      ((StartScanline env line s).DispStat c).testBit 0 = false) ∧
    ((StartScanline env line s).VCount ≠ 192 → (StartScanline env line s).VCount ≠ 262 →
      ((StartScanline env line s).DispStat c).testBit 0 = (s.DispStat c).testBit 0) := by
  have S := StartScanline_spec env line s
  have b := S.bit0 c hc
  rw [← S.VCount] at b
  refine ⟨fun h => ?_, fun h => ?_, fun h1 h2 => ?_⟩
  · rw [b, h]; simp
  · rw [b, h]; simp
  · rw [b, if_neg h2, if_neg h1]

/-- Witness for `StartScanline_vblank_flag`: `StartScanline(192)` in a state
with `VCount = 191` and nothing pending sets the flag of cpu 1. -/
theorem StartScanline_vblank_flag_witness :
    (1 : Nat) < 2 ∧
    (StartScanline plainEnv 192 { idleState 0 with VCount := 191 }).VCount = 192 ∧
    ((StartScanline plainEnv 192 { idleState 0 with VCount := 191 }).DispStat 1).testBit 0
      = true :=
  ⟨by decide, by decide,
   (StartScanline_vblank_flag plainEnv 192 { idleState 0 with VCount := 191 } 1 (by decide)).1
     (by decide)⟩

/-- C20 (exactly one VBlank interrupt per frame).  In an undisturbed frame,
for each cpu `c`: among the calls made from `StartFrame` to the end of
`FinishFrame`, `SetIRQ(c, IRQ_VBlank)` occurs once if bit 3 of `DispStat[c]`
is set and not at all if it is clear; bit 3 keeps its value all along the
frame; and the call is made by the LCD callback fired after 383 firings,
which is `StartScanline(192)` and sets `VCount` to 192. -/
theorem one_vblank_irq_per_frame (env : Env) (fifo : Nat → Nat) (s0 : LCDState)
    (h : FIFOChannelOk s0) (c : Nat) (hc : c < 2) :
    (issued s0 (frameRun env fifo 526 s0)).count (.SetIRQ c .VBlank)
      = (if (s0.DispStat c).testBit 3 = true then 1 else 0) ∧
    (∀ n, n ≤ 526 →
      ((frameRun env fifo n s0).DispStat c).testBit 3 = (s0.DispStat c).testBit 3) ∧
    (frameRun env fifo 383 s0).events .LCD = some (.StartScanline, 192) ∧
    (fire env .LCD (frameRun env fifo 383 s0)).VCount = 192 ∧
    (issued (frameRun env fifo 383 s0) (fire env .LCD (frameRun env fifo 383 s0))).count
        (.SetIRQ c .VBlank)
      = (if (s0.DispStat c).testBit 3 = true then 1 else 0) := by
  have E := frameRun_inv env fifo s0 h 526 (by omega)
  have A := frameRun_inv env fifo s0 h 383 (by omega)
  obtain ⟨L, eL, cL⟩ := E.calls
  have hlcd : (frameRun env fifo 383 s0).events .LCD = some (.StartScanline, 192) := by
    rw [A.lcd]; decide
  have hf : fire env .LCD (frameRun env fifo 383 s0) = StartScanline env 192
      { frameRun env fifo 383 s0 with
        events := fun e => if e = .LCD then none else (frameRun env fifo 383 s0).events e } := by
    unfold fire; rw [hlcd]; rfl
  have S := StartScanline_spec env 192
    { frameRun env fifo 383 s0 with
      events := fun e => if e = .LCD then none else (frameRun env fifo 383 s0).events e }
  have hv : (setLineCounter 192
      { frameRun env fifo 383 s0 with
        events := fun e => if e = .LCD then none else (frameRun env fifo 383 s0).events e }).VCount
      = 192 := by
    rw [setLineCounter_VCount]
    show (if (192 : Nat) = 0 then 0
      else if (frameRun env fifo 383 s0).NextVCount ≠ 0xFFFFFFFF then _
      else ((frameRun env fifo 383 s0).VCount + 1) % 2 ^ 16) = 192
    rw [A.next, A.vcount]
    decide
  rw [hv, ← hf] at S
  obtain ⟨L', eL', cL'⟩ := S.calls
  refine ⟨?_, fun n hn => (frameRun_inv env fifo s0 h n hn).bit3 c, hlcd, S.VCount, ?_⟩
  · rw [issued_append _ _ L eL, cL c]
    simp [hc]
  · rw [issued_append (frameRun env fifo 383 s0) _ L' eL', cL' c]
    have : ((frameRun env fifo 383 s0).DispStat c).testBit 3 = (s0.DispStat c).testBit 3 :=
      A.bit3 c
    show (if 192 = 192 ∧ c < 2 ∧ ((frameRun env fifo 383 s0).DispStat c).testBit 3 = true
      then 1 else 0) = _
    rw [this]
    simp [hc]

/-- Witness for `one_vblank_irq_per_frame`: with bit 3 of `DispStat[0]` set
(`val = 8`) cpu 0 gets exactly one VBlank interrupt in the frame. -/
theorem one_vblank_irq_per_frame_witness :
    FIFOChannelOk (idleState 8) ∧ (0 : Nat) < 2 ∧
    (issued (idleState 8) (frameRun plainEnv (fun _ => 0) 526 (idleState 8))).count
      (.SetIRQ 0 .VBlank) = 1 :=
  ⟨idleState_fifo 8, by decide,
   (one_vblank_irq_per_frame plainEnv (fun _ => 0) (idleState 8) (idleState_fifo 8) 0
      (by decide)).1⟩

/-! ## `GetUniqueBankPtr` -/

set_option maxRecDepth 100000 in
theorem popcount_small : ∀ m, m < 2 ^ 9 →
    (((m = 0 ∨ (m &&& (m - 1)) ≠ 0) ↔ popcount m ≠ 1) ∧
     (popcount m = 0 ↔ m = 0) ∧
     (popcount m = 1 ↔ ∃ b, b < 9 ∧ m = 2 ^ b)) := by
  decide

theorem VRAMMask_capacity (b : Nat) (hb : b < 9) : maskOf b + 1 = bankCapacity b := by
  interval_cases b <;> rfl

/-- C28 (`GetUniqueBankPtr`).  For every mask below `2^9` and every offset:
the test `mask == 0 || (mask & (mask-1)) != 0` holds exactly when the number
of set bits is not 1, that is when no bit or at least two bits are set, and
the result is `NULL` exactly then; otherwise, with `b` the index of the single
set bit, `b` is a bank, `VRAMMask[b] = capacity(b) - 1`, and the result is the
address of byte `offset & VRAMMask[b]` of bank `b`, which lies inside the
bank. -/
theorem GetUniqueBankPtr_unique_bank (mask offset : Nat) (h : mask < 2 ^ 9) :
    ((mask = 0 ∨ (mask &&& (mask - 1)) ≠ 0) ↔ popcount mask ≠ 1) ∧
    (popcount mask ≠ 1 ↔ (popcount mask = 0 ∨ 2 ≤ popcount mask)) ∧
    (GetUniqueBankPtr mask offset = .ok Ptr.null ↔ popcount mask ≠ 1) ∧
    (popcount mask = 1 → ∃ b, soleBank mask b) ∧
    ∀ b, soleBank mask b →
      popcount mask = 1 ∧ b < 9 ∧
      ∃ m, VRAMMask b = .ok m ∧ m + 1 = bankCapacity b ∧
        GetUniqueBankPtr mask offset = .ok (Ptr.bank b (offset &&& m)) ∧
        offset &&& m < bankCapacity b := by
  obtain ⟨p1, -, p3⟩ := popcount_small mask h
  obtain ⟨g1, g2⟩ := GetUniqueBankPtr_small mask offset h
  have sole_of : popcount mask = 1 → ∃ b, soleBank mask b := by
    intro hp
    obtain ⟨b, -, hb⟩ := p3.1 hp
    exact ⟨b, (soleBank_iff mask b).2 hb⟩
  have of_sole : ∀ b, soleBank mask b → popcount mask = 1 ∧ b < 9 := by
    intro b hb
    obtain ⟨hb9, -⟩ := g2 b hb
    exact ⟨p3.2 ⟨b, hb9, (soleBank_iff mask b).1 hb⟩, hb9⟩
  refine ⟨p1, by omega, ?_, sole_of, ?_⟩
  · constructor
    · intro hnull hp
      obtain ⟨b, hb⟩ := sole_of hp
      obtain ⟨-, m, -, hptr⟩ := g2 b hb
      rw [hptr] at hnull
      cases hnull
    · intro hp
      apply g1
      rintro ⟨b, hb⟩
      exact hp (of_sole b hb).1
  · intro b hb
    obtain ⟨hp, hb9⟩ := of_sole b hb
    obtain ⟨-, m, hm, hptr⟩ := g2 b hb
    have hm' := hm
    rw [VRAMMask_eq_maskOf b hb9] at hm'
    cases hm'
    refine ⟨hp, hb9, maskOf b, hm, VRAMMask_capacity b hb9, hptr, ?_⟩
    have := VRAMMask_capacity b hb9
    have le : offset &&& maskOf b ≤ maskOf b := Nat.and_le_right
    omega

/-- Witness for `GetUniqueBankPtr_unique_bank`: the mask of bank H alone and
offset `0x14000` (window 5) give byte `0x4000` of bank H; the mask of banks A
and B gives `NULL`. -/
theorem GetUniqueBankPtr_unique_bank_witness :
    (0x80 : Nat) < 2 ^ 9 ∧ soleBank 0x80 7 ∧
    GetUniqueBankPtr 0x80 0x14000 = .ok (Ptr.bank 7 0x4000) ∧
    (3 : Nat) < 2 ^ 9 ∧ popcount 3 ≠ 1 ∧ GetUniqueBankPtr 3 0x14000 = .ok Ptr.null := by
  have hs : soleBank 0x80 7 := (soleBank_iff 0x80 7).2 (by decide)
  obtain ⟨-, -, -, -, h5⟩ := GetUniqueBankPtr_unique_bank 0x80 0x14000 (by decide)
  obtain ⟨-, -, m, hm, -, hp, -⟩ := h5 7 hs
  cases hm
  exact ⟨by decide, hs, hp, by decide, by decide,
    (GetUniqueBankPtr_unique_bank 3 0x14000 (by decide)).2.2.1.2 (by decide)⟩

/-! ## `SetDispStat` -/

theorem testBit_FFB8 (i : Nat) :
    (0xFFB8 : Nat).testBit i = decide (i < 16 ∧ i ≠ 0 ∧ i ≠ 1 ∧ i ≠ 2 ∧ i ≠ 6) := by
  by_cases h : i < 16
  · interval_cases i <;> rfl
  · have : (0xFFB8 : Nat) < 2 ^ i :=
      lt_of_lt_of_le (by norm_num) (Nat.pow_le_pow_right (by norm_num) (not_lt.mp h))
    rw [Nat.testBit_lt_two_pow this]
    simp [h]

theorem testBit_0047 (i : Nat) :
    (0x0047 : Nat).testBit i = decide (i = 0 ∨ i = 1 ∨ i = 2 ∨ i = 6) := by
  by_cases h : i < 16
  · interval_cases i <;> rfl
  · have : (0x0047 : Nat) < 2 ^ i :=
      lt_of_lt_of_le (by norm_num) (Nat.pow_le_pow_right (by norm_num) (not_lt.mp h))
    rw [Nat.testBit_lt_two_pow this]
    have : ¬ (i = 0 ∨ i = 1 ∨ i = 2 ∨ i = 6) := by omega
    simp [this]

theorem testBit_0080 (i : Nat) : (0x80 : Nat).testBit i = decide (i = 7) := by
  have : (0x80 : Nat) = 2 ^ 7 := by norm_num
  rw [this, Nat.testBit_two_pow]
  by_cases h : i = 7 <;> simp [h, eq_comm]

theorem testBit_eq_false_of_lt16 {val i : Nat} (hv : val < 2 ^ 16) (hi : 16 ≤ i) :
    val.testBit i = false :=
  Nat.testBit_lt_two_pow (lt_of_lt_of_le hv (Nat.pow_le_pow_right (by norm_num) hi))

theorem SetDispStat_VMatch_value (val : Nat) (hv : val < 2 ^ 16) :
    (((val &&& 0xFFB8) >>> 8) ||| (((val &&& 0xFFB8) &&& 0x80) <<< 1)) % 2 ^ 16
      = (val >>> 8) ||| ((val &&& 0x80) <<< 1) ∧
    (val >>> 8) ||| ((val &&& 0x80) <<< 1) < 512 ∧
    ((val >>> 8) ||| ((val &&& 0x80) <<< 1)).testBit 8 = val.testBit 7 := by
  have e1 : (val &&& 0xFFB8) >>> 8 = val >>> 8 := by
    apply Nat.eq_of_testBit_eq
    intro i
    rw [Nat.testBit_shiftRight, Nat.testBit_shiftRight, Nat.testBit_and, testBit_FFB8]
    by_cases h : 8 + i < 16
    · have : (8 + i < 16 ∧ 8 + i ≠ 0 ∧ 8 + i ≠ 1 ∧ 8 + i ≠ 2 ∧ 8 + i ≠ 6) := by omega
      simp [this]
    · rw [testBit_eq_false_of_lt16 hv (by omega)]
      simp
  have e2 : (val &&& 0xFFB8) &&& 0x80 = val &&& 0x80 := by
    apply Nat.eq_of_testBit_eq
    intro i
    rw [Nat.testBit_and, Nat.testBit_and, Nat.testBit_and, testBit_FFB8, testBit_0080]
    by_cases h : i = 7
    · subst h
      simp
    · simp [h]
  have b1 : val >>> 8 < 2 ^ 9 := by
    rw [Nat.shiftRight_eq_div_pow]
    have : val / 2 ^ 8 < 2 ^ 8 := by
      apply Nat.div_lt_of_lt_mul
      calc val < 2 ^ 16 := hv
        _ = 2 ^ 8 * 2 ^ 8 := by norm_num
    omega
  have b2 : (val &&& 0x80) <<< 1 < 2 ^ 9 := by
    have : val &&& 0x80 ≤ 0x80 := Nat.and_le_right
    rw [Nat.shiftLeft_eq]
    omega
  have lt : (val >>> 8) ||| ((val &&& 0x80) <<< 1) < 2 ^ 9 := Nat.or_lt_two_pow b1 b2
  refine ⟨?_, lt, ?_⟩
  · rw [e1, e2]
    exact Nat.mod_eq_of_lt (by omega)
  · rw [Nat.testBit_or, Nat.testBit_shiftRight, Nat.testBit_shiftLeft, Nat.testBit_and,
      testBit_0080, testBit_eq_false_of_lt16 hv (by norm_num)]
    simp

/-- C24 (display-status write masking).  For every cpu in {0,1}, every 16-bit
`val` and every state, after `SetDispStat(cpu, val)`:
`DispStat[cpu] = (old DispStat[cpu] & 0x0047) | (val & 0xFFB8)`; bits 0, 1, 2
and 6 of `DispStat[cpu]` keep their old values and every other bit below 16
is the bit of `val`; `VMatch[cpu] = (val >> 8) | ((val & 0x80) << 1)`, which
is below 512 and whose bit 8 is bit 7 of `val`; `DispStat` and `VMatch` of
the other cpu and `VCount` are unchanged. -/
theorem SetDispStat_masked_write (cpu val : Nat) (hc : cpu < 2) (hv : val < 2 ^ 16)
    (s : LCDState) :
    (SetDispStat cpu val s).DispStat cpu = (s.DispStat cpu &&& 0x0047) ||| (val &&& 0xFFB8) ∧
    (∀ i, i = 0 ∨ i = 1 ∨ i = 2 ∨ i = 6 →
      ((SetDispStat cpu val s).DispStat cpu).testBit i = (s.DispStat cpu).testBit i) ∧
    (∀ i, i < 16 → ¬ (i = 0 ∨ i = 1 ∨ i = 2 ∨ i = 6) →
      ((SetDispStat cpu val s).DispStat cpu).testBit i = val.testBit i) ∧
    (SetDispStat cpu val s).VMatch cpu = (val >>> 8) ||| ((val &&& 0x80) <<< 1) ∧
    (SetDispStat cpu val s).VMatch cpu < 512 ∧
    ((SetDispStat cpu val s).VMatch cpu).testBit 8 = val.testBit 7 ∧
    (∀ c, c < 2 → c ≠ cpu →
      (SetDispStat cpu val s).DispStat c = s.DispStat c ∧
      (SetDispStat cpu val s).VMatch c = s.VMatch c) ∧
    (SetDispStat cpu val s).VCount = s.VCount := by
  have hcpu : cpu = 0 ∨ cpu = 1 := by omega
  obtain ⟨v1, v2, v3⟩ := SetDispStat_VMatch_value val hv
  have a1 : s.DispStat cpu &&& 0x0047 < 2 ^ 16 :=
    lt_of_le_of_lt Nat.and_le_right (by norm_num)
  have a2 : val &&& 0xFFB8 < 2 ^ 16 := lt_of_le_of_lt Nat.and_le_right (by norm_num)
  have hD : (SetDispStat cpu val s).DispStat cpu
      = (s.DispStat cpu &&& 0x0047) ||| (val &&& 0xFFB8) := by
    simp only [SetDispStat, if_true]
    rw [Nat.mod_eq_of_lt hv, Nat.mod_eq_of_lt a1, Nat.mod_eq_of_lt (Nat.or_lt_two_pow a1 a2)]
  have hV : (SetDispStat cpu val s).VMatch cpu = (val >>> 8) ||| ((val &&& 0x80) <<< 1) := by
    simp only [SetDispStat, if_true]
    rw [Nat.mod_eq_of_lt hv]
    exact v1
  refine ⟨hD, ?_, ?_, hV, ?_, ?_, ?_, rfl⟩
  · intro i hi
    rw [hD, Nat.testBit_or, Nat.testBit_and, Nat.testBit_and, testBit_0047, testBit_FFB8]
    have : ¬ (i < 16 ∧ i ≠ 0 ∧ i ≠ 1 ∧ i ≠ 2 ∧ i ≠ 6) := by omega
    simp [hi, this]
  · intro i hi hn
    rw [hD, Nat.testBit_or, Nat.testBit_and, Nat.testBit_and, testBit_0047, testBit_FFB8]
    have : (i < 16 ∧ i ≠ 0 ∧ i ≠ 1 ∧ i ≠ 2 ∧ i ≠ 6) := by omega
    simp [hn, this]
  · rw [hV]
    exact v2
  · rw [hV]
    exact v3
  · intro c _ hne
    simp [SetDispStat, hne]

/-- Witness for `SetDispStat_masked_write`: writing `0xFFFF` to the register
of cpu 0 in the idle state with `DispStat = 0x0007` leaves `0xFFBF` (the
three status flags stay set, bit 6 stays clear) and sets `VMatch[0]` to 511. -/
theorem SetDispStat_masked_write_witness :
    (0 : Nat) < 2 ∧ (0xFFFF : Nat) < 2 ^ 16 ∧
    (SetDispStat 0 0xFFFF (idleState 7)).DispStat 0 = 0xFFBF ∧
    (SetDispStat 0 0xFFFF (idleState 7)).VMatch 0 = 511 ∧
    (SetDispStat 0 0xFFFF (idleState 7)).DispStat 1 = 7 := by
  obtain ⟨h1, -, -, h4, -, -, h7, -⟩ :=
    SetDispStat_masked_write 0 0xFFFF (by decide) (by decide) (idleState 7)
  exact ⟨by decide, by decide, h1.trans (by decide), h4.trans (by decide),
    (h7 1 (by decide) (by decide)).1⟩

/-! ## The deferred `VCount` write -/

/-- C22 (deferred VCount write).  For every 16-bit `val` and every state:
`SetVCount(val)` leaves `VCount` and both `DispStat` registers unchanged and
leaves a pending value different from the marker `-1` of "no write pending";
the next `StartScanline(line)`, also with a `StartHBlank` in between, sets
`VCount` to `val` if `line != 0` and to 0 if `line == 0`; and the
`StartScanline(line2)` after that with `line2 != 0`, directly or after the
`StartHBlank` the scheduler runs in between, sets `VCount` to that value plus
one modulo `2^16`. -/
theorem SetVCount_deferred_one_shot (env : Env) (val line hline line2 : Nat) (s : LCDState)
    (hv : val < 2 ^ 16) (h2 : line2 ≠ 0) :
    (SetVCount val s).VCount = s.VCount ∧
    (SetVCount val s).DispStat = s.DispStat ∧
    (SetVCount val s).NextVCount = val ∧
    (SetVCount val s).NextVCount ≠ 0xFFFFFFFF ∧
    (StartScanline env line (SetVCount val s)).VCount = (if line = 0 then 0 else val) ∧
    (StartScanline env line (StartHBlank hline (SetVCount val s))).VCount
      = (if line = 0 then 0 else val) ∧
    (StartScanline env line2 (StartScanline env line (SetVCount val s))).VCount
      = ((if line = 0 then 0 else val) + 1) % 2 ^ 16 ∧
    (StartScanline env line2
        (StartHBlank hline (StartScanline env line (SetVCount val s)))).VCount
      = ((if line = 0 then 0 else val) + 1) % 2 ^ 16 := by
  have hN : (SetVCount val s).NextVCount = val := Nat.mod_eq_of_lt hv
  have hne : (SetVCount val s).NextVCount ≠ 0xFFFFFFFF := by
    rw [hN]
    have : val < 0xFFFFFFFF := lt_trans hv (by norm_num)
    omega
  have first : ∀ t : LCDState, t.NextVCount = val →
      (StartScanline env line t).VCount = (if line = 0 then 0 else val) := by
    intro t ht
    rw [(StartScanline_spec env line t).VCount, setLineCounter_VCount, ht]
    by_cases hl : line = 0
    · rw [if_pos hl, if_pos hl]
    · have : val ≠ 0xFFFFFFFF := by
        have : val < 0xFFFFFFFF := lt_trans hv (by norm_num)
        omega
      rw [if_neg hl, if_neg hl, if_pos this, Nat.mod_eq_of_lt hv]
  have second : ∀ t : LCDState, t.NextVCount = 0xFFFFFFFF →
      (StartScanline env line2 t).VCount = (t.VCount + 1) % 2 ^ 16 := by
    intro t ht
    rw [(StartScanline_spec env line2 t).VCount, setLineCounter_VCount, ht, if_neg h2]
    simp
  have H1 := StartHBlank_spec hline (SetVCount val s)
  have S1 := StartScanline_spec env line (SetVCount val s)
  have H2 := StartHBlank_spec hline (StartScanline env line (SetVCount val s))
  refine ⟨rfl, rfl, hN, hne, first _ hN, first _ (H1.NextVCount.trans hN), ?_, ?_⟩
  · rw [second _ S1.NextVCount, first _ hN]
  · rw [second _ (H2.NextVCount.trans S1.NextVCount), H2.VCount, first _ hN]

/-- Witness for `SetVCount_deferred_one_shot`: after `SetVCount(100)` in the
idle state, `StartScanline(5)` sets `VCount` to 100 and the `StartScanline(6)`
after the HBlank sets it to 101. -/
theorem SetVCount_deferred_one_shot_witness :
    (100 : Nat) < 2 ^ 16 ∧ (6 : Nat) ≠ 0 ∧
    (StartScanline plainEnv 5 (SetVCount 100 (idleState 0))).VCount = 100 ∧
    (StartScanline plainEnv 6
        (StartHBlank 5 (StartScanline plainEnv 5 (SetVCount 100 (idleState 0))))).VCount
      = 101 := by
  obtain ⟨-, -, -, -, h5, -, -, h8⟩ :=
    SetVCount_deferred_one_shot plainEnv 100 5 5 6 (idleState 0) (by decide) (by decide)
  exact ⟨by decide, by decide, h5, h8⟩

/-! ## The VCount-match flag and the draw calls -/

theorem Quiet.unchanged (s : LCDState) : Quiet s s :=
  ⟨rfl, rfl, fun _ _ _ _ _ => rfl, [], by simp, by simp⟩

theorem Quiet.comp {s s1 s2 : LCDState} (h1 : Quiet s s1) (h2 : Quiet s1 s2) :
    Quiet s s2 := by
  obtain ⟨L1, e1, n1⟩ := h1.calls
  obtain ⟨L2, e2, n2⟩ := h2.calls
  refine ⟨h2.VCount.trans h1.VCount, h2.VMatch.trans h1.VMatch,
    fun c i a b d => (h2.bits c i a b d).trans (h1.bits c i a b d),
    L1 ++ L2, by rw [e2, e1, List.append_assoc], ?_⟩
  intro c hc
  rcases List.mem_append.mp hc with h | h
  · exact n1 c h
  · exact n2 c h

theorem Quiet.oneCall (c : Ext) (s : LCDState) (hc : isDrawOrMatch c = false) :
    Quiet s (call c s) :=
  ⟨rfl, rfl, fun _ _ _ _ _ => rfl, [c], rfl, by
    intro d h
    rw [List.mem_singleton] at h
    rw [h]
    exact hc⟩

theorem Quiet.orFlag (cpu k : Nat) (s : LCDState) (hk : k = 0 ∨ k = 1) :
    Quiet s (orDispStat cpu (1 <<< k) s) := by
  refine ⟨rfl, rfl, ?_, [], by simp [GPU.orDispStat], by simp⟩
  intro c i hi h1 h2
  show (if c = cpu then _ else _ : Nat).testBit i = _
  split
  · rw [testBit_or16 _ _ _ hi]
    have : ¬ k = i := by omega
    simp [this]
  · rfl

theorem Quiet.andNotFlag (cpu k : Nat) (s : LCDState) (hk : k = 0 ∨ k = 1) :
    Quiet s (andNotDispStat cpu (1 <<< k) s) := by
  refine ⟨rfl, rfl, ?_, [], by simp [GPU.andNotDispStat], by simp⟩
  intro c i hi h1 h2
  show (if c = cpu then _ else _ : Nat).testBit i = _
  split
  · rw [testBit_andNot16 _ _ _ hi]
    have : ¬ k = i := by omega
    simp [this]
  · rfl

theorem Quiet.schedule (ev : Event) (periodic : Bool) (delay : Nat) (cb : Callback)
    (param : Nat) (s : LCDState) : Quiet s (ScheduleEvent ev periodic delay cb param s) :=
  ⟨rfl, rfl, fun _ _ _ _ _ => rfl, [.ScheduleEvent ev periodic delay cb param], rfl, by
    intro d h
    rw [List.mem_singleton] at h
    rw [h]
    rfl⟩

theorem Quiet.cond {s a b : LCDState} (c : Prop) [Decidable c] (ha : Quiet s a)
    (hb : Quiet s b) : Quiet s (if c then a else b) := by
  split
  · exact ha
  · exact hb

theorem Quiet.twoCalls (c1 c2 : Ext) (s : LCDState) (h1 : isDrawOrMatch c1 = false)
    (h2 : isDrawOrMatch c2 = false) : Quiet s (GPU.call c2 (GPU.call c1 s)) :=
  (Quiet.oneCall c1 s h1).comp (Quiet.oneCall c2 _ h2)

theorem Quiet.clearHBlankStep (s : LCDState) : Quiet s (clearHBlank s) :=
  (Quiet.andNotFlag 0 1 s (Or.inr rfl)).comp
    (Quiet.andNotFlag 1 1 _ (Or.inr rfl))

theorem Quiet.scanlineDMAStep (s : LCDState) : Quiet s (scanlineDMA s) :=
  (Quiet.twoCalls (.CheckWindows 0 s.VCount) (.CheckWindows 1 s.VCount) s rfl rfl).comp
    (Quiet.cond _ (Quiet.oneCall _ _ rfl)
      (Quiet.cond _ (Quiet.oneCall _ _ rfl) (Quiet.unchanged _)))

theorem Quiet.visibleLineStep (line : Nat) (s : LCDState) :
    Quiet s (visibleLineStart line s) :=
  Quiet.cond _
    ((Quiet.cond (line = 0) (Quiet.twoCalls (.VBlankEnd 0) (.VBlankEnd 1) s rfl rfl)
        (Quiet.unchanged s)).comp
      (Quiet.cond _ (Quiet.schedule _ _ _ _ _ _) (Quiet.unchanged _)))
    (Quiet.unchanged s)

theorem Quiet.after {s s1 s2 : LCDState} (h2 : Quiet s1 s2) (h1 : Quiet s s1) : Quiet s s2 :=
  h1.comp h2

theorem Quiet.vblankEdgeStep (env : Env) (s : LCDState) : Quiet s (vblankEdge env s) := by
  unfold GPU.vblankEdge
  exact Quiet.cond _
    ((Quiet.andNotFlag 0 0 s (Or.inl rfl)).comp
      (Quiet.andNotFlag 1 0 _ (Or.inl rfl)))
    (Quiet.cond _
      (Quiet.after (Quiet.cond _ (Quiet.oneCall .RenderFrame _ rfl) (Quiet.unchanged _))
        (Quiet.after (Quiet.oneCall .VBlank3D _ rfl)
        (Quiet.after (Quiet.oneCall (.VBlank 1) _ rfl)
        (Quiet.after (Quiet.oneCall (.VBlank 0) _ rfl)
        (Quiet.after (Quiet.cond _ (Quiet.oneCall (.SetIRQ 1 .VBlank) _ rfl) (Quiet.unchanged _))
        (Quiet.after (Quiet.cond _ (Quiet.oneCall (.SetIRQ 0 .VBlank) _ rfl) (Quiet.unchanged _))
        (Quiet.after (Quiet.oneCall (.CheckDMAs 1 0x11) _ rfl)
        (Quiet.after (Quiet.oneCall (.CheckDMAs 0 0x01) _ rfl)
        (Quiet.after (Quiet.oneCall (.StopDMAs 0 0x04) _ rfl)
        (Quiet.after (Quiet.orFlag 1 0 _ (Or.inl rfl))
          (Quiet.orFlag 0 0 s (Or.inl rfl))))))))))))
      (Quiet.cond _ (Quiet.oneCall .VCount144 s rfl) (Quiet.unchanged s)))

theorem Quiet.hblankIRQStep (s : LCDState) : Quiet s (hblankIRQ s) :=
  (Quiet.cond (s.DispStat 0 &&& (1 <<< 4) ≠ 0) (Quiet.oneCall (.SetIRQ 0 .HBlank) s rfl)
      (Quiet.unchanged s)).comp
    (Quiet.cond _ (Quiet.oneCall (.SetIRQ 1 .HBlank) _ rfl) (Quiet.unchanged _))

theorem Quiet.displayFIFOStep (x : Nat) (s : LCDState) : Quiet s (DisplayFIFO x s) :=
  (Quiet.cond (x > 0)
      (Quiet.cond (x = 8) (Quiet.oneCall (.SampleFIFO 0 5) s rfl)
        (Quiet.oneCall (.SampleFIFO ((x + 2 ^ 32 - 11) % 2 ^ 32) 8) s rfl))
      (Quiet.unchanged s)).comp
    (Quiet.cond _
      ((Quiet.oneCall (.CheckDMAs 0 0x04) _ rfl).comp (Quiet.schedule _ _ _ _ _ _))
      (Quiet.oneCall (.SampleFIFO 253 3) _ rfl))

theorem Quiet.assignFramebuffersStep (env : Env) (s : LCDState) :
    Quiet s (AssignFramebuffers env s) :=
  Quiet.cond _ (Quiet.twoCalls _ _ s rfl rfl) (Quiet.twoCalls _ _ s rfl rfl)

theorem Quiet.finishFrameStep (env : Env) (lines : Nat) (s : LCDState) :
    Quiet s (FinishFrame env lines s) := by
  obtain ⟨a, b, c, L, eL, nL⟩ := Quiet.assignFramebuffersStep env
    { s with FrontBuffer := if s.FrontBuffer ≠ 0 then 0 else 1 }
  exact ⟨a, b, c, L, eL, nL⟩

/-- The VCount-match test for one cpu: only bit 2 of that cpu's register
changes, to whether `VCount` equals `VMatch[cpu]`, and the interrupt is
raised when they are equal and bit 5 of the register is set. -/
theorem vcountMatch_spec (cpu : Nat) (s : LCDState) :
    (vcountMatch cpu s).VCount = s.VCount ∧
    (vcountMatch cpu s).VMatch = s.VMatch ∧
    (∀ c i, i < 16 → ¬ (c = cpu ∧ i = 2) →
      ((vcountMatch cpu s).DispStat c).testBit i = (s.DispStat c).testBit i) ∧
    ((vcountMatch cpu s).DispStat cpu).testBit 2 = decide (s.VCount = s.VMatch cpu) ∧
    (vcountMatch cpu s).calls = s.calls ++
      (if s.VCount = s.VMatch cpu ∧ (s.DispStat cpu).testBit 5 = true
        then [.SetIRQ cpu .VCount] else []) := by
  by_cases hm : s.VCount = s.VMatch cpu
  · have bitsOr : ∀ c i, i < 16 → ¬ (c = cpu ∧ i = 2) →
        ((orDispStat cpu (1 <<< 2) s).DispStat c).testBit i = (s.DispStat c).testBit i := by
      intro c i hi hne
      show (if c = cpu then _ else _ : Nat).testBit i = _
      split
      · rename_i hc
        rw [testBit_or16 _ _ _ hi]
        have : ¬ 2 = i := fun e => hne ⟨hc, e.symm⟩
        simp [this]
      · rfl
    have bit2 : ((orDispStat cpu (1 <<< 2) s).DispStat cpu).testBit 2 = true := by
      show (if cpu = cpu then _ else _ : Nat).testBit 2 = _
      rw [if_pos rfl, testBit_or16 _ _ _ (by norm_num)]
      simp
    have b5 : ((orDispStat cpu (1 <<< 2) s).DispStat cpu).testBit 5
        = (s.DispStat cpu).testBit 5 := bitsOr cpu 5 (by norm_num) (by simp)
    by_cases h5 : (orDispStat cpu (1 <<< 2) s).DispStat cpu &&& (1 <<< 5) ≠ 0
    · have e : vcountMatch cpu s = call (.SetIRQ cpu .VCount) (orDispStat cpu (1 <<< 2) s) := by
        unfold vcountMatch
        rw [if_pos hm]
        exact if_pos h5
      have t5 : (s.DispStat cpu).testBit 5 = true := b5 ▸ (and_bit_ne_zero _ _).1 h5
      rw [e]
      refine ⟨rfl, rfl, bitsOr, ?_, ?_⟩
      · rw [decide_eq_true hm]
        exact bit2
      · rw [if_pos ⟨hm, t5⟩]
        rfl
    · have e : vcountMatch cpu s = orDispStat cpu (1 <<< 2) s := by
        unfold vcountMatch
        rw [if_pos hm]
        exact if_neg h5
      have t5 : ¬ (s.DispStat cpu).testBit 5 = true := by
        intro h
        exact h5 ((and_bit_ne_zero _ _).2 (b5.trans h))
      rw [e]
      refine ⟨rfl, rfl, bitsOr, ?_, ?_⟩
      · rw [decide_eq_true hm]
        exact bit2
      · rw [if_neg (fun h => t5 h.2)]
        simp [GPU.orDispStat]
  · have e : vcountMatch cpu s = andNotDispStat cpu (1 <<< 2) s := by
      unfold vcountMatch
      rw [if_neg hm]
    rw [e]
    refine ⟨rfl, rfl, ?_, ?_, ?_⟩
    · intro c i hi hne
      show (if c = cpu then _ else _ : Nat).testBit i = _
      split
      · rename_i hc
        rw [testBit_andNot16 _ _ _ hi]
        have : ¬ 2 = i := fun e => hne ⟨hc, e.symm⟩
        simp [this]
      · rfl
    · rw [decide_eq_false hm]
      show (if cpu = cpu then _ else _ : Nat).testBit 2 = _
      rw [if_pos rfl, testBit_andNot16 _ _ _ (by norm_num)]
      simp
    · rw [if_neg (fun h => hm h.1)]
      simp [GPU.andNotDispStat]

/-- The calls of `StartScanline(line)` with `v` the new line counter: calls
that are neither draw calls nor VCount-match interrupts, with the VCount-match
interrupt of cpu 0 and then that of cpu 1 in between, each raised when `v`
equals the cpu's `VMatch` and bit 5 of its register is set; and the
VCount-match flags afterwards. -/
theorem StartScanline_match_spec (env : Env) (line : Nat) (s : LCDState) :
    (StartScanline env line s).VCount = (setLineCounter line s).VCount ∧
    (StartScanline env line s).VMatch = s.VMatch ∧
    (∀ c, c < 2 → ((StartScanline env line s).DispStat c).testBit 2
        = decide ((setLineCounter line s).VCount = s.VMatch c)) ∧
    (∀ c i, i < 16 → i ≠ 0 → i ≠ 1 → i ≠ 2 →
      ((StartScanline env line s).DispStat c).testBit i = (s.DispStat c).testBit i) ∧
    ∃ L0 L4, (StartScanline env line s).calls = s.calls ++ (L0 ++
        ((if (setLineCounter line s).VCount = s.VMatch 0 ∧ (s.DispStat 0).testBit 5 = true
            then [.SetIRQ 0 .VCount] else []) ++
         ((if (setLineCounter line s).VCount = s.VMatch 1 ∧ (s.DispStat 1).testBit 5 = true
            then [.SetIRQ 1 .VCount] else []) ++ L4))) ∧
      (∀ c, c ∈ L0 → isDrawOrMatch c = false) ∧ (∀ c, c ∈ L4 → isDrawOrMatch c = false) := by
  obtain ⟨-, -, f3, -, f5, f6⟩ := setLineCounter_fields line s
  obtain ⟨s0, hs0⟩ : ∃ s0, s0 = setLineCounter line s := ⟨_, rfl⟩
  obtain ⟨s1, hs1⟩ : ∃ s1, s1 = clearHBlank s0 := ⟨_, rfl⟩
  obtain ⟨s2, hs2⟩ : ∃ s2, s2 = vcountMatch 0 s1 := ⟨_, rfl⟩
  obtain ⟨s3, hs3⟩ : ∃ s3, s3 = vcountMatch 1 s2 := ⟨_, rfl⟩
  have hS : StartScanline env line s = ScheduleEvent .LCD true HBLANK_CYCLES .StartHBlank line
      (vblankEdge env (visibleLineStart line (scanlineDMA s3))) := by
    rw [hs3, hs2, hs1, hs0]; rfl
  have Q1 : Quiet s0 s1 := hs1 ▸ Quiet.clearHBlankStep s0
  have Q4 : Quiet s3 (StartScanline env line s) := by
    rw [hS]
    exact (((Quiet.scanlineDMAStep s3).comp (Quiet.visibleLineStep line _)).comp
      (Quiet.vblankEdgeStep env _)).comp (Quiet.schedule _ _ _ _ _ _)
  obtain ⟨a1, a2, a3, a4, a5⟩ := vcountMatch_spec 0 s1
  obtain ⟨b1, b2, b3, b4, b5⟩ := vcountMatch_spec 1 s2
  rw [← hs2] at a1 a2 a3 a4 a5
  rw [← hs3] at b1 b2 b3 b4 b5
  rw [← hs0] at f3 f5 f6 ⊢
  obtain ⟨L0, e0, n0⟩ := Q1.calls
  obtain ⟨L4, e4, n4⟩ := Q4.calls
  have v1 : s1.VCount = s0.VCount := Q1.VCount
  have m1 : s1.VMatch = s.VMatch := Q1.VMatch.trans f3
  have v2 : s2.VCount = s0.VCount := a1.trans v1
  have m2 : s2.VMatch = s.VMatch := a2.trans m1
  have d1 : ∀ c i, i < 16 → i ≠ 0 → i ≠ 1 →
      (s1.DispStat c).testBit i = (s.DispStat c).testBit i := by
    intro c i hi h0 h1
    rw [Q1.bits c i hi h0 h1, f5]
  have d2 : ∀ c i, i < 16 → i ≠ 0 → i ≠ 1 → ¬ (c = 0 ∧ i = 2) →
      (s2.DispStat c).testBit i = (s.DispStat c).testBit i := by
    intro c i hi h0 h1 hne
    rw [a3 c i hi hne, d1 c i hi h0 h1]
  refine ⟨Q4.VCount.trans (b1.trans v2), Q4.VMatch.trans (b2.trans m2), ?_, ?_, L0, L4, ?_,
    n0, n4⟩
  · intro c hc
    rw [Q4.bits c 2 (by norm_num) (by norm_num) (by norm_num)]
    have hc' : c = 0 ∨ c = 1 := by omega
    rcases hc' with h | h
    · subst h
      rw [b3 0 2 (by norm_num) (by simp), a4, v1, m1]
    · subst h
      rw [b4, v2, m2]
  · intro c i hi h0 h1 h2
    rw [Q4.bits c i hi h0 h1, b3 c i hi (fun h => h2 h.2), d2 c i hi h0 h1 (fun h => h2 h.2)]
  · rw [e4, b5, a5, e0, f6, v1, m1, v2, m2, d1 0 5 (by norm_num) (by norm_num) (by norm_num),
      d2 1 5 (by norm_num) (by norm_num) (by norm_num) (by simp)]
    simp only [List.append_assoc]

theorem count_cond_single (cpu k : Nat) (p : Prop) [Decidable p] :
    (if p then [Ext.SetIRQ k .VCount] else []).count (.SetIRQ cpu .VCount)
      = if k = cpu ∧ p then 1 else 0 := by
  by_cases hp : p
  · by_cases hk : k = cpu
    · simp [hp, hk]
    · rw [if_pos hp, if_neg (fun h => hk h.1)]
      apply List.count_eq_zero.mpr
      intro h
      rw [List.mem_singleton] at h
      cases h
      exact hk rfl
  · simp [hp]

/-- C23 (VCount-match flag and interrupt).  For every state, every line
argument and each cpu in {0,1}, after `StartScanline(line)`: bit 2 of
`DispStat[cpu]` is set if and only if the new `VCount` equals `VMatch[cpu]`;
`SetIRQ(cpu, IRQ_VCount)` is among the calls made during `StartScanline` if
and only if the new `VCount` equals `VMatch[cpu]` and bit 5 of
`DispStat[cpu]` is set; it is made at most once; and bit 5 of `DispStat[cpu]`
and `VMatch[cpu]` are what they were before the call. -/
theorem StartScanline_vcount_match (env : Env) (line : Nat) (s : LCDState) (cpu : Nat)
    (hc : cpu < 2) :
    (((StartScanline env line s).DispStat cpu).testBit 2 = true ↔
      (StartScanline env line s).VCount = (StartScanline env line s).VMatch cpu) ∧
    (Ext.SetIRQ cpu .VCount ∈ issued s (StartScanline env line s) ↔
      ((StartScanline env line s).VCount = (StartScanline env line s).VMatch cpu ∧
        ((StartScanline env line s).DispStat cpu).testBit 5 = true)) ∧
    (issued s (StartScanline env line s)).count (.SetIRQ cpu .VCount) ≤ 1 ∧
    ((StartScanline env line s).DispStat cpu).testBit 5 = (s.DispStat cpu).testBit 5 ∧
    (StartScanline env line s).VMatch cpu = s.VMatch cpu := by
  obtain ⟨hv, hm, h2, hb, L0, L4, eL, n0, n4⟩ := StartScanline_match_spec env line s
  have h5 := hb cpu 5 (by norm_num) (by norm_num) (by norm_num) (by norm_num)
  have hi := issued_append s (StartScanline env line s) _ eL
  have c0 : L0.count (.SetIRQ cpu .VCount) = 0 := by
    apply List.count_eq_zero.mpr
    intro h
    have := n0 _ h
    simp [isDrawOrMatch] at this
  have c4 : L4.count (.SetIRQ cpu .VCount) = 0 := by
    apply List.count_eq_zero.mpr
    intro h
    have := n4 _ h
    simp [isDrawOrMatch] at this
  have hcount : (issued s (StartScanline env line s)).count (.SetIRQ cpu .VCount)
      = if (setLineCounter line s).VCount = s.VMatch cpu ∧ (s.DispStat cpu).testBit 5 = true
          then 1 else 0 := by
    rw [hi]
    simp only [List.count_append, c0, c4, count_cond_single]
    have hc' : cpu = 0 ∨ cpu = 1 := by omega
    rcases hc' with h | h
    · subst h
      simp
    · subst h
      simp
  refine ⟨?_, ?_, ?_, h5, by rw [hm]⟩
  · rw [h2 cpu hc, hv, hm]
    simp
  · rw [← List.count_pos_iff, hcount, hv, hm, h5]
    by_cases p : (setLineCounter line s).VCount = s.VMatch cpu ∧ (s.DispStat cpu).testBit 5 = true
    · simp [p]
    · rw [if_neg p]
      simp [p]
  · rw [hcount]
    split <;> omega

/-- Witness for `StartScanline_vcount_match`: in the idle state with
`DispStat[0] = 0x20` and `VMatch[0] = 0`, `StartScanline(0)` sets the
VCount-match flag of cpu 0 and raises its VCount-match interrupt. -/
theorem StartScanline_vcount_match_witness :
    (0 : Nat) < 2 ∧
    ((StartScanline plainEnv 0 (idleState 0x20)).DispStat 0).testBit 2 = true ∧
    Ext.SetIRQ 0 .VCount ∈ issued (idleState 0x20) (StartScanline plainEnv 0 (idleState 0x20)) := by
  obtain ⟨h1, h2, -, -, -⟩ :=
    StartScanline_vcount_match plainEnv 0 (idleState 0x20) 0 (by decide)
  exact ⟨by decide, h1.2 (by decide), h2.2 ⟨by decide, by decide⟩⟩

/-! ## The range of the line counter -/

theorem RunInv.of_keeps {limit : Nat} {s s' : LCDState} (h : RunInv limit s) (K : Keeps s s') :
    RunInv limit s' :=
  ⟨K.fifo h.fifo, K.VCount ▸ h.vcount, K.NextVCount ▸ h.next, fun a e => by
    rw [K.VCount]
    exact h.pending a (K.lcd ▸ e)⟩

theorem RunInv.fire_LCD {limit : Nat} (env : Env) {s : LCDState} (h : RunInv limit s) :
    RunInv limit (fire env .LCD s) := by
  obtain ⟨hcf, hcl⟩ := Keeps.cleared s
  unfold fire
  cases he : s.events .LCD with
  | none => exact h
  | some p =>
    obtain ⟨cb, a⟩ := p
    obtain ⟨t, ht⟩ : ∃ t : LCDState,
        t = { s with events := fun e => if e = .LCD then none else s.events e } := ⟨_, rfl⟩
    have tv : t.VCount = s.VCount := by rw [ht]
    have tn : t.NextVCount = s.NextVCount := by rw [ht]
    have tf : FIFOChannelOk t := ht ▸ hcf h.fifo
    have tl : t.events .LCD = none := ht ▸ hcl
    show RunInv limit (runCallback env cb a
      { s with events := fun e => if e = .LCD then none else s.events e })
    rw [← ht]
    cases cb with
    | StartScanline =>
      have S := StartScanline_spec env a t
      have hlt := h.pending a he
      refine ⟨S.fifo tf, ?_, Or.inl S.NextVCount, ?_⟩
      · show (StartScanline env a t).VCount ≤ _
        rw [S.VCount, setLineCounter_VCount, tv, tn]
        by_cases h0 : a = 0
        · rw [if_pos h0]; omega
        · rw [if_neg h0]
          by_cases hn : s.NextVCount ≠ 0xFFFFFFFF
          · rw [if_pos hn]
            rcases h.next with e | e
            · exact absurd e hn
            · have := Nat.mod_le s.NextVCount (2 ^ 16)
              omega
          · rw [if_neg hn]
            have := Nat.mod_le (s.VCount + 1) (2 ^ 16)
            omega
      · intro b e
        have e1 : (StartScanline env a t).events .LCD = some (.StartScanline, b) := e
        rw [S.lcd] at e1
        cases e1
    | StartHBlank =>
      have S := StartHBlank_spec a t
      refine ⟨S.fifo tf, ?_, ?_, ?_⟩
      · show (StartHBlank a t).VCount ≤ _
        rw [S.VCount, tv]
        exact h.vcount
      · show (StartHBlank a t).NextVCount = _ ∨ (StartHBlank a t).NextVCount ≤ _
        rw [S.NextVCount, tn]
        exact h.next
      · intro b e
        have e1 : (StartHBlank a t).events .LCD = some (.StartScanline, b) := e
        rw [S.lcd] at e1
        show (StartHBlank a t).VCount < 262
        rw [S.VCount]
        by_contra hge
        rw [if_neg hge] at e1
        cases e1
    | FinishFrame =>
      obtain ⟨u, K, hu⟩ := FinishFrame_spec env a t
      show RunInv limit (FinishFrame env a t)
      rw [hu]
      refine ⟨K.fifo tf, ?_, ?_, ?_⟩
      · show u.VCount ≤ _
        rw [K.VCount, tv]
        exact h.vcount
      · show u.NextVCount = _ ∨ u.NextVCount ≤ _
        rw [K.NextVCount, tn]
        exact h.next
      · intro b e
        have e1 : u.events .LCD = some (.StartScanline, b) := e
        rw [K.lcd, tl] at e1
        cases e1
    | DisplayFIFO =>
      have K := Keeps.DisplayFIFO a t
      show RunInv limit (DisplayFIFO a t)
      refine ⟨K.fifo tf, ?_, ?_, ?_⟩
      · rw [K.VCount, tv]
        exact h.vcount
      · rw [K.NextVCount, tn]
        exact h.next
      · intro b e
        rw [K.lcd, tl] at e
        cases e

theorem Running.runInv {limit : Nat} {s : LCDState} (h : Running limit s) : RunInv limit s := by
  induction h with
  | reset s h =>
    refine ⟨?_, ?_, Or.inl rfl, ?_⟩
    · intro cb a e
      have : s.events .DisplayFIFO = some (cb, a) := e
      rw [h] at this
      cases this
    · show 0 ≤ _
      omega
    · intro a e
      have : s.events .LCD = some (.StartScanline, a) := e
      rw [h] at this
      cases this
  | startFrame env h ih =>
    rename_i s
    have S := StartScanline_spec env 0
      { s with RunFIFO := env.usesFIFO || env.dmasInMode, TotalScanlines := 0 }
    have hv : (setLineCounter 0
        { s with RunFIFO := env.usesFIFO || env.dmasInMode, TotalScanlines := 0 }).VCount = 0 := by
      rw [setLineCounter_VCount]; simp
    rw [hv] at S
    refine ⟨S.fifo ih.fifo, ?_, Or.inl S.NextVCount, ?_⟩
    · show (StartFrame env s).VCount ≤ _
      have : (StartFrame env s).VCount = 0 := S.VCount
      omega
    · intro a e
      have e1 : (StartFrame env s).events .LCD = some (.StartHBlank, 0) := S.lcd
      rw [e1] at e
      cases e
  | fire env ev h ih =>
    cases ev with
    | LCD => exact ih.fire_LCD env
    | DisplayFIFO => exact ih.of_keeps (fire_FIFO_keeps env _ ih.fifo)
  | setVCount val hv hl h ih =>
    refine ⟨ih.fifo, ih.vcount, Or.inr ?_, ih.pending⟩
    show val % 2 ^ 16 ≤ limit
    rw [Nat.mod_eq_of_lt hv]
    exact hl

/-- C21 (line-counter range), as the code has it.  In every state reached
from `Reset` (with nothing scheduled) through `StartFrame`, the callbacks
`StartScanline`, `StartHBlank`, `FinishFrame` and `DisplayFIFO` as the
scheduler runs them, and `SetVCount` calls whose values are at most `limit`,
`VCount` is at most the larger of 262 and `limit`; so it lies in 0..262 when
every value written is in 0..262. -/
theorem line_counter_range (limit : Nat) (s : LCDState) (h : Running limit s) :
    s.VCount ≤ max 262 limit ∧ (limit ≤ 262 → s.VCount ≤ 262) := by
  have := (Running.runInv h).vcount
  refine ⟨this, fun hl => ?_⟩
  rw [max_eq_left hl] at this
  exact this

/-- Witness for `line_counter_range`: the state after `Reset`, `StartFrame`,
`SetVCount(100)` and two firings of the LCD channel has `VCount = 100`. -/
theorem line_counter_range_witness :
    Running 262 (fire plainEnv .LCD (fire plainEnv .LCD
      (SetVCount 100 (StartFrame plainEnv (ResetLCD (idleState 0)))))) ∧
    (fire plainEnv .LCD (fire plainEnv .LCD
      (SetVCount 100 (StartFrame plainEnv (ResetLCD (idleState 0)))))).VCount ≤ 262 := by
  have h : Running 262 (fire plainEnv .LCD (fire plainEnv .LCD
      (SetVCount 100 (StartFrame plainEnv (ResetLCD (idleState 0)))))) :=
    .fire _ _ (.fire _ _ (.setVCount 100 (by decide) (by decide)
      (.startFrame _ (.reset _ (fun _ => rfl)))))
  exact ⟨h, (line_counter_range 262 _ h).2 (le_refl _)⟩

/-- C21 as stated fails: `SetVCount` takes every 16-bit value, and the next
`StartScanline` stores it in `VCount` unchecked.  After `Reset`, `StartFrame`
and `SetVCount(300)` the scheduler runs `StartHBlank(0)` and
`StartScanline(1)`, which leaves `VCount = 300`. -/
theorem line_counter_counterexample :
    Running (2 ^ 16 - 1) vcount300Run ∧ vcount300Run.VCount = 300 ∧
    ¬ vcount300Run.VCount ≤ 262 := by
  refine ⟨.fire _ _ (.fire _ _ (.setVCount 300 (by decide) (by decide)
      (.startFrame _ (.reset _ (fun _ => rfl))))), by decide, by decide⟩

/-! ## The window index of `SyncDirtyFlags` -/

/-- C25 (the window `SyncDirtyFlags` looks up).  For the four BG/OBJ tables
every written unit `j` is looked up at index `j / 32`, which is inside the
table and is the 16 KiB window that owns the unit.  The ARM7 table has two
windows of 128 KiB and its written field 512 bits, and there the index
`j / 32` is wrong: with unit 64 written the call reads `VRAMMap_ARM7[2]`,
outside the table; and with unit 32 written and bank D mapped to window 1
only, the call marks bank D dirty although the unit belongs to window 0,
which holds no bank. -/
theorem SyncDirtyFlags_ARM7_window_index :
    (∀ d : Dest, d.hasPtr = true → ∀ j, j < VRAMWrittenSize d →
      j / 32 < d.size ∧ j / 32 = owningWindow 0x4000 j) ∧
    Dest.ARM7.size = 2 ∧ VRAMWrittenSize .ARM7 = 512 ∧
    getBit unit64Written 64 = true ∧ owningWindow 0x20000 64 = 0 ∧
    SyncDirtyFlags (VRAMWrittenSize .ARM7) .ARM7 (fun _ => 0)
        { writtenFlags := unit64Written, VRAMDirty := noDirty }
      = .error (.outOfBounds .ARM7 2) ∧
    getBit unit32Written 32 = true ∧ owningWindow 0x20000 32 = 0 ∧
    bankDInARM7Window1 0 = 0 ∧
    (match SyncDirtyFlags (VRAMWrittenSize .ARM7) .ARM7 bankDInARM7Window1
        { writtenFlags := unit32Written, VRAMDirty := noDirty } with
      | .ok st => getBit (st.VRAMDirty 3) 32
      | .error _ => false) = true := by
  refine ⟨?_, rfl, rfl, by decide, by decide, by rfl, by decide, by decide, rfl, by rfl⟩
  intro d hd j hj
  unfold owningWindow
  cases d <;> simp [Dest.hasPtr] at hd <;>
    simp only [VRAMWrittenSize, Dest.size] at hj ⊢ <;> omega

/-! ## The display-FIFO chain -/

theorem DisplayFIFO_calls (x : Nat) (s : LCDState) :
    (DisplayFIFO x s).calls = s.calls ++ displayFIFOCalls x ∧
    (DisplayFIFO x s).events .DisplayFIFO =
      (if x < 256 then some (.DisplayFIFO, (x + 8) % 2 ^ 32) else s.events .DisplayFIFO) := by
  unfold DisplayFIFO displayFIFOCalls
  by_cases h0 : x > 0 <;> by_cases h8 : x = 8 <;> by_cases h256 : x < 256 <;>
    simp [h0, h8, h256, call, ScheduleEvent]

/-- Firing the display-FIFO channel while `DisplayFIFO(x)` is pending runs that
call; it reschedules itself with `x + 8` while `x < 256`. -/
theorem fire_DisplayFIFO_pending (env : Env) (x : Nat) (s : LCDState)
    (h : s.events .DisplayFIFO = some (.DisplayFIFO, x)) :
    (fire env .DisplayFIFO s).calls = s.calls ++ displayFIFOCalls x ∧
    (fire env .DisplayFIFO s).events .DisplayFIFO =
      (if x < 256 then some (.DisplayFIFO, (x + 8) % 2 ^ 32) else none) := by
  have e : fire env .DisplayFIFO s = DisplayFIFO x
      { s with events := fun e => if e = .DisplayFIFO then none else s.events e } := by
    unfold fire
    rw [h]
    rfl
  obtain ⟨c1, c2⟩ := DisplayFIFO_calls x
    { s with events := fun e => if e = .DisplayFIFO then none else s.events e }
  rw [e]
  refine ⟨c1, ?_⟩
  rw [c2]
  split <;> simp

theorem fire_idle (env : Env) (ev : Event) (s : LCDState) (h : s.events ev = none) :
    fire env ev s = s := by
  unfold fire
  rw [h]

/-- The state of the display-FIFO chain after `k` firings. -/
theorem chain_inv (env : Env) (s : LCDState)
    (h : s.events .DisplayFIFO = some (.DisplayFIFO, 0)) (k : Nat) (hk : k ≤ 33) :
    (Nat.iterate (fire env .DisplayFIFO) k s).calls = s.calls ++ chainCalls k ∧
    (Nat.iterate (fire env .DisplayFIFO) k s).events .DisplayFIFO =
      (if k ≤ 32 then some (.DisplayFIFO, 8 * k) else none) := by
  induction k with
  | zero => exact ⟨by simp [chainCalls], by simpa using h⟩
  | succ k ih =>
    obtain ⟨i1, i2⟩ := ih (by omega)
    rw [if_pos (by omega)] at i2
    obtain ⟨f1, f2⟩ := fire_DisplayFIFO_pending env (8 * k) _ i2
    rw [Function.iterate_succ_apply']
    refine ⟨?_, ?_⟩
    · rw [f1, i1, List.append_assoc]
      rfl
    · rw [f2]
      by_cases h32 : k + 1 ≤ 32
      · have a : 8 * k < 256 := by omega
        have b : (8 * k + 8) % 2 ^ 32 = 8 * (k + 1) := by omega
        rw [if_pos a, if_pos h32, b]
      · have a : ¬ 8 * k < 256 := by omega
        rw [if_neg a, if_neg h32]

theorem chain_stops (env : Env) (s : LCDState) (h : s.events .DisplayFIFO = none) (m : Nat) :
    Nat.iterate (fire env .DisplayFIFO) m s = s := by
  induction m with
  | zero => rfl
  | succ m ih => rw [Function.iterate_succ_apply', ih, fire_idle env _ s h]

/-- C27 (display-FIFO sampling covers the scanline exactly).  With
`DisplayFIFO(0)` pending on the display-FIFO channel, the chain runs
`DisplayFIFO(8k)` as its invocation `k = 0, ..., 32` (the calls of invocation
`k` are those of `DisplayFIFO(8k)`, and until then `DisplayFIFO(8k)` is what
is pending); after invocation 32, that is `x = 256`, nothing is pending and
further firings change nothing.  The `SampleFIFO` calls of the chain are, in
order, (0,5), (5,8), (13,8), ..., (245,8), (253,3); each starts where the one
before it ended, from pixel 0 to pixel 256.  `CheckDMAs(0, 0x04)` is called 32
times, once in each invocation with `x < 256`. -/
theorem DisplayFIFO_chain_covers_scanline (env : Env) (s : LCDState)
    (h : s.events .DisplayFIFO = some (.DisplayFIFO, 0)) :
    (∀ k, k ≤ 32 → (Nat.iterate (fire env .DisplayFIFO) k s).events .DisplayFIFO
      = some (.DisplayFIFO, 8 * k)) ∧
    (∀ k, k ≤ 32 → issued (Nat.iterate (fire env .DisplayFIFO) k s)
        (Nat.iterate (fire env .DisplayFIFO) (k + 1) s) = displayFIFOCalls (8 * k)) ∧
    (Nat.iterate (fire env .DisplayFIFO) 33 s).events .DisplayFIFO = none ∧
    (∀ m, Nat.iterate (fire env .DisplayFIFO) (33 + m) s
      = Nat.iterate (fire env .DisplayFIFO) 33 s) ∧
    samples (issued s (Nat.iterate (fire env .DisplayFIFO) 33 s))
      = (0, 5) :: ((List.range 31).map (fun i => (5 + 8 * i, 8)) ++ [(253, 3)]) ∧
    contiguousFrom 0 (samples (issued s (Nat.iterate (fire env .DisplayFIFO) 33 s)))
      = some 256 ∧
    (issued s (Nat.iterate (fire env .DisplayFIFO) 33 s)).count (.CheckDMAs 0 0x04) = 32 ∧
    (∀ k, k ≤ 32 → (displayFIFOCalls (8 * k)).count (.CheckDMAs 0 0x04)
      = if 8 * k < 256 then 1 else 0) := by
  have I := chain_inv env s h
  have hend := I 33 (le_refl _)
  have hiss : issued s (Nat.iterate (fire env .DisplayFIFO) 33 s) = chainCalls 33 :=
    issued_append _ _ _ hend.1
  refine ⟨?_, ?_, ?_, ?_, ?_, ?_, ?_, ?_⟩
  · intro k hk
    rw [(I k (by omega)).2, if_pos hk]
  · intro k hk
    have i2 := (I k (by omega)).2
    rw [if_pos hk] at i2
    apply issued_append
    rw [Function.iterate_succ_apply']
    exact (fire_DisplayFIFO_pending env (8 * k) _ i2).1
  · rw [hend.2]
    rfl
  · intro m
    rw [Nat.add_comm, Function.iterate_add_apply]
    apply chain_stops
    rw [hend.2]
    rfl
  · rw [hiss]
    decide
  · rw [hiss]
    decide
  · rw [hiss]
    decide
  · intro k hk
    interval_cases k <;> decide

/-- Witness for `DisplayFIFO_chain_covers_scanline`: in the idle state with
the FIFO flag set, `StartFrame` leaves `DisplayFIFO(0)` pending; the 33
firings after it make 32 calls of `CheckDMAs(0, 0x04)`. -/
theorem DisplayFIFO_chain_covers_scanline_witness :
    (StartFrame { plainEnv with usesFIFO := true } (idleState 0)).events .DisplayFIFO
      = some (.DisplayFIFO, 0) ∧
    (issued (StartFrame { plainEnv with usesFIFO := true } (idleState 0))
      (Nat.iterate (fire plainEnv .DisplayFIFO) 33
        (StartFrame { plainEnv with usesFIFO := true } (idleState 0)))).count
      (.CheckDMAs 0 0x04) = 32 := by
  have h : (StartFrame { plainEnv with usesFIFO := true } (idleState 0)).events .DisplayFIFO
      = some (.DisplayFIFO, 0) := by decide
  exact ⟨h, (DisplayFIFO_chain_covers_scanline plainEnv _ h).2.2.2.2.2.2.1⟩

/-! ## The draw calls of a frame -/

theorem Draws.append {X Y : List Ext} {s s1 s2 : LCDState} (h1 : Draws X s s1)
    (h2 : Draws Y s1 s2) : Draws (X ++ Y) s s2 := by
  obtain ⟨L1, e1, f1⟩ := h1.calls
  obtain ⟨L2, e2, f2⟩ := h2.calls
  exact ⟨L1 ++ L2, by rw [e2, e1, List.append_assoc], by rw [List.filter_append, f1, f2]⟩

theorem Draws.none_then {Y : List Ext} {s s1 s2 : LCDState} (h1 : Draws [] s s1)
    (h2 : Draws Y s1 s2) : Draws Y s s2 :=
  h1.append h2

theorem Draws.then_none {X : List Ext} {s s1 s2 : LCDState} (h1 : Draws X s s1)
    (h2 : Draws [] s1 s2) : Draws X s s2 := by
  have := h1.append h2
  rwa [List.append_nil] at this

theorem Draws.filter_issued {X : List Ext} {s s' : LCDState} (h : Draws X s s') :
    (issued s s').filter isDraw = X := by
  obtain ⟨L, e, f⟩ := h.calls
  rw [issued_append s s' L e, f]

theorem isDraw_of_quiet {c : Ext} (h : isDrawOrMatch c = false) : isDraw c = false := by
  cases c <;> first | rfl | (simp [isDrawOrMatch, isDraw] at h)

theorem filter_isDraw_quiet (L : List Ext) (h : ∀ c, c ∈ L → isDrawOrMatch c = false) :
    L.filter isDraw = [] := by
  rw [List.filter_eq_nil_iff]
  intro c hc
  rw [isDraw_of_quiet (h c hc)]
  simp

theorem Quiet.draws {s s' : LCDState} (h : Quiet s s') : Draws [] s s' := by
  obtain ⟨L, e, n⟩ := h.calls
  exact ⟨L, e, filter_isDraw_quiet L n⟩

theorem StartScanline_draws (env : Env) (line : Nat) (s : LCDState) :
    Draws [] s (StartScanline env line s) := by
  obtain ⟨-, -, -, -, L0, L4, eL, n0, n4⟩ := StartScanline_match_spec env line s
  refine ⟨_, eL, ?_⟩
  simp only [List.filter_append, filter_isDraw_quiet L0 n0, filter_isDraw_quiet L4 n4]
  split <;> split <;> rfl

theorem hblankDraw_draws (line : Nat) (s : LCDState) :
    (hblankDraw line s).VCount = s.VCount ∧
    Draws (hblankDraws line s.VCount) s (hblankDraw line s) := by
  unfold hblankDraw hblankDraws
  by_cases h1 : s.VCount < 192
  · by_cases h2 : line < 192
    · by_cases h3 : line < 191
      · exact ⟨by simp [h1, h2, h3, call], ⟨[.DrawScanline 0 line, .DrawScanline 1 line,
          .DrawSprites 0 (line + 1), .DrawSprites 1 (line + 1), .CheckDMAs 0 0x02],
          by simp [h1, h2, h3, call], by simp [h1, h2, h3, isDraw]⟩⟩
      · exact ⟨by simp [h1, h2, h3, call], ⟨[.DrawScanline 0 line, .DrawScanline 1 line,
          .CheckDMAs 0 0x02], by simp [h1, h2, h3, call], by simp [h1, h2, h3, isDraw]⟩⟩
    · have h3 : ¬ line < 191 := by omega
      exact ⟨by simp [h1, h2, h3, call], ⟨[.CheckDMAs 0 0x02], by simp [h1, h2, h3, call],
        by simp [h1, h2, h3, isDraw]⟩⟩
  · by_cases h4 : s.VCount = 215
    · have h5 : ¬ s.VCount = 262 := by omega
      exact ⟨by simp [h4, call], ⟨[.VCount215], by simp [h4, call], by simp [h4, isDraw]⟩⟩
    · by_cases h5 : s.VCount = 262
      · exact ⟨by simp [h5, call], ⟨[.DrawSprites 0 0, .DrawSprites 1 0], by simp [h5, call],
          by simp [h5, isDraw]⟩⟩
      · exact ⟨by simp [h1, h4, h5], ⟨[], by simp [h1, h4, h5], by simp [h1, h4, h5]⟩⟩

theorem StartHBlank_draws (line : Nat) (s : LCDState) :
    Draws (hblankDraws line s.VCount) s (StartHBlank line s) := by
  obtain ⟨s1, hs1⟩ : ∃ s1, s1 = orDispStat 1 (1 <<< 1) (orDispStat 0 (1 <<< 1) s) := ⟨_, rfl⟩
  have Q1 : Quiet s s1 := hs1 ▸ (Quiet.orFlag 0 1 s (Or.inr rfl)).comp
    (Quiet.orFlag 1 1 _ (Or.inr rfl))
  obtain ⟨hv, D⟩ := hblankDraw_draws line s1
  rw [Q1.VCount] at D
  have Q3 : Quiet (hblankDraw line s1) (StartHBlank line s) := by
    have e : StartHBlank line s =
        if (hblankIRQ (hblankDraw line s1)).VCount < 262 then
          ScheduleEvent .LCD true (LINE_CYCLES - HBLANK_CYCLES) .StartScanline
            ((line + 1) % 2 ^ 32) (hblankIRQ (hblankDraw line s1))
        else
          ScheduleEvent .LCD true (LINE_CYCLES - HBLANK_CYCLES) .FinishFrame
            ((line + 1) % 2 ^ 32) (hblankIRQ (hblankDraw line s1)) := by
      rw [hs1]; rfl
    rw [e]
    exact (Quiet.hblankIRQStep _).comp
      (Quiet.cond _ (Quiet.schedule _ _ _ _ _ _) (Quiet.schedule _ _ _ _ _ _))
  exact (Q1.draws.none_then D).then_none Q3.draws

theorem fire_draws (env : Env) (ev : Event) (s : LCDState) :
    Draws (match s.events ev with
      | some (.StartHBlank, line) => hblankDraws line s.VCount
      | _ => []) s (fire env ev s) := by
  unfold fire
  cases he : s.events ev with
  | none => exact (Quiet.unchanged s).draws
  | some p =>
    obtain ⟨cb, a⟩ := p
    have Q0 : Quiet s { s with events := fun e => if e = ev then none else s.events e } :=
      ⟨rfl, rfl, fun _ _ _ _ _ => rfl, [], by simp, by simp⟩
    cases cb with
    | StartScanline =>
      exact Q0.draws.none_then (StartScanline_draws env a
        { s with events := fun e => if e = ev then none else s.events e })
    | StartHBlank =>
      exact Q0.draws.none_then (StartHBlank_draws a
        { s with events := fun e => if e = ev then none else s.events e })
    | FinishFrame =>
      exact Q0.draws.none_then (Quiet.finishFrameStep env a
        { s with events := fun e => if e = ev then none else s.events e }).draws
    | DisplayFIFO =>
      exact Q0.draws.none_then (Quiet.displayFIFOStep a
        { s with events := fun e => if e = ev then none else s.events e }).draws

theorem iterate_FIFO_draws (env : Env) (k : Nat) (s : LCDState) (h : FIFOChannelOk s) :
    Draws [] s (Nat.iterate (fire env .DisplayFIFO) k s) := by
  induction k generalizing s with
  | zero => exact (Quiet.unchanged s).draws
  | succ k ih =>
    have K1 := fire_FIFO_keeps env s h
    have D1 := fire_draws env .DisplayFIFO s
    have e : (match s.events .DisplayFIFO with
        | some (.StartHBlank, line) => hblankDraws line s.VCount
        | _ => []) = [] := by
      cases he : s.events .DisplayFIFO with
      | none => rfl
      | some p =>
        obtain ⟨cb, a⟩ := p
        have := h cb a he
        subst this
        rfl
    rw [e] at D1
    exact D1.none_then (ih _ (K1.fifo h))

theorem StartFrame_draws (env : Env) (s : LCDState) : Draws [] s (StartFrame env s) := by
  have Q0 : Quiet s { s with RunFIFO := env.usesFIFO || env.dmasInMode, TotalScanlines := 0 } :=
    ⟨rfl, rfl, fun _ _ _ _ _ => rfl, [], by simp, by simp⟩
  exact Q0.draws.none_then (StartScanline_draws env 0 _)

/-- The draw calls of firing `n + 1` of the LCD channel and of the
display-FIFO firings after it. -/
theorem frameRun_step_draws (env : Env) (fifo : Nat → Nat) (s0 : LCDState)
    (h : FIFOChannelOk s0) (n : Nat) (hn : n < 526) :
    Draws (stepDraws n) (frameRun env fifo n s0) (frameRun env fifo (n + 1) s0) := by
  have I := frameRun_inv env fifo s0 h n (by omega)
  have I1 := FrameInv.fire_step env s0 _ n hn I
  have D := fire_draws env .LCD (frameRun env fifo n s0)
  have hl := I.lcd
  have hv := I.vcount
  rw [if_pos hn] at hl hv
  have e : (match (frameRun env fifo n s0).events .LCD with
      | some (.StartHBlank, line) => hblankDraws line (frameRun env fifo n s0).VCount
      | _ => []) = stepDraws n := by
    rw [hl, hv]
    unfold stepDraws
    by_cases hev : n % 2 = 0
    · rw [if_pos hev, if_pos hev]
    · rw [if_neg hev, if_neg hev]
      by_cases h525 : n < 525
      · rw [if_pos h525]
      · rw [if_neg h525]
  rw [e] at D
  exact D.then_none (iterate_FIFO_draws env (fifo (n + 1)) _ I1.fifo)

theorem frameRun_draws (env : Env) (fifo : Nat → Nat) (s0 : LCDState)
    (h : FIFOChannelOk s0) (n : Nat) (hn : n ≤ 526) :
    Draws (frameDraws n) s0 (frameRun env fifo n s0) := by
  induction n with
  | zero =>
    exact (StartFrame_draws env s0).then_none
      (iterate_FIFO_draws env (fifo 0) _ (FrameInv.start env s0 h).fifo)
  | succ n ih =>
    exact (ih (by omega)).append (frameRun_step_draws env fifo s0 h n (by omega))

theorem frameDraws_two (l : Nat) :
    frameDraws (2 * (l + 1)) = frameDraws (2 * l) ++ hblankDraws l l := by
  have e : 2 * (l + 1) = (2 * l + 1) + 1 := by omega
  have e1 : stepDraws (2 * l) = hblankDraws l l := by
    unfold stepDraws
    have a : 2 * l % 2 = 0 := by omega
    have b : 2 * l / 2 = l := by omega
    rw [if_pos a, b]
  have e2 : stepDraws (2 * l + 1) = [] := by
    unfold stepDraws
    have a : ¬ (2 * l + 1) % 2 = 0 := by omega
    rw [if_neg a]
  rw [e]
  show (frameDraws (2 * l) ++ stepDraws (2 * l)) ++ stepDraws (2 * l + 1) = _
  rw [e1, e2, List.append_nil]

theorem frameDraws_visible (l : Nat) (hl : l ≤ 192) : frameDraws (2 * l) = lineDraws l := by
  induction l with
  | zero => rfl
  | succ l ih =>
    rw [frameDraws_two, ih (by omega)]
    have a : l < 192 := by omega
    unfold hblankDraws
    rw [if_pos a, if_pos a]
    rfl

theorem frameDraws_vblank (l : Nat) (h1 : 192 ≤ l) (h2 : l ≤ 262) :
    frameDraws (2 * l) = lineDraws 192 := by
  induction l with
  | zero => omega
  | succ l ih =>
    by_cases h : l + 1 = 192
    · rw [h]
      exact frameDraws_visible 192 (le_refl _)
    · rw [frameDraws_two, ih (by omega) (by omega)]
      have a : ¬ l < 192 := by omega
      have b : ¬ l = 262 := by omega
      unfold hblankDraws
      rw [if_neg a, if_neg b, List.append_nil]

/-- The draw calls of a whole frame: for each line `l = 0, ..., 191` the two
calls `DrawScanline(l)` followed, below line 191, by the two calls
`DrawSprites(l + 1)`; and at the end the two calls `DrawSprites(0)`. -/
theorem frameDraws_closed :
    frameDraws 526 = lineDraws 192 ++ [Ext.DrawSprites 0 0, .DrawSprites 1 0] := by
  have e : (526 : Nat) = 2 * (262 + 1) := by norm_num
  rw [e, frameDraws_two, frameDraws_vblank 262 (by norm_num) (le_refl _)]
  rfl

theorem mem_hblankDraws (line v e : Nat) (he : e < 2) :
    (Ext.DrawScanline e line ∈ hblankDraws line v ↔ v < 192 ∧ line < 192) ∧
    (Ext.DrawSprites e (line + 1) ∈ hblankDraws line v ↔ v < 192 ∧ line < 191) ∧
    (Ext.DrawSprites e 0 ∈ hblankDraws line v ↔ v = 262) := by
  have he' : e = 0 ∨ e = 1 := by omega
  unfold hblankDraws
  by_cases h1 : v < 192
  · have h5 : ¬ v = 262 := by omega
    by_cases h2 : line < 192
    · by_cases h3 : line < 191
      · simp [h1, h2, h3, h5, he']
      · simp [h1, h2, h3, h5, he']
    · have h3 : ¬ line < 191 := by omega
      simp [h1, h2, h3, h5]
  · by_cases h5 : v = 262
    · simp [h5, he']
    · simp [h1, h5]

theorem count_lineDraws (n e l : Nat) (he : e < 2) :
    (lineDraws n).count (.DrawScanline e l) = (if l < n then 1 else 0) ∧
    (lineDraws n).count (.DrawSprites e l)
      = (if 1 ≤ l ∧ l ≤ n ∧ l ≤ 191 then 1 else 0) := by
  have he' : e = 0 ∨ e = 1 := by omega
  induction n with
  | zero =>
    constructor
    · rfl
    · have : ¬ (1 ≤ l ∧ l ≤ 0 ∧ l ≤ 191) := by omega
      rw [if_neg this]
      rfl
  | succ n ih =>
    obtain ⟨i1, i2⟩ := ih
    have e1 : lineDraws (n + 1) = lineDraws n ++ ([Ext.DrawScanline 0 n, .DrawScanline 1 n] ++
      (if n < 191 then [Ext.DrawSprites 0 (n + 1), .DrawSprites 1 (n + 1)] else [])) := rfl
    rw [e1]
    simp only [List.count_append, i1, i2]
    constructor
    · have a : List.count (Ext.DrawScanline e l) [Ext.DrawScanline 0 n, .DrawScanline 1 n]
          = if l = n then 1 else 0 := by
        rcases he' with h | h <;> subst h <;> by_cases hl : l = n <;>
          simp [List.count_cons, hl, eq_comm]
      have b : List.count (Ext.DrawScanline e l)
          (if n < 191 then [Ext.DrawSprites 0 (n + 1), .DrawSprites 1 (n + 1)] else []) = 0 := by
        split <;> simp [List.count_cons]
      rw [a, b]
      by_cases h1 : l < n
      · have : ¬ l = n := by omega
        have h2 : l < n + 1 := by omega
        simp [h1, this, h2]
      · by_cases h3 : l = n
        · have h2 : l < n + 1 := by omega
          simp [h1, h3]
        · have h2 : ¬ l < n + 1 := by omega
          simp [h1, h3, h2]
    · have a : List.count (Ext.DrawSprites e l) [Ext.DrawScanline 0 n, .DrawScanline 1 n]
          = 0 := by
        simp [List.count_cons]
      have b : List.count (Ext.DrawSprites e l)
          (if n < 191 then [Ext.DrawSprites 0 (n + 1), .DrawSprites 1 (n + 1)] else [])
          = if n < 191 ∧ l = n + 1 then 1 else 0 := by
        by_cases hn : n < 191
        · rw [if_pos hn]
          rcases he' with h | h <;> subst h <;> by_cases hl : l = n + 1 <;>
            simp [List.count_cons, hl, hn, eq_comm]
        · rw [if_neg hn]
          simp [hn]
      rw [a, b]
      by_cases h1 : 1 ≤ l ∧ l ≤ n ∧ l ≤ 191
      · have h2 : ¬ (n < 191 ∧ l = n + 1) := by omega
        have h3 : 1 ≤ l ∧ l ≤ n + 1 ∧ l ≤ 191 := by omega
        rw [if_pos h1, if_neg h2, if_pos h3]
      · by_cases h2 : n < 191 ∧ l = n + 1
        · have h3 : 1 ≤ l ∧ l ≤ n + 1 ∧ l ≤ 191 := by omega
          rw [if_neg h1, if_pos h2, if_pos h3]
        · have h3 : ¬ (1 ≤ l ∧ l ≤ n + 1 ∧ l ≤ 191) := by omega
          rw [if_neg h1, if_neg h2, if_neg h3]

/-- C26 (draw calls of an undisturbed frame).  In a frame run from
`StartFrame` with nothing but the scheduler's firings, the draw calls are, in
order: for each line `l = 0, ..., 191` `DrawScanline(l)` to engine A and to
engine B, followed for `l < 191` by `DrawSprites(l + 1)` to both engines; and
last `DrawSprites(0)` to both engines.  They are made by the firings that run
`StartHBlank`: firing `2 * l + 1` runs `StartHBlank(l)` on line `l` and makes
the calls of line `l`, the one on line 262 makes the calls `DrawSprites(0)`,
and `StartFrame` and every other firing make no draw call.  In general
`StartHBlank(line)` calls `DrawScanline(line)` iff `VCount < 192` and
`line < 192`, `DrawSprites(line + 1)` iff `VCount < 192` and `line < 191`, and
`DrawSprites(0)` iff `VCount = 262`. -/
theorem frame_draw_calls (env : Env) (fifo : Nat → Nat) (s0 : LCDState)
    (h : FIFOChannelOk s0) :
    (issued s0 (frameRun env fifo 526 s0)).filter isDraw
      = lineDraws 192 ++ [Ext.DrawSprites 0 0, .DrawSprites 1 0] ∧
    (∀ e l, e < 2 →
      (issued s0 (frameRun env fifo 526 s0)).count (.DrawScanline e l)
        = (if l < 192 then 1 else 0) ∧
      (issued s0 (frameRun env fifo 526 s0)).count (.DrawSprites e l)
        = (if l < 192 then 1 else 0)) ∧
    (issued s0 (frameRun env fifo 0 s0)).filter isDraw = [] ∧
    (∀ l, l < 192 →
      (issued (frameRun env fifo (2 * l) s0) (frameRun env fifo (2 * l + 1) s0)).filter isDraw
        = [Ext.DrawScanline 0 l, .DrawScanline 1 l] ++
          (if l < 191 then [Ext.DrawSprites 0 (l + 1), .DrawSprites 1 (l + 1)] else [])) ∧
    (frameRun env fifo 524 s0).VCount = 262 ∧
    (issued (frameRun env fifo 524 s0) (frameRun env fifo 525 s0)).filter isDraw
      = [Ext.DrawSprites 0 0, .DrawSprites 1 0] ∧
    (∀ n, n < 526 → ¬ (n % 2 = 0 ∧ (n / 2 < 192 ∨ n = 524)) →
      (issued (frameRun env fifo n s0) (frameRun env fifo (n + 1) s0)).filter isDraw = []) ∧
    (∀ line e (s : LCDState), e < 2 →
      (Ext.DrawScanline e line ∈ issued s (StartHBlank line s) ↔
        s.VCount < 192 ∧ line < 192) ∧
      (Ext.DrawSprites e (line + 1) ∈ issued s (StartHBlank line s) ↔
        s.VCount < 192 ∧ line < 191) ∧
      (Ext.DrawSprites e 0 ∈ issued s (StartHBlank line s) ↔ s.VCount = 262)) := by
  have step := fun n hn => (frameRun_step_draws env fifo s0 h n hn).filter_issued
  have whole : (issued s0 (frameRun env fifo 526 s0)).filter isDraw
      = lineDraws 192 ++ [Ext.DrawSprites 0 0, .DrawSprites 1 0] := by
    rw [(frameRun_draws env fifo s0 h 526 (le_refl _)).filter_issued, frameDraws_closed]
  refine ⟨whole, ?_, ?_, ?_, ?_, ?_, ?_, ?_⟩
  · intro e l he
    obtain ⟨c1, c2⟩ := count_lineDraws 192 e l he
    have he' : e = 0 ∨ e = 1 := by omega
    constructor
    · rw [← List.count_filter (show isDraw (.DrawScanline e l) = true from rfl), whole,
        List.count_append, c1]
      simp [List.count_cons]
    · rw [← List.count_filter (show isDraw (.DrawSprites e l) = true from rfl), whole,
        List.count_append, c2]
      have a : List.count (Ext.DrawSprites e l) [Ext.DrawSprites 0 0, .DrawSprites 1 0]
          = if l = 0 then 1 else 0 := by
        rcases he' with h | h <;> subst h <;> by_cases hl : l = 0 <;>
          simp [List.count_cons, hl, eq_comm]
      rw [a]
      by_cases h0 : l = 0
      · subst h0
        simp
      · by_cases h1 : l < 192
        · have : 1 ≤ l ∧ l ≤ 192 ∧ l ≤ 191 := by omega
          rw [if_pos this, if_neg h0, if_pos h1]
        · have : ¬ (1 ≤ l ∧ l ≤ 192 ∧ l ≤ 191) := by omega
          rw [if_neg this, if_neg h0, if_neg h1]
  · exact (frameRun_draws env fifo s0 h 0 (by omega)).filter_issued
  · intro l hl
    rw [step (2 * l) (by omega)]
    unfold stepDraws hblankDraws
    have a : 2 * l % 2 = 0 := by omega
    have b : 2 * l / 2 = l := by omega
    rw [if_pos a, b, if_pos hl, if_pos hl]
  · rw [(frameRun_inv env fifo s0 h 524 (by omega)).vcount]
    rfl
  · rw [step 524 (by omega)]
    rfl
  · intro n hn hne
    rw [step n hn]
    unfold stepDraws hblankDraws
    by_cases hev : n % 2 = 0
    · have a : ¬ n / 2 < 192 := fun c => hne ⟨hev, Or.inl c⟩
      have b : ¬ n / 2 = 262 := fun c => hne ⟨hev, Or.inr (by omega)⟩
      rw [if_pos hev, if_neg a, if_neg b]
    · rw [if_neg hev]
  · intro line e s he
    have D := (StartHBlank_draws line s).filter_issued
    have key : ∀ c, isDraw c = true →
        (c ∈ issued s (StartHBlank line s) ↔ c ∈ hblankDraws line s.VCount) := by
      intro c hc
      rw [← D, List.mem_filter]
      simp [hc]
    obtain ⟨m1, m2, m3⟩ := mem_hblankDraws line s.VCount e he
    exact ⟨(key (.DrawScanline e line) rfl).trans m1,
      (key (.DrawSprites e (line + 1)) rfl).trans m2, (key (.DrawSprites e 0) rfl).trans m3⟩

/-- Witness for `frame_draw_calls`: the frame begun from the idle state; its
firing 1 runs `StartHBlank(0)`, which draws line 0 and the sprites of line 1. -/
theorem frame_draw_calls_witness :
    FIFOChannelOk (idleState 0) ∧
    (issued (frameRun plainEnv (fun _ => 0) 0 (idleState 0))
      (frameRun plainEnv (fun _ => 0) 1 (idleState 0))).filter isDraw
      = [Ext.DrawScanline 0 0, .DrawScanline 1 0, .DrawSprites 0 1, .DrawSprites 1 1] := by
  have h := idleState_fifo 0
  exact ⟨h, (frame_draw_calls plainEnv (fun _ => 0) (idleState 0) h).2.2.2.1 0 (by decide)⟩

/-! ## Mirroring of the small banks -/

theorem small_bank_offset (bank W : Nat) (hb : bank = 5 ∨ bank = 6 ∨ bank = 7 ∨ bank = 8)
    (hW : W < 32) :
    ((W <<< 14) % 2 ^ 32) &&& maskOf bank = (W * 0x4000) % bankCapacity bank := by
  have e : (W <<< 14) % 2 ^ 32 = W * 0x4000 := by
    rw [Nat.shiftLeft_eq]
    omega
  rw [e]
  have h14 := Nat.and_pow_two_sub_one_eq_mod (W * 0x4000) 14
  have h15 := Nat.and_pow_two_sub_one_eq_mod (W * 0x4000) 15
  rcases hb with h | h | h | h <;> subst h
  · exact h14
  · exact h14
  · exact h15
  · exact h14

/-- C29 (mirroring of the small banks).  From `Reset`, a bank-control write
that enables bank F, G, H or I completes, and afterwards no mask holds any
other bank.  For F and G into engine-A BG (field 1) or OBJ (field 2) the
bank's bit is in exactly the windows `base` and `base + 2` of that table,
`base = (ofs & 1) + ((ofs & 2) << 1)` with `ofs` the sub-offset field; for H
into engine-B BG in exactly the windows 0, 1, 4, 5; for I into engine-B BG in
exactly the windows 2, 3, 6, 7 and for I into engine-B OBJ in all 8 windows.
In each BG/OBJ window `W` that holds the bank, the mask is the bank's bit
alone and the direct pointer addresses byte `(W * 0x4000) mod capacity` of
the bank, so two such windows whose numbers agree modulo `capacity / 0x4000`
have the same pointer. -/
theorem small_bank_mirrors (bank cnt : Nat) (hb : bank = 5 ∨ bank = 6 ∨ bank = 7 ∨ bank = 8)
    (hen : (cnt % 256) &&& 0x80 ≠ 0) :
    ∃ s', SetBankControl bank cnt Reset = .ok s' ∧
      (∀ d W b, b ≠ bank → (s'.VRAMMap d W).testBit b = false) ∧
      ((bank = 5 ∨ bank = 6) → (cnt % 256) &&& 0x7 = 1 → ∀ W,
        ((s'.VRAMMap .ABG W).testBit bank = true ↔
          (W = baseFG (cnt % 256) ∨ W = baseFG (cnt % 256) + 2))) ∧
      ((bank = 5 ∨ bank = 6) → (cnt % 256) &&& 0x7 = 2 → ∀ W,
        ((s'.VRAMMap .AOBJ W).testBit bank = true ↔
          (W = baseFG (cnt % 256) ∨ W = baseFG (cnt % 256) + 2))) ∧
      (bank = 7 → (cnt % 256) &&& 0x3 = 1 → ∀ W,
        ((s'.VRAMMap .BBG W).testBit bank = true ↔ (W = 0 ∨ W = 1 ∨ W = 4 ∨ W = 5))) ∧
      (bank = 8 → (cnt % 256) &&& 0x3 = 1 → ∀ W,
        ((s'.VRAMMap .BBG W).testBit bank = true ↔ (W = 2 ∨ W = 3 ∨ W = 6 ∨ W = 7))) ∧
      (bank = 8 → (cnt % 256) &&& 0x3 = 2 → ∀ W,
        ((s'.VRAMMap .BOBJ W).testBit bank = true ↔ W < 8)) ∧
      (∀ d W, d.hasPtr = true → W < d.size → (s'.VRAMMap d W).testBit bank = true →
        s'.VRAMMap d W = 2 ^ bank ∧
        s'.VRAMPtr d W = Ptr.bank bank ((W * 0x4000) % bankCapacity bank)) ∧
      (∀ d W1 W2, d.hasPtr = true → W1 < d.size → W2 < d.size →
        (s'.VRAMMap d W1).testBit bank = true → (s'.VRAMMap d W2).testBit bank = true →
        W1 % (bankCapacity bank / 0x4000) = W2 % (bankCapacity bank / 0x4000) →
        s'.VRAMPtr d W1 = s'.VRAMPtr d W2) := by
  have hb9 : bank < 9 := by omega
  obtain ⟨s', hw⟩ := SetBankControl_defined Reset (Good_of_MaskInv MaskInv_Reset) TableInv_Reset
    bank cnt hb9 (InTable_other bank cnt hb9 (by omega) (by omega))
  have R : Reachable s' := .write bank cnt .reset hw
  obtain ⟨mi, -, pi⟩ := R.inv
  have w := SetBankControl_spec _ _ _ _ hw
  have other : ∀ d W b, b ≠ bank → (s'.VRAMMap d W).testBit b = false := by
    intro d W b hne
    by_contra hbit
    have h1 : (s'.VRAMMap d W).testBit b = true := by simpa using hbit
    have h2 := ((mi d W b).1 h1).2
    rw [w.cnt_eq b, if_neg hne] at h2
    exact not_selected_zero b d W h2
  have own : ∀ d W, (s'.VRAMMap d W).testBit bank = true ↔ selected bank (cnt % 256) d W :=
    testBit_after_SetBankControl .reset hw
  have ptr : ∀ d W, d.hasPtr = true → W < d.size → (s'.VRAMMap d W).testBit bank = true →
      s'.VRAMMap d W = 2 ^ bank ∧
      s'.VRAMPtr d W = Ptr.bank bank ((W * 0x4000) % bankCapacity bank) := by
    intro d W hd hW hbit
    have sole : soleBank (s'.VRAMMap d W) bank := by
      intro i
      constructor
      · intro hi
        by_contra hne
        rw [other d W i hne] at hi
        cases hi
      · rintro rfl
        exact hbit
    refine ⟨(soleBank_iff _ _).1 sole, ?_⟩
    obtain ⟨-, m, hm, hp⟩ := (GetUniqueBankPtr_small (s'.VRAMMap d W) ((W <<< 14) % 2 ^ 32)
      (R.mask_lt d W)).2 bank sole
    rw [VRAMMask_eq_maskOf bank hb9] at hm
    cases hm
    have hW32 : W < 32 := by
      cases d <;> simp [Dest.hasPtr] at hd <;> simp only [Dest.size] at hW <;> omega
    rw [small_bank_offset bank W hb hW32, pi d W hd hW] at hp
    exact Except.ok.inj hp
  refine ⟨s', hw, other, ?_, ?_, ?_, ?_, ?_, ptr, ?_⟩
  · intro h56 h7 W
    rw [own]
    rcases h56 with h | h <;> subst h <;> simp [selected, selFG, hen, h7]
  · intro h56 h7 W
    rw [own]
    rcases h56 with h | h <;> subst h <;> simp [selected, selFG, hen, h7]
  · intro h h3 W
    rw [own]
    subst h
    simp [selected, selH, hen, h3]
  · intro h h3 W
    rw [own]
    subst h
    simp [selected, selI, hen, h3]
  · intro h h3 W
    rw [own]
    subst h
    simp [selected, selI, hen, h3]
  · intro d W1 W2 hd h1 h2 b1 b2 hmod
    rw [(ptr d W1 hd h1 b1).2, (ptr d W2 hd h2 b2).2]
    have : (W1 * 0x4000) % bankCapacity bank = (W2 * 0x4000) % bankCapacity bank := by
      rcases hb with h | h | h | h <;> subst h <;> simp only [bankCapacity] at hmod ⊢ <;> omega
    rw [this]

/-- Witness for `small_bank_mirrors`: from `Reset`, the write of `0x81` to the
control register of bank H puts bank H into the engine-B BG windows 0, 1, 4
and 5, and window 5 points to byte `0x4000` of the bank, as window 1 does. -/
theorem small_bank_mirrors_witness :
    ((0x81 : Nat) % 256) &&& 0x80 ≠ 0 ∧
    ∃ s', SetBankControl 7 0x81 Reset = .ok s' ∧
      (∀ W, ((s'.VRAMMap .BBG W).testBit 7 = true ↔ (W = 0 ∨ W = 1 ∨ W = 4 ∨ W = 5))) ∧
      s'.VRAMPtr .BBG 5 = Ptr.bank 7 0x4000 ∧ s'.VRAMPtr .BBG 1 = s'.VRAMPtr .BBG 5 := by
  obtain ⟨s', hw, -, -, -, h4, -, -, h7, h8⟩ :=
    small_bank_mirrors 7 0x81 (by decide) (by decide)
  have m := h4 rfl (by decide)
  exact ⟨by decide, s', hw, m, (h7 .BBG 5 rfl (by decide) ((m 5).2 (by decide))).2,
    h8 .BBG 1 5 rfl (by decide) (by decide) ((m 1).2 (by decide)) ((m 5).2 (by decide))
      (by decide)⟩

/-! ## Two consumers of one destination -/

/-- When the loop over the banks of a `u32` mask returns and its body fails
for every index above 8, the mask holds only banks 0..8. -/
theorem forEachBank_ok_small {σ : Type} (body : Nat → σ → Except Fault σ)
    (hbody : ∀ num s s1, body num s = .ok s1 → num < 9) (fuel mapping : Nat) (s s' : σ)
    (hm : mapping < 2 ^ 32) (h : forEachBank body fuel mapping s = .ok s') :
    ∀ b, mapping.testBit b = true → b < 9 := by
  induction fuel generalizing mapping s with
  | zero =>
    unfold forEachBank at h
    split at h
    · rename_i hz
      intro b hb
      rw [hz, Nat.zero_testBit] at hb
      cases hb
    · cases h
  | succ fuel ih =>
    unfold forEachBank at h
    split at h
    · rename_i hz
      intro b hb
      rw [hz, Nat.zero_testBit] at hb
      cases hb
    · simp only [] at h
      split at h
      · rename_i s1 hs1
        have hnum := hbody _ _ _ hs1
        have hrest : mapping &&& not32 (1 <<< ctz 32 mapping) < 2 ^ 32 :=
          lt_of_le_of_lt Nat.and_le_left hm
        intro b hb
        by_cases hbn : b = ctz 32 mapping
        · rw [hbn]; exact hnum
        · apply ih _ s1 hrest h b
          have hb32 : b < 32 := by
            by_contra hge
            have := Nat.testBit_lt_two_pow
              (lt_of_lt_of_le hm (Nat.pow_le_pow_right (by norm_num) (not_lt.mp hge)))
            rw [hb] at this
            cases this
          rw [Nat.testBit_and, hb, testBit_not32, one_shiftLeft, Nat.testBit_two_pow]
          have : ¬ ctz 32 mapping = b := fun e => hbn e.symm
          simp [hb32, this]
      · cases h

theorem deriveBank_ok_bank (len G : Nat) (dirty : Nat → Nat → Nat) (i num : Nat)
    (r r' : Nat → Nat) (h : deriveBank len G dirty i num r = .ok r') : num < 9 := by
  by_contra hge
  have e1 : VRAMMask num = .error (.badBank num) := by
    unfold VRAMMask
    split <;> first | omega | rfl
  unfold deriveBank at h
  split at h
  · rw [e1] at h
    cases h
  · split at h
    · have e2 : or64 len r dirty (i * 4 + 0) num 0 = .error (.badBank num) := by
        unfold or64
        rw [if_neg hge]
      rw [e2] at h
      cases h
    · cases h

/-- A window whose mask equals the stored one is only processed to the end
when the mask holds only banks 0..8. -/
theorem deriveWindow_unchanged_small {Size G : Nat} {cur : Nat → Nat}
    {dirty : Nat → Nat → Nat} {i : Nat} {loc loc' : DeriveLocals}
    (h : deriveWindow Size G cur dirty i loc = .ok loc') (he : cur i = loc.Mapping i)
    (hu : cur i < 2 ^ 32) : cur i < 2 ^ 9 ∧ loc'.Mapping = loc.Mapping := by
  unfold deriveWindow at h
  have hc : ¬ cur i ≠ loc.Mapping i := fun c => c he
  simp only [hc, if_false] at h
  split at h
  · cases h
  · rename_i r hr
    cases h
    refine ⟨?_, rfl⟩
    apply Nat.lt_pow_two_of_testBit
    intro b hb
    by_contra hbit
    have h1 : (cur i).testBit b = true := by simpa using hbit
    rw [he] at h1
    have := forEachBank_ok_small _ (deriveBank_ok_bank _ G dirty i) 32 _ _ _ (he ▸ hu) hr b h1
    omega

/-- A tracking set that has last observed the table `M` only gets through
`DeriveState(M)` when `M` holds only banks 0..8. -/
theorem DeriveState_same_table_small (Size G : Nat) (M : Nat → Nat) (D : Nat → Nat → Nat)
    (hu : ∀ w, M w < 2 ^ 32) (res : Nat → Nat) (st' : TrackState)
    (h : DeriveState Size G M { Mapping := M, VRAMDirty := D } = .ok (res, st')) :
    ∀ w, w < Size / G → M w < 2 ^ 9 := by
  unfold DeriveState at h
  split at h
  · cases h
  · rename_i loc hloc
    have I := forLoop_partial (deriveWindow Size G M D)
      (fun k (l : DeriveLocals) => l.Mapping = M ∧ ∀ w, w < k → M w < 2 ^ 9) (Size / G)
      (by
        intro i s s' _ hI hs
        obtain ⟨a, b⟩ := deriveWindow_unchanged_small hs (by rw [hI.1]) (hu i)
        refine ⟨b.trans hI.1, ?_⟩
        intro w hw
        by_cases hwi : w = i
        · rw [hwi]; exact a
        · exact hI.2 w (by omega))
      { result := fun _ => 0, banksToBeZeroed := 0, Mapping := M }
      ⟨rfl, by intro w hw; omega⟩ loc hloc
    exact I.2

theorem window_of_unit_range (G i t : Nat) (hG : G = 16 * 1024 ∨ G = 128 * 1024)
    (h1 : i * (G / 512) ≤ t) (h2 : t < (i + 1) * (G / 512)) : t / (G / 512) = i := by
  rcases hG with h | h <;> subst h <;> norm_num at h1 h2 ⊢ <;> omega

/-- C30 (second consumer sees nothing).  Let two tracking sets of one
destination share the per-bank dirty fields, the first having last observed
the `u32` table `M`.  Whenever the first set's `DeriveState(M)` returns, the
second set's `DeriveState(M)` after it returns too, and its result has no bit
set in any window whose mask the second set had also last observed, so it is
empty when the second set had last observed all of `M`, whatever the first
result was; and it has every bit set of each window in which the second set
had last observed a different mask.  The first call returns whenever `M`
holds only banks 0..8. -/
theorem second_consumer_sees_nothing (d : Dest) (Size G : Nat)
    (ht : trackingSet d = some (Size, G)) (M M2 : Nat → Nat) (hu : ∀ w, M w < 2 ^ 32)
    (D : Nat → Nat → Nat) :
    (∀ res1 st1, DeriveState Size G M { Mapping := M, VRAMDirty := D } = .ok (res1, st1) →
      ∃ res2 st2, DeriveState Size G M { Mapping := M2, VRAMDirty := st1.VRAMDirty }
          = .ok (res2, st2) ∧
        ((∀ w, w < Size / G → M2 w = M w) → ∀ t, getBit res2 t = false) ∧
        (∀ i, i < Size / G → M2 i = M i →
          ∀ t, i * (G / 512) ≤ t → t < (i + 1) * (G / 512) → getBit res2 t = false) ∧
        (∀ i, i < Size / G → M2 i ≠ M i →
          ∀ t, i * (G / 512) ≤ t → t < (i + 1) * (G / 512) → getBit res2 t = true)) ∧
    ((∀ w, w < Size / G → M w < 2 ^ 9) →
      ∃ res1 st1, DeriveState Size G M { Mapping := M, VRAMDirty := D } = .ok (res1, st1)) := by
  obtain ⟨hG, hlen, -⟩ := trackingSet_facts d Size G ht
  refine ⟨?_, ?_⟩
  · intro res1 st1 h1
    have hM := DeriveState_same_table_small Size G M D hu res1 st1 h1
    obtain ⟨r1, s1, e1, -, -, z1, -⟩ :=
      DeriveState_spec Size G M { Mapping := M, VRAMDirty := D } hG hlen hM
    rw [h1] at e1
    obtain ⟨-, rfl⟩ := Prod.mk.inj (Except.ok.inj e1)
    obtain ⟨res2, st2, e2, -, hres, -, -⟩ :=
      DeriveState_spec Size G M { Mapping := M2, VRAMDirty := st1.VRAMDirty } hG hlen hM
    have clean : ∀ t, t / (G / 512) < Size / G → ¬ ∃ b,
        (M (t / (G / 512))).testBit b = true ∧
          getBit (st1.VRAMDirty b) (dirtyIdx G b t) = true := by
      rintro t ht ⟨b, hb, hd⟩
      rw [z1 b ⟨_, ht, hb⟩, getBit_zero] at hd
      cases hd
    have unchanged : ∀ t, t / (G / 512) < Size / G → M2 (t / (G / 512)) = M (t / (G / 512)) →
        getBit res2 t = false := by
      intro t ht he
      by_contra hbit
      have h1 : getBit res2 t = true := by simpa using hbit
      rcases (hres t).1 h1 with ⟨-, hne | hex⟩
      · exact hne he.symm
      · exact clean t ht hex
    refine ⟨res2, st2, e2, ?_, ?_, ?_⟩
    · intro hall t
      by_cases ht : t / (G / 512) < Size / G
      · exact unchanged t ht (hall _ ht)
      · by_contra hbit
        have h1 : getBit res2 t = true := by simpa using hbit
        exact ht ((hres t).1 h1).1
    · intro i hi he t ha hb
      have e := window_of_unit_range G i t hG ha hb
      exact unchanged t (by rw [e]; exact hi) (by rw [e]; exact he)
    · intro i hi hne t ha hb
      have e := window_of_unit_range G i t hG ha hb
      rw [hres t, e]
      exact ⟨hi, Or.inl (fun c => hne c.symm)⟩
  · intro hM
    obtain ⟨r1, s1, e1, -⟩ :=
      DeriveState_spec Size G M { Mapping := M, VRAMDirty := D } hG hlen hM
    exact ⟨r1, s1, e1⟩

/-- Witness for `second_consumer_sees_nothing`: banks A and B in engine-A BG
window 3, unit 100 dirty in bank B, both sets having last observed that
table.  The first set's call reports unit 100; the second set's call after
it reports nothing. -/
theorem second_consumer_sees_nothing_witness :
    trackingSet .ABG = some (512 * 1024, 16 * 1024) ∧
    (∀ w, banksABInWindow3 w < 2 ^ 32) ∧
    ∃ res1 st1, DeriveState (512 * 1024) (16 * 1024) banksABInWindow3
        { Mapping := banksABInWindow3, VRAMDirty := unit100DirtyInB } = .ok (res1, st1) ∧
      getBit res1 100 = true ∧
      ∃ res2 st2, DeriveState (512 * 1024) (16 * 1024) banksABInWindow3
          { Mapping := banksABInWindow3, VRAMDirty := st1.VRAMDirty } = .ok (res2, st2) ∧
        ∀ t, getBit res2 t = false := by
  have hu : ∀ w, banksABInWindow3 w < 2 ^ 32 := by
    intro w
    unfold banksABInWindow3
    split <;> norm_num
  have hM : ∀ w, w < 512 * 1024 / (16 * 1024) → banksABInWindow3 w < 2 ^ 9 := by
    intro w _
    unfold banksABInWindow3
    split <;> norm_num
  obtain ⟨hG, hlen, -⟩ := trackingSet_facts .ABG (512 * 1024) (16 * 1024) rfl
  obtain ⟨res1, st1, e1, -, hres, -, -⟩ := DeriveState_spec (512 * 1024) (16 * 1024)
    banksABInWindow3 { Mapping := banksABInWindow3, VRAMDirty := unit100DirtyInB } hG hlen hM
  obtain ⟨res2, st2, e2, hall, -, -⟩ :=
    (second_consumer_sees_nothing .ABG (512 * 1024) (16 * 1024) rfl banksABInWindow3
      banksABInWindow3 hu unit100DirtyInB).1 res1 st1 e1
  exact ⟨rfl, hu, res1, st1, e1,
    (hres 100).2 ⟨by decide, Or.inr ⟨1, by decide, by decide⟩⟩,
    res2, st2, e2, hall (fun _ _ => rfl)⟩

end GPU
